import Mathlib

/-!
# yapl: the evaluation engine of the interpreter (`src/interpreter.c`)

A shallow embedding of the value model, the matrix engine, the symbol-table
chain and the expression evaluator / statement executor of the tree-walking
interpreter, followed by theorems about them.

Conventions of the embedding.

* `int` is a 32-bit two's complement integer, carried as an `Int` and wrapped
  by `wrap32` after every `+ - *`.
* `double` is IEEE-754 binary64, carried by `Double` below with
  round-to-nearest-even arithmetic.
* `exit(1)` after a diagnostic is the outcome `Halt.exit`; a read the C source
  leaves indeterminate (a union member that was not the one written, a null
  dereference) is the outcome `Halt.undefined`; the recursion of the evaluator
  is bounded by a fuel argument and running out of it is `Halt.out_of_fuel`.
-/

namespace Yapl

/-! ## Machine numbers -/

/-- The value of a C `int` expression computed in `Int`, reduced to 32-bit two's complement. -/
def wrap32 (i : Int) : Int :=
  (i + 2147483648) % 4294967296 - 2147483648

/-- The set of values of a C `int`. -/
def isInt32 (i : Int) : Prop :=
  -2147483648 ≤ i ∧ i ≤ 2147483647

/-- Number of halvings that bring `n` below 2: the floor of the binary logarithm for `n ≥ 1`. -/
def log2Fuel : Nat → Nat → Nat
  | 0, _ => 0
  | f + 1, n => if n < 2 then 0 else log2Fuel f (n / 2) + 1

/-- Floor of the binary logarithm of a positive natural number. -/
def floorLog2 (n : Nat) : Nat :=
  log2Fuel n n

/-- An IEEE-754 binary64 datum. `fin neg mant exp` is the number
`(-1)^neg * mant * 2^exp`, kept in the canonical form of the format:
`2^52 ≤ mant < 2^53` with `-1074 ≤ exp ≤ 971` (normal numbers), or
`mant < 2^52` with `exp = -1074` (subnormal numbers and the two zeros). -/
inductive Double
  | nan
  | inf (neg : Bool)
  | fin (neg : Bool) (mant : Nat) (exp : Int)
  deriving DecidableEq, Repr

namespace Double

/-- The zero of the given sign. -/
def zero (neg : Bool) : Double :=
  fin neg 0 (-1074)

/-- Test of `d == 0`: true of `+0.0` and `-0.0` only. -/
def isZero : Double → Bool
  | fin _ m _ => m == 0
  | _ => false

/-- Floor of the binary logarithm of the positive fraction `n / d`. -/
def floorLog2Frac (n d : Nat) : Int :=
  let e0 : Int := (floorLog2 n : Int) - (floorLog2 d : Int)
  if e0 ≥ 0 then
    (if d * 2 ^ e0.toNat ≤ n then e0 else e0 - 1)
  else
    (if d ≤ n * 2 ^ (-e0).toNat then e0 else e0 - 1)

/-- Round-to-nearest, ties-to-even, of the positive real `N / D * 2^s` with the sign `neg`. -/
def round (neg : Bool) (N D : Nat) (s : Int) : Double :=
  let n := if s ≥ 0 then N * 2 ^ s.toNat else N
  let d := if s ≥ 0 then D else D * 2 ^ (-s).toNat
  let e := floorLog2Frac n d
  let E : Int := max (e - 52) (-1074)
  let num := if E ≥ 0 then n else n * 2 ^ (-E).toNat
  let den := if E ≥ 0 then d * 2 ^ E.toNat else d
  let q := num / den
  let r := num % den
  let q1 := if 2 * r < den then q else if den < 2 * r then q + 1 else q + q % 2
  let m := if q1 = 2 ^ 53 then 2 ^ 52 else q1
  let E1 := if q1 = 2 ^ 53 then E + 1 else E
  if E1 > 971 then inf neg else fin neg m E1

/-- Conversion `(double)i` of a C `int`; exact, every 32-bit integer being a binary64 number. -/
def ofInt (i : Int) : Double :=
  let n := i.natAbs
  if n = 0 then zero false
  else
    let k := 52 - floorLog2 n
    fin (decide (i < 0)) (n * 2 ^ k) (-(k : Int))

/-- Unary minus: flips the sign bit. -/
def neg : Double → Double
  | nan => nan
  | inf s => inf (!s)
  | fin s m e => fin (!s) m e

/-- The signed numerator of `(-1)^s * m * 2^e` over the scale `2^c`, for `c ≤ e`. -/
def scaled (s : Bool) (m : Nat) (e c : Int) : Int :=
  let v : Int := (m * 2 ^ (e - c).toNat : Nat)
  if s then -v else v

/-- IEEE addition `a + b`. -/
def add : Double → Double → Double
  | nan, _ => nan
  | _, nan => nan
  | inf s, inf t => if s = t then inf s else nan
  | inf s, fin _ _ _ => inf s
  | fin _ _ _, inf t => inf t
  | fin s m e, fin t n f =>
    if m = 0 ∧ n = 0 then zero (s && t)
    else
      let c := min e f
      let v := scaled s m e c + scaled t n f c
      if v = 0 then zero false else round (decide (v < 0)) v.natAbs 1 c

/-- IEEE subtraction `a - b`. -/
def sub (a b : Double) : Double :=
  add a (neg b)

/-- IEEE multiplication `a * b`. -/
def mul : Double → Double → Double
  | nan, _ => nan
  | _, nan => nan
  | inf s, inf t => inf (xor s t)
  | inf s, fin t n _ => if n = 0 then nan else inf (xor s t)
  | fin s m _, inf t => if m = 0 then nan else inf (xor s t)
  | fin s m e, fin t n f =>
    if m * n = 0 then zero (xor s t) else round (xor s t) (m * n) 1 (e + f)

/-- IEEE division `a / b`. -/
def div : Double → Double → Double
  | nan, _ => nan
  | _, nan => nan
  | inf _, inf _ => nan
  | inf s, fin t _ _ => inf (xor s t)
  | fin s _ _, inf t => zero (xor s t)
  | fin s m e, fin t n f =>
    if n = 0 then (if m = 0 then nan else inf (xor s t))
    else if m = 0 then zero (xor s t)
    else round (xor s t) m n (e - f)

/-- The comparison `a < b`; false when either side is a NaN. -/
def lt : Double → Double → Bool
  | nan, _ => false
  | _, nan => false
  | inf s, inf t => s && !t
  | inf s, fin _ _ _ => s
  | fin _ _ _, inf t => !t
  | fin s m e, fin t n f =>
    let c := min e f
    decide (scaled s m e c < scaled t n f c)

/-- The comparison `a <= b`; false when either side is a NaN. -/
def le : Double → Double → Bool
  | nan, _ => false
  | _, nan => false
  | inf s, inf t => s || !t
  | inf s, fin _ _ _ => s
  | fin _ _ _, inf t => !t
  | fin s m e, fin t n f =>
    let c := min e f
    decide (scaled s m e c ≤ scaled t n f c)

/-- Conversion `(int)d`: truncation toward zero; `none` where C leaves the conversion
undefined (NaN, infinities and values whose integral part is not a 32-bit integer). -/
def toInt : Double → Option Int
  | nan => none
  | inf _ => none
  | fin s m e =>
    let a : Nat := if e ≥ 0 then m * 2 ^ e.toNat else m / 2 ^ (-e).toNat
    let v : Int := if s then -(a : Int) else (a : Int)
    if -2147483648 ≤ v ∧ v ≤ 2147483647 then some v else none

end Double

/-! ## Syntax tree (`include/ast.h`) -/

/-- The node types that carry the `binary_op` payload. -/
inductive BinaryOp
  | NODE_ADD | NODE_SUB | NODE_MUL | NODE_DIV | NODE_MOD | NODE_MATRIX_MUL
  | NODE_EQ | NODE_NE | NODE_LT | NODE_GT | NODE_LE | NODE_GE | NODE_PATTERN_MATCH
  | NODE_AND | NODE_OR
  | NODE_ASSIGN | NODE_PLUS_ASSIGN | NODE_MINUS_ASSIGN | NODE_MUL_ASSIGN | NODE_DIV_ASSIGN
  deriving DecidableEq, Repr

/-- The operator node types that carry the `unary_op` payload (`NODE_EXPR_STMT`, which
shares the payload, is the constructor `expr_stmt` below). -/
inductive UnaryOp
  | NODE_NOT | NODE_UNARY_MINUS | NODE_PRE_INC | NODE_PRE_DEC | NODE_POST_INC | NODE_POST_DEC
  deriving DecidableEq, Repr

/-- The node types that carry the `range` payload. -/
inductive RangeType
  | NODE_RANGE_INCL | NODE_RANGE_EXCL | NODE_RANGE_STEP
  deriving DecidableEq, Repr

/-- The node types that carry the `list` payload. -/
inductive ListType
  | NODE_ARRAY_LITERAL | NODE_PROGRAM | NODE_STMT_LIST | NODE_DECL_LIST
  | NODE_PARAM_LIST | NODE_ARG_LIST | NODE_INIT_LIST
  deriving DecidableEq, Repr

/-- The node types that carry no payload. -/
inductive LeafType
  | NODE_TYPE | NODE_COMPOUND | NODE_BREAK | NODE_CONTINUE
  deriving DecidableEq, Repr

/-- The enumeration `DataType`. -/
inductive DataType
  | TYPE_INT | TYPE_FLOAT | TYPE_STRING | TYPE_BOOL | TYPE_VOID | TYPE_MATRIX | TYPE_ARRAY
  | TYPE_UNKNOWN
  deriving DecidableEq, Repr

/-- A syntax tree node: one constructor for each member of the union `data`, tagged with
the node type where several node types share the member. A child is an `Option` where
the tree may hold a null pointer (the members documented `NULL if no ...`, and the
children the interpreter tests before use). -/
inductive ASTNode
  | int_literal (value : Int)
  | float_literal (value : Double)
  | string_literal (value : String)
  | bool_literal (value : Int)
  | identifier (name : String)
  | binary_op (type : BinaryOp) (left right : ASTNode)
  | unary_op (type : UnaryOp) (operand : ASTNode)
  | expr_stmt (operand : Option ASTNode)
  | range (type : RangeType) (start stop : ASTNode) (step : Option ASTNode)
  | var_decl (type : DataType) (name : String) (initializer : Option ASTNode)
  | array_decl (type : DataType) (name : String) (size : Option ASTNode)
      (initializer : Option ASTNode)
  | func_decl (return_type : DataType) (name : String) (params : Option ASTNode)
      (body : Option ASTNode)
  | param (type : DataType) (name : String)
  | if_stmt (condition : ASTNode) (then_stmt : Option ASTNode) (else_stmt : Option ASTNode)
  | while_stmt (condition : ASTNode) (body : Option ASTNode)
  | for_stmt (init condition increment body : Option ASTNode)
  | for_range (iterator : String) (range : ASTNode) (body : Option ASTNode)
  | return_stmt (value : Option ASTNode)
  | func_call (func : ASTNode) (args : Option ASTNode)
  | array_index (array index : ASTNode)
  | list (type : ListType) (items : List ASTNode)
  | leaf (type : LeafType)

/-! ## Values and matrices (`include/interpreter.h`) -/

/-- The struct `Matrix`: a `rows` by `cols` grid of doubles, `data` holding the rows. -/
structure Matrix where
  rows : Nat
  cols : Nat
  data : List (List Double)
  deriving DecidableEq, Repr

/-- The cell `mat->data[i][j]`. -/
def Matrix.get (mat : Matrix) (i j : Nat) : Double :=
  (mat.data.getD i []).getD j (Double.zero false)

/-- The store `mat->data[i][j] = v`. -/
def Matrix.set (mat : Matrix) (i j : Nat) (v : Double) : Matrix :=
  { mat with data := mat.data.set i ((mat.data.getD i []).set j v) }

/-- Every row is present and has exactly `cols` elements. -/
def Matrix.WellFormed (mat : Matrix) : Prop :=
  mat.data.length = mat.rows ∧ ∀ row ∈ mat.data, row.length = mat.cols

/-- The struct `Value`, a constructor for each `ValueType` the interpreter builds
(`VAL_ARRAY` is declared and never built). The payload of `bool` is the C `int`
stored in `bool_val`; the payload of `func` is the declaration node pointed to. -/
inductive Value
  | int (int_val : Int)
  | float (float_val : Double)
  | string (string_val : String)
  | bool (bool_val : Int)
  | void
  | matrix (matrix_val : Matrix)
  | func (func_node : ASTNode)

/-- The read `v.data.bool_val` (the same word as `v.data.int_val`); `none` when the member
written last was neither, the word read being then indeterminate. -/
def Value.bool_val : Value → Option Int
  | .int i => some i
  | .bool b => some b
  | _ => none

/-- The read `(v.type == VAL_INT) ? v.data.int_val : v.data.float_val` as a double; `none`
when `v` is neither an int nor a float, the read being then indeterminate. -/
def Value.num : Value → Option Double
  | .int i => some (Double.ofInt i)
  | .float d => some d
  | _ => none

/-- `create_matrix`: the zero-initialised `rows` by `cols` matrix. -/
def create_matrix (rows cols : Nat) : Matrix :=
  { rows := rows, cols := cols,
    data := List.replicate rows (List.replicate cols (Double.zero false)) }

def create_int_value (val : Int) : Value := .int val

def create_float_value (val : Double) : Value := .float val

def create_string_value (val : String) : Value := .string val

def create_bool_value (val : Int) : Value := .bool val

def create_void_value : Value := .void

def create_matrix_value (rows cols : Nat) : Value := .matrix (create_matrix rows cols)

/-- The copy loop used wherever a matrix crosses a storage boundary: a fresh matrix of the
same dimensions, filled cell by cell. -/
def copy_matrix (orig : Matrix) : Matrix :=
  (List.range orig.rows).foldl
    (fun new_mat i =>
      (List.range orig.cols).foldl (fun new_mat j => new_mat.set i j (orig.get i j)) new_mat)
    (create_matrix orig.rows orig.cols)

/-- The copy made of a value on read, assignment and return: strings are duplicated,
matrices copied cell by cell, every other kind copied as is. -/
def copy_value : Value → Value
  | .string s => .string s
  | .matrix m => .matrix (copy_matrix m)
  | v => v

/-- The diagnostics written as `Runtime error: ...`. -/
inductive RuntimeError
  | dimension_mismatch (ar ac br bc : Nat)
  | printm_expects_matrix
  | expected_array_literal
  | matrix_row_must_be_array
  | matrix_rows_same_length
  | undefined_variable (name : String)
  | division_by_zero
  | modulo_requires_int
  | modulo_by_zero
  | matrix_mul_requires_matrix
  | invalid_regex (pattern : String)
  | cannot_increment
  | cannot_decrement
  | pre_increment_lvalue
  | pre_decrement_lvalue
  | post_increment_lvalue
  | post_decrement_lvalue
  | undefined_function (name : String)
  | max_recursion_depth
  | unhandled_expression
  deriving DecidableEq, Repr

/-- How a run of the evaluator stops without a result. -/
inductive Halt
  | exit (e : RuntimeError)
  | undefined
  | out_of_fuel
  deriving DecidableEq, Repr

/-- `matrix_multiply`: the inner loop over `k`, accumulating into `sum` from `0.0`. -/
def matrix_multiply_cell (a b : Matrix) (i j : Nat) : Double :=
  (List.range a.cols).foldl
    (fun sum k => Double.add sum (Double.mul (a.get i k) (b.get k j)))
    (Double.zero false)

/-- `matrix_multiply`. -/
def matrix_multiply (a b : Matrix) : Except Halt Matrix :=
  if a.cols ≠ b.rows then
    .error (.exit (.dimension_mismatch a.rows a.cols b.rows b.cols))
  else
    .ok ((List.range a.rows).foldl
      (fun result i =>
        (List.range b.cols).foldl
          (fun result j => result.set i j (matrix_multiply_cell a b i j)) result)
      (create_matrix a.rows b.cols))

/-! ## Symbol tables -/

/-- The struct `Symbol`, without its `next` link. -/
structure Symbol where
  name : String
  value : Value

/-- The struct `SymbolTable`: `head` is the linked list of symbols from its head. -/
inductive SymbolTable
  | mk (head : List Symbol) (parent : Option SymbolTable) (return_value : Value)
      (is_returning : Bool)

namespace SymbolTable

def head : SymbolTable → List Symbol
  | mk h _ _ _ => h

def parent : SymbolTable → Option SymbolTable
  | mk _ p _ _ => p

def return_value : SymbolTable → Value
  | mk _ _ r _ => r

def is_returning : SymbolTable → Bool
  | mk _ _ _ b => b

end SymbolTable

/-- `create_symbol_table`. -/
def create_symbol_table (parent : Option SymbolTable) : SymbolTable :=
  .mk [] parent create_void_value false

/-- The list walk of `set_symbol`: overwrite the first symbol called `name`; `none` when
the walk reaches the end of the list. -/
def set_in_list : List Symbol → String → Value → Option (List Symbol)
  | [], _, _ => none
  | current :: next, name, value =>
    if current.name = name then some ({ current with value := value } :: next)
    else (set_in_list next name value).map (fun l => current :: l)

/-- `set_symbol`: overwrite the symbol of this table called `name`, or link a new symbol in
front of the list; the parent is not searched. -/
def set_symbol (table : SymbolTable) (name : String) (value : Value) : SymbolTable :=
  match table with
  | .mk head parent rv ret =>
    match set_in_list head name value with
    | some head1 => .mk head1 parent rv ret
    | none => .mk ({ name := name, value := value } :: head) parent rv ret

/-- The list walk of `get_symbol`: the value of the first symbol called `name`. -/
def find_in_list : List Symbol → String → Option Value
  | [], _ => none
  | current :: next, name =>
    if current.name = name then some current.value else find_in_list next name

/-- `get_symbol`, read through the pointer it returns: the value of `name` in this table,
else in the parent chain; `none` for the null pointer. -/
def get_symbol : SymbolTable → String → Option Value
  | .mk head parent _ _, name =>
    match find_in_list head name with
    | some v => some v
    | none =>
      match parent with
      | some p => get_symbol p name
      | none => none

/-- The table `depth` links up the parent chain of `table`. -/
def SymbolTable.ancestor : SymbolTable → Nat → Option SymbolTable
  | table, 0 => some table
  | .mk _ parent _ _, depth + 1 =>
    match parent with
    | some p => p.ancestor depth
    | none => none

/-- The pointer returned by `get_symbol`, as the number of parent links to the table that
holds the symbol found; `none` for the null pointer. -/
def get_symbol_depth : SymbolTable → String → Option Nat
  | .mk head parent _ _, name =>
    match find_in_list head name with
    | some _ => some 0
    | none =>
      match parent with
      | some p => (get_symbol_depth p name).map (fun d => d + 1)
      | none => none

/-- The value read through a pointer obtained from `get_symbol` earlier, in the tables as
they are now. -/
def symbol_at (table : SymbolTable) (depth : Nat) (name : String) : Option Value :=
  match table.ancestor depth with
  | some t => find_in_list t.head name
  | none => none

/-- The table at the end of the parent chain: the table `global_table` points to. -/
def SymbolTable.root : SymbolTable → SymbolTable
  | .mk head parent rv ret =>
    match parent with
    | some p => p.root
    | none => .mk head none rv ret

/-- The chain of `table` with the table at its end replaced by `g`. -/
def SymbolTable.set_root : SymbolTable → SymbolTable → SymbolTable
  | .mk head parent rv ret, g =>
    match parent with
    | some p => .mk head (some (p.set_root g)) rv ret
    | none => g

def SymbolTable.set_parent : SymbolTable → Option SymbolTable → SymbolTable
  | .mk head _ rv ret, p => .mk head p rv ret

def SymbolTable.set_return : SymbolTable → Value → Bool → SymbolTable
  | .mk head parent _ _, rv, ret => .mk head parent rv ret

/-! ## The world outside the tables -/

/-- What the interpreter writes: a value through `print_value` or `print_matrix`, a
literal piece of text, or a diagnostic line on the error stream. -/
inductive Output
  | value (v : Value)
  | text (s : String)
  | error (e : RuntimeError)

/-- The file-scope counter `recursion_depth` and the two streams: `stdin` as the lines
still to be read (each as `fgets` delivers it, the newline stripped), `out` as everything
written so far, oldest first. -/
structure World where
  recursion_depth : Int
  stdin : List String
  out : List Output

def World.emit (w : World) (o : Output) : World :=
  { w with out := w.out ++ [o] }

/-- The library routines the interpreter calls: `regcomp` with `REG_EXTENDED` (`none` when
the pattern does not compile, else the test `regexec(...) == 0`), and `strtol` / `strtod`
(`some` of the number when the whole buffer was consumed). -/
structure Host where
  regcomp : String → Option (String → Bool)
  strtol : String → Option Int
  strtod : String → Option Double

def MAX_RECURSION_DEPTH : Int := 50

/-! ## Operators on values -/

/-- The common body of `NODE_ADD`, `NODE_SUB` and `NODE_MUL` (and of the compound
assignments): integer arithmetic on two ints, double arithmetic otherwise. -/
def arith (iop : Int → Int → Int) (fop : Double → Double → Double) (left right : Value) :
    Except Halt Value :=
  match left, right with
  | .int a, .int b => .ok (create_int_value (wrap32 (iop a b)))
  | _, _ =>
    match left.num, right.num with
    | some l, some r => .ok (create_float_value (fop l r))
    | _, _ => .error .undefined

def eval_add (left right : Value) : Except Halt Value :=
  arith (fun a b => a + b) Double.add left right

def eval_sub (left right : Value) : Except Halt Value :=
  arith (fun a b => a - b) Double.sub left right

def eval_mul (left right : Value) : Except Halt Value :=
  arith (fun a b => a * b) Double.mul left right

/-- The body of `NODE_DIV` (and of `NODE_DIV_ASSIGN`) after the operands are evaluated. -/
def eval_div (left right : Value) : Except Halt Value :=
  match right.num with
  | none => .error .undefined
  | some r =>
    if r.isZero then .error (.exit .division_by_zero)
    else
      match left.num with
      | none => .error .undefined
      | some l => .ok (create_float_value (Double.div l r))

/-- The body of `NODE_MOD` after the operands are evaluated. The C operator `%` is
undefined when the quotient is not representable, which is the one case
`INT_MIN % -1`. -/
def eval_mod (left right : Value) : Except Halt Value :=
  match left, right with
  | .int a, .int b =>
    if b = 0 then .error (.exit .modulo_by_zero)
    else if a = -2147483648 ∧ b = -1 then .error .undefined
    else .ok (create_int_value (Int.tmod a b))
  | _, _ => .error (.exit .modulo_requires_int)

/-- The body of `NODE_MATRIX_MUL` after the operands are evaluated. -/
def eval_matrix_mul (left right : Value) : Except Halt Value :=
  match left, right with
  | .matrix a, .matrix b =>
    match matrix_multiply a b with
    | .ok result_mat => .ok (.matrix result_mat)
    | .error e => .error e
  | _, _ => .error (.exit .matrix_mul_requires_matrix)

/-- The body of `NODE_LT`, `NODE_GT`, `NODE_LE`, `NODE_GE` after the operands are
evaluated, `cmp l r` being the comparison of the two doubles. -/
def eval_compare (cmp : Double → Double → Bool) (left right : Value) : Except Halt Value :=
  match left.num, right.num with
  | some l, some r => .ok (create_bool_value (if cmp l r then 1 else 0))
  | _, _ => .error .undefined

/-- The flag `equal` computed by `NODE_EQ`. -/
def equal_eq (left right : Value) : Int :=
  match left, right with
  | .int a, .int b => if a = b then 1 else 0
  | .bool a, .bool b => if a = b then 1 else 0
  | .string a, .string b => if a = b then 1 else 0
  | _, _ => 0

/-- The flag `equal` computed by `NODE_NE`. -/
def equal_ne (left right : Value) : Int :=
  match left, right with
  | .int a, .int b => if a = b then 1 else 0
  | .bool a, .bool b => if a = b then 1 else 0
  | _, _ => 0

/-- The C operator `!` on an `int`. -/
def lnot (i : Int) : Int :=
  if i = 0 then 1 else 0

def eval_eq (left right : Value) : Value :=
  create_bool_value (equal_eq left right)

def eval_ne (left right : Value) : Value :=
  create_bool_value (lnot (equal_ne left right))

/-- The body of `NODE_PATTERN_MATCH` after the operands are evaluated. -/
def eval_pattern_match (h : Host) (left right : Value) (w : World) : Value × World :=
  match left, right with
  | .string text, .string pattern =>
    match h.regcomp pattern with
    | some regexec => (create_bool_value (if regexec text then 1 else 0), w)
    | none => (create_bool_value 0, w.emit (.error (.invalid_regex pattern)))
  | _, _ => (create_bool_value 0, w)

/-- The operators that evaluate both operands, left then right, and then combine the two
values: the combination. -/
def binary_result (h : Host) (op : BinaryOp) (left right : Value) (w : World) :
    Except Halt (Value × World) :=
  match op with
  | .NODE_ADD => (eval_add left right).map (fun v => (v, w))
  | .NODE_SUB => (eval_sub left right).map (fun v => (v, w))
  | .NODE_MUL => (eval_mul left right).map (fun v => (v, w))
  | .NODE_DIV => (eval_div left right).map (fun v => (v, w))
  | .NODE_MOD => (eval_mod left right).map (fun v => (v, w))
  | .NODE_MATRIX_MUL => (eval_matrix_mul left right).map (fun v => (v, w))
  | .NODE_LT => (eval_compare Double.lt left right).map (fun v => (v, w))
  | .NODE_GT => (eval_compare (fun l r => Double.lt r l) left right).map (fun v => (v, w))
  | .NODE_LE => (eval_compare Double.le left right).map (fun v => (v, w))
  | .NODE_GE => (eval_compare (fun l r => Double.le r l) left right).map (fun v => (v, w))
  | .NODE_EQ => .ok (eval_eq left right, w)
  | .NODE_NE => .ok (eval_ne left right, w)
  | .NODE_PATTERN_MATCH => .ok (eval_pattern_match h left right w)
  | _ => .error .undefined

/-! ## The evaluator

`eval_expression` and `execute_statement` call each other; the bodies below take the two
as the arguments `ev` and `ex`, and the recursion is closed at the end of the section. -/

/-- The type of `eval_expression` at a given fuel. -/
abbrev Eval := ASTNode → SymbolTable → World → Except Halt (Value × SymbolTable × World)

/-- The type of `execute_statement` at a given fuel. -/
abbrev Exec := ASTNode → SymbolTable → World → Except Halt (SymbolTable × World)

/-- The loop of `builtin_print` over the argument list. -/
def print_items (ev : Eval) : List ASTNode → SymbolTable → World →
    Except Halt (SymbolTable × World)
  | [], table, w => .ok (table, w)
  | [item], table, w =>
    match ev item table w with
    | .error e => .error e
    | .ok (val, t1, w1) => .ok (t1, w1.emit (.value val))
  | item :: rest, table, w =>
    match ev item table w with
    | .error e => .error e
    | .ok (val, t1, w1) => print_items ev rest t1 ((w1.emit (.value val)).emit (.text " "))

/-- `builtin_print`. -/
def builtin_print (ev : Eval) (args : Option ASTNode) (table : SymbolTable) (w : World) :
    Except Halt (Value × SymbolTable × World) :=
  match args with
  | some (.list .NODE_ARG_LIST items) =>
    match print_items ev items table w with
    | .error e => .error e
    | .ok (t1, w1) => .ok (create_void_value, t1, w1.emit (.text "\n"))
  | _ => .ok (create_void_value, table, w.emit (.text "\n"))

/-- The loop of `builtin_printm` over the argument list. -/
def printm_items (ev : Eval) : List ASTNode → SymbolTable → World →
    Except Halt (SymbolTable × World)
  | [], table, w => .ok (table, w)
  | item :: rest, table, w =>
    match ev item table w with
    | .error e => .error e
    | .ok (val, t1, w1) =>
      match val with
      | .matrix _ => printm_items ev rest t1 (w1.emit (.value val))
      | _ => printm_items ev rest t1 (w1.emit (.error .printm_expects_matrix))

/-- `builtin_printm`. -/
def builtin_printm (ev : Eval) (args : Option ASTNode) (table : SymbolTable) (w : World) :
    Except Halt (Value × SymbolTable × World) :=
  match args with
  | some (.list .NODE_ARG_LIST items) =>
    match printm_items ev items table w with
    | .error e => .error e
    | .ok (t1, w1) => .ok (create_void_value, t1, w1)
  | _ => .ok (create_void_value, table, w)

/-- `builtin_read`. -/
def builtin_read (h : Host) (w : World) : Value × World :=
  match w.stdin with
  | [] => (create_void_value, w)
  | buffer :: rest =>
    let w1 := { w with stdin := rest }
    match h.strtol buffer with
    | some val => (create_int_value (wrap32 val), w1)
    | none =>
      match h.strtod buffer with
      | some fval => (create_float_value fval, w1)
      | none => (create_string_value buffer, w1)

/-- The store of an evaluated element into `mat->data[i][j]`: ints and floats are stored,
any other kind leaves the cell as `create_matrix` made it. -/
def store_elem (mat : Matrix) (i j : Nat) (elem : Value) : Matrix :=
  match elem with
  | .int v => mat.set i j (Double.ofInt v)
  | .float v => mat.set i j v
  | _ => mat

/-- The loop `for (j = 0; j < cols; j++)` of `array_literal_to_matrix` over the items of
one row, from column `j` on. -/
def fill_cells (ev : Eval) : List ASTNode → Nat → Nat → Matrix → SymbolTable → World →
    Except Halt (Matrix × SymbolTable × World)
  | [], _, _, mat, table, w => .ok (mat, table, w)
  | item :: rest, i, j, mat, table, w =>
    match ev item table w with
    | .error e => .error e
    | .ok (elem, t1, w1) => fill_cells ev rest i (j + 1) (store_elem mat i j elem) t1 w1

/-- The loop `for (i = 0; i < rows; i++)` of `array_literal_to_matrix`, from row `i` on. -/
def fill_rows (ev : Eval) : List ASTNode → Nat → Nat → Matrix → SymbolTable → World →
    Except Halt (Matrix × SymbolTable × World)
  | [], _, _, mat, table, w => .ok (mat, table, w)
  | row :: rest, i, cols, mat, table, w =>
    match row with
    | .list .NODE_ARRAY_LITERAL items =>
      if items.length ≠ cols then .error (.exit .matrix_rows_same_length)
      else
        match fill_cells ev items i 0 mat table w with
        | .error e => .error e
        | .ok (mat1, t1, w1) => fill_rows ev rest (i + 1) cols mat1 t1 w1
    | _ => .error (.exit .matrix_row_must_be_array)

/-- `array_literal_to_matrix`. -/
def array_literal_to_matrix (ev : Eval) (node : ASTNode) (table : SymbolTable) (w : World) :
    Except Halt (Value × SymbolTable × World) :=
  match node with
  | .list .NODE_ARRAY_LITERAL items =>
    match items with
    | [] => .ok (create_matrix_value 0 0, table, w)
    | first_row :: _ =>
      match first_row with
      | .list .NODE_ARRAY_LITERAL first_items =>
        match fill_rows ev items 0 first_items.length
            (create_matrix items.length first_items.length) table w with
        | .error e => .error e
        | .ok (mat, t1, w1) => .ok (.matrix mat, t1, w1)
      | _ =>
        match fill_cells ev items 0 0 (create_matrix 1 items.length) table w with
        | .error e => .error e
        | .ok (mat, t1, w1) => .ok (.matrix mat, t1, w1)
  | _ => .error (.exit .expected_array_literal)

/-- The four increment and decrement forms, the operand being the identifier `name`:
`dec` selects the decrement, `post` the forms that return the value captured before. -/
def inc_dec (name : String) (dec post : Bool) (table : SymbolTable) (w : World) :
    Except Halt (Value × SymbolTable × World) :=
  match get_symbol table name with
  | none => .error (.exit (.undefined_variable name))
  | some (.int v) =>
    let result := create_int_value (wrap32 (if dec then v - 1 else v + 1))
    .ok (if post then create_int_value v else result, set_symbol table name result, w)
  | some (.float v) =>
    let result := create_float_value
      (if dec then Double.sub v (Double.ofInt 1) else Double.add v (Double.ofInt 1))
    .ok (if post then create_float_value v else result, set_symbol table name result, w)
  | some _ => .error (.exit (if dec then .cannot_decrement else .cannot_increment))

/-- The body shared by the four compound assignments, the left side being the identifier
`name`: the pointer `current` is taken before the right side is evaluated and read
after it. -/
def compound_assign (ev : Eval) (combine : Value → Value → Except Halt Value)
    (name : String) (right_node : ASTNode) (table : SymbolTable) (w : World) :
    Except Halt (Value × SymbolTable × World) :=
  let current := get_symbol_depth table name
  match ev right_node table w with
  | .error e => .error e
  | .ok (right, t1, w1) =>
    match current with
    | none => .error .undefined
    | some depth =>
      match symbol_at t1 depth name with
      | none => .error .undefined
      | some cur =>
        match combine cur right with
        | .error e => .error e
        | .ok result => .ok (result, set_symbol t1 name result, w1)

/-- The loop of `NODE_FUNC_CALL` that binds arguments to parameters, stopping at the
shorter of the two lists. -/
def bind_arguments (ev : Eval) : List ASTNode → List ASTNode → SymbolTable → SymbolTable →
    World → Except Halt (SymbolTable × SymbolTable × World)
  | p :: params, a :: args, func_scope, table, w =>
    match ev a table w with
    | .error e => .error e
    | .ok (arg_val, t1, w1) =>
      match p with
      | .param _ name => bind_arguments ev params args (set_symbol func_scope name arg_val) t1 w1
      | _ => .error .undefined
  | _, _, func_scope, table, w => .ok (func_scope, table, w)

/-- The user-function part of `NODE_FUNC_CALL`, from the lookup of the callee on. -/
def call_function (ev : Eval) (ex : Exec) (func_name : String) (args : Option ASTNode)
    (table : SymbolTable) (w : World) : Except Halt (Value × SymbolTable × World) :=
  match get_symbol table func_name with
  | some (.func func_decl) =>
    if w.recursion_depth ≥ MAX_RECURSION_DEPTH then .error (.exit .max_recursion_depth)
    else
      match func_decl with
      | .func_decl _ _ params body =>
        let func_scope := create_symbol_table (some table.root)
        let w1 := { w with recursion_depth := w.recursion_depth + 1 }
        let bound :=
          match params, args with
          | some (.list _ ps), some (.list _ items) => bind_arguments ev ps items func_scope table w1
          | some _, some _ => .error .undefined
          | _, _ => .ok (func_scope, table, w1)
        match bound with
        | .error e => .error e
        | .ok (scope1, t1, w2) =>
          let scope2 := scope1.set_parent (some t1.root)
          let done :=
            match body with
            | some b => ex b scope2 w2
            | none => .ok (scope2, w2)
          match done with
          | .error e => .error e
          | .ok (scope3, w3) =>
            let result := copy_value scope3.return_value
            let t2 :=
              match scope3.parent with
              | some g => t1.set_root g
              | none => t1
            .ok (result, t2, { w3 with recursion_depth := w3.recursion_depth - 1 })
      | _ => .error .undefined
  | _ => .error (.exit (.undefined_function func_name))

/-- The logical operators `NODE_AND` (`is_or = false`) and `NODE_OR` (`is_or = true`):
the right operand is evaluated only when the left one does not decide the result. -/
def eval_logical (ev : Eval) (is_or : Bool) (left_node right_node : ASTNode)
    (table : SymbolTable) (w : World) : Except Halt (Value × SymbolTable × World) :=
  match ev left_node table w with
  | .error e => .error e
  | .ok (left, t1, w1) =>
    match left.bool_val with
    | none => .error .undefined
    | some l =>
      if is_or ∧ l ≠ 0 then .ok (create_bool_value 1, t1, w1)
      else if ¬ is_or ∧ l = 0 then .ok (create_bool_value 0, t1, w1)
      else
        match ev right_node t1 w1 with
        | .error e => .error e
        | .ok (right, t2, w2) =>
          match right.bool_val with
          | none => .error .undefined
          | some r => .ok (create_bool_value r, t2, w2)

/-- The default branch of the switch of `eval_expression`: a diagnostic, and void. -/
def unhandled (table : SymbolTable) (w : World) : Except Halt (Value × SymbolTable × World) :=
  .ok (create_void_value, table, w.emit (.error .unhandled_expression))

/-- The body of `eval_expression` for a non-null node. -/
def eval_node (h : Host) (ev : Eval) (ex : Exec) (node : ASTNode) (table : SymbolTable)
    (w : World) : Except Halt (Value × SymbolTable × World) :=
  match node with
  | .int_literal value => .ok (create_int_value value, table, w)
  | .float_literal value => .ok (create_float_value value, table, w)
  | .string_literal value => .ok (create_string_value value, table, w)
  | .bool_literal value => .ok (create_bool_value value, table, w)
  | .list .NODE_ARRAY_LITERAL _ => array_literal_to_matrix ev node table w
  | .identifier name =>
    match get_symbol table name with
    | some val => .ok (copy_value val, table, w)
    | none => .error (.exit (.undefined_variable name))
  | .binary_op .NODE_AND left right => eval_logical ev false left right table w
  | .binary_op .NODE_OR left right => eval_logical ev true left right table w
  | .binary_op .NODE_ASSIGN left right =>
    match ev right table w with
    | .error e => .error e
    | .ok (val, t1, w1) =>
      match left with
      | .identifier name => .ok (val, set_symbol t1 name (copy_value val), w1)
      | _ => .ok (val, t1, w1)
  | .binary_op .NODE_PLUS_ASSIGN left right =>
    match left with
    | .identifier name => compound_assign ev eval_add name right table w
    | _ => .ok (create_void_value, table, w)
  | .binary_op .NODE_MINUS_ASSIGN left right =>
    match left with
    | .identifier name => compound_assign ev eval_sub name right table w
    | _ => .ok (create_void_value, table, w)
  | .binary_op .NODE_MUL_ASSIGN left right =>
    match left with
    | .identifier name => compound_assign ev eval_mul name right table w
    | _ => .ok (create_void_value, table, w)
  | .binary_op .NODE_DIV_ASSIGN left right =>
    match left with
    | .identifier name => compound_assign ev eval_div name right table w
    | _ => .ok (create_void_value, table, w)
  | .binary_op op left_node right_node =>
    match ev left_node table w with
    | .error e => .error e
    | .ok (left, t1, w1) =>
      match ev right_node t1 w1 with
      | .error e => .error e
      | .ok (right, t2, w2) =>
        match binary_result h op left right w2 with
        | .error e => .error e
        | .ok (result, w3) => .ok (result, t2, w3)
  | .unary_op .NODE_NOT operand_node =>
    match ev operand_node table w with
    | .error e => .error e
    | .ok (operand, t1, w1) =>
      match operand.bool_val with
      | none => .error .undefined
      | some b => .ok (create_bool_value (lnot b), t1, w1)
  | .unary_op .NODE_UNARY_MINUS operand_node =>
    match ev operand_node table w with
    | .error e => .error e
    | .ok (operand, t1, w1) =>
      match operand with
      | .int v => .ok (create_int_value (wrap32 (-v)), t1, w1)
      | .float d => .ok (create_float_value (Double.neg d), t1, w1)
      | _ => .error .undefined
  | .unary_op .NODE_PRE_INC operand =>
    match operand with
    | .identifier name => inc_dec name false false table w
    | _ => .error (.exit .pre_increment_lvalue)
  | .unary_op .NODE_PRE_DEC operand =>
    match operand with
    | .identifier name => inc_dec name true false table w
    | _ => .error (.exit .pre_decrement_lvalue)
  | .unary_op .NODE_POST_INC operand =>
    match operand with
    | .identifier name => inc_dec name false true table w
    | _ => .error (.exit .post_increment_lvalue)
  | .unary_op .NODE_POST_DEC operand =>
    match operand with
    | .identifier name => inc_dec name true true table w
    | _ => .error (.exit .post_decrement_lvalue)
  | .func_call func args =>
    match func with
    | .identifier func_name =>
      if func_name = "print" then builtin_print ev args table w
      else if func_name = "printm" then builtin_printm ev args table w
      else if func_name = "read" then
        .ok ((builtin_read h w).1, table, (builtin_read h w).2)
      else call_function ev ex func_name args table w
    | _ => unhandled table w
  | _ => unhandled table w

/-- A call `execute_statement(node, table)` whose node may be the null pointer. -/
def exec_opt (ex : Exec) (node : Option ASTNode) (table : SymbolTable) (w : World) :
    Except Halt (SymbolTable × World) :=
  match node with
  | some n => ex n table w
  | none => .ok (table, w)

/-- The loop of `NODE_STMT_LIST`. -/
def exec_list (ex : Exec) : List ASTNode → SymbolTable → World →
    Except Halt (SymbolTable × World)
  | [], table, w => .ok (table, w)
  | item :: rest, table, w =>
    if table.is_returning then .ok (table, w)
    else
      match ex item table w with
      | .error e => .error e
      | .ok (t1, w1) => exec_list ex rest t1 w1

/-- The loop `while (1)` of `NODE_WHILE`; the first argument bounds the number of
iterations. -/
def while_loop (ev : Eval) (ex : Exec) : Nat → ASTNode → Option ASTNode → SymbolTable →
    World → Except Halt (SymbolTable × World)
  | 0, _, _, _, _ => .error .out_of_fuel
  | fuel + 1, condition, body, table, w =>
    match ev condition table w with
    | .error e => .error e
    | .ok (cond, t1, w1) =>
      match cond.bool_val with
      | none => .error .undefined
      | some should_continue =>
        if should_continue = 0 then .ok (t1, w1)
        else
          match exec_opt ex body t1 w1 with
          | .error e => .error e
          | .ok (t2, w2) => while_loop ev ex fuel condition body t2 w2

/-- The loop `for (int i = start; (step > 0 ? i <= limit : i >= limit); i += step)` of
`NODE_FOR_RANGE`, from the counter `i` on; the first argument bounds the number of
iterations. -/
def for_loop (ex : Exec) : Nat → Int → Int → Int → String → Option ASTNode → SymbolTable →
    World → Except Halt (SymbolTable × World)
  | 0, _, _, _, _, _, _, _ => .error .out_of_fuel
  | fuel + 1, i, step, limit, iterator, body, table, w =>
    if (if step > 0 then i ≤ limit else i ≥ limit) then
      match exec_opt ex body (set_symbol table iterator (create_int_value i)) w with
      | .error e => .error e
      | .ok (t1, w1) => for_loop ex fuel (wrap32 (i + step)) step limit iterator body t1 w1
    else .ok (table, w)

/-- The conversion of a range bound, `(v.type == VAL_INT) ? v.data.int_val :
(int)v.data.float_val`; `none` when the read or the conversion is not defined. -/
def range_bound : Value → Option Int
  | .int i => some i
  | .float d => d.toInt
  | _ => none

/-- The value a declaration without initializer binds. -/
def default_value : DataType → Value
  | .TYPE_INT => create_int_value 0
  | .TYPE_FLOAT => create_float_value (Double.zero false)
  | .TYPE_BOOL => create_bool_value 0
  | .TYPE_STRING => create_string_value ""
  | .TYPE_MATRIX => create_matrix_value 0 0
  | _ => create_void_value

/-- The body of `NODE_FOR_RANGE`, the range node being `range`. -/
def exec_for_range (ev : Eval) (ex : Exec) (fuel : Nat) (iterator : String) (range : ASTNode)
    (body : Option ASTNode) (table : SymbolTable) (w : World) :
    Except Halt (SymbolTable × World) :=
  match range with
  | .range type start_node end_node step_node =>
    match ev start_node table w with
    | .error e => .error e
    | .ok (start_val, t1, w1) =>
      match ev end_node t1 w1 with
      | .error e => .error e
      | .ok (end_val, t2, w2) =>
        match range_bound start_val, range_bound end_val with
        | some start, some stop =>
          let stepped : Except Halt (Int × SymbolTable × World) :=
            match step_node with
            | none => .ok (1, t2, w2)
            | some sn =>
              match ev sn t2 w2 with
              | .error e => .error e
              | .ok (step_val, t3, w3) =>
                match range_bound step_val with
                | some step => .ok (step, t3, w3)
                | none => .error .undefined
          match stepped with
          | .error e => .error e
          | .ok (step, t3, w3) =>
            let inclusive := type = .NODE_RANGE_INCL ∨ type = .NODE_RANGE_STEP
            let limit := if inclusive then stop else wrap32 (stop - 1)
            for_loop ex fuel start step limit iterator body t3 w3
        | _, _ => .error .undefined
  | _ => .error .undefined

/-- The body of `execute_statement` for a non-null node; `fuel` bounds the iterations of
a loop statement. -/
def exec_node (ev : Eval) (ex : Exec) (fuel : Nat) (node : ASTNode) (table : SymbolTable)
    (w : World) : Except Halt (SymbolTable × World) :=
  if table.is_returning then .ok (table, w)
  else
    match node with
    | .expr_stmt operand =>
      match operand with
      | some e =>
        match ev e table w with
        | .error err => .error err
        | .ok (_, t1, w1) => .ok (t1, w1)
      | none => .ok (table, w)
    | .var_decl type name initializer =>
      match initializer with
      | some ini =>
        match ev ini table w with
        | .error e => .error e
        | .ok (val, t1, w1) => .ok (set_symbol t1 name val, w1)
      | none => .ok (set_symbol table name (default_value type), w)
    | .if_stmt condition then_stmt else_stmt =>
      match ev condition table w with
      | .error e => .error e
      | .ok (cond, t1, w1) =>
        match cond.bool_val with
        | none => .error .undefined
        | some c =>
          if c ≠ 0 then exec_opt ex then_stmt t1 w1
          else exec_opt ex else_stmt t1 w1
    | .while_stmt condition body => while_loop ev ex fuel condition body table w
    | .for_range iterator range body => exec_for_range ev ex fuel iterator range body table w
    | .return_stmt value =>
      match value with
      | some v =>
        match ev v table w with
        | .error e => .error e
        | .ok (val, t1, w1) => .ok (t1.set_return val true, w1)
      | none => .ok (table.set_return create_void_value true, w)
    | .list .NODE_STMT_LIST items => exec_list ex items table w
    | _ => .ok (table, w)

mutual

/-- `eval_expression`, for a non-null node, with the fuel that bounds the depth of the
recursion and the iterations of each loop. -/
def eval_expression (h : Host) : Nat → ASTNode → SymbolTable → World →
    Except Halt (Value × SymbolTable × World)
  | 0, _, _, _ => .error .out_of_fuel
  | fuel + 1, node, table, w =>
    eval_node h (eval_expression h fuel) (execute_statement h fuel) node table w

/-- `execute_statement`, for a non-null node. -/
def execute_statement (h : Host) : Nat → ASTNode → SymbolTable → World →
    Except Halt (SymbolTable × World)
  | 0, _, _, _ => .error .out_of_fuel
  | fuel + 1, node, table, w =>
    exec_node (eval_expression h fuel) (execute_statement h fuel) fuel node table w

end

/-- The loop of `execute_program` over the top-level declarations. -/
def run_declarations (ex : Exec) : List ASTNode → SymbolTable → World →
    Except Halt (SymbolTable × World)
  | [], global_table, w => .ok (global_table, w)
  | decl :: rest, global_table, w =>
    match decl with
    | .func_decl _ name _ _ =>
      run_declarations ex rest (set_symbol global_table name (.func decl)) w
    | _ =>
      match ex decl global_table w with
      | .error e => .error e
      | .ok (g1, w1) => run_declarations ex rest g1 w1

/-- `execute_program` for a non-null root; the result is the global table as it is when it
is freed, and the world. -/
def execute_program (h : Host) (fuel : Nat) (root : ASTNode) (w : World) :
    Except Halt (SymbolTable × World) :=
  let global_table := create_symbol_table none
  match root with
  | .list .NODE_DECL_LIST items =>
    match run_declarations (execute_statement h fuel) items global_table w with
    | .error e => .error e
    | .ok (g1, w1) =>
      match get_symbol g1 "main" with
      | some (.func main_func) =>
        match main_func with
        | .func_decl _ _ _ body => exec_opt (execute_statement h fuel) body g1 w1
        | _ => .error .undefined
      | _ => .ok (g1, w1)
  | _ => .ok (global_table, w)

/-! ## Vocabulary of the statements -/

/-- The operators whose case in `eval_expression` evaluates both operands, left then right,
and then combines the two values (all but the logical and the assignment operators). -/
def BinaryOp.strict : BinaryOp → Bool
  | .NODE_AND | .NODE_OR | .NODE_ASSIGN | .NODE_PLUS_ASSIGN | .NODE_MINUS_ASSIGN
  | .NODE_MUL_ASSIGN | .NODE_DIV_ASSIGN => false
  | _ => true

/-- The value is a number that is zero: `Int 0`, or a `Float` that is `+0.0` or `-0.0`. -/
def Value.isZeroNumber : Value → Prop
  | .int i => i = 0
  | .float d => d.isZero = true
  | _ => False

/-- The value is of kind `Int`. -/
def Value.isInt : Value → Prop
  | .int _ => True
  | _ => False

/-- The value is of kind `Matrix`. -/
def Value.isMatrix : Value → Prop
  | .matrix _ => True
  | _ => False

/-- The two values are of the same kind, one of `Int`, `Bool` and `String`. -/
def Value.sameScalarKind : Value → Value → Prop
  | .int _, .int _ => True
  | .bool _, .bool _ => True
  | .string _, .string _ => True
  | _, _ => False

/-- A host whose regular-expression and number parsers accept nothing. -/
def sample_host : Host :=
  { regcomp := fun _ => none, strtol := fun _ => none, strtod := fun _ => none }

/-- The world at the start of a run: depth counter 0, no input, nothing written. -/
def initial_world : World :=
  { recursion_depth := 0, stdin := [], out := [] }

/-- The empty global table. -/
def empty_table : SymbolTable :=
  create_symbol_table none

/-- The literal `[[1, 2, 3], [4, 5, 6]]`. -/
def literal_2x3 : ASTNode :=
  .list .NODE_ARRAY_LITERAL
    [.list .NODE_ARRAY_LITERAL [.int_literal 1, .int_literal 2, .int_literal 3],
     .list .NODE_ARRAY_LITERAL [.int_literal 4, .int_literal 5, .int_literal 6]]

/-- The literal `[[1, 2], [3, 4], [5, 6], [7, 8]]`. -/
def literal_4x2 : ASTNode :=
  .list .NODE_ARRAY_LITERAL
    [.list .NODE_ARRAY_LITERAL [.int_literal 1, .int_literal 2],
     .list .NODE_ARRAY_LITERAL [.int_literal 3, .int_literal 4],
     .list .NODE_ARRAY_LITERAL [.int_literal 5, .int_literal 6],
     .list .NODE_ARRAY_LITERAL [.int_literal 7, .int_literal 8]]

/-- The matrix the literal `[[1, 2, 3], [4, 5, 6]]` evaluates to. -/
def matrix_2x3 : Matrix :=
  { rows := 2, cols := 3,
    data := [[Double.ofInt 1, Double.ofInt 2, Double.ofInt 3],
      [Double.ofInt 4, Double.ofInt 5, Double.ofInt 6]] }

/-- The 3x2 matrix `[[1, 2], [3, 4], [5, 6]]`. -/
def matrix_3x2 : Matrix :=
  { rows := 3, cols := 2,
    data := [[Double.ofInt 1, Double.ofInt 2], [Double.ofInt 3, Double.ofInt 4],
      [Double.ofInt 5, Double.ofInt 6]] }

/-- The matrix the literal `[[1, 2], [3, 4], [5, 6], [7, 8]]` evaluates to. -/
def matrix_4x2 : Matrix :=
  { rows := 4, cols := 2,
    data := [[Double.ofInt 1, Double.ofInt 2], [Double.ofInt 3, Double.ofInt 4],
      [Double.ofInt 5, Double.ofInt 6], [Double.ofInt 7, Double.ofInt 8]] }

/-- One row of a fill loop: the cells `(i, 0) .. (i, cols - 1)` of `mat` are set, in
increasing column order, to `f i j`. -/
def fill_matrix_row (f : Nat → Nat → Double) (mat : Matrix) (i cols : Nat) : Matrix :=
  (List.range cols).foldl (fun res j => res.set i j (f i j)) mat

/-- A fill loop: the rows `0 .. rows - 1` of `mat` are filled in increasing order. -/
def fill_matrix (f : Nat → Nat → Double) (mat : Matrix) (rows cols : Nat) : Matrix :=
  (List.range rows).foldl (fun res i => fill_matrix_row f res i cols) mat

/-- The double an element of an array literal contributes to its cell: the number itself
for an Int or a Float, `0.0` for any other kind of value. -/
def numeric_cell : Value → Double
  | .int v => Double.ofInt v
  | .float v => v
  | _ => Double.zero false

/-- The evaluation of a list of expressions one after the other, left to right, each from
the table and the world the one before left: the values, and the final table and world. -/
def eval_items (ev : Eval) : List ASTNode → SymbolTable → World →
    Except Halt (List Value × SymbolTable × World)
  | [], table, w => .ok ([], table, w)
  | item :: rest, table, w =>
    match ev item table w with
    | .error e => .error e
    | .ok (v, t1, w1) =>
      match eval_items ev rest t1 w1 with
      | .error e => .error e
      | .ok (vs, t2, w2) => .ok (v :: vs, t2, w2)

/-- The node is an array literal. -/
def ASTNode.isArrayLiteral : ASTNode → Bool
  | .list .NODE_ARRAY_LITERAL _ => true
  | _ => false

/-- The double 1.5. -/
def one_and_a_half : Double :=
  .fin false 6755399441055744 (-52)

/-- The value is of kind `Int` or `Float`. -/
def Value.isNumber : Value → Prop
  | .int _ => True
  | .float _ => True
  | _ => False

/-- The list of symbols holds a symbol called `name`. -/
def list_binds (head : List Symbol) (name : String) : Prop :=
  ∃ s ∈ head, s.name = name

/-- Some table on the chain from `table` to the root holds a symbol called `name`. -/
def chain_binds (table : SymbolTable) (name : String) : Prop :=
  ∃ (depth : Nat) (t : SymbolTable), table.ancestor depth = some t ∧ list_binds t.head name

/-- A global table binding `x` to Int 1. -/
def sample_global : SymbolTable :=
  .mk [{ name := "x", value := .int 1 }] none create_void_value false

/-- A function scope, with the local `y` bound to Int 2, whose parent is `sample_global`. -/
def sample_scope : SymbolTable :=
  .mk [{ name := "y", value := .int 2 }] (some sample_global) create_void_value false

/-- A value that is a matrix has exactly `rows` rows, each of exactly `cols` elements; a
value of any other kind has nothing to satisfy. -/
def Value.WellFormed : Value → Prop
  | .matrix mat => mat.WellFormed
  | _ => True

/-- Every value the evaluator `ev` returns is well formed. -/
def returns_well_formed (ev : Eval) : Prop :=
  ∀ (node : ASTNode) (t : SymbolTable) (w : World) (v : Value) (t1 : SymbolTable) (w1 : World),
    ev node t w = .ok (v, t1, w1) → v.WellFormed

/-- The node is an array literal of exactly `cols` items: a row a matrix literal of `cols`
columns accepts. -/
def ASTNode.isRowOf (cols : Nat) : ASTNode → Bool
  | .list .NODE_ARRAY_LITERAL items => items.length == cols
  | _ => false

/-- The evaluation of the cell expressions of the rows of a matrix literal of `cols`
columns, row after row and left to right in each row, up to the first element that is not
an array literal of `cols` items (where the conversion stops): the values row by row, and
the final table and world. -/
def eval_rows (ev : Eval) (cols : Nat) : List ASTNode → SymbolTable → World →
    Except Halt (List (List Value) × SymbolTable × World)
  | [], table, w => .ok ([], table, w)
  | row :: rest, table, w =>
    match row with
    | .list .NODE_ARRAY_LITERAL items =>
      if items.length = cols then
        match eval_items ev items table w with
        | .error e => .error e
        | .ok (vs, t1, w1) =>
          match eval_rows ev cols rest t1 w1 with
          | .error e => .error e
          | .ok (vss, t2, w2) => .ok (vs :: vss, t2, w2)
      else .ok ([], table, w)
    | _ => .ok ([], table, w)

/-- The literal `[[1, 2, 3], [4, 5]]`, whose second row is short. -/
def literal_ragged : ASTNode :=
  .list .NODE_ARRAY_LITERAL
    [.list .NODE_ARRAY_LITERAL [.int_literal 1, .int_literal 2, .int_literal 3],
     .list .NODE_ARRAY_LITERAL [.int_literal 4, .int_literal 5]]

/-- The expression `x = 5`. -/
def assign_x_5 : ASTNode :=
  .binary_op .NODE_ASSIGN (.identifier "x") (.int_literal 5)

/-- The expression `x += 5`. -/
def plus_assign_x_5 : ASTNode :=
  .binary_op .NODE_PLUS_ASSIGN (.identifier "x") (.int_literal 5)

/-- A table binding `n` to Int 2147483646, `f` to Float 1.5 and `s` to a string. -/
def counters_table : SymbolTable :=
  .mk [{ name := "n", value := .int 2147483646 }, { name := "f", value := .float one_and_a_half },
       { name := "s", value := .string "text" }] none create_void_value false

/-- The integers `s, s + 1, ..., s + n - 1`, in increasing order. -/
def int_range (s : Int) : Nat → List Int
  | 0 => []
  | n + 1 => s :: int_range (s + 1) n

/-- The body executed once for each integer of the list, in the order of the list, the
loop variable being bound to that Int in the current table at the start of the
iteration. -/
def run_iterations (ex : Exec) (iterator : String) (body : Option ASTNode) :
    List Int → SymbolTable → World → Except Halt (SymbolTable × World)
  | [], table, w => .ok (table, w)
  | i :: rest, table, w =>
    match exec_opt ex body (set_symbol table iterator (create_int_value i)) w with
    | .error e => .error e
    | .ok (t1, w1) => run_iterations ex iterator body rest t1 w1

/-- The statement `print(i)`. -/
def print_i : ASTNode :=
  .expr_stmt (some (.func_call (.identifier "print")
    (some (.list .NODE_ARG_LIST [.identifier "i"]))))

/-- The statement `for i in 1..5 { print(i) }`. -/
def for_1_to_5_exclusive : ASTNode :=
  .for_range "i" (.range .NODE_RANGE_EXCL (.int_literal 1) (.int_literal 5) none)
    (some print_i)

/-- The integers `s, s + k, ..., s + (n - 1) k`, in that order. -/
def step_range (s k : Int) : Nat → List Int
  | 0 => []
  | n + 1 => s :: step_range (s + k) k n

/-- The number of terms of `s, s + k, s + 2k, ...` that come before the first one passing
`e`, that is the first one greater than `e` for a positive step `k` and the first one less
than `e` for a negative step. -/
def step_count (s e k : Int) : Nat :=
  if k > 0 then (if s ≤ e then ((e - s) / k).toNat + 1 else 0)
  else (if e ≤ s then ((s - e) / (-k)).toNat + 1 else 0)

/-- The statement `for i in 10..1 step -2 { print(i) }`. -/
def for_10_to_1_step_minus_2 : ASTNode :=
  .for_range "i"
    (.range .NODE_RANGE_STEP (.int_literal 10) (.int_literal 1)
      (some (.unary_op .NODE_UNARY_MINUS (.int_literal 2))))
    (some print_i)

/-- The statement `for i in 5..1 step -1 { print(i) }` with the range node of an exclusive
range. -/
def for_5_to_1_exclusive_step_minus_1 : ASTNode :=
  .for_range "i"
    (.range .NODE_RANGE_EXCL (.int_literal 5) (.int_literal 1)
      (some (.unary_op .NODE_UNARY_MINUS (.int_literal 1))))
    (some print_i)

/-- The table `t1` has the parent, the `return_value` and the `is_returning` flag of the
table `t`. -/
def same_frame (t t1 : SymbolTable) : Prop :=
  t1.parent = t.parent ∧ t1.return_value = t.return_value
    ∧ t1.is_returning = t.is_returning

/-- What a statement may do to the return state of the table it runs on, `t` being the
table before and `t1` the table after: the parent stays; a flag that is set stays set and
the value stored with it stays; and while the flag is not set the value is not written. -/
def frame_step (t t1 : SymbolTable) : Prop :=
  t1.parent = t.parent
    ∧ (t.is_returning = true → t1.is_returning = true ∧ t1.return_value = t.return_value)
    ∧ (t1.is_returning = false → t1.return_value = t.return_value)

/-- Every evaluation by `ev` leaves the parent and the return state of its table as they
were. -/
def keeps_frame (ev : Eval) : Prop :=
  ∀ (node : ASTNode) (t : SymbolTable) (w : World) (v : Value) (t1 : SymbolTable) (w1 : World),
    ev node t w = .ok (v, t1, w1) → same_frame t t1

/-- Every execution by `ex` is a `frame_step`, and returns at once when the flag is set. -/
def steps_frame (ex : Exec) : Prop :=
  ∀ (node : ASTNode) (t : SymbolTable) (w : World) (t1 : SymbolTable) (w1 : World),
    ex node t w = .ok (t1, w1) →
    frame_step t t1 ∧ (t.is_returning = true → t1 = t ∧ w1 = w)

/-- The part of `NODE_FUNC_CALL` from `create_symbol_table(global_table)` to the end of the
binding loop `if (params && args) { ... }`: the new scope, the table of the caller after
the evaluation of the arguments, and the world. -/
def bind_phase (ev : Eval) (params args : Option ASTNode) (table : SymbolTable) (w : World) :
    Except Halt (SymbolTable × SymbolTable × World) :=
  match params, args with
  | some (.list _ ps), some (.list _ items) =>
    bind_arguments ev ps items (create_symbol_table (some table.root)) table w
  | some _, some _ => .error .undefined
  | _, _ => .ok (create_symbol_table (some table.root), table, w)

/-- The statement list `{ return 7; x = 5; return 9; }`. -/
def return_7_then_more : ASTNode :=
  .list .NODE_STMT_LIST
    [.return_stmt (some (.int_literal 7)), .expr_stmt (some assign_x_5),
     .return_stmt (some (.int_literal 9))]

/-- The statement `while (true) { return 1; }`. -/
def while_true_return_1 : ASTNode :=
  .while_stmt (.bool_literal 1) (some (.return_stmt (some (.int_literal 1))))

/-- The declaration `g(a) { int b = 7; return a; return b; }`. -/
def decl_g : ASTNode :=
  .func_decl .TYPE_INT "g" (some (.list .NODE_PARAM_LIST [.param .TYPE_INT "a"]))
    (some (.list .NODE_STMT_LIST
      [.var_decl .TYPE_INT "b" (some (.int_literal 7)),
       .return_stmt (some (.identifier "a")),
       .return_stmt (some (.identifier "b"))]))

/-- The call `g(5)`. -/
def call_g_5 : ASTNode :=
  .func_call (.identifier "g") (some (.list .NODE_ARG_LIST [.int_literal 5]))

/-- A global table in which only the function `g` is bound. -/
def global_with_g : SymbolTable :=
  .mk [{ name := "g", value := .func decl_g }] none create_void_value false

/-- The call `r()`. -/
def call_r : ASTNode :=
  .func_call (.identifier "r") (some (.list .NODE_ARG_LIST []))

/-- The declaration `r() { r(); }` of a function that calls itself and has no base
case. -/
def decl_r : ASTNode :=
  .func_decl .TYPE_VOID "r" (some (.list .NODE_PARAM_LIST []))
    (some (.list .NODE_STMT_LIST [.expr_stmt (some call_r)]))

/-- A global table in which only the function `r` is bound. -/
def global_with_r : SymbolTable :=
  .mk [{ name := "r", value := .func decl_r }] none create_void_value false

/-- The declaration `down(n) { if (n == 0) { return 0; } return down(n - 1); }`, whose
call `down(n)` nests `n + 1` calls. -/
def decl_down : ASTNode :=
  .func_decl .TYPE_INT "down" (some (.list .NODE_PARAM_LIST [.param .TYPE_INT "n"]))
    (some (.list .NODE_STMT_LIST
      [.if_stmt (.binary_op .NODE_EQ (.identifier "n") (.int_literal 0))
         (some (.return_stmt (some (.int_literal 0)))) none,
       .return_stmt (some (.func_call (.identifier "down")
         (some (.list .NODE_ARG_LIST
           [.binary_op .NODE_SUB (.identifier "n") (.int_literal 1)]))))]))

/-- The call `down(n)` for an Int literal `n`. -/
def call_down (n : Int) : ASTNode :=
  .func_call (.identifier "down") (some (.list .NODE_ARG_LIST [.int_literal n]))

/-- A global table in which only the function `down` is bound. -/
def global_with_down : SymbolTable :=
  .mk [{ name := "down", value := .func decl_down }] none create_void_value false

/-- The node of a parameter, given as its type and its name. -/
def param_node (p : DataType × String) : ASTNode :=
  .param p.1 p.2

/-- The stores `set_symbol(func_scope, name, value)` of the binding loop of
`NODE_FUNC_CALL`, for the parameter names and the values of the arguments taken in step,
up to the end of the shorter list. -/
def bind_values (func_scope : SymbolTable) : List String → List Value → SymbolTable
  | name :: names, v :: vals => bind_values (set_symbol func_scope name v) names vals
  | _, _ => func_scope

/-- The declaration `dup(a, a) { return a; }`, whose two parameters have the same name. -/
def decl_dup : ASTNode :=
  .func_decl .TYPE_INT "dup"
    (some (.list .NODE_PARAM_LIST [.param .TYPE_INT "a", .param .TYPE_INT "a"]))
    (some (.list .NODE_STMT_LIST [.return_stmt (some (.identifier "a"))]))

/-- A global table in which only the function `dup` is bound. -/
def global_with_dup : SymbolTable :=
  .mk [{ name := "dup", value := .func decl_dup }] none create_void_value false

/-- The call `dup(1, 2)`. -/
def call_dup_1_2 : ASTNode :=
  .func_call (.identifier "dup")
    (some (.list .NODE_ARG_LIST [.int_literal 1, .int_literal 2]))

/-- The declaration `third(a, b, c) { return c; }`. -/
def decl_third : ASTNode :=
  .func_decl .TYPE_INT "third"
    (some (.list .NODE_PARAM_LIST
      [.param .TYPE_INT "a", .param .TYPE_INT "b", .param .TYPE_INT "c"]))
    (some (.list .NODE_STMT_LIST [.return_stmt (some (.identifier "c"))]))

/-- A global table in which only the function `third` is bound. -/
def global_with_third : SymbolTable :=
  .mk [{ name := "third", value := .func decl_third }] none create_void_value false

/-- The call `third(1, 2)`, with two arguments for three parameters. -/
def call_third_1_2 : ASTNode :=
  .func_call (.identifier "third")
    (some (.list .NODE_ARG_LIST [.int_literal 1, .int_literal 2]))

/-- The declaration `nop() { }` of a function with no parameters. -/
def decl_nop : ASTNode :=
  .func_decl .TYPE_VOID "nop" (some (.list .NODE_PARAM_LIST []))
    (some (.list .NODE_STMT_LIST []))

/-- A global table in which only the function `nop` is bound. -/
def global_with_nop : SymbolTable :=
  .mk [{ name := "nop", value := .func decl_nop }] none create_void_value false

/-- The call `nop(x = 5)`, whose one argument is an assignment. -/
def call_nop_assign : ASTNode :=
  .func_call (.identifier "nop") (some (.list .NODE_ARG_LIST [assign_x_5]))

/-- The call `nop(print(1))`, whose one argument prints. -/
def call_nop_print : ASTNode :=
  .func_call (.identifier "nop") (some (.list .NODE_ARG_LIST
    [.func_call (.identifier "print") (some (.list .NODE_ARG_LIST [.int_literal 1]))]))

/-- A global table in which `print` is bound to the user function `nop() { }` and `x` to
Int 1. -/
def global_shadowing_print : SymbolTable :=
  .mk [{ name := "print", value := .func decl_nop }, { name := "x", value := .int 1 }] none
    create_void_value false

/-- The call `print(x)`. -/
def call_print_x : ASTNode :=
  .func_call (.identifier "print") (some (.list .NODE_ARG_LIST [.identifier "x"]))

/-- The declaration `main() { print(x); }`. -/
def decl_main_print_x : ASTNode :=
  .func_decl .TYPE_VOID "main" (some (.list .NODE_PARAM_LIST []))
    (some (.list .NODE_STMT_LIST [.expr_stmt (some call_print_x)]))

/-- The program `int x = 1;  main() { print(x); }`. -/
def program_x_then_main : ASTNode :=
  .list .NODE_DECL_LIST [.var_decl .TYPE_INT "x" (some (.int_literal 1)), decl_main_print_x]

/-- The program `int x = 1;  return;  main() { print(x); }`, with a `return` among its
top-level statements. -/
def program_return_then_main : ASTNode :=
  .list .NODE_DECL_LIST
    [.var_decl .TYPE_INT "x" (some (.int_literal 1)), .return_stmt none, decl_main_print_x]

/-- The node is a function declaration whose name is not `main`. -/
def ASTNode.declaresOther : ASTNode → Bool
  | .func_decl _ name _ _ => name ≠ "main"
  | _ => false

/-- The diagnostics the interpreter writes without calling `exit` afterwards: the warning of
`printm` for an argument that is not a matrix, the report of a pattern that does not
compile, and the report of the default branch of `eval_expression`. -/
def RuntimeError.nonfatal : RuntimeError → Prop
  | .printm_expects_matrix => True
  | .invalid_regex _ => True
  | .unhandled_expression => True
  | _ => False

/-- From the world `w` to the world `w1` the depth counter is the same and the output has
grown by values, text and diagnostics that are not fatal. -/
def world_step (w w1 : World) : Prop :=
  w1.recursion_depth = w.recursion_depth
    ∧ ∃ added : List Output, w1.out = w.out ++ added
        ∧ ∀ e : RuntimeError, Output.error e ∈ added → e.nonfatal

/-- Every evaluation by `ev` that returns is a `world_step`. -/
def keeps_world (ev : Eval) : Prop :=
  ∀ (node : ASTNode) (t : SymbolTable) (w : World) (v : Value) (t1 : SymbolTable) (w1 : World),
    ev node t w = .ok (v, t1, w1) → world_step w w1

/-- Every execution by `ex` that returns is a `world_step`. -/
def steps_world (ex : Exec) : Prop :=
  ∀ (node : ASTNode) (t : SymbolTable) (w : World) (t1 : SymbolTable) (w1 : World),
    ex node t w = .ok (t1, w1) → world_step w w1

/-- The statement `print("a" ~ "(");`, whose pattern does not compile. -/
def print_bad_pattern : ASTNode :=
  .expr_stmt (some (.func_call (.identifier "print")
    (some (.list .NODE_ARG_LIST
      [.binary_op .NODE_PATTERN_MATCH (.string_literal "a") (.string_literal "(")]))))

/-- The statement list `{ 1 / 0; print(i); }`. -/
def divide_by_zero_then_print : ASTNode :=
  .list .NODE_STMT_LIST
    [.expr_stmt (some (.binary_op .NODE_DIV (.int_literal 1) (.int_literal 0))), print_i]

/-- The statement `if (true) { int y = 5; }`. -/
def if_true_declare_y : ASTNode :=
  .if_stmt (.bool_literal 1)
    (some (.list .NODE_STMT_LIST [.var_decl .TYPE_INT "y" (some (.int_literal 5))])) none

/-- The node is a `break`, a `continue` or a C-style `for` statement. -/
def ASTNode.isLoopControl : ASTNode → Bool
  | .leaf .NODE_BREAK => true
  | .leaf .NODE_CONTINUE => true
  | .for_stmt _ _ _ _ => true
  | _ => false

/-- The statement `for i in 1..=2 { break; print(i); continue; }`. -/
def for_with_break : ASTNode :=
  .for_range "i" (.range .NODE_RANGE_INCL (.int_literal 1) (.int_literal 2) none)
    (some (.list .NODE_STMT_LIST [.leaf .NODE_BREAK, print_i, .leaf .NODE_CONTINUE]))

/-- A table binding `s` to the string `"hi"` and `m` to the matrix `[[1, 2, 3], [4, 5, 6]]`. -/
def text_and_matrix_table : SymbolTable :=
  .mk [{ name := "s", value := .string "hi" }, { name := "m", value := .matrix matrix_2x3 }]
    none create_void_value false

/-- The statement `for i in 1..=3 { print(i); i = 100; }`, whose body assigns to the loop
variable. -/
def for_assigning_iterator : ASTNode :=
  .for_range "i" (.range .NODE_RANGE_INCL (.int_literal 1) (.int_literal 3) none)
    (some (.list .NODE_STMT_LIST
      [print_i, .expr_stmt (some (.binary_op .NODE_ASSIGN (.identifier "i")
        (.int_literal 100)))]))

/-- The statement `for i in 1..=1 step 0 { }`. -/
def for_step_zero : ASTNode :=
  .for_range "i"
    (.range .NODE_RANGE_STEP (.int_literal 1) (.int_literal 1) (some (.int_literal 0)))
    (some (.list .NODE_STMT_LIST []))

/-- The depth counter is between 0 and `MAX_RECURSION_DEPTH`. -/
def depth_in_range (w : World) : Bool :=
  decide (0 ≤ w.recursion_depth) && decide (w.recursion_depth ≤ MAX_RECURSION_DEPTH)

mutual

/-- The function `eval_expression` with a watch on the depth counter: entered with the
counter between 0 and 50 it goes on as `eval_expression` does, its recursive calls watched
in the same way; entered with the counter out of that range it answers what `bad_ev`
answers. -/
def eval_expression_watched (h : Host) (bad_ev : Eval) (bad_ex : Exec) :
    Nat → ASTNode → SymbolTable → World → Except Halt (Value × SymbolTable × World)
  | 0, _, _, _ => .error .out_of_fuel
  | fuel + 1, node, table, w =>
    if depth_in_range w then
      eval_node h (eval_expression_watched h bad_ev bad_ex fuel)
        (execute_statement_watched h bad_ev bad_ex fuel) node table w
    else bad_ev node table w

/-- The function `execute_statement` with the same watch on the depth counter. -/
def execute_statement_watched (h : Host) (bad_ev : Eval) (bad_ex : Exec) :
    Nat → ASTNode → SymbolTable → World → Except Halt (SymbolTable × World)
  | 0, _, _, _ => .error .out_of_fuel
  | fuel + 1, node, table, w =>
    if depth_in_range w then
      exec_node (eval_expression_watched h bad_ev bad_ex fuel)
        (execute_statement_watched h bad_ev bad_ex fuel) fuel node table w
    else bad_ex node table w

end

/-- The evaluator `ev1` answers as `ev` does whenever the depth counter is in range. -/
def agrees_in_range (ev ev1 : Eval) : Prop :=
  ∀ (node : ASTNode) (t : SymbolTable) (w : World),
    depth_in_range w = true → ev1 node t w = ev node t w

/-- The executor `ex1` answers as `ex` does whenever the depth counter is in range. -/
def exec_agrees_in_range (ex ex1 : Exec) : Prop :=
  ∀ (node : ASTNode) (t : SymbolTable) (w : World),
    depth_in_range w = true → ex1 node t w = ex node t w

/-- An evaluator that answers Void and an executor that does nothing, to stand for what
would happen out of range. -/
def answer_void : Eval := fun _ table w => .ok (create_void_value, table, w)

def do_nothing : Exec := fun _ table w => .ok (table, w)

/-- The values the C local `i` of the loop header
`for (int i = start; (step > 0 ? i <= limit : i >= limit); i += step)` takes while the test
holds, from the counter on, in the order the loop takes them: a function of the counter,
the step and the limit alone. The first argument bounds the number of values; `none` when
the test still holds after that many. -/
def loop_counters (step limit : Int) : Nat → Int → Option (List Int)
  | 0, _ => none
  | fuel + 1, i =>
    if (if step > 0 then i ≤ limit else i ≥ limit) then
      (loop_counters step limit fuel (wrap32 (i + step))).map (fun l => i :: l)
    else some []

/-- The statement `for i in 1..6 step 2 { print(i); i = 100; }` with the range node of an
exclusive range, whose body assigns to the loop variable. -/
def for_stepped_assigning_iterator : ASTNode :=
  .for_range "i" (.range .NODE_RANGE_EXCL (.int_literal 1) (.int_literal 6)
      (some (.int_literal 2)))
    (some (.list .NODE_STMT_LIST
      [print_i, .expr_stmt (some (.binary_op .NODE_ASSIGN (.identifier "i")
        (.int_literal 100)))]))

/-! ## Unfolding the evaluator -/

theorem eval_expression_succ (h : Host) (fuel : Nat) (node : ASTNode) (table : SymbolTable)
    (w : World) :
    eval_expression h (fuel + 1) node table w
      = eval_node h (eval_expression h fuel) (execute_statement h fuel) node table w := by
  rw [eval_expression]

theorem eval_strict (h : Host) (fuel : Nat) (op : BinaryOp) (l r : ASTNode)
    (t t1 t2 : SymbolTable) (w w1 w2 : World) (a b : Value)
    (hop : op.strict = true)
    (hl : eval_expression h fuel l t w = .ok (a, t1, w1))
    (hr : eval_expression h fuel r t1 w1 = .ok (b, t2, w2)) :
    eval_expression h (fuel + 1) (.binary_op op l r) t w
      = match binary_result h op a b w2 with
        | .error e => .error e
        | .ok (result, w3) => .ok (result, t2, w3) := by
  rw [eval_expression_succ]
  cases op <;> simp [BinaryOp.strict] at hop <;> simp [eval_node, hl, hr]

theorem ofInt_isZero (i : Int) : (Double.ofInt i).isZero = true ↔ i = 0 := by
  unfold Double.ofInt
  by_cases hn : i.natAbs = 0
  · simp [hn, Double.zero, Double.isZero, Int.natAbs_eq_zero.mp hn]
  · have hi : i ≠ 0 := fun hi => hn (by simp [hi])
    simp [hn, Double.isZero, hi]

theorem num_isZero_iff (b : Value) (y : Double) (hb : b.num = some y) :
    y.isZero = true ↔ b.isZeroNumber := by
  cases b <;> simp [Value.num] at hb
  · subst hb; simpa [Value.isZeroNumber] using ofInt_isZero _
  · subst hb; simp [Value.isZeroNumber]

theorem tmod_sign_abs (a b : Int) :
    ∃ k : Nat, k = a.natAbs % b.natAbs ∧ Int.tmod a b = if a < 0 then -(k : Int) else (k : Int) := by
  rcases a with m | m <;> rcases b with n | n
  · exact ⟨m % n, rfl, by rw [if_neg (by simp)]; rfl⟩
  · exact ⟨m % (n + 1), rfl, by rw [if_neg (by simp)]; rfl⟩
  · exact ⟨(m + 1) % n, rfl, by rw [if_pos (Int.negSucc_lt_zero m)]; rfl⟩
  · exact ⟨(m + 1) % (n + 1), rfl, by rw [if_pos (Int.negSucc_lt_zero m)]; rfl⟩

theorem tmod_abs_lt (a b : Int) (hb : b ≠ 0) : |Int.tmod a b| < |b| := by
  obtain ⟨k, hk, hrem⟩ := tmod_sign_abs a b
  have hpos : 0 < b.natAbs := Int.natAbs_pos.mpr hb
  have hlt : k < b.natAbs := hk ▸ Nat.mod_lt _ hpos
  have hb1 : |b| = (b.natAbs : Int) := Int.abs_eq_natAbs b
  have hk0 : |(k : Int)| = k := abs_of_nonneg (Int.ofNat_nonneg k)
  rw [hrem, hb1]
  split_ifs
  · rw [abs_neg, hk0]; exact_mod_cast hlt
  · rw [hk0]; exact_mod_cast hlt

theorem tmod_sign (a b : Int) :
    Int.tmod a b = 0 ∨ (0 < Int.tmod a b ∧ 0 < a) ∨ (Int.tmod a b < 0 ∧ a < 0) := by
  obtain ⟨k, hk, hrem⟩ := tmod_sign_abs a b
  rw [hrem]
  by_cases hk0 : k = 0
  · left; simp [hk0]
  · have hkpos : 0 < k := Nat.pos_of_ne_zero hk0
    have ha : a ≠ 0 := by
      intro h0; subst h0; simp at hk; exact hk0 hk
    by_cases hneg : a < 0
    · right; right; rw [if_pos hneg]; omega
    · right; left; rw [if_neg hneg]; omega

/-! ## Division and modulo -/

/-- C1: when the operands of `a / b` evaluate to numbers (each Int or Float), the division
fails with the division-by-zero error if and only if `b` is zero (Int 0, Float 0.0 of
either sign), and otherwise yields the Float holding the double quotient of the two
operands promoted to double, also for two Ints: `4 / 2` is Float 2 and `7 / 2` is
Float 3.5 (the double `7881299347898368 * 2^-51`). -/
theorem div_fails_iff_zero_else_float (h : Host) (fuel : Nat) (l r : ASTNode)
    (t t1 t2 : SymbolTable) (w w1 w2 : World) (a b : Value) (x y : Double)
    (hl : eval_expression h fuel l t w = .ok (a, t1, w1))
    (hr : eval_expression h fuel r t1 w1 = .ok (b, t2, w2))
    (ha : a.num = some x) (hb : b.num = some y) :
    (eval_expression h (fuel + 1) (.binary_op .NODE_DIV l r) t w
        = .error (.exit .division_by_zero) ↔ b.isZeroNumber)
    ∧ (¬ b.isZeroNumber →
        eval_expression h (fuel + 1) (.binary_op .NODE_DIV l r) t w
          = .ok (.float (Double.div x y), t2, w2))
    ∧ (∀ (t0 : SymbolTable) (w0 : World),
        eval_expression h 2 (.binary_op .NODE_DIV (.int_literal 4) (.int_literal 2)) t0 w0
          = .ok (.float (Double.ofInt 2), t0, w0))
    ∧ (∀ (t0 : SymbolTable) (w0 : World),
        eval_expression h 2 (.binary_op .NODE_DIV (.int_literal 7) (.int_literal 2)) t0 w0
          = .ok (.float (.fin false 7881299347898368 (-51)), t0, w0)) := by
  have hz := num_isZero_iff b y hb
  rw [eval_strict h fuel .NODE_DIV l r t t1 t2 w w1 w2 a b rfl hl hr]
  refine ⟨?_, ?_, fun _ _ => rfl, fun _ _ => rfl⟩
  · by_cases hy : y.isZero = true
    · simp [binary_result, eval_div, hb, hy, Except.map, hz.mp hy]
    · have hnz : ¬ b.isZeroNumber := fun hb0 => hy (hz.mpr hb0)
      simp [binary_result, eval_div, ha, hb, hy, Except.map, hnz, create_float_value]
  · intro hnz
    have hy : ¬ y.isZero = true := fun hy => hnz (hz.mp hy)
    simp [binary_result, eval_div, ha, hb, hy, Except.map, create_float_value]

/-- Witness of C1: `7 / 2.0` at the start of a run. -/
theorem div_fails_iff_zero_else_float_witness :
    eval_expression sample_host 2
        (.binary_op .NODE_DIV (.int_literal 7) (.float_literal (Double.ofInt 2)))
        empty_table initial_world
      = .ok (.float (Double.div (Double.ofInt 7) (Double.ofInt 2)), empty_table,
          initial_world) :=
  (div_fails_iff_zero_else_float sample_host 1 (.int_literal 7)
    (.float_literal (Double.ofInt 2)) empty_table empty_table empty_table
    initial_world initial_world initial_world (.int 7) (.float (Double.ofInt 2))
    (Double.ofInt 7) (Double.ofInt 2) rfl rfl rfl rfl).2.1
    (by show ¬ (Double.ofInt 2).isZero = true; decide)

/-- C2 as stated fails: `INT_MIN % -1`, whose quotient is not a 32-bit integer, is left
undefined by the C operator and yields no Int. -/
theorem mod_int_min_neg_one_no_result :
    ¬ ∃ (r : Int) (t : SymbolTable) (w : World),
      eval_expression sample_host 2
          (.binary_op .NODE_MOD (.int_literal (-2147483648)) (.int_literal (-1)))
          empty_table initial_world
        = .ok (.int r, t, w) := by
  rintro ⟨r, t, w, hr⟩
  have h2 : eval_expression sample_host 2
      (.binary_op .NODE_MOD (.int_literal (-2147483648)) (.int_literal (-1)))
      empty_table initial_world = .error .undefined := rfl
  rw [h2] at hr
  cases hr

/-- C2, amended: for Int operands `a` and `b` with `b != 0`, other than the pair
`INT_MIN`, `-1`, `a % b` yields Int `r`, the truncating remainder: `a = q * b + r` with
`q` the quotient rounded toward zero, `|r| < |b|`, and `r` is zero or has the sign of `a`;
`-7 % 3` is `-1` and `7 % -3` is `1`. -/
theorem mod_truncating_remainder (h : Host) (fuel : Nat) (l r : ASTNode)
    (t t1 t2 : SymbolTable) (w w1 w2 : World) (a b : Int)
    (hl : eval_expression h fuel l t w = .ok (.int a, t1, w1))
    (hr : eval_expression h fuel r t1 w1 = .ok (.int b, t2, w2))
    (hb : b ≠ 0) (hmin : ¬ (a = -2147483648 ∧ b = -1)) :
    ∃ rem : Int,
      eval_expression h (fuel + 1) (.binary_op .NODE_MOD l r) t w = .ok (.int rem, t2, w2)
      ∧ a = Int.tdiv a b * b + rem
      ∧ |rem| < |b|
      ∧ (rem = 0 ∨ (0 < rem ∧ 0 < a) ∨ (rem < 0 ∧ a < 0))
      ∧ (∀ (t0 : SymbolTable) (w0 : World),
          eval_expression h 2 (.binary_op .NODE_MOD (.int_literal (-7)) (.int_literal 3)) t0 w0
            = .ok (.int (-1), t0, w0))
      ∧ (∀ (t0 : SymbolTable) (w0 : World),
          eval_expression h 2 (.binary_op .NODE_MOD (.int_literal 7) (.int_literal (-3))) t0 w0
            = .ok (.int 1, t0, w0)) := by
  refine ⟨Int.tmod a b, ?_, ?_, ?_, ?_, fun _ _ => rfl, fun _ _ => rfl⟩
  · rw [eval_strict h fuel .NODE_MOD l r t t1 t2 w w1 w2 (.int a) (.int b) rfl hl hr]
    simp [binary_result, eval_mod, hb, hmin, Except.map, create_int_value]
  · have := Int.tmod_add_tdiv a b
    linarith [mul_comm b (a.tdiv b)]
  · exact tmod_abs_lt a b hb
  · exact tmod_sign a b

/-- Witness of C2, amended: `-7 % 3` at the start of a run. -/
theorem mod_truncating_remainder_witness :
    ∃ rem : Int,
      eval_expression sample_host 2
          (.binary_op .NODE_MOD (.int_literal (-7)) (.int_literal 3)) empty_table initial_world
        = .ok (.int rem, empty_table, initial_world)
      ∧ |rem| < |(3 : Int)| := by
  obtain ⟨rem, h1, _, h3, _⟩ :=
    mod_truncating_remainder sample_host 1 (.int_literal (-7)) (.int_literal 3)
      empty_table empty_table empty_table initial_world initial_world initial_world (-7) 3
      rfl rfl (by decide) (by decide)
  exact ⟨rem, h1, h3⟩

/-- C3: when the operands of `a % b` evaluate to `a` and `b`, the evaluation fails with
the modulo-requires-integer-operands error if and only if at least one of them is not an
Int, and for two Ints it fails with the modulo-by-zero error if and only if `b` is Int 0;
the kind check comes first, so a Float left operand with the divisor Int 0 reports the
integer-operand error. -/
theorem mod_error_order (h : Host) (fuel : Nat) (l r : ASTNode)
    (t t1 t2 : SymbolTable) (w w1 w2 : World) (a b : Value)
    (hl : eval_expression h fuel l t w = .ok (a, t1, w1))
    (hr : eval_expression h fuel r t1 w1 = .ok (b, t2, w2)) :
    (eval_expression h (fuel + 1) (.binary_op .NODE_MOD l r) t w
        = .error (.exit .modulo_requires_int) ↔ ¬ (a.isInt ∧ b.isInt))
    ∧ (a.isInt ∧ b.isInt →
        (eval_expression h (fuel + 1) (.binary_op .NODE_MOD l r) t w
          = .error (.exit .modulo_by_zero) ↔ b = .int 0))
    ∧ (∀ d : Double, a = .float d → b = .int 0 →
        eval_expression h (fuel + 1) (.binary_op .NODE_MOD l r) t w
          = .error (.exit .modulo_requires_int)) := by
  rw [eval_strict h fuel .NODE_MOD l r t t1 t2 w w1 w2 a b rfl hl hr]
  refine ⟨?_, ?_, ?_⟩
  · cases a <;> cases b <;>
      simp [binary_result, eval_mod, Except.map, Value.isInt]
    rename_i i j
    by_cases hj : j = 0
    · simp [hj]
    · by_cases hm : i = -2147483648 ∧ j = -1 <;> simp [hj, hm]
  · rintro ⟨hia, hib⟩
    cases a <;> cases b <;> simp [Value.isInt] at hia hib
    rename_i i j
    by_cases hj : j = 0
    · simp [binary_result, eval_mod, Except.map, hj]
    · by_cases hm : i = -2147483648 ∧ j = -1 <;>
        simp [binary_result, eval_mod, Except.map, hj, hm]
  · intro d hd hb0
    subst hd hb0
    simp [binary_result, eval_mod, Except.map]

/-- Witness of C3: `1.5 % 0`, a Float left operand with a zero divisor. -/
theorem mod_error_order_witness :
    eval_expression sample_host 2
        (.binary_op .NODE_MOD (.float_literal (.fin false 6755399441055744 (-52)))
          (.int_literal 0)) empty_table initial_world
      = .error (.exit .modulo_requires_int) :=
  (mod_error_order sample_host 1 (.float_literal (.fin false 6755399441055744 (-52)))
    (.int_literal 0) empty_table empty_table empty_table initial_world initial_world
    initial_world (.float (.fin false 6755399441055744 (-52))) (.int 0) rfl rfl).2.2
    (.fin false 6755399441055744 (-52)) rfl rfl

/-! ## Addition, subtraction, multiplication -/

/-- C5, the failing input: for two string literals `s1 != s2` yields Bool true (the word
1) whatever the two texts, so `s != s` is true although `s == s` is true as well;
`NODE_NE` has no string case. -/
theorem ne_on_strings_always_true (h : Host) (s1 s2 s : String) (t : SymbolTable) (w : World) :
    eval_expression h 2 (.binary_op .NODE_NE (.string_literal s1) (.string_literal s2)) t w
      = .ok (.bool 1, t, w)
    ∧ eval_expression h 2 (.binary_op .NODE_NE (.string_literal s) (.string_literal s)) t w
      = .ok (.bool 1, t, w)
    ∧ eval_expression h 2 (.binary_op .NODE_EQ (.string_literal s) (.string_literal s)) t w
      = .ok (.bool 1, t, w) := by
  refine ⟨rfl, rfl, ?_⟩
  rw [eval_strict h 1 .NODE_EQ (.string_literal s) (.string_literal s) t t t w w w
    (.string s) (.string s) rfl rfl rfl]
  simp [binary_result, eval_eq, equal_eq, create_bool_value]

/-- C6: for operands `a`, `b` of any pairing of kinds other than Int/Int, Bool/Bool and
String/String, `a == b` yields Bool false (the word 0) and `a != b` yields Bool true (the
word 1), whatever the two values; `1.5 == 1.5` is false and `1.5 != 1.5` is true. -/
theorem eq_ne_other_pairings (h : Host) (fuel : Nat) (l r : ASTNode)
    (t t1 t2 : SymbolTable) (w w1 w2 : World) (a b : Value)
    (hl : eval_expression h fuel l t w = .ok (a, t1, w1))
    (hr : eval_expression h fuel r t1 w1 = .ok (b, t2, w2))
    (hk : ¬ a.sameScalarKind b) :
    eval_expression h (fuel + 1) (.binary_op .NODE_EQ l r) t w = .ok (.bool 0, t2, w2)
    ∧ eval_expression h (fuel + 1) (.binary_op .NODE_NE l r) t w = .ok (.bool 1, t2, w2)
    ∧ (∀ (t0 : SymbolTable) (w0 : World),
        eval_expression h 2
            (.binary_op .NODE_EQ (.float_literal (.fin false 6755399441055744 (-52)))
              (.float_literal (.fin false 6755399441055744 (-52)))) t0 w0
          = .ok (.bool 0, t0, w0))
    ∧ (∀ (t0 : SymbolTable) (w0 : World),
        eval_expression h 2
            (.binary_op .NODE_NE (.float_literal (.fin false 6755399441055744 (-52)))
              (.float_literal (.fin false 6755399441055744 (-52)))) t0 w0
          = .ok (.bool 1, t0, w0)) := by
  rw [eval_strict h fuel .NODE_EQ l r t t1 t2 w w1 w2 a b rfl hl hr,
    eval_strict h fuel .NODE_NE l r t t1 t2 w w1 w2 a b rfl hl hr]
  refine ⟨?_, ?_, fun _ _ => rfl, fun _ _ => rfl⟩ <;>
    cases a <;> cases b <;> simp [Value.sameScalarKind] at hk <;>
    simp [binary_result, eval_eq, eval_ne, equal_eq, equal_ne, lnot, create_bool_value]

/-- Witness of C6: a matrix compared with itself, `[1] == [1]`. -/
theorem eq_ne_other_pairings_witness :
    eval_expression sample_host 3
        (.binary_op .NODE_EQ (.list .NODE_ARRAY_LITERAL [.int_literal 1])
          (.list .NODE_ARRAY_LITERAL [.int_literal 1])) empty_table initial_world
      = .ok (.bool 0, empty_table, initial_world) :=
  (eq_ne_other_pairings sample_host 2 (.list .NODE_ARRAY_LITERAL [.int_literal 1])
    (.list .NODE_ARRAY_LITERAL [.int_literal 1]) empty_table empty_table empty_table
    initial_world initial_world initial_world
    (.matrix ⟨1, 1, [[Double.ofInt 1]]⟩) (.matrix ⟨1, 1, [[Double.ofInt 1]]⟩)
    rfl rfl (fun hk => hk)).1

/-! ## Logical operators -/

theorem eval_and_unfold (h : Host) (fuel : Nat) (l e : ASTNode) (t : SymbolTable) (w : World) :
    eval_expression h (fuel + 1) (.binary_op .NODE_AND l e) t w
      = eval_logical (eval_expression h fuel) false l e t w := by
  rw [eval_expression_succ]; rfl

theorem eval_or_unfold (h : Host) (fuel : Nat) (l e : ASTNode) (t : SymbolTable) (w : World) :
    eval_expression h (fuel + 1) (.binary_op .NODE_OR l e) t w
      = eval_logical (eval_expression h fuel) true l e t w := by
  rw [eval_expression_succ]; rfl

/-- C7: let the left operand evaluate to a Bool, leaving the table `t1` and the world `w1`.
For every right operand `e` whatever, `false and e` yields Bool false and `true or e`
yields Bool true with the table and the world exactly `t1` and `w1`, and no error: `e` is
not evaluated. When the left operand does not decide (`true and e`, `false or e`) and `e`
evaluates from `t1`, `w1` to a Bool, the result is that Bool and the table and the world
are those one evaluation of `e` leaves. -/
theorem and_or_short_circuit (h : Host) (fuel : Nat) (l e : ASTNode)
    (t t1 : SymbolTable) (w w1 : World) (b : Int)
    (hl : eval_expression h fuel l t w = .ok (.bool b, t1, w1)) :
    (b = 0 →
        eval_expression h (fuel + 1) (.binary_op .NODE_AND l e) t w = .ok (.bool 0, t1, w1))
    ∧ (b ≠ 0 →
        eval_expression h (fuel + 1) (.binary_op .NODE_OR l e) t w = .ok (.bool 1, t1, w1))
    ∧ (∀ (c : Int) (t2 : SymbolTable) (w2 : World),
        eval_expression h fuel e t1 w1 = .ok (.bool c, t2, w2) →
        (b ≠ 0 →
          eval_expression h (fuel + 1) (.binary_op .NODE_AND l e) t w
            = .ok (.bool c, t2, w2))
        ∧ (b = 0 →
          eval_expression h (fuel + 1) (.binary_op .NODE_OR l e) t w
            = .ok (.bool c, t2, w2))) := by
  rw [eval_and_unfold, eval_or_unfold]
  refine ⟨?_, ?_, ?_⟩
  · intro hb
    simp [eval_logical, hl, Value.bool_val, hb, create_bool_value]
  · intro hb
    simp [eval_logical, hl, Value.bool_val, hb, create_bool_value]
  · intro c t2 w2 he
    constructor
    · intro hb
      simp [eval_logical, hl, Value.bool_val, hb, he, create_bool_value]
    · intro hb
      simp [eval_logical, hl, Value.bool_val, hb, he, create_bool_value]

/-- Witness of C7: `false and (1 % 0)`, whose right operand would fail with modulo by
zero, yields Bool false. -/
theorem and_or_short_circuit_witness :
    eval_expression sample_host 2
        (.binary_op .NODE_AND (.bool_literal 0)
          (.binary_op .NODE_MOD (.int_literal 1) (.int_literal 0)))
        empty_table initial_world
      = .ok (.bool 0, empty_table, initial_world) :=
  (and_or_short_circuit sample_host 1 (.bool_literal 0)
    (.binary_op .NODE_MOD (.int_literal 1) (.int_literal 0))
    empty_table empty_table initial_world initial_world 0 rfl).1 rfl

/-! ## Matrix multiplication -/

/-- C8: when the operands of a matrix-multiply expression evaluate to `a` and `b`, the
evaluation fails with a runtime error if and only if one of them is not a matrix or, both
being matrices, the columns of `a` differ from the rows of `b`; a 2x3 matrix times a 4x2
matrix fails with the dimension-mismatch error. -/
theorem matrix_mul_fails_iff (h : Host) (fuel : Nat) (l r : ASTNode)
    (t t1 t2 : SymbolTable) (w w1 w2 : World) (a b : Value)
    (hl : eval_expression h fuel l t w = .ok (a, t1, w1))
    (hr : eval_expression h fuel r t1 w1 = .ok (b, t2, w2)) :
    ((∃ err : RuntimeError,
        eval_expression h (fuel + 1) (.binary_op .NODE_MATRIX_MUL l r) t w
          = .error (.exit err))
      ↔ (¬ (a.isMatrix ∧ b.isMatrix)
          ∨ ∃ ma mb : Matrix, a = .matrix ma ∧ b = .matrix mb ∧ ma.cols ≠ mb.rows))
    ∧ (¬ (a.isMatrix ∧ b.isMatrix) →
        eval_expression h (fuel + 1) (.binary_op .NODE_MATRIX_MUL l r) t w
          = .error (.exit .matrix_mul_requires_matrix))
    ∧ (∀ ma mb : Matrix, a = .matrix ma → b = .matrix mb →
        ma.rows = 2 → ma.cols = 3 → mb.rows = 4 → mb.cols = 2 →
        eval_expression h (fuel + 1) (.binary_op .NODE_MATRIX_MUL l r) t w
          = .error (.exit (.dimension_mismatch 2 3 4 2))) := by
  rw [eval_strict h fuel .NODE_MATRIX_MUL l r t t1 t2 w w1 w2 a b rfl hl hr]
  refine ⟨?_, ?_, ?_⟩
  · cases a <;> cases b <;>
      simp [binary_result, eval_matrix_mul, Except.map, Value.isMatrix]
    rename_i ma mb
    by_cases hd : ma.cols = mb.rows <;> simp [matrix_multiply, hd]
  · intro hk
    cases a <;> cases b <;> simp [Value.isMatrix] at hk <;>
      simp [binary_result, eval_matrix_mul, Except.map]
  · intro ma mb ha hb h1 h2 h3 h4
    subst ha hb
    simp [binary_result, eval_matrix_mul, Except.map, matrix_multiply, h1, h2, h3, h4]

/-- Witness of C8: `[[1, 2, 3], [4, 5, 6]]` times `[[1, 2], [3, 4], [5, 6], [7, 8]]`. -/
theorem matrix_mul_fails_iff_witness :
    eval_expression sample_host 4 (.binary_op .NODE_MATRIX_MUL literal_2x3 literal_4x2)
        empty_table initial_world
      = .error (.exit (.dimension_mismatch 2 3 4 2)) :=
  (matrix_mul_fails_iff sample_host 3 literal_2x3 literal_4x2 empty_table empty_table
    empty_table initial_world initial_world initial_world
    (.matrix matrix_2x3) (.matrix matrix_4x2) rfl rfl).2.2 matrix_2x3 matrix_4x2
    rfl rfl rfl rfl rfl rfl

/-! ## Matrices: stores and fill loops -/

theorem create_matrix_wellFormed (rows cols : Nat) : (create_matrix rows cols).WellFormed := by
  constructor
  · simp [create_matrix]
  · intro row hrow
    simp only [create_matrix] at hrow ⊢
    rw [List.eq_of_mem_replicate hrow]
    simp

theorem Matrix.set_wellFormed (mat : Matrix) (i j : Nat) (v : Double) (hm : mat.WellFormed) :
    (mat.set i j v).WellFormed := by
  obtain ⟨hlen, hrows⟩ := hm
  constructor
  · simp [Matrix.set, hlen]
  · intro row hrow
    simp only [Matrix.set] at hrow ⊢
    rcases List.mem_or_eq_of_mem_set hrow with hmem | heq
    · exact hrows row hmem
    · by_cases hi : i < mat.data.length
      · subst heq
        rw [List.length_set, List.getD_eq_getElem _ _ hi]
        exact hrows _ (List.getElem_mem hi)
      · rw [List.set_eq_of_length_le (Nat.le_of_not_lt hi)] at hrow
        exact hrows row hrow

theorem Matrix.get_set_same (mat : Matrix) (i j : Nat) (v : Double) (hm : mat.WellFormed)
    (hi : i < mat.rows) (hj : j < mat.cols) : (mat.set i j v).get i j = v := by
  obtain ⟨hlen, hrows⟩ := hm
  have hi1 : i < mat.data.length := hlen ▸ hi
  have hrow : (mat.data.getD i []).length = mat.cols := by
    rw [List.getD_eq_getElem _ _ hi1]
    exact hrows _ (List.getElem_mem hi1)
  simp only [Matrix.get, Matrix.set, List.getD_eq_getElem?_getD]
  rw [List.getElem?_set_self hi1]
  simp only [Option.getD_some]
  rw [List.getElem?_set_self (by rw [← List.getD_eq_getElem?_getD, hrow]; exact hj)]
  rfl

theorem Matrix.get_set_ne (mat : Matrix) (i j i1 j1 : Nat) (v : Double)
    (hne : i1 ≠ i ∨ j1 ≠ j) : (mat.set i j v).get i1 j1 = mat.get i1 j1 := by
  simp only [Matrix.get, Matrix.set, List.getD_eq_getElem?_getD]
  by_cases hi : i1 = i
  · subst hi
    have hj : j1 ≠ j := by
      rcases hne with h1 | h1
      · exact absurd rfl h1
      · exact h1
    by_cases hlt : i1 < mat.data.length
    · rw [List.getElem?_set_self hlt]
      simp only [Option.getD_some]
      rw [List.getElem?_set_ne (Ne.symm hj)]
    · rw [List.set_eq_of_length_le (Nat.le_of_not_lt hlt)]
  · rw [List.getElem?_set_ne (Ne.symm hi)]

theorem fill_matrix_row_succ (f : Nat → Nat → Double) (mat : Matrix) (i cols : Nat) :
    fill_matrix_row f mat i (cols + 1)
      = (fill_matrix_row f mat i cols).set i cols (f i cols) := by
  simp [fill_matrix_row, List.range_succ, List.foldl_append]

theorem fill_matrix_succ (f : Nat → Nat → Double) (mat : Matrix) (rows cols : Nat) :
    fill_matrix f mat (rows + 1) cols
      = fill_matrix_row f (fill_matrix f mat rows cols) rows cols := by
  simp [fill_matrix, List.range_succ, List.foldl_append]

/-- Filling the first `n` cells of row `i` keeps the shape, sets those cells and leaves
every other cell as it was. -/
theorem fill_matrix_row_spec (f : Nat → Nat → Double) (mat : Matrix) (i n : Nat)
    (hm : mat.WellFormed) (hi : i < mat.rows) (hn : n ≤ mat.cols) :
    (fill_matrix_row f mat i n).WellFormed
    ∧ (fill_matrix_row f mat i n).rows = mat.rows
    ∧ (fill_matrix_row f mat i n).cols = mat.cols
    ∧ (∀ j, j < n → (fill_matrix_row f mat i n).get i j = f i j)
    ∧ (∀ i1 j1, i1 ≠ i ∨ n ≤ j1 → (fill_matrix_row f mat i n).get i1 j1 = mat.get i1 j1) := by
  induction n with
  | zero =>
    refine ⟨hm, rfl, rfl, ?_, ?_⟩
    · intro j hj; exact absurd hj (Nat.not_lt_zero j)
    · intro i1 j1 _; rfl
  | succ n ih =>
    obtain ⟨hwf, hr, hc, hset, hkeep⟩ := ih (Nat.le_of_succ_le hn)
    rw [fill_matrix_row_succ]
    refine ⟨Matrix.set_wellFormed _ _ _ _ hwf, hr, hc, ?_, ?_⟩
    · intro j hj
      by_cases hjn : j = n
      · subst hjn
        exact Matrix.get_set_same _ _ _ _ hwf (hr ▸ hi) (hc ▸ hn)
      · rw [Matrix.get_set_ne _ _ _ _ _ _ (Or.inr hjn)]
        exact hset j (by omega)
    · intro i1 j1 hne
      have hne1 : i1 ≠ i ∨ j1 ≠ n := by
        rcases hne with h1 | h1
        · exact Or.inl h1
        · exact Or.inr (by omega)
      rw [Matrix.get_set_ne _ _ _ _ _ _ hne1]
      exact hkeep i1 j1 (by rcases hne with h1 | h1; exact Or.inl h1; exact Or.inr (by omega))

/-- Filling the first `n` rows keeps the shape, sets every cell of those rows and leaves
the other rows as they were. -/
theorem fill_matrix_spec (f : Nat → Nat → Double) (mat : Matrix) (n : Nat)
    (hm : mat.WellFormed) (hn : n ≤ mat.rows) :
    (fill_matrix f mat n mat.cols).WellFormed
    ∧ (fill_matrix f mat n mat.cols).rows = mat.rows
    ∧ (fill_matrix f mat n mat.cols).cols = mat.cols
    ∧ (∀ i j, i < n → j < mat.cols → (fill_matrix f mat n mat.cols).get i j = f i j)
    ∧ (∀ i1 j1, n ≤ i1 → (fill_matrix f mat n mat.cols).get i1 j1 = mat.get i1 j1) := by
  induction n with
  | zero =>
    refine ⟨hm, rfl, rfl, ?_, ?_⟩
    · intro i j hi; exact absurd hi (Nat.not_lt_zero i)
    · intro i1 j1 _; rfl
  | succ n ih =>
    obtain ⟨hwf, hr, hc, hset, hkeep⟩ := ih (Nat.le_of_succ_le hn)
    rw [fill_matrix_succ]
    obtain ⟨hwf1, hr1, hc1, hset1, hkeep1⟩ :=
      fill_matrix_row_spec f (fill_matrix f mat n mat.cols) n mat.cols hwf
        (by rw [hr]; omega) (by rw [hc])
    refine ⟨hwf1, hr1.trans hr, hc1.trans hc, ?_, ?_⟩
    · intro i j hi hj
      by_cases hin : i = n
      · subst hin
        exact hset1 j hj
      · rw [hkeep1 i j (Or.inl hin)]
        exact hset i j (by omega) hj
    · intro i1 j1 hi1
      rw [hkeep1 i1 j1 (Or.inl (by omega))]
      exact hkeep i1 j1 (by omega)

theorem matrix_multiply_eq_fill (a b : Matrix) (hd : a.cols = b.rows) :
    matrix_multiply a b
      = .ok (fill_matrix (matrix_multiply_cell a b) (create_matrix a.rows b.cols)
          a.rows b.cols) := by
  simp [matrix_multiply, hd, fill_matrix, fill_matrix_row]

/-! ## The matrix engine -/

/-- C9: for well-formed matrices `a` and `b` with `a.cols = b.rows`, `matrix_multiply`
returns a matrix with `a.rows` rows and `b.cols` columns, each row of `b.cols` elements,
whose cell `(i, j)` is the sum accumulated in increasing `k`, from an initial `0.0`, of
`a[i][k] * b[k][j]` for `k = 0 .. a.cols - 1`; when `a.cols = 0` every cell is `0.0`. -/
theorem matrix_multiply_cells (a b : Matrix) (_ha : a.WellFormed) (_hb : b.WellFormed)
    (hd : a.cols = b.rows) :
    ∃ result : Matrix,
      matrix_multiply a b = .ok result
      ∧ result.rows = a.rows ∧ result.cols = b.cols ∧ result.WellFormed
      ∧ (∀ i j, i < a.rows → j < b.cols →
          result.get i j
            = (List.range a.cols).foldl
                (fun sum k => Double.add sum (Double.mul (a.get i k) (b.get k j)))
                (Double.zero false))
      ∧ (a.cols = 0 → ∀ i j, i < a.rows → j < b.cols → result.get i j = Double.zero false) := by
  have hspec := fill_matrix_spec (matrix_multiply_cell a b) (create_matrix a.rows b.cols)
    a.rows (create_matrix_wellFormed a.rows b.cols) (Nat.le_refl _)
  obtain ⟨hwf, hr, hc, hset, _⟩ := hspec
  refine ⟨_, matrix_multiply_eq_fill a b hd, hr, hc, hwf, ?_, ?_⟩
  · intro i j hi hj
    exact hset i j hi hj
  · intro h0 i j hi hj
    rw [show (fill_matrix (matrix_multiply_cell a b) (create_matrix a.rows b.cols) a.rows
      b.cols).get i j = matrix_multiply_cell a b i j from hset i j hi hj]
    simp [matrix_multiply_cell, h0]

set_option maxRecDepth 100000 in
/-- Witness of C9: in `[[1, 2, 3], [4, 5, 6]]` times `[[1, 2], [3, 4], [5, 6]]` the cell
`(0, 0)` is `1*1 + 2*3 + 3*5 = 22`. -/
theorem matrix_multiply_cells_witness :
    ∃ result : Matrix,
      matrix_multiply matrix_2x3 matrix_3x2 = .ok result
      ∧ result.rows = 2 ∧ result.cols = 2 ∧ result.get 0 0 = Double.ofInt 22 := by
  obtain ⟨result, h1, h2, h3, _, hcell, _⟩ :=
    matrix_multiply_cells matrix_2x3 matrix_3x2
      (by simp [Matrix.WellFormed, matrix_2x3]) (by simp [Matrix.WellFormed, matrix_3x2]) rfl
  refine ⟨result, h1, h2, h3, ?_⟩
  rw [hcell 0 0 (by decide) (by decide)]
  rfl

/-! ## Array literals -/

theorem store_elem_row (N : Nat) (pre post : List Double) (elem : Value) :
    store_elem { rows := 1, cols := N, data := [pre ++ Double.zero false :: post] } 0
        pre.length elem
      = { rows := 1, cols := N, data := [pre ++ numeric_cell elem :: post] } := by
  have hset : ∀ v : Double,
      (pre ++ Double.zero false :: post).set pre.length v = pre ++ v :: post := by
    intro v
    rw [List.set_append]
    simp
  cases elem <;> simp [store_elem, numeric_cell, Matrix.set, hset]

theorem eval_items_length (ev : Eval) (items : List ASTNode) :
    ∀ (t : SymbolTable) (w : World) (vals : List Value) (t1 : SymbolTable) (w1 : World),
      eval_items ev items t w = .ok (vals, t1, w1) → vals.length = items.length := by
  induction items with
  | nil =>
    intro t w vals t1 w1 hev
    simp [eval_items] at hev
    simp [hev.1.symm]
  | cons item rest ih =>
    intro t w vals t1 w1 hev
    simp only [eval_items] at hev
    cases hitem : ev item t w with
    | error e => rw [hitem] at hev; cases hev
    | ok res =>
      obtain ⟨v, t2, w2⟩ := res
      rw [hitem] at hev
      simp only at hev
      cases hrest : eval_items ev rest t2 w2 with
      | error e => rw [hrest] at hev; cases hev
      | ok res2 =>
        obtain ⟨vs, t3, w3⟩ := res2
        rw [hrest] at hev
        simp only [Except.ok.injEq, Prod.mk.injEq] at hev
        obtain ⟨hv, _, _⟩ := hev
        subst hv
        simp [ih t2 w2 vs t3 w3 hrest]

/-- The cell loop over a single-row matrix whose cells from column `pre.length` on are
still zero: each cell receives the number of its element. -/
theorem fill_cells_row (ev : Eval) (N : Nat) (items : List ASTNode) :
    ∀ (pre : List Double) (t : SymbolTable) (w : World) (vals : List Value)
      (t1 : SymbolTable) (w1 : World),
      eval_items ev items t w = .ok (vals, t1, w1) →
      fill_cells ev items 0 pre.length
          { rows := 1, cols := N,
            data := [pre ++ List.replicate items.length (Double.zero false)] } t w
        = .ok ({ rows := 1, cols := N, data := [pre ++ vals.map numeric_cell] }, t1, w1) := by
  induction items with
  | nil =>
    intro pre t w vals t1 w1 hev
    simp [eval_items] at hev
    obtain ⟨hv, ht, hw⟩ := hev
    subst hv ht hw
    simp [fill_cells]
  | cons item rest ih =>
    intro pre t w vals t1 w1 hev
    simp only [eval_items] at hev
    cases hitem : ev item t w with
    | error e => rw [hitem] at hev; cases hev
    | ok res =>
      obtain ⟨v, t2, w2⟩ := res
      rw [hitem] at hev
      simp only at hev
      cases hrest : eval_items ev rest t2 w2 with
      | error e => rw [hrest] at hev; cases hev
      | ok res2 =>
        obtain ⟨vs, t3, w3⟩ := res2
        rw [hrest] at hev
        simp only [Except.ok.injEq, Prod.mk.injEq] at hev
        obtain ⟨hv, ht, hw⟩ := hev
        subst hv ht hw
        simp only [fill_cells, hitem, List.length_cons, List.replicate_succ]
        rw [store_elem_row]
        have := ih (pre ++ [numeric_cell v]) t2 w2 vs t3 w3 hrest
        simp only [List.length_append, List.length_singleton, List.append_assoc,
          List.singleton_append] at this
        simpa using this

theorem array_literal_flat_unfold (ev : Eval) (first : ASTNode) (rest : List ASTNode)
    (t : SymbolTable) (w : World) (hfirst : first.isArrayLiteral = false) :
    array_literal_to_matrix ev (.list .NODE_ARRAY_LITERAL (first :: rest)) t w
      = match fill_cells ev (first :: rest) 0 0 (create_matrix 1 (rest.length + 1)) t w with
        | .error e => .error e
        | .ok (mat, t1, w1) => .ok (.matrix mat, t1, w1) := by
  cases first <;> try rfl
  rename_i type items
  cases type <;> first | rfl | simp [ASTNode.isArrayLiteral] at hfirst

theorem eval_array_literal_unfold (h : Host) (fuel : Nat) (items : List ASTNode)
    (t : SymbolTable) (w : World) :
    eval_expression h (fuel + 1) (.list .NODE_ARRAY_LITERAL items) t w
      = array_literal_to_matrix (eval_expression h fuel) (.list .NODE_ARRAY_LITERAL items)
          t w := by
  rw [eval_expression_succ]; rfl

/-- C10: an array literal with `N >= 1` elements whose first element is not an array
literal, every element of which evaluates without error (to the values `vals`, left to
right), evaluates to a matrix with 1 row of `N` columns whose cell `(0, j)` is the number
of element `j` when that element is an Int or a Float, and `0.0` for any other kind of
value; the table and the world are those the evaluation of the elements leaves. -/
theorem flat_array_literal_row (h : Host) (fuel : Nat) (first : ASTNode) (rest : List ASTNode)
    (t t1 : SymbolTable) (w w1 : World) (vals : List Value)
    (hfirst : first.isArrayLiteral = false)
    (hev : eval_items (eval_expression h fuel) (first :: rest) t w = .ok (vals, t1, w1)) :
    ∃ mat : Matrix,
      eval_expression h (fuel + 1) (.list .NODE_ARRAY_LITERAL (first :: rest)) t w
        = .ok (.matrix mat, t1, w1)
      ∧ mat.rows = 1 ∧ mat.cols = rest.length + 1 ∧ mat.WellFormed
      ∧ vals.length = rest.length + 1
      ∧ (∀ (j : Nat) (hj : j < vals.length),
          (∀ i : Int, vals.get ⟨j, hj⟩ = .int i → mat.get 0 j = Double.ofInt i)
          ∧ (∀ d : Double, vals.get ⟨j, hj⟩ = .float d → mat.get 0 j = d)
          ∧ (¬ (vals.get ⟨j, hj⟩).isNumber → mat.get 0 j = Double.zero false)) := by
  have hlen := eval_items_length _ _ t w vals t1 w1 hev
  have hfill := fill_cells_row (eval_expression h fuel) (rest.length + 1) (first :: rest) []
    t w vals t1 w1 hev
  simp only [List.length_nil, List.nil_append, List.length_cons] at hfill
  have hcreate : create_matrix 1 (rest.length + 1)
      = { rows := 1, cols := rest.length + 1,
          data := [List.replicate (rest.length + 1) (Double.zero false)] } := by
    simp [create_matrix]
  refine ⟨Matrix.mk 1 (rest.length + 1) [vals.map numeric_cell], ?_, rfl, rfl, ?_,
    by simpa using hlen, ?_⟩
  · rw [eval_array_literal_unfold, array_literal_flat_unfold _ _ _ _ _ hfirst, hcreate, hfill]
  · constructor
    · simp
    · intro row hrow
      simp only [List.mem_singleton] at hrow
      subst hrow
      simpa using hlen
  · intro j hj
    have hget : Matrix.get (Matrix.mk 1 (rest.length + 1) [vals.map numeric_cell]) 0 j
        = numeric_cell (vals.get ⟨j, hj⟩) := by
      simp [Matrix.get, List.getD_eq_getElem?_getD, List.getElem?_eq_getElem hj]
    rw [hget]
    refine ⟨?_, ?_, ?_⟩
    · intro i hi; rw [hi]; rfl
    · intro d hd; rw [hd]; rfl
    · intro hk
      cases hv : vals.get ⟨j, hj⟩ <;> rw [hv] at hk <;>
        first | rfl | exact absurd trivial hk

/-- Witness of C10: the literal `[1, 1.5, "x", true]`. -/
theorem flat_array_literal_row_witness :
    ∃ mat : Matrix,
      eval_expression sample_host 2
          (.list .NODE_ARRAY_LITERAL
            [.int_literal 1, .float_literal one_and_a_half, .string_literal "x",
              .bool_literal 1]) empty_table initial_world
        = .ok (.matrix mat, empty_table, initial_world)
      ∧ mat.rows = 1 ∧ mat.cols = 4 := by
  obtain ⟨mat, h1, h2, h3, _⟩ :=
    flat_array_literal_row sample_host 1 (.int_literal 1)
      [.float_literal one_and_a_half, .string_literal "x", .bool_literal 1]
      empty_table empty_table initial_world initial_world
      [.int 1, .float one_and_a_half, .string "x", .bool 1] rfl rfl
  exact ⟨mat, h1, h2, h3⟩

/-! ## Symbol tables: lookup and binding -/

theorem find_in_list_eq_none_iff (head : List Symbol) (name : String) :
    find_in_list head name = none ↔ ¬ list_binds head name := by
  induction head with
  | nil => simp [find_in_list, list_binds]
  | cons s rest ih =>
    by_cases hs : s.name = name
    · simp [find_in_list, hs, list_binds]
    · simp only [find_in_list, hs, if_false, ih]
      simp [list_binds, hs]

theorem find_in_list_some_mem (head : List Symbol) (name : String) (v : Value)
    (hf : find_in_list head name = some v) : ∃ s ∈ head, s.name = name ∧ s.value = v := by
  induction head with
  | nil => simp [find_in_list] at hf
  | cons s rest ih =>
    by_cases hs : s.name = name
    · simp [find_in_list, hs] at hf
      exact ⟨s, List.mem_cons_self _ _, hs, hf⟩
    · simp [find_in_list, hs] at hf
      obtain ⟨s1, hmem, h1, h2⟩ := ih hf
      exact ⟨s1, List.mem_cons_of_mem _ hmem, h1, h2⟩

theorem set_in_list_eq_none_iff (head : List Symbol) (name : String) (v : Value) :
    set_in_list head name v = none ↔ ¬ list_binds head name := by
  induction head with
  | nil => simp [set_in_list, list_binds]
  | cons s rest ih =>
    by_cases hs : s.name = name
    · simp [set_in_list, hs, list_binds]
    · simp only [set_in_list, hs, if_false, Option.map_eq_none', ih]
      simp [list_binds, hs]

theorem set_in_list_some (head : List Symbol) (name : String) (v : Value) :
    ∀ head1 : List Symbol, set_in_list head name v = some head1 →
      head1.map Symbol.name = head.map Symbol.name
      ∧ find_in_list head1 name = some v
      ∧ (∀ other : String, other ≠ name → find_in_list head1 other = find_in_list head other) := by
  induction head with
  | nil => intro head1 hs; simp [set_in_list] at hs
  | cons s rest ih =>
    intro head1 hset
    by_cases hs : s.name = name
    · simp [set_in_list, hs] at hset
      subst hset
      refine ⟨by simp [hs], by simp [find_in_list, hs], ?_⟩
      intro other hne
      have hso : ¬ s.name = other := fun h => hne (h.symm.trans hs)
      have hno : ¬ name = other := fun h => hne h.symm
      simp [find_in_list, hso, hs, hno]
    · simp only [set_in_list, hs, if_false, Option.map_eq_some'] at hset
      obtain ⟨l, hl, hcons⟩ := hset
      subst hcons
      obtain ⟨h1, h2, h3⟩ := ih l hl
      refine ⟨by simp [h1], by simp [find_in_list, hs, h2], ?_⟩
      intro other hne
      by_cases ho : s.name = other
      · simp [find_in_list, ho]
      · simp [find_in_list, ho, h3 other hne]

theorem get_symbol_mk (head : List Symbol) (parent : Option SymbolTable) (rv : Value)
    (ret : Bool) (name : String) :
    get_symbol (.mk head parent rv ret) name
      = match find_in_list head name with
        | some v => some v
        | none =>
          match parent with
          | some p => get_symbol p name
          | none => none := by
  cases hf : find_in_list head name <;> cases parent <;> simp [get_symbol, hf]

theorem get_symbol_depth_mk (head : List Symbol) (parent : Option SymbolTable) (rv : Value)
    (ret : Bool) (name : String) :
    get_symbol_depth (.mk head parent rv ret) name
      = match find_in_list head name with
        | some _ => some 0
        | none =>
          match parent with
          | some p => (get_symbol_depth p name).map (fun d => d + 1)
          | none => none := by
  cases hf : find_in_list head name <;> cases parent <;> simp [get_symbol_depth, hf]

theorem ancestor_zero (table : SymbolTable) : table.ancestor 0 = some table := by
  cases table; simp [SymbolTable.ancestor]

theorem ancestor_succ (head : List Symbol) (parent : Option SymbolTable) (rv : Value)
    (ret : Bool) (depth : Nat) :
    (SymbolTable.mk head parent rv ret).ancestor (depth + 1)
      = match parent with
        | some p => p.ancestor depth
        | none => none := by
  cases parent <;> simp [SymbolTable.ancestor]

theorem chain_binds_mk (head : List Symbol) (parent : Option SymbolTable) (rv : Value)
    (ret : Bool) (name : String) :
    chain_binds (.mk head parent rv ret) name
      ↔ list_binds head name ∨ ∃ p, parent = some p ∧ chain_binds p name := by
  constructor
  · rintro ⟨depth, t, hanc, hb⟩
    cases depth with
    | zero =>
      rw [ancestor_zero] at hanc
      cases hanc
      exact Or.inl hb
    | succ d =>
      rw [ancestor_succ] at hanc
      cases parent with
      | none => cases hanc
      | some p => exact Or.inr ⟨p, rfl, d, t, hanc, hb⟩
  · rintro (hb | ⟨p, hp, d, t, hanc, hb⟩)
    · exact ⟨0, _, ancestor_zero _, hb⟩
    · subst hp
      exact ⟨d + 1, t, by rw [ancestor_succ]; exact hanc, hb⟩

theorem get_symbol_eq_none_iff :
    ∀ (table : SymbolTable) (name : String),
      get_symbol table name = none ↔ ¬ chain_binds table name
  | .mk head none rv ret, name => by
    rw [get_symbol_mk, chain_binds_mk]
    cases hf : find_in_list head name with
    | none => simp [(find_in_list_eq_none_iff head name).mp hf]
    | some v =>
      have hb : list_binds head name := by
        by_contra hnb
        rw [(find_in_list_eq_none_iff head name).mpr hnb] at hf
        cases hf
      simp [hb]
  | .mk head (some p) rv ret, name => by
    have ih := get_symbol_eq_none_iff p name
    rw [get_symbol_mk, chain_binds_mk]
    cases hf : find_in_list head name with
    | none => simp [(find_in_list_eq_none_iff head name).mp hf, ih]
    | some v =>
      have hb : list_binds head name := by
        by_contra hnb
        rw [(find_in_list_eq_none_iff head name).mpr hnb] at hf
        cases hf
      simp [hb]

theorem get_symbol_depth_eq_none_iff :
    ∀ (table : SymbolTable) (name : String),
      get_symbol_depth table name = none ↔ get_symbol table name = none
  | .mk head none rv ret, name => by
    rw [get_symbol_mk, get_symbol_depth_mk]
    cases hf : find_in_list head name <;> simp
  | .mk head (some p) rv ret, name => by
    have ih := get_symbol_depth_eq_none_iff p name
    rw [get_symbol_mk, get_symbol_depth_mk]
    cases hf : find_in_list head name <;> simp [ih]

theorem eval_identifier_unfold (h : Host) (fuel : Nat) (name : String) (table : SymbolTable)
    (w : World) :
    eval_expression h (fuel + 1) (.identifier name) table w
      = match get_symbol table name with
        | some val => .ok (copy_value val, table, w)
        | none => .error (.exit (.undefined_variable name)) := by
  rw [eval_expression_succ]; rfl

/-- C13: `get_symbol(scope, name)` yields the entry of the scope itself when it has one
called `name` (whatever the parent chain holds, so a local binding shadows an ancestor's),
otherwise the result of the lookup in the parent, and nothing when there is no parent; it
yields no binding if and only if no table on the chain from the scope to the root binds
`name`, and evaluating an identifier with no binding fails with the undefined-variable
error. -/
theorem get_symbol_lookup (head : List Symbol) (parent : Option SymbolTable) (rv : Value)
    (ret : Bool) (name : String) :
    (∀ v : Value, find_in_list head name = some v →
        get_symbol (.mk head parent rv ret) name = some v
        ∧ ∃ s ∈ head, s.name = name ∧ s.value = v)
    ∧ (¬ list_binds head name →
        get_symbol (.mk head parent rv ret) name
          = match parent with
            | some p => get_symbol p name
            | none => none)
    ∧ (list_binds head name → ∃ s ∈ head, s.name = name ∧
        get_symbol (.mk head parent rv ret) name = some s.value)
    ∧ (get_symbol (.mk head parent rv ret) name = none
        ↔ ¬ chain_binds (.mk head parent rv ret) name)
    ∧ (∀ (h : Host) (fuel : Nat) (w : World),
        ¬ chain_binds (.mk head parent rv ret) name →
        eval_expression h (fuel + 1) (.identifier name) (.mk head parent rv ret) w
          = .error (.exit (.undefined_variable name))) := by
  refine ⟨?_, ?_, ?_, get_symbol_eq_none_iff _ _, ?_⟩
  · intro v hf
    exact ⟨by rw [get_symbol_mk, hf], find_in_list_some_mem head name v hf⟩
  · intro hnb
    rw [get_symbol_mk, (find_in_list_eq_none_iff head name).mpr hnb]
  · intro hb
    cases hf : find_in_list head name with
    | none => exact absurd hb ((find_in_list_eq_none_iff head name).mp hf)
    | some v =>
      obtain ⟨s, hmem, hn, hv⟩ := find_in_list_some_mem head name v hf
      exact ⟨s, hmem, hn, by rw [get_symbol_mk, hf, hv]⟩
  · intro h fuel w hnb
    rw [eval_identifier_unfold, (get_symbol_eq_none_iff _ _).mpr hnb]

/-- Witness of C13: in a function scope that binds `y`, under a global table that binds
`x`, the identifier `z` is undefined. -/
theorem get_symbol_lookup_witness :
    eval_expression sample_host 1 (.identifier "z") sample_scope initial_world
      = .error (.exit (.undefined_variable "z")) :=
  (get_symbol_lookup [{ name := "y", value := .int 2 }] (some sample_global)
    create_void_value false "z").2.2.2.2 sample_host 0 initial_world
    ((get_symbol_eq_none_iff sample_scope "z").mp rfl)

theorem set_symbol_mk (head : List Symbol) (parent : Option SymbolTable) (rv : Value)
    (ret : Bool) (name : String) (v : Value) :
    set_symbol (.mk head parent rv ret) name v
      = match set_in_list head name v with
        | some head1 => .mk head1 parent rv ret
        | none => .mk ({ name := name, value := v } :: head) parent rv ret := by
  rfl

theorem get_symbol_set_symbol_same (table : SymbolTable) (name : String) (v : Value) :
    get_symbol (set_symbol table name v) name = some v := by
  obtain ⟨head, parent, rv, ret⟩ := table
  rw [set_symbol_mk]
  cases hs : set_in_list head name v with
  | none => simp [get_symbol_mk, find_in_list]
  | some head1 => simp [get_symbol_mk, (set_in_list_some head name v head1 hs).2.1]

theorem get_symbol_set_symbol_other (table : SymbolTable) (name other : String) (v : Value)
    (hne : other ≠ name) :
    get_symbol (set_symbol table name v) other = get_symbol table other := by
  obtain ⟨head, parent, rv, ret⟩ := table
  rw [set_symbol_mk]
  cases hs : set_in_list head name v with
  | none =>
    have hno : ¬ name = other := fun h => hne h.symm
    simp [get_symbol_mk, find_in_list, hno]
  | some head1 =>
    simp [get_symbol_mk, (set_in_list_some head name v head1 hs).2.2 other hne]

theorem set_symbol_parent (table : SymbolTable) (name : String) (v : Value) :
    (set_symbol table name v).parent = table.parent
    ∧ (set_symbol table name v).return_value = table.return_value
    ∧ (set_symbol table name v).is_returning = table.is_returning := by
  obtain ⟨head, parent, rv, ret⟩ := table
  rw [set_symbol_mk]
  cases hs : set_in_list head name v <;>
    simp [SymbolTable.parent, SymbolTable.return_value, SymbolTable.is_returning]

theorem set_symbol_head_bound (table : SymbolTable) (name : String) (v : Value)
    (hb : list_binds table.head name) :
    (set_symbol table name v).head.map Symbol.name = table.head.map Symbol.name := by
  obtain ⟨head, parent, rv, ret⟩ := table
  rw [set_symbol_mk]
  cases hs : set_in_list head name v with
  | none => exact absurd hb ((set_in_list_eq_none_iff head name v).mp hs)
  | some head1 => exact (set_in_list_some head name v head1 hs).1

theorem set_symbol_head_unbound (table : SymbolTable) (name : String) (v : Value)
    (hb : ¬ list_binds table.head name) :
    (set_symbol table name v).head = { name := name, value := v } :: table.head := by
  obtain ⟨head, parent, rv, ret⟩ := table
  rw [set_symbol_mk, (set_in_list_eq_none_iff head name v).mpr hb]
  rfl

/-- C14: after `set_symbol(scope, name, v)` the lookup of `name` from the scope yields
`v`; the lookup of every other name is unchanged; the parent chain (and the return state
of the scope) is unchanged; when `name` was bound locally the list of entry names is the
same, and when it was not the entries are the old ones with one new entry in front; so
pairwise distinct entry names stay pairwise distinct. -/
theorem set_symbol_frame (scope : SymbolTable) (name : String) (v : Value) :
    get_symbol (set_symbol scope name v) name = some v
    ∧ (∀ other : String, other ≠ name →
        get_symbol (set_symbol scope name v) other = get_symbol scope other)
    ∧ (set_symbol scope name v).parent = scope.parent
    ∧ (set_symbol scope name v).return_value = scope.return_value
    ∧ (set_symbol scope name v).is_returning = scope.is_returning
    ∧ (list_binds scope.head name →
        (set_symbol scope name v).head.map Symbol.name = scope.head.map Symbol.name
        ∧ (set_symbol scope name v).head.length = scope.head.length)
    ∧ (¬ list_binds scope.head name →
        (set_symbol scope name v).head = { name := name, value := v } :: scope.head
        ∧ (set_symbol scope name v).head.length = scope.head.length + 1)
    ∧ ((scope.head.map Symbol.name).Nodup →
        ((set_symbol scope name v).head.map Symbol.name).Nodup) := by
  refine ⟨get_symbol_set_symbol_same scope name v,
    fun other hne => get_symbol_set_symbol_other scope name other v hne,
    (set_symbol_parent scope name v).1, (set_symbol_parent scope name v).2.1,
    (set_symbol_parent scope name v).2.2, ?_, ?_, ?_⟩
  · intro hb
    have hnames := set_symbol_head_bound scope name v hb
    refine ⟨hnames, ?_⟩
    have := congrArg List.length hnames
    simpa using this
  · intro hb
    have hhead := set_symbol_head_unbound scope name v hb
    exact ⟨hhead, by rw [hhead]; rfl⟩
  · intro hnd
    by_cases hb : list_binds scope.head name
    · rw [set_symbol_head_bound scope name v hb]; exact hnd
    · rw [set_symbol_head_unbound scope name v hb]
      simp only [List.map_cons, List.nodup_cons]
      refine ⟨?_, hnd⟩
      intro hmem
      rw [List.mem_map] at hmem
      obtain ⟨s, hs, hn⟩ := hmem
      exact hb ⟨s, hs, hn⟩

/-- Witness of C14: binding `x` in a function scope whose parent binds `x` leaves the
parent as it was. -/
theorem set_symbol_frame_witness :
    get_symbol (set_symbol sample_scope "x" (.int 5)) "x" = some (.int 5)
    ∧ (set_symbol sample_scope "x" (.int 5)).parent = some sample_global :=
  ⟨(set_symbol_frame sample_scope "x" (.int 5)).1,
    (set_symbol_frame sample_scope "x" (.int 5)).2.2.1⟩

/-! ## Well-formed matrices -/

theorem copy_matrix_eq_fill (orig : Matrix) :
    copy_matrix orig
      = fill_matrix (fun i j => orig.get i j) (create_matrix orig.rows orig.cols)
          orig.rows orig.cols := by
  simp [copy_matrix, fill_matrix, fill_matrix_row]

theorem copy_matrix_wellFormed (orig : Matrix) :
    (copy_matrix orig).WellFormed ∧ (copy_matrix orig).rows = orig.rows
      ∧ (copy_matrix orig).cols = orig.cols := by
  rw [copy_matrix_eq_fill]
  obtain ⟨hwf, hr, hc, _, _⟩ :=
    fill_matrix_spec (fun i j => orig.get i j) (create_matrix orig.rows orig.cols) orig.rows
      (create_matrix_wellFormed _ _) (Nat.le_refl _)
  exact ⟨hwf, hr, hc⟩

theorem matrix_multiply_wellFormed (a b result : Matrix)
    (hm : matrix_multiply a b = .ok result) :
    result.WellFormed ∧ result.rows = a.rows ∧ result.cols = b.cols := by
  by_cases hd : a.cols = b.rows
  · rw [matrix_multiply_eq_fill a b hd] at hm
    simp only [Except.ok.injEq] at hm
    subst hm
    obtain ⟨hwf, hr, hc, _, _⟩ :=
      fill_matrix_spec (matrix_multiply_cell a b) (create_matrix a.rows b.cols) a.rows
        (create_matrix_wellFormed _ _) (Nat.le_refl _)
    exact ⟨hwf, hr, hc⟩
  · simp [matrix_multiply, hd] at hm

theorem store_elem_wellFormed (mat : Matrix) (i j : Nat) (elem : Value) (hm : mat.WellFormed) :
    (store_elem mat i j elem).WellFormed ∧ (store_elem mat i j elem).rows = mat.rows
      ∧ (store_elem mat i j elem).cols = mat.cols := by
  cases elem <;>
    first
    | exact ⟨hm, rfl, rfl⟩
    | exact ⟨Matrix.set_wellFormed _ _ _ _ hm, rfl, rfl⟩

theorem fill_cells_wellFormed (ev : Eval) (items : List ASTNode) :
    ∀ (i j : Nat) (mat : Matrix) (t : SymbolTable) (w : World) (mat1 : Matrix)
      (t1 : SymbolTable) (w1 : World),
      fill_cells ev items i j mat t w = .ok (mat1, t1, w1) → mat.WellFormed →
      mat1.WellFormed ∧ mat1.rows = mat.rows ∧ mat1.cols = mat.cols := by
  induction items with
  | nil =>
    intro i j mat t w mat1 t1 w1 hf hm
    simp [fill_cells] at hf
    obtain ⟨h1, _, _⟩ := hf
    subst h1
    exact ⟨hm, rfl, rfl⟩
  | cons item rest ih =>
    intro i j mat t w mat1 t1 w1 hf hm
    simp only [fill_cells] at hf
    cases hitem : ev item t w with
    | error e => rw [hitem] at hf; cases hf
    | ok res =>
      obtain ⟨elem, t2, w2⟩ := res
      rw [hitem] at hf
      simp only at hf
      obtain ⟨hwf, hr, hc⟩ := store_elem_wellFormed mat i j elem hm
      obtain ⟨hwf1, hr1, hc1⟩ := ih i (j + 1) _ t2 w2 mat1 t1 w1 hf hwf
      exact ⟨hwf1, hr1.trans hr, hc1.trans hc⟩

theorem isArrayLiteral_true (node : ASTNode) (hn : node.isArrayLiteral = true) :
    ∃ items : List ASTNode, node = .list .NODE_ARRAY_LITERAL items := by
  cases node <;> try (simp [ASTNode.isArrayLiteral] at hn; done)
  rename_i type items
  cases type <;> try (simp [ASTNode.isArrayLiteral] at hn; done)
  exact ⟨items, rfl⟩

theorem fill_rows_not_literal (ev : Eval) (row : ASTNode) (rest : List ASTNode) (i cols : Nat)
    (mat : Matrix) (t : SymbolTable) (w : World) (hrow : row.isArrayLiteral = false) :
    fill_rows ev (row :: rest) i cols mat t w = .error (.exit .matrix_row_must_be_array) := by
  cases row <;> try rfl
  rename_i type items
  cases type <;> first | rfl | (simp [ASTNode.isArrayLiteral] at hrow)

theorem fill_rows_literal (ev : Eval) (items rest : List ASTNode) (i cols : Nat)
    (mat : Matrix) (t : SymbolTable) (w : World) :
    fill_rows ev (.list .NODE_ARRAY_LITERAL items :: rest) i cols mat t w
      = if items.length ≠ cols then .error (.exit .matrix_rows_same_length)
        else
          match fill_cells ev items i 0 mat t w with
          | .error e => .error e
          | .ok (mat1, t1, w1) => fill_rows ev rest (i + 1) cols mat1 t1 w1 := by
  rfl

theorem array_literal_not_literal (ev : Eval) (node : ASTNode) (t : SymbolTable) (w : World)
    (hnode : node.isArrayLiteral = false) :
    array_literal_to_matrix ev node t w = .error (.exit .expected_array_literal) := by
  cases node <;> try rfl
  rename_i type items
  cases type <;> first | rfl | (simp [ASTNode.isArrayLiteral] at hnode)

theorem array_literal_nested_unfold (ev : Eval) (first_items : List ASTNode)
    (rest : List ASTNode) (t : SymbolTable) (w : World) :
    array_literal_to_matrix ev
        (.list .NODE_ARRAY_LITERAL (.list .NODE_ARRAY_LITERAL first_items :: rest)) t w
      = match fill_rows ev (.list .NODE_ARRAY_LITERAL first_items :: rest) 0 first_items.length
            (create_matrix (rest.length + 1) first_items.length) t w with
        | .error e => .error e
        | .ok (mat, t1, w1) => .ok (.matrix mat, t1, w1) := by
  rfl

theorem fill_rows_wellFormed (ev : Eval) (rows : List ASTNode) :
    ∀ (i cols : Nat) (mat : Matrix) (t : SymbolTable) (w : World) (mat1 : Matrix)
      (t1 : SymbolTable) (w1 : World),
      fill_rows ev rows i cols mat t w = .ok (mat1, t1, w1) → mat.WellFormed →
      mat1.WellFormed ∧ mat1.rows = mat.rows ∧ mat1.cols = mat.cols := by
  induction rows with
  | nil =>
    intro i cols mat t w mat1 t1 w1 hf hm
    simp [fill_rows] at hf
    obtain ⟨h1, _, _⟩ := hf
    subst h1
    exact ⟨hm, rfl, rfl⟩
  | cons row rest ih =>
    intro i cols mat t w mat1 t1 w1 hf hm
    cases hrow : row.isArrayLiteral with
    | false => rw [fill_rows_not_literal ev row rest i cols mat t w hrow] at hf; cases hf
    | true =>
      obtain ⟨items, hitems⟩ := isArrayLiteral_true row hrow
      subst hitems
      rw [fill_rows_literal] at hf
      by_cases hlen : items.length = cols
      · simp only [hlen, ne_eq, not_true_eq_false, if_false] at hf
        cases hcells : fill_cells ev items i 0 mat t w with
        | error e => rw [hcells] at hf; cases hf
        | ok res =>
          obtain ⟨mat2, t2, w2⟩ := res
          rw [hcells] at hf
          simp only at hf
          obtain ⟨hwf, hr, hc⟩ := fill_cells_wellFormed ev items i 0 mat t w mat2 t2 w2 hcells hm
          obtain ⟨hwf1, hr1, hc1⟩ := ih (i + 1) cols mat2 t2 w2 mat1 t1 w1 hf hwf
          exact ⟨hwf1, hr1.trans hr, hc1.trans hc⟩
      · simp [hlen] at hf

theorem array_literal_to_matrix_wellFormed (ev : Eval) (node : ASTNode) (t : SymbolTable)
    (w : World) (v : Value) (t1 : SymbolTable) (w1 : World)
    (ha : array_literal_to_matrix ev node t w = .ok (v, t1, w1)) :
    ∃ mat : Matrix, v = .matrix mat ∧ mat.WellFormed := by
  cases hnode : node.isArrayLiteral with
  | false => rw [array_literal_not_literal ev node t w hnode] at ha; cases ha
  | true =>
    obtain ⟨items, hitems⟩ := isArrayLiteral_true node hnode
    subst hitems
    cases items with
    | nil =>
      simp only [array_literal_to_matrix, Except.ok.injEq, Prod.mk.injEq] at ha
      exact ⟨create_matrix 0 0, ha.1.symm, create_matrix_wellFormed 0 0⟩
    | cons first rest =>
      cases hfirst : first.isArrayLiteral with
      | false =>
        rw [array_literal_flat_unfold ev first rest t w hfirst] at ha
        cases hcells : fill_cells ev (first :: rest) 0 0 (create_matrix 1 (rest.length + 1)) t w with
        | error e => rw [hcells] at ha; cases ha
        | ok res =>
          obtain ⟨mat, t2, w2⟩ := res
          rw [hcells] at ha
          simp only [Except.ok.injEq, Prod.mk.injEq] at ha
          exact ⟨mat, ha.1.symm,
            (fill_cells_wellFormed ev _ 0 0 _ t w mat t2 w2 hcells
              (create_matrix_wellFormed _ _)).1⟩
      | true =>
        obtain ⟨fitems, hfitems⟩ := isArrayLiteral_true first hfirst
        subst hfitems
        rw [array_literal_nested_unfold] at ha
        cases hrows : fill_rows ev (ASTNode.list ListType.NODE_ARRAY_LITERAL fitems :: rest) 0
            fitems.length (create_matrix (rest.length + 1) fitems.length) t w with
        | error e => rw [hrows] at ha; cases ha
        | ok res =>
          obtain ⟨mat, t2, w2⟩ := res
          rw [hrows] at ha
          simp only [Except.ok.injEq, Prod.mk.injEq] at ha
          exact ⟨mat, ha.1.symm,
            (fill_rows_wellFormed ev _ 0 _ _ t w mat t2 w2 hrows
              (create_matrix_wellFormed _ _)).1⟩

theorem copy_value_wellFormed (v : Value) : (copy_value v).WellFormed := by
  cases v <;> first | exact trivial | exact (copy_matrix_wellFormed _).1

theorem arith_wellFormed (iop : Int → Int → Int) (fop : Double → Double → Double)
    (l r v : Value) (hres : arith iop fop l r = .ok v) : v.WellFormed := by
  unfold arith at hres
  repeat' split at hres
  all_goals (cases hres; try exact trivial)

theorem eval_div_wellFormed (l r v : Value) (hres : eval_div l r = .ok v) : v.WellFormed := by
  unfold eval_div at hres
  repeat' split at hres
  all_goals (cases hres; try exact trivial)

theorem eval_logical_wellFormed (ev : Eval) (is_or : Bool) (l r : ASTNode) (t : SymbolTable)
    (w : World) (v : Value) (t1 : SymbolTable) (w1 : World)
    (hres : eval_logical ev is_or l r t w = .ok (v, t1, w1)) : v.WellFormed := by
  unfold eval_logical at hres
  repeat' split at hres
  all_goals (cases hres; try exact trivial)

theorem eval_mod_wellFormed (l r v : Value) (hres : eval_mod l r = .ok v) : v.WellFormed := by
  unfold eval_mod at hres
  repeat' split at hres
  all_goals (cases hres; try exact trivial)

theorem eval_compare_wellFormed (cmp : Double → Double → Bool) (l r v : Value)
    (hres : eval_compare cmp l r = .ok v) : v.WellFormed := by
  unfold eval_compare at hres
  repeat' split at hres
  all_goals (cases hres; try exact trivial)

theorem eval_matrix_mul_wellFormed (l r v : Value) (hres : eval_matrix_mul l r = .ok v) :
    v.WellFormed := by
  unfold eval_matrix_mul at hres
  split at hres
  · rename_i a b
    cases hm : matrix_multiply a b with
    | error e => rw [hm] at hres; cases hres
    | ok result_mat =>
      rw [hm] at hres
      cases hres
      exact (matrix_multiply_wellFormed a b result_mat hm).1
  · cases hres

theorem except_map_ok {α β : Type} (x : Except Halt α) (f : α → β) (y : β)
    (hm : x.map f = .ok y) : ∃ a : α, x = .ok a ∧ f a = y := by
  cases x with
  | error e => cases hm
  | ok a => exact ⟨a, rfl, by cases hm; rfl⟩

theorem binary_result_wellFormed (h : Host) (op : BinaryOp) (l r : Value) (w : World)
    (v : Value) (w1 : World) (hres : binary_result h op l r w = .ok (v, w1)) :
    v.WellFormed := by
  cases op <;> simp only [binary_result] at hres
  case NODE_ADD =>
    obtain ⟨a, ha, hfa⟩ := except_map_ok _ _ _ hres
    cases hfa; exact arith_wellFormed _ _ l r _ ha
  case NODE_SUB =>
    obtain ⟨a, ha, hfa⟩ := except_map_ok _ _ _ hres
    cases hfa; exact arith_wellFormed _ _ l r _ ha
  case NODE_MUL =>
    obtain ⟨a, ha, hfa⟩ := except_map_ok _ _ _ hres
    cases hfa; exact arith_wellFormed _ _ l r _ ha
  case NODE_DIV =>
    obtain ⟨a, ha, hfa⟩ := except_map_ok _ _ _ hres
    cases hfa; exact eval_div_wellFormed l r _ ha
  case NODE_MOD =>
    obtain ⟨a, ha, hfa⟩ := except_map_ok _ _ _ hres
    cases hfa; exact eval_mod_wellFormed l r _ ha
  case NODE_MATRIX_MUL =>
    obtain ⟨a, ha, hfa⟩ := except_map_ok _ _ _ hres
    cases hfa; exact eval_matrix_mul_wellFormed l r _ ha
  case NODE_LT =>
    obtain ⟨a, ha, hfa⟩ := except_map_ok _ _ _ hres
    cases hfa; exact eval_compare_wellFormed _ l r _ ha
  case NODE_GT =>
    obtain ⟨a, ha, hfa⟩ := except_map_ok _ _ _ hres
    cases hfa; exact eval_compare_wellFormed _ l r _ ha
  case NODE_LE =>
    obtain ⟨a, ha, hfa⟩ := except_map_ok _ _ _ hres
    cases hfa; exact eval_compare_wellFormed _ l r _ ha
  case NODE_GE =>
    obtain ⟨a, ha, hfa⟩ := except_map_ok _ _ _ hres
    cases hfa; exact eval_compare_wellFormed _ l r _ ha
  case NODE_EQ => cases hres; exact trivial
  case NODE_NE => cases hres; exact trivial
  case NODE_PATTERN_MATCH =>
    unfold eval_pattern_match at hres
    repeat' split at hres
    all_goals (cases hres; try exact trivial)
  all_goals cases hres

theorem inc_dec_wellFormed (name : String) (dec post : Bool) (t : SymbolTable) (w : World)
    (v : Value) (t1 : SymbolTable) (w1 : World)
    (hres : inc_dec name dec post t w = .ok (v, t1, w1)) : v.WellFormed := by
  unfold inc_dec at hres
  repeat' split at hres
  all_goals (cases hres; try exact trivial)

theorem compound_assign_wellFormed (ev : Eval) (combine : Value → Value → Except Halt Value)
    (hc : ∀ l r v, combine l r = .ok v → v.WellFormed)
    (name : String) (right : ASTNode) (t : SymbolTable) (w : World)
    (v : Value) (t1 : SymbolTable) (w1 : World)
    (hres : compound_assign ev combine name right t w = .ok (v, t1, w1)) : v.WellFormed := by
  unfold compound_assign at hres
  simp only at hres
  repeat' split at hres
  all_goals (cases hres; try exact trivial)
  exact hc _ _ _ (by assumption)

theorem builtin_print_wellFormed (ev : Eval) (args : Option ASTNode) (t : SymbolTable)
    (w : World) (v : Value) (t1 : SymbolTable) (w1 : World)
    (hres : builtin_print ev args t w = .ok (v, t1, w1)) : v.WellFormed := by
  unfold builtin_print at hres
  repeat' split at hres
  all_goals (cases hres; try exact trivial)

theorem builtin_printm_wellFormed (ev : Eval) (args : Option ASTNode) (t : SymbolTable)
    (w : World) (v : Value) (t1 : SymbolTable) (w1 : World)
    (hres : builtin_printm ev args t w = .ok (v, t1, w1)) : v.WellFormed := by
  unfold builtin_printm at hres
  repeat' split at hres
  all_goals (cases hres; try exact trivial)

theorem builtin_read_wellFormed (h : Host) (w : World) : (builtin_read h w).1.WellFormed := by
  unfold builtin_read
  repeat' split
  all_goals exact trivial

theorem call_function_wellFormed (ev : Eval) (ex : Exec) (func_name : String)
    (args : Option ASTNode) (t : SymbolTable) (w : World)
    (v : Value) (t1 : SymbolTable) (w1 : World)
    (hres : call_function ev ex func_name args t w = .ok (v, t1, w1)) : v.WellFormed := by
  unfold call_function at hres
  simp only at hres
  repeat' split at hres
  all_goals (cases hres; try exact copy_value_wellFormed _)

theorem unhandled_wellFormed (t : SymbolTable) (w : World) (v : Value) (t1 : SymbolTable)
    (w1 : World) (hres : unhandled t w = .ok (v, t1, w1)) : v.WellFormed := by
  cases hres; exact trivial

/-- The body of `eval_expression` returns well-formed values when the recursive calls
do. -/
theorem eval_node_wellFormed (h : Host) (ev : Eval) (ex : Exec)
    (hev : returns_well_formed ev) : returns_well_formed (eval_node h ev ex) := by
  intro node t w v t1 w1 hres
  cases node
  case int_literal => cases hres; exact trivial
  case float_literal => cases hres; exact trivial
  case string_literal => cases hres; exact trivial
  case bool_literal => cases hres; exact trivial
  case identifier name =>
    simp only [eval_node] at hres
    split at hres
    · cases hres; exact copy_value_wellFormed _
    · cases hres
  case binary_op op l r =>
    cases op
    case NODE_AND => exact eval_logical_wellFormed ev _ l r t w v t1 w1 hres
    case NODE_OR => exact eval_logical_wellFormed ev _ l r t w v t1 w1 hres
    case NODE_ASSIGN =>
      simp only [eval_node] at hres
      cases hr : ev r t w with
      | error e => rw [hr] at hres; cases hres
      | ok res =>
        obtain ⟨val, t2, w2⟩ := res
        rw [hr] at hres
        simp only at hres
        have hval := hev r t w val t2 w2 hr
        split at hres <;> (cases hres; exact hval)
    case NODE_PLUS_ASSIGN =>
      simp only [eval_node] at hres
      split at hres
      · exact compound_assign_wellFormed ev _ (arith_wellFormed _ _) _ _ _ _ _ _ _ hres
      · cases hres; exact trivial
    case NODE_MINUS_ASSIGN =>
      simp only [eval_node] at hres
      split at hres
      · exact compound_assign_wellFormed ev _ (arith_wellFormed _ _) _ _ _ _ _ _ _ hres
      · cases hres; exact trivial
    case NODE_MUL_ASSIGN =>
      simp only [eval_node] at hres
      split at hres
      · exact compound_assign_wellFormed ev _ (arith_wellFormed _ _) _ _ _ _ _ _ _ hres
      · cases hres; exact trivial
    case NODE_DIV_ASSIGN =>
      simp only [eval_node] at hres
      split at hres
      · exact compound_assign_wellFormed ev _ eval_div_wellFormed _ _ _ _ _ _ _ hres
      · cases hres; exact trivial
    all_goals
      simp only [eval_node] at hres
      cases hl : ev l t w with
      | error e => rw [hl] at hres; cases hres
      | ok res =>
        obtain ⟨a, t2, w2⟩ := res
        rw [hl] at hres
        simp only at hres
        cases hr : ev r t2 w2 with
        | error e => rw [hr] at hres; cases hres
        | ok res2 =>
          obtain ⟨b, t3, w3⟩ := res2
          rw [hr] at hres
          simp only at hres
          split at hres
          · cases hres
          · rename_i hb
            cases hres
            exact binary_result_wellFormed h _ a b w3 _ _ hb
  case unary_op type operand =>
    cases type
    case NODE_NOT =>
      simp only [eval_node] at hres
      repeat' split at hres
      all_goals (cases hres; try exact trivial)
    case NODE_UNARY_MINUS =>
      simp only [eval_node] at hres
      repeat' split at hres
      all_goals (cases hres; try exact trivial)
    all_goals
      simp only [eval_node] at hres
      split at hres
      · exact inc_dec_wellFormed _ _ _ _ _ _ _ _ hres
      · cases hres
  case func_call func args =>
    simp only [eval_node] at hres
    split at hres
    · split at hres
      · exact builtin_print_wellFormed ev args t w v t1 w1 hres
      · split at hres
        · exact builtin_printm_wellFormed ev args t w v t1 w1 hres
        · split at hres
          · cases hres; exact builtin_read_wellFormed h w
          · exact call_function_wellFormed ev ex _ args t w v t1 w1 hres
    · exact unhandled_wellFormed t w v t1 w1 hres
  case list type items =>
    cases type
    case NODE_ARRAY_LITERAL =>
      have hres1 : array_literal_to_matrix ev (.list .NODE_ARRAY_LITERAL items) t w
          = .ok (v, t1, w1) := hres
      obtain ⟨mat, hv, hwf⟩ := array_literal_to_matrix_wellFormed ev _ t w v t1 w1 hres1
      rw [hv]; exact hwf
    all_goals exact unhandled_wellFormed t w v t1 w1 hres
  all_goals exact unhandled_wellFormed t w v t1 w1 hres

theorem eval_expression_wellFormed (h : Host) (fuel : Nat) :
    returns_well_formed (eval_expression h fuel) := by
  induction fuel with
  | zero =>
    intro node t w v t1 w1 hres
    simp [eval_expression] at hres
  | succ n ih =>
    intro node t w v t1 w1 hres
    rw [eval_expression_succ] at hres
    exact eval_node_wellFormed h _ _ ih node t w v t1 w1 hres

/-! ## Matrix literals with rows -/

theorem store_elem_at (R C : Nat) (done later : List (List Double)) (pre post : List Double)
    (elem : Value) :
    store_elem { rows := R, cols := C, data := done ++ (pre ++ Double.zero false :: post) :: later }
        done.length pre.length elem
      = { rows := R, cols := C, data := done ++ (pre ++ numeric_cell elem :: post) :: later } := by
  have hset : ∀ v : Double,
      (pre ++ Double.zero false :: post).set pre.length v = pre ++ v :: post := by
    intro v
    rw [List.set_append]
    simp
  have hget : (done ++ (pre ++ Double.zero false :: post) :: later).getD done.length []
      = pre ++ Double.zero false :: post := by
    rw [List.getD_eq_getElem?_getD, List.getElem?_append_right (Nat.le_refl _)]
    simp
  have hset2 : ∀ row : List Double,
      (done ++ (pre ++ Double.zero false :: post) :: later).set done.length row
        = done ++ row :: later := by
    intro row
    rw [List.set_append]
    simp
  cases elem <;> simp only [store_elem, numeric_cell, Matrix.set, hget, hset, hset2]

theorem fill_cells_at (ev : Eval) (R C : Nat) (done later : List (List Double))
    (items : List ASTNode) :
    ∀ (pre : List Double) (t : SymbolTable) (w : World) (vals : List Value)
      (t1 : SymbolTable) (w1 : World),
      eval_items ev items t w = .ok (vals, t1, w1) →
      fill_cells ev items done.length pre.length
          { rows := R, cols := C,
            data := done ++ (pre ++ List.replicate items.length (Double.zero false)) :: later }
          t w
        = .ok ({ rows := R, cols := C, data := done ++ (pre ++ vals.map numeric_cell) :: later },
            t1, w1) := by
  induction items with
  | nil =>
    intro pre t w vals t1 w1 hev
    simp [eval_items] at hev
    obtain ⟨hv, ht, hw⟩ := hev
    subst hv ht hw
    simp [fill_cells]
  | cons item rest ih =>
    intro pre t w vals t1 w1 hev
    simp only [eval_items] at hev
    cases hitem : ev item t w with
    | error e => rw [hitem] at hev; cases hev
    | ok res =>
      obtain ⟨v, t2, w2⟩ := res
      rw [hitem] at hev
      simp only at hev
      cases hrest : eval_items ev rest t2 w2 with
      | error e => rw [hrest] at hev; cases hev
      | ok res2 =>
        obtain ⟨vs, t3, w3⟩ := res2
        rw [hrest] at hev
        simp only [Except.ok.injEq, Prod.mk.injEq] at hev
        obtain ⟨hv, ht, hw⟩ := hev
        subst hv ht hw
        simp only [fill_cells, hitem, List.length_cons, List.replicate_succ]
        rw [store_elem_at]
        have := ih (pre ++ [numeric_cell v]) t2 w2 vs t3 w3 hrest
        simp only [List.length_append, List.length_singleton, List.append_assoc,
          List.singleton_append] at this
        simpa using this

theorem isRowOf_true (cols : Nat) (row : ASTNode) (hrow : row.isRowOf cols = true) :
    ∃ items : List ASTNode, row = .list .NODE_ARRAY_LITERAL items ∧ items.length = cols := by
  cases row <;> try (simp [ASTNode.isRowOf] at hrow; done)
  rename_i type items
  cases type <;> try (simp [ASTNode.isRowOf] at hrow; done)
  exact ⟨items, rfl, by simpa [ASTNode.isRowOf] using hrow⟩

theorem isRowOf_false (cols : Nat) (row : ASTNode) (hrow : row.isRowOf cols = false) :
    row.isArrayLiteral = false
    ∨ ∃ items : List ASTNode, row = .list .NODE_ARRAY_LITERAL items ∧ items.length ≠ cols := by
  cases hlit : row.isArrayLiteral with
  | false => exact Or.inl rfl
  | true =>
    obtain ⟨items, hitems⟩ := isArrayLiteral_true row hlit
    subst hitems
    exact Or.inr ⟨items, rfl, by simpa [ASTNode.isRowOf] using hrow⟩

theorem eval_rows_row (ev : Eval) (cols : Nat) (items rest : List ASTNode) (t : SymbolTable)
    (w : World) (hlen : items.length = cols) :
    eval_rows ev cols (.list .NODE_ARRAY_LITERAL items :: rest) t w
      = match eval_items ev items t w with
        | .error e => .error e
        | .ok (vs, t1, w1) =>
          match eval_rows ev cols rest t1 w1 with
          | .error e => .error e
          | .ok (vss, t2, w2) => .ok (vs :: vss, t2, w2) := by
  simp [eval_rows, hlen]

/-- The row loop over a matrix whose rows from `done.length` on are still zero: when every
remaining row is an array literal of `C` items each cell receives the number of its
element, and otherwise the loop stops with one of its two diagnostics. -/
theorem fill_rows_spec (ev : Eval) (R C : Nat) (rows : List ASTNode) :
    ∀ (done : List (List Double)) (t : SymbolTable) (w : World) (valss : List (List Value))
      (t1 : SymbolTable) (w1 : World),
      eval_rows ev C rows t w = .ok (valss, t1, w1) →
      ((∀ row ∈ rows, row.isRowOf C = true) →
        fill_rows ev rows done.length C
            { rows := R, cols := C,
              data := done ++ List.replicate rows.length (List.replicate C (Double.zero false)) }
            t w
          = .ok ({ rows := R, cols := C,
                   data := done ++ valss.map (fun vs => vs.map numeric_cell) }, t1, w1))
      ∧ ((∃ row ∈ rows, row.isRowOf C = false) →
        ∃ e : RuntimeError,
          fill_rows ev rows done.length C
              { rows := R, cols := C,
                data := done ++ List.replicate rows.length (List.replicate C (Double.zero false)) }
              t w
            = .error (.exit e)
          ∧ (e = .matrix_row_must_be_array ∨ e = .matrix_rows_same_length)) := by
  induction rows with
  | nil =>
    intro done t w valss t1 w1 hev
    simp [eval_rows] at hev
    obtain ⟨hv, ht, hw⟩ := hev
    subst hv ht hw
    refine ⟨fun _ => by simp [fill_rows], ?_⟩
    rintro ⟨row, hmem, _⟩
    cases hmem
  | cons row rest ih =>
    intro done t w valss t1 w1 hev
    cases hrow : row.isRowOf C with
    | false =>
      refine ⟨fun hall => ?_, fun _ => ?_⟩
      · have := hall row (List.mem_cons_self _ _)
        rw [hrow] at this
        cases this
      · rcases isRowOf_false C row hrow with hlit | ⟨items, hitems, hlen⟩
        · exact ⟨_, fill_rows_not_literal ev row rest _ C _ t w hlit, Or.inl rfl⟩
        · subst hitems
          refine ⟨.matrix_rows_same_length, ?_, Or.inr rfl⟩
          rw [fill_rows_literal]
          simp [hlen]
    | true =>
      obtain ⟨items, hitems, hlen⟩ := isRowOf_true C row hrow
      subst hitems
      rw [eval_rows_row ev C items rest t w hlen] at hev
      cases hcells : eval_items ev items t w with
      | error e => rw [hcells] at hev; cases hev
      | ok res =>
        obtain ⟨vs, t2, w2⟩ := res
        rw [hcells] at hev
        simp only at hev
        cases hrest : eval_rows ev C rest t2 w2 with
        | error e => rw [hrest] at hev; cases hev
        | ok res2 =>
          obtain ⟨vss, t3, w3⟩ := res2
          rw [hrest] at hev
          simp only [Except.ok.injEq, Prod.mk.injEq] at hev
          obtain ⟨hv, ht, hw⟩ := hev
          subst hv ht hw
          have hfill := fill_cells_at ev R C done
            (List.replicate rest.length (List.replicate C (Double.zero false))) items []
            t w vs t2 w2 hcells
          simp only [List.length_nil, List.nil_append, hlen] at hfill
          have hstep : fill_rows ev (.list .NODE_ARRAY_LITERAL items :: rest) done.length C
              { rows := R, cols := C,
                data := done ++ List.replicate (rest.length + 1)
                  (List.replicate C (Double.zero false)) } t w
              = fill_rows ev rest (done ++ [vs.map numeric_cell]).length C
                  { rows := R, cols := C,
                    data := (done ++ [vs.map numeric_cell])
                      ++ List.replicate rest.length (List.replicate C (Double.zero false)) }
                  t2 w2 := by
            rw [fill_rows_literal]
            simp only [hlen, ne_eq, not_true_eq_false, if_false, List.replicate_succ, hfill]
            simp
          obtain ⟨ih1, ih2⟩ := ih (done ++ [vs.map numeric_cell]) t2 w2 vss t3 w3 hrest
          simp only [List.length_cons]
          rw [hstep]
          refine ⟨fun hall => ?_, fun hbad => ?_⟩
          · rw [ih1 (fun r hr => hall r (List.mem_cons_of_mem _ hr))]
            simp
          · obtain ⟨r, hr, hrbad⟩ := hbad
            have hr2 : r ∈ rest := by
              rcases List.mem_cons.mp hr with h1 | h1
              · subst h1; rw [hrow] at hrbad; cases hrbad
              · exact h1
            exact ih2 ⟨r, hr2, hrbad⟩

/-- C11: let the first element of an array literal be an array literal of `C` items, and
let the cell expressions evaluate without error, row after row, up to the first element
that is not an array literal of `C` items. When every element is an array literal of `C`
items the literal evaluates to a matrix of `R` rows and `C` columns whose cell `(i, j)` is
the number of element `j` of row `i` (`0.0` for a value that is neither Int nor Float);
and it fails with a runtime error, one of the two row diagnostics, if and only if some
element is not an array literal of `C` items. -/
theorem nested_array_literal (h : Host) (fuel : Nat) (first_items rest : List ASTNode)
    (t t1 : SymbolTable) (w w1 : World) (valss : List (List Value))
    (hev : eval_rows (eval_expression h fuel) first_items.length
        (.list .NODE_ARRAY_LITERAL first_items :: rest) t w = .ok (valss, t1, w1)) :
    ((∀ row ∈ rest, row.isRowOf first_items.length = true) →
      ∃ mat : Matrix,
        eval_expression h (fuel + 1)
            (.list .NODE_ARRAY_LITERAL (.list .NODE_ARRAY_LITERAL first_items :: rest)) t w
          = .ok (.matrix mat, t1, w1)
        ∧ mat.rows = rest.length + 1 ∧ mat.cols = first_items.length ∧ mat.WellFormed
        ∧ valss.length = rest.length + 1
        ∧ (∀ vs ∈ valss, vs.length = first_items.length)
        ∧ (∀ (i j : Nat) (hi : i < valss.length) (hj : j < (valss.get ⟨i, hi⟩).length),
            mat.get i j = numeric_cell ((valss.get ⟨i, hi⟩).get ⟨j, hj⟩)))
    ∧ ((∃ e : RuntimeError,
          eval_expression h (fuel + 1)
              (.list .NODE_ARRAY_LITERAL (.list .NODE_ARRAY_LITERAL first_items :: rest)) t w
            = .error (.exit e))
        ↔ ∃ row ∈ rest, row.isRowOf first_items.length = false)
    ∧ (∀ e : RuntimeError,
        eval_expression h (fuel + 1)
            (.list .NODE_ARRAY_LITERAL (.list .NODE_ARRAY_LITERAL first_items :: rest)) t w
          = .error (.exit e) →
        e = .matrix_row_must_be_array ∨ e = .matrix_rows_same_length) := by
  have hfirst : (ASTNode.list ListType.NODE_ARRAY_LITERAL first_items).isRowOf
      first_items.length = true := by simp [ASTNode.isRowOf]
  obtain ⟨hgood, hbad⟩ := fill_rows_spec (eval_expression h fuel) (rest.length + 1)
    first_items.length (.list .NODE_ARRAY_LITERAL first_items :: rest) [] t w valss t1 w1 hev
  simp only [List.length_nil, List.nil_append, List.length_cons] at hgood hbad
  have hcreate : create_matrix (rest.length + 1) first_items.length
      = { rows := rest.length + 1, cols := first_items.length,
          data := List.replicate (rest.length + 1)
            (List.replicate first_items.length (Double.zero false)) } := rfl
  have hunfold : eval_expression h (fuel + 1)
      (.list .NODE_ARRAY_LITERAL (.list .NODE_ARRAY_LITERAL first_items :: rest)) t w
      = match fill_rows (eval_expression h fuel)
            (.list .NODE_ARRAY_LITERAL first_items :: rest) 0 first_items.length
            (create_matrix (rest.length + 1) first_items.length) t w with
        | .error e => .error e
        | .ok (mat, t1, w1) => .ok (.matrix mat, t1, w1) := by
    rw [eval_array_literal_unfold, array_literal_nested_unfold]
  have hokcase : (∀ row ∈ rest, row.isRowOf first_items.length = true) →
      eval_expression h (fuel + 1)
          (.list .NODE_ARRAY_LITERAL (.list .NODE_ARRAY_LITERAL first_items :: rest)) t w
        = .ok (.matrix (Matrix.mk (rest.length + 1) first_items.length
            (valss.map (fun vs => vs.map numeric_cell))), t1, w1) := by
    intro hall
    have hall2 : ∀ row ∈ (ASTNode.list ListType.NODE_ARRAY_LITERAL first_items :: rest),
        row.isRowOf first_items.length = true := by
      intro row hrow
      rcases List.mem_cons.mp hrow with h1 | h1
      · rw [h1]; exact hfirst
      · exact hall row h1
    rw [hunfold, hcreate, hgood hall2]
  have herrcase : (∃ row ∈ rest, row.isRowOf first_items.length = false) →
      ∃ e : RuntimeError,
        eval_expression h (fuel + 1)
            (.list .NODE_ARRAY_LITERAL (.list .NODE_ARRAY_LITERAL first_items :: rest)) t w
          = .error (.exit e)
        ∧ (e = .matrix_row_must_be_array ∨ e = .matrix_rows_same_length) := by
    rintro ⟨row, hrow, hrbad⟩
    obtain ⟨e, he, hkind⟩ := hbad ⟨row, List.mem_cons_of_mem _ hrow, hrbad⟩
    exact ⟨e, by rw [hunfold, hcreate, he], hkind⟩
  refine ⟨?_, ?_, ?_⟩
  · intro hall
    have hres := hokcase hall
    have hwf : (Matrix.mk (rest.length + 1) first_items.length
        (valss.map (fun vs => vs.map numeric_cell))).WellFormed :=
      eval_expression_wellFormed h (fuel + 1) _ t w _ t1 w1 hres
    obtain ⟨hlen, hrows⟩ := hwf
    simp only [List.length_map] at hlen
    have hvs : ∀ vs ∈ valss, vs.length = first_items.length := by
      intro vs hvs
      have := hrows (vs.map numeric_cell) (List.mem_map.mpr ⟨vs, hvs, rfl⟩)
      simpa using this
    refine ⟨_, hres, rfl, rfl, ⟨by simpa using hlen, hrows⟩, hlen, hvs, ?_⟩
    intro i j hi hj
    have hj2 : j < valss[i].length := hj
    simp [Matrix.get, List.getD_eq_getElem?_getD, List.getElem?_eq_getElem hi,
      List.getElem?_eq_getElem hj2]
  · constructor
    · rintro ⟨e, he⟩
      by_contra hno
      have hall : ∀ row ∈ rest, row.isRowOf first_items.length = true := by
        intro row hrow
        cases hr : row.isRowOf first_items.length with
        | true => rfl
        | false => exact absurd ⟨row, hrow, hr⟩ hno
      rw [hokcase hall] at he
      cases he
    · intro hex
      obtain ⟨e, he, _⟩ := herrcase hex
      exact ⟨e, he⟩
  · intro e he
    by_cases hex : ∃ row ∈ rest, row.isRowOf first_items.length = false
    · obtain ⟨e1, he1, hkind⟩ := herrcase hex
      rw [he1] at he
      cases he
      exact hkind
    · have hall : ∀ row ∈ rest, row.isRowOf first_items.length = true := by
        intro row hrow
        cases hr : row.isRowOf first_items.length with
        | true => rfl
        | false => exact absurd ⟨row, hrow, hr⟩ hex
      rw [hokcase hall] at he
      cases he

/-- Witness of C11: the literal `[[1, 2, 3], [4, 5]]` fails with a runtime error. -/
theorem nested_array_literal_witness :
    ∃ e : RuntimeError,
      eval_expression sample_host 3 literal_ragged empty_table initial_world
        = .error (.exit e) :=
  (nested_array_literal sample_host 2 [.int_literal 1, .int_literal 2, .int_literal 3]
    [.list .NODE_ARRAY_LITERAL [.int_literal 4, .int_literal 5]]
    empty_table empty_table initial_world initial_world
    [[.int 1, .int 2, .int 3]] rfl).2.1.mpr
    ⟨_, List.mem_singleton.mpr rfl, rfl⟩

/-- C12: every matrix the interpreter produces has exactly `rows` rows, each of exactly
`cols` elements: the matrix of `create_matrix`, the result of `matrix_multiply`, the copy
made of a matrix on read, assignment and return, the 0x0 matrix of the empty literal, and
every matrix value that `eval_expression` returns, whatever the expression. -/
theorem produced_matrices_well_formed :
    (∀ rows cols : Nat,
        (create_matrix rows cols).WellFormed
        ∧ (create_matrix rows cols).rows = rows ∧ (create_matrix rows cols).cols = cols)
    ∧ (∀ a b result : Matrix, matrix_multiply a b = .ok result →
        result.WellFormed ∧ result.rows = a.rows ∧ result.cols = b.cols)
    ∧ (∀ orig : Matrix,
        copy_value (.matrix orig) = .matrix (copy_matrix orig)
        ∧ (copy_matrix orig).WellFormed
        ∧ (copy_matrix orig).rows = orig.rows ∧ (copy_matrix orig).cols = orig.cols)
    ∧ (∀ (h : Host) (fuel : Nat) (t : SymbolTable) (w : World),
        eval_expression h (fuel + 1) (.list .NODE_ARRAY_LITERAL []) t w
          = .ok (.matrix { rows := 0, cols := 0, data := [] }, t, w))
    ∧ (∀ (h : Host) (fuel : Nat) (node : ASTNode) (t t1 : SymbolTable) (w w1 : World)
        (mat : Matrix),
        eval_expression h fuel node t w = .ok (.matrix mat, t1, w1) → mat.WellFormed) := by
  refine ⟨fun rows cols => ⟨create_matrix_wellFormed rows cols, rfl, rfl⟩,
    fun a b result hm => matrix_multiply_wellFormed a b result hm,
    fun orig => ⟨rfl, copy_matrix_wellFormed orig⟩,
    fun h fuel t w => rfl, ?_⟩
  intro h fuel node t t1 w w1 mat hres
  exact eval_expression_wellFormed h fuel node t w _ t1 w1 hres

/-- Witness of C12: the matrix that `[[1, 2, 3], [4, 5, 6]]` evaluates to is well
formed. -/
theorem produced_matrices_well_formed_witness : matrix_2x3.WellFormed :=
  produced_matrices_well_formed.2.2.2.2 sample_host 3 literal_2x3 empty_table empty_table
    initial_world initial_world matrix_2x3 rfl

/-! ## Assignment -/

theorem eval_assign_unfold (h : Host) (fuel : Nat) (x : String) (right : ASTNode)
    (t : SymbolTable) (w : World) :
    eval_expression h (fuel + 1) (.binary_op .NODE_ASSIGN (.identifier x) right) t w
      = match eval_expression h fuel right t w with
        | .error e => .error e
        | .ok (val, t1, w1) => .ok (val, set_symbol t1 x (copy_value val), w1) := by
  rw [eval_expression_succ]; rfl

theorem eval_compound_unfold (h : Host) (fuel : Nat) (x : String) (right : ASTNode)
    (t : SymbolTable) (w : World) :
    eval_expression h (fuel + 1) (.binary_op .NODE_PLUS_ASSIGN (.identifier x) right) t w
        = compound_assign (eval_expression h fuel) eval_add x right t w
    ∧ eval_expression h (fuel + 1) (.binary_op .NODE_MINUS_ASSIGN (.identifier x) right) t w
        = compound_assign (eval_expression h fuel) eval_sub x right t w
    ∧ eval_expression h (fuel + 1) (.binary_op .NODE_MUL_ASSIGN (.identifier x) right) t w
        = compound_assign (eval_expression h fuel) eval_mul x right t w
    ∧ eval_expression h (fuel + 1) (.binary_op .NODE_DIV_ASSIGN (.identifier x) right) t w
        = compound_assign (eval_expression h fuel) eval_div x right t w := by
  simp only [eval_expression_succ]
  exact ⟨rfl, rfl, rfl, rfl⟩

theorem compound_assign_bound (ev : Eval) (combine : Value → Value → Except Halt Value)
    (x : String) (right : ASTNode) (t t1 : SymbolTable) (w w1 : World) (rv cur : Value)
    (depth : Nat)
    (hr : ev right t w = .ok (rv, t1, w1))
    (hd : get_symbol_depth t x = some depth)
    (hcur : symbol_at t1 depth x = some cur) :
    compound_assign ev combine x right t w
      = match combine cur rv with
        | .error e => .error e
        | .ok result => .ok (result, set_symbol t1 x result, w1) := by
  simp [compound_assign, hr, hd, hcur]

theorem compound_assign_unbound (ev : Eval) (combine : Value → Value → Except Halt Value)
    (x : String) (right : ASTNode) (t t1 : SymbolTable) (w w1 : World) (rv : Value)
    (hr : ev right t w = .ok (rv, t1, w1))
    (hd : get_symbol_depth t x = none) :
    compound_assign ev combine x right t w = .error .undefined := by
  simp [compound_assign, hr, hd]

/-- C15 as stated fails: in a function scope with no local `x`, under a global table that
binds `x`, neither `x = 5` nor `x += 5` stores into the global binding while leaving the
scope without a local `x`. -/
theorem assignment_does_not_reach_ancestor :
    (¬ ∃ (v : Value) (t1 : SymbolTable) (w1 : World),
        eval_expression sample_host 2 assign_x_5 sample_scope initial_world = .ok (v, t1, w1)
        ∧ ¬ list_binds t1.head "x"
        ∧ ∃ p, t1.parent = some p ∧ get_symbol p "x" = some (.int 5))
    ∧ (¬ ∃ (v : Value) (t1 : SymbolTable) (w1 : World),
        eval_expression sample_host 2 plus_assign_x_5 sample_scope initial_world
          = .ok (v, t1, w1)
        ∧ ¬ list_binds t1.head "x"
        ∧ ∃ p, t1.parent = some p ∧ get_symbol p "x" = some (.int 6)) := by
  have h1 : eval_expression sample_host 2 assign_x_5 sample_scope initial_world
      = .ok (.int 5, .mk [{ name := "x", value := .int 5 }, { name := "y", value := .int 2 }]
          (some sample_global) create_void_value false, initial_world) := rfl
  have h2 : eval_expression sample_host 2 plus_assign_x_5 sample_scope initial_world
      = .ok (.int 6, .mk [{ name := "x", value := .int 6 }, { name := "y", value := .int 2 }]
          (some sample_global) create_void_value false, initial_world) := rfl
  constructor
  · rintro ⟨v, t1, w1, hres, hnb, _⟩
    rw [h1] at hres
    cases hres
    exact hnb ⟨_, List.mem_cons_self _ _, rfl⟩
  · rintro ⟨v, t1, w1, hres, hnb, _⟩
    rw [h2] at hres
    cases hres
    exact hnb ⟨_, List.mem_cons_self _ _, rfl⟩

/-- C15, amended: when a plain or compound assignment to the identifier `x` is evaluated
and the scope has no local entry for `x` once the right-hand side is evaluated, the result
is stored in a new local entry for `x`, placed in front of the entries of the scope; the
parent chain is left as it was, so an ancestor's binding of `x` keeps its value and is
shadowed. -/
theorem assignment_binds_locally (h : Host) (fuel : Nat) (x : String) (right : ASTNode)
    (t t1 : SymbolTable) (w w1 : World) (val : Value)
    (hr : eval_expression h fuel right t w = .ok (val, t1, w1))
    (hlocal : ¬ list_binds t1.head x) :
    (eval_expression h (fuel + 1) (.binary_op .NODE_ASSIGN (.identifier x) right) t w
        = .ok (val, set_symbol t1 x (copy_value val), w1)
      ∧ (set_symbol t1 x (copy_value val)).head
          = { name := x, value := copy_value val } :: t1.head
      ∧ (set_symbol t1 x (copy_value val)).parent = t1.parent)
    ∧ (∀ (depth : Nat) (cur result : Value),
        get_symbol_depth t x = some depth → symbol_at t1 depth x = some cur →
        (eval_add cur val = .ok result →
          eval_expression h (fuel + 1) (.binary_op .NODE_PLUS_ASSIGN (.identifier x) right) t w
            = .ok (result, set_symbol t1 x result, w1))
        ∧ (eval_sub cur val = .ok result →
          eval_expression h (fuel + 1) (.binary_op .NODE_MINUS_ASSIGN (.identifier x) right) t w
            = .ok (result, set_symbol t1 x result, w1))
        ∧ (eval_mul cur val = .ok result →
          eval_expression h (fuel + 1) (.binary_op .NODE_MUL_ASSIGN (.identifier x) right) t w
            = .ok (result, set_symbol t1 x result, w1))
        ∧ (eval_div cur val = .ok result →
          eval_expression h (fuel + 1) (.binary_op .NODE_DIV_ASSIGN (.identifier x) right) t w
            = .ok (result, set_symbol t1 x result, w1))
        ∧ (set_symbol t1 x result).head = { name := x, value := result } :: t1.head
        ∧ (set_symbol t1 x result).parent = t1.parent) := by
  obtain ⟨hplus, hminus, hmul, hdiv⟩ := eval_compound_unfold h fuel x right t w
  refine ⟨⟨?_, set_symbol_head_unbound t1 x _ hlocal, (set_symbol_parent t1 x _).1⟩, ?_⟩
  · rw [eval_assign_unfold, hr]
  · intro depth cur result hd hcur
    refine ⟨?_, ?_, ?_, ?_, set_symbol_head_unbound t1 x _ hlocal,
      (set_symbol_parent t1 x _).1⟩
    · intro hc
      rw [hplus, compound_assign_bound _ _ x right t t1 w w1 val cur depth hr hd hcur, hc]
    · intro hc
      rw [hminus, compound_assign_bound _ _ x right t t1 w w1 val cur depth hr hd hcur, hc]
    · intro hc
      rw [hmul, compound_assign_bound _ _ x right t t1 w w1 val cur depth hr hd hcur, hc]
    · intro hc
      rw [hdiv, compound_assign_bound _ _ x right t t1 w w1 val cur depth hr hd hcur, hc]

/-- Witness of C15, amended: `x = 5` in a function scope under a global `x`. -/
theorem assignment_binds_locally_witness :
    (set_symbol sample_scope "x" (copy_value (.int 5))).head
        = { name := "x", value := copy_value (.int 5) } :: sample_scope.head
    ∧ (set_symbol sample_scope "x" (copy_value (.int 5))).parent = some sample_global :=
  (assignment_binds_locally sample_host 1 "x" (.int_literal 5) sample_scope sample_scope
    initial_world initial_world (.int 5) rfl
    (by simp [list_binds, sample_scope, SymbolTable.head])).1.2

/-- C16, the failing input: when `x` has no binding in the scope chain, plain `x = e`
creates a binding in the current scope, but each compound form `x += e`, `x -= e`,
`x *= e`, `x /= e` reads through the null pointer that the lookup returned, once `e` is
evaluated. -/
theorem compound_assignment_unbound_reads_null (h : Host) (fuel : Nat) (x : String)
    (right : ASTNode) (t t1 : SymbolTable) (w w1 : World) (val : Value)
    (hx : get_symbol t x = none)
    (hr : eval_expression h fuel right t w = .ok (val, t1, w1)) :
    eval_expression h (fuel + 1) (.binary_op .NODE_ASSIGN (.identifier x) right) t w
        = .ok (val, set_symbol t1 x (copy_value val), w1)
    ∧ eval_expression h (fuel + 1) (.binary_op .NODE_PLUS_ASSIGN (.identifier x) right) t w
        = .error .undefined
    ∧ eval_expression h (fuel + 1) (.binary_op .NODE_MINUS_ASSIGN (.identifier x) right) t w
        = .error .undefined
    ∧ eval_expression h (fuel + 1) (.binary_op .NODE_MUL_ASSIGN (.identifier x) right) t w
        = .error .undefined
    ∧ eval_expression h (fuel + 1) (.binary_op .NODE_DIV_ASSIGN (.identifier x) right) t w
        = .error .undefined := by
  obtain ⟨hplus, hminus, hmul, hdiv⟩ := eval_compound_unfold h fuel x right t w
  have hd : get_symbol_depth t x = none := (get_symbol_depth_eq_none_iff t x).mpr hx
  refine ⟨by rw [eval_assign_unfold, hr], ?_, ?_, ?_, ?_⟩
  · rw [hplus]; exact compound_assign_unbound _ _ x right t t1 w w1 val hr hd
  · rw [hminus]; exact compound_assign_unbound _ _ x right t t1 w w1 val hr hd
  · rw [hmul]; exact compound_assign_unbound _ _ x right t t1 w w1 val hr hd
  · rw [hdiv]; exact compound_assign_unbound _ _ x right t t1 w w1 val hr hd

/-- Witness of C16: `x += 5` in the empty global table. -/
theorem compound_assignment_unbound_reads_null_witness :
    eval_expression sample_host 2 plus_assign_x_5 empty_table initial_world
      = .error .undefined :=
  (compound_assignment_unbound_reads_null sample_host 1 "x" (.int_literal 5) empty_table
    empty_table initial_world initial_world (.int 5) rfl rfl).2.1

/-! ## Increment and decrement -/

theorem eval_inc_dec_unfold (h : Host) (fuel : Nat) (x : String) (t : SymbolTable) (w : World) :
    eval_expression h (fuel + 1) (.unary_op .NODE_PRE_INC (.identifier x)) t w
        = inc_dec x false false t w
    ∧ eval_expression h (fuel + 1) (.unary_op .NODE_PRE_DEC (.identifier x)) t w
        = inc_dec x true false t w
    ∧ eval_expression h (fuel + 1) (.unary_op .NODE_POST_INC (.identifier x)) t w
        = inc_dec x false true t w
    ∧ eval_expression h (fuel + 1) (.unary_op .NODE_POST_DEC (.identifier x)) t w
        = inc_dec x true true t w := by
  simp only [eval_expression_succ]
  exact ⟨rfl, rfl, rfl, rfl⟩

theorem wrap32_of_isInt32 (i : Int) (hi : isInt32 i) : wrap32 i = i := by
  obtain ⟨h1, h2⟩ := hi
  unfold wrap32
  omega

/-- C19: each of the four increment and decrement forms fails with its requires-lvalue
error when the operand is not an identifier, with the undefined-variable error when the
identifier has no binding in the scope chain, and with the non-numeric error when the
identifier is bound to a value that is neither Int nor Float. -/
theorem increment_decrement_failures (h : Host) (fuel : Nat) (t : SymbolTable) (w : World) :
    (∀ operand : ASTNode, (∀ name : String, operand ≠ .identifier name) →
      eval_expression h (fuel + 1) (.unary_op .NODE_PRE_INC operand) t w
          = .error (.exit .pre_increment_lvalue)
      ∧ eval_expression h (fuel + 1) (.unary_op .NODE_PRE_DEC operand) t w
          = .error (.exit .pre_decrement_lvalue)
      ∧ eval_expression h (fuel + 1) (.unary_op .NODE_POST_INC operand) t w
          = .error (.exit .post_increment_lvalue)
      ∧ eval_expression h (fuel + 1) (.unary_op .NODE_POST_DEC operand) t w
          = .error (.exit .post_decrement_lvalue))
    ∧ (∀ x : String, ¬ chain_binds t x →
      eval_expression h (fuel + 1) (.unary_op .NODE_PRE_INC (.identifier x)) t w
          = .error (.exit (.undefined_variable x))
      ∧ eval_expression h (fuel + 1) (.unary_op .NODE_PRE_DEC (.identifier x)) t w
          = .error (.exit (.undefined_variable x))
      ∧ eval_expression h (fuel + 1) (.unary_op .NODE_POST_INC (.identifier x)) t w
          = .error (.exit (.undefined_variable x))
      ∧ eval_expression h (fuel + 1) (.unary_op .NODE_POST_DEC (.identifier x)) t w
          = .error (.exit (.undefined_variable x)))
    ∧ (∀ (x : String) (v : Value), get_symbol t x = some v → ¬ v.isNumber →
      eval_expression h (fuel + 1) (.unary_op .NODE_PRE_INC (.identifier x)) t w
          = .error (.exit .cannot_increment)
      ∧ eval_expression h (fuel + 1) (.unary_op .NODE_PRE_DEC (.identifier x)) t w
          = .error (.exit .cannot_decrement)
      ∧ eval_expression h (fuel + 1) (.unary_op .NODE_POST_INC (.identifier x)) t w
          = .error (.exit .cannot_increment)
      ∧ eval_expression h (fuel + 1) (.unary_op .NODE_POST_DEC (.identifier x)) t w
          = .error (.exit .cannot_decrement)) := by
  refine ⟨?_, ?_, ?_⟩
  · intro operand hop
    simp only [eval_expression_succ]
    cases operand <;> first | exact ⟨rfl, rfl, rfl, rfl⟩ | exact absurd rfl (hop _)
  · intro x hx
    obtain ⟨h1, h2, h3, h4⟩ := eval_inc_dec_unfold h fuel x t w
    have hnone := (get_symbol_eq_none_iff t x).mpr hx
    rw [h1, h2, h3, h4]
    simp [inc_dec, hnone]
  · intro x v hv hk
    obtain ⟨h1, h2, h3, h4⟩ := eval_inc_dec_unfold h fuel x t w
    rw [h1, h2, h3, h4]
    cases v <;> first | exact absurd trivial hk | simp [inc_dec, hv]

/-- Witness of C19: `++s` with `s` bound to a string. -/
theorem increment_decrement_failures_witness :
    eval_expression sample_host 1 (.unary_op .NODE_PRE_INC (.identifier "s")) counters_table
        initial_world
      = .error (.exit .cannot_increment) :=
  ((increment_decrement_failures sample_host 0 counters_table initial_world).2.2 "s"
    (.string "text") rfl (fun hk => hk)).1

/-! ## Range loops -/

theorem execute_statement_succ (h : Host) (fuel : Nat) (node : ASTNode) (table : SymbolTable)
    (w : World) :
    execute_statement h (fuel + 1) node table w
      = exec_node (eval_expression h fuel) (execute_statement h fuel) fuel node table w := by
  rw [execute_statement]

theorem mem_int_range (n : Nat) : ∀ (s i : Int), i ∈ int_range s n ↔ s ≤ i ∧ i < s + n := by
  induction n with
  | zero => intro s i; simp [int_range]
  | succ n ih =>
    intro s i
    simp only [int_range, List.mem_cons, ih]
    push_cast
    omega

theorem int_range_sorted (n : Nat) : ∀ s : Int, (int_range s n).Pairwise (· < ·) := by
  induction n with
  | zero => intro s; simp [int_range]
  | succ n ih =>
    intro s
    simp only [int_range, List.pairwise_cons]
    refine ⟨?_, ih (s + 1)⟩
    intro i hi
    have := (mem_int_range n (s + 1) i).mp hi
    omega

/-- With the step 1 and a limit below `INT_MAX` the counter loop runs the body once for
each integer from the counter to the limit. -/
theorem for_loop_step_one (ex : Exec) (iterator : String) (body : Option ASTNode)
    (limit : Int) (hlimit : limit < 2147483647) (n : Nat) :
    ∀ (fuel : Nat) (i : Int) (t : SymbolTable) (w : World),
      n = (limit + 1 - i).toNat → n < fuel → -2147483648 ≤ i →
      for_loop ex fuel i 1 limit iterator body t w
        = run_iterations ex iterator body (int_range i n) t w := by
  induction n with
  | zero =>
    intro fuel i t w hn hfuel hi
    obtain ⟨f, rfl⟩ : ∃ f, fuel = f + 1 := ⟨fuel - 1, by omega⟩
    have hgt : ¬ i ≤ limit := by omega
    simp [for_loop, run_iterations, int_range, hgt]
  | succ n ih =>
    intro fuel i t w hn hfuel hi
    obtain ⟨f, rfl⟩ : ∃ f, fuel = f + 1 := ⟨fuel - 1, by omega⟩
    have hle : i ≤ limit := by omega
    have hwrap : wrap32 (i + 1) = i + 1 := wrap32_of_isInt32 _ ⟨by omega, by omega⟩
    simp only [for_loop, run_iterations, int_range, hle, if_true, hwrap]
    simp only [show (1 : Int) > 0 from by decide, if_true]
    cases hbody : exec_opt ex body (set_symbol t iterator (create_int_value i)) w with
    | error e => rfl
    | ok res =>
      obtain ⟨t1, w1⟩ := res
      exact ih f (i + 1) t1 w1 (by omega) (by omega) (by omega)

theorem exec_for_range_no_step (ev : Eval) (ex : Exec) (fuel : Nat) (iterator : String)
    (type : RangeType) (start_node end_node : ASTNode) (body : Option ASTNode)
    (t t1 t2 : SymbolTable) (w w1 w2 : World) (s e : Int)
    (hs : ev start_node t w = .ok (.int s, t1, w1))
    (he : ev end_node t1 w1 = .ok (.int e, t2, w2)) :
    exec_for_range ev ex fuel iterator (.range type start_node end_node none) body t w
      = for_loop ex fuel s 1
          (if type = .NODE_RANGE_INCL ∨ type = .NODE_RANGE_STEP then e else wrap32 (e - 1))
          iterator body t2 w2 := by
  simp [exec_for_range, hs, he, range_bound]

/-- C20: let the bounds of a range evaluate to the Ints `s` and `e`, with no explicit
step, in a frame that is not returning. Over the exclusive range `s..e` (with
`e > INT_MIN`, so that the counter does not overflow) the loop executes its body once for
each integer `i` with `s <= i < e`, in increasing order, with the loop variable bound to
Int `i` at the start of that iteration; over the inclusive range `s..=e` (with
`e < INT_MAX`) once for each `i` with `s <= i <= e`; a range with no such `i` executes the
body zero times. `1..5` visits 1 2 3 4 and `1..=5` visits 1 2 3 4 5. -/
theorem for_range_default_step (h : Host) (fuel : Nat) (iterator : String)
    (start_node end_node : ASTNode) (body : Option ASTNode)
    (t t1 t2 : SymbolTable) (w w1 w2 : World) (s e : Int)
    (hret : t.is_returning = false)
    (hs : eval_expression h fuel start_node t w = .ok (.int s, t1, w1))
    (he : eval_expression h fuel end_node t1 w1 = .ok (.int e, t2, w2))
    (hs32 : isInt32 s) (he32 : isInt32 e) :
    (-2147483648 < e → (e - s).toNat < fuel →
      execute_statement h (fuel + 1)
          (.for_range iterator (.range .NODE_RANGE_EXCL start_node end_node none) body) t w
        = run_iterations (execute_statement h fuel) iterator body
            (int_range s (e - s).toNat) t2 w2)
    ∧ (e < 2147483647 → (e + 1 - s).toNat < fuel →
      execute_statement h (fuel + 1)
          (.for_range iterator (.range .NODE_RANGE_INCL start_node end_node none) body) t w
        = run_iterations (execute_statement h fuel) iterator body
            (int_range s (e + 1 - s).toNat) t2 w2)
    ∧ (∀ i : Int, i ∈ int_range s (e - s).toNat ↔ s ≤ i ∧ i < e)
    ∧ (∀ i : Int, i ∈ int_range s (e + 1 - s).toNat ↔ s ≤ i ∧ i ≤ e)
    ∧ (int_range s (e - s).toNat).Pairwise (· < ·)
    ∧ (int_range s (e + 1 - s).toNat).Pairwise (· < ·)
    ∧ (e ≤ s → int_range s (e - s).toNat = [])
    ∧ (e < s → int_range s (e + 1 - s).toNat = [])
    ∧ int_range 1 ((5 : Int) - 1).toNat = [1, 2, 3, 4]
    ∧ int_range 1 ((5 : Int) + 1 - 1).toNat = [1, 2, 3, 4, 5] := by
  obtain ⟨hs1, hs2⟩ := hs32
  obtain ⟨he1, he2⟩ := he32
  refine ⟨?_, ?_, ?_, ?_, int_range_sorted _ _, int_range_sorted _ _, ?_, ?_, by decide,
    by decide⟩
  · intro hmin hfuel
    rw [execute_statement_succ]
    simp only [exec_node, hret, Bool.false_eq_true, if_false]
    rw [exec_for_range_no_step _ _ fuel iterator _ start_node end_node body t t1 t2 w w1 w2 s e
      hs he]
    have hwrap : wrap32 (e - 1) = e - 1 := wrap32_of_isInt32 _ ⟨by omega, by omega⟩
    simp only [reduceCtorEq, or_self, if_false, hwrap]
    exact for_loop_step_one _ iterator body (e - 1) (by omega) _ fuel s t2 w2 (by omega)
      hfuel hs1
  · intro hmax hfuel
    rw [execute_statement_succ]
    simp only [exec_node, hret, Bool.false_eq_true, if_false]
    rw [exec_for_range_no_step _ _ fuel iterator _ start_node end_node body t t1 t2 w w1 w2 s e
      hs he]
    simp only [true_or, if_true]
    exact for_loop_step_one _ iterator body e hmax _ fuel s t2 w2 rfl hfuel hs1
  · intro i
    rw [mem_int_range]
    omega
  · intro i
    rw [mem_int_range]
    omega
  · intro hle
    have : (e - s).toNat = 0 := by omega
    rw [this]; rfl
  · intro hlt
    have : (e + 1 - s).toNat = 0 := by omega
    rw [this]; rfl

/-- Witness of C20: `for i in 1..5 { print(i) }` prints 1, 2, 3, 4, each on its line, and
leaves `i` bound to 4. -/
theorem for_range_default_step_witness :
    execute_statement sample_host 6 for_1_to_5_exclusive empty_table initial_world
      = .ok (.mk [{ name := "i", value := .int 4 }] none create_void_value false,
          { recursion_depth := 0, stdin := [],
            out := [.value (.int 1), .text "\n", .value (.int 2), .text "\n",
              .value (.int 3), .text "\n", .value (.int 4), .text "\n"] }) :=
  ((for_range_default_step sample_host 5 "i" (.int_literal 1) (.int_literal 5) (some print_i)
    empty_table empty_table empty_table initial_world initial_world initial_world 1 5
    rfl rfl rfl ⟨by decide, by decide⟩ ⟨by decide, by decide⟩).1 (by decide) (by decide)).trans
    rfl

/-! ## Function calls and the caller's locals -/

theorem list_binds_set_symbol (table : SymbolTable) (name y : String) (v : Value)
    (hb : list_binds (set_symbol table name v).head y) :
    y = name ∨ list_binds table.head y := by
  by_cases hloc : list_binds table.head name
  · right
    obtain ⟨s, hs, hn⟩ := hb
    have hmem : y ∈ (set_symbol table name v).head.map Symbol.name :=
      List.mem_map.mpr ⟨s, hs, hn⟩
    rw [set_symbol_head_bound table name v hloc] at hmem
    obtain ⟨s1, hs1, hn1⟩ := List.mem_map.mp hmem
    exact ⟨s1, hs1, hn1⟩
  · rw [set_symbol_head_unbound table name v hloc] at hb
    obtain ⟨s, hs, hn⟩ := hb
    rcases List.mem_cons.mp hs with h1 | h1
    · left; rw [← hn, h1]
    · right; exact ⟨s, h1, hn⟩

theorem root_parent : ∀ table : SymbolTable, table.root.parent = none
  | .mk head none rv ret => by simp [SymbolTable.root, SymbolTable.parent]
  | .mk head (some p) rv ret => by
    have ih := root_parent p
    simpa [SymbolTable.root] using ih

theorem eval_call_unfold (h : Host) (fuel : Nat) (fname : String) (args : Option ASTNode)
    (t : SymbolTable) (w : World)
    (hname : fname ≠ "print" ∧ fname ≠ "printm" ∧ fname ≠ "read") :
    eval_expression h (fuel + 1) (.func_call (.identifier fname) args) t w
      = call_function (eval_expression h fuel) (execute_statement h fuel) fname args t w := by
  rw [eval_expression_succ]
  simp [eval_node, hname.1, hname.2.1, hname.2.2]

theorem step_range_eq_map (k : Int) (n : Nat) :
    ∀ s : Int, step_range s k n = (List.range n).map (fun j : Nat => s + j * k) := by
  induction n with
  | zero => intro s; rfl
  | succ n ih =>
    intro s
    rw [step_range, ih, List.range_succ_eq_map, List.map_cons, List.map_map]
    simp only [Nat.cast_zero, zero_mul, add_zero, List.cons.injEq, true_and]
    apply List.map_congr_left
    intro j _
    simp only [Function.comp_apply, Nat.cast_succ]
    ring

theorem mem_step_range (s k : Int) (n : Nat) (i : Int) :
    i ∈ step_range s k n ↔ ∃ j : Nat, j < n ∧ i = s + j * k := by
  rw [step_range_eq_map, List.mem_map]
  constructor
  · rintro ⟨j, hj, rfl⟩
    exact ⟨j, List.mem_range.mp hj, rfl⟩
  · rintro ⟨j, hj, rfl⟩
    exact ⟨j, List.mem_range.mpr hj, rfl⟩

/-- With a positive step the counter loop runs the body for the counter, the counter plus
the step, and so on, up to the last value that does not exceed the limit. -/
theorem for_loop_step_pos (ex : Exec) (iterator : String) (body : Option ASTNode)
    (limit k : Int) (hk : 0 < k) (n : Nat) :
    ∀ (fuel : Nat) (i : Int) (t : SymbolTable) (w : World),
      n < fuel → -2147483648 ≤ i → i + n * k ≤ 2147483647 →
      (∀ j : Nat, j < n → i + j * k ≤ limit) → limit < i + n * k →
      for_loop ex fuel i k limit iterator body t w
        = run_iterations ex iterator body (step_range i k n) t w := by
  induction n with
  | zero =>
    intro fuel i t w hfuel _ _ _ hlast
    obtain ⟨f, rfl⟩ : ∃ f, fuel = f + 1 := ⟨fuel - 1, by omega⟩
    have hgt : ¬ i ≤ limit := by simp at hlast; omega
    simp [for_loop, run_iterations, step_range, hgt, hk]
  | succ n ih =>
    intro fuel i t w hfuel hi hmax hall hlast
    obtain ⟨f, rfl⟩ : ∃ f, fuel = f + 1 := ⟨fuel - 1, by omega⟩
    have hle : i ≤ limit := by simpa using hall 0 (Nat.succ_pos n)
    have hcast : ((n + 1 : Nat) : Int) * k = n * k + k := by push_cast; ring
    have hnk : 0 ≤ (n : Int) * k := Int.mul_nonneg (Int.ofNat_nonneg n) (le_of_lt hk)
    have hwrap : wrap32 (i + k) = i + k := wrap32_of_isInt32 _ ⟨by omega, by omega⟩
    simp only [for_loop, run_iterations, step_range, hle, if_true, hwrap, hk, gt_iff_lt]
    cases hbody : exec_opt ex body (set_symbol t iterator (create_int_value i)) w with
    | error e => rfl
    | ok res =>
      obtain ⟨t1, w1⟩ := res
      refine ih f (i + k) t1 w1 (by omega) (by omega) (by omega) ?_ (by omega)
      intro j hj
      have h1 := hall (j + 1) (by omega)
      have hc : ((j + 1 : Nat) : Int) * k = j * k + k := by push_cast; ring
      omega

/-- With a negative step the counter loop runs the body for the counter, the counter plus
the step, and so on, down to the last value that is not below the limit. -/
theorem for_loop_step_neg (ex : Exec) (iterator : String) (body : Option ASTNode)
    (limit k : Int) (hk : k < 0) (n : Nat) :
    ∀ (fuel : Nat) (i : Int) (t : SymbolTable) (w : World),
      n < fuel → i ≤ 2147483647 → -2147483648 ≤ i + n * k →
      (∀ j : Nat, j < n → limit ≤ i + j * k) → i + n * k < limit →
      for_loop ex fuel i k limit iterator body t w
        = run_iterations ex iterator body (step_range i k n) t w := by
  have hk0 : ¬ 0 < k := by omega
  induction n with
  | zero =>
    intro fuel i t w hfuel _ _ _ hlast
    obtain ⟨f, rfl⟩ : ∃ f, fuel = f + 1 := ⟨fuel - 1, by omega⟩
    have hgt : ¬ limit ≤ i := by simp at hlast; omega
    simp [for_loop, run_iterations, step_range, hgt, hk0]
  | succ n ih =>
    intro fuel i t w hfuel hi hmin hall hlast
    obtain ⟨f, rfl⟩ : ∃ f, fuel = f + 1 := ⟨fuel - 1, by omega⟩
    have hle : limit ≤ i := by simpa using hall 0 (Nat.succ_pos n)
    have hcast : ((n + 1 : Nat) : Int) * k = n * k + k := by push_cast; ring
    have hnk : (n : Int) * k ≤ 0 :=
      Int.mul_nonpos_of_nonneg_of_nonpos (Int.ofNat_nonneg n) (le_of_lt hk)
    have hwrap : wrap32 (i + k) = i + k := wrap32_of_isInt32 _ ⟨by omega, by omega⟩
    simp only [for_loop, run_iterations, step_range, hle, if_true, hwrap, hk0, gt_iff_lt,
      if_false, ge_iff_le]
    cases hbody : exec_opt ex body (set_symbol t iterator (create_int_value i)) w with
    | error e => rfl
    | ok res =>
      obtain ⟨t1, w1⟩ := res
      refine ih f (i + k) t1 w1 (by omega) (by omega) (by omega) ?_ (by omega)
      intro j hj
      have h1 := hall (j + 1) (by omega)
      have hc : ((j + 1 : Nat) : Int) * k = j * k + k := by push_cast; ring
      omega

/-- For a positive step, `step_count s e k` terms stay at or below `e` and the next one is
above `e`. -/
theorem step_count_pos (s e k : Int) (hk : 0 < k) :
    (∀ j : Nat, j < step_count s e k → s + j * k ≤ e)
    ∧ e < s + step_count s e k * k := by
  unfold step_count
  simp only [gt_iff_lt, hk, if_true]
  by_cases hse : s ≤ e
  · simp only [hse, if_true]
    have hq : 0 ≤ (e - s) / k := Int.ediv_nonneg (by omega) (le_of_lt hk)
    have hlow : (e - s) / k * k ≤ e - s := Int.ediv_mul_le _ (by omega)
    have hup : e - s < ((e - s) / k + 1) * k := Int.lt_ediv_add_one_mul_self _ hk
    have hn : (((((e - s) / k).toNat + 1 : Nat)) : Int) = (e - s) / k + 1 := by
      push_cast; rw [Int.toNat_of_nonneg hq]
    constructor
    · intro j hj
      have hjq : (j : Int) ≤ (e - s) / k := by omega
      have := Int.mul_le_mul_of_nonneg_right hjq (le_of_lt hk)
      omega
    · rw [hn]; omega
  · simp only [hse, if_false]
    constructor
    · intro j hj; omega
    · simp; omega

/-- For a negative step, `step_count s e k` terms stay at or above `e` and the next one is
below `e`. -/
theorem step_count_neg (s e k : Int) (hk : k < 0) :
    (∀ j : Nat, j < step_count s e k → e ≤ s + j * k)
    ∧ s + step_count s e k * k < e := by
  unfold step_count
  have hk0 : ¬ 0 < k := by omega
  simp only [gt_iff_lt, hk0, if_false]
  by_cases hse : e ≤ s
  · simp only [hse, if_true]
    have hq : 0 ≤ (s - e) / (-k) := Int.ediv_nonneg (by omega) (by omega)
    have hlow : (s - e) / (-k) * (-k) ≤ s - e := Int.ediv_mul_le _ (by omega)
    have hup : s - e < ((s - e) / (-k) + 1) * (-k) :=
      Int.lt_ediv_add_one_mul_self _ (by omega)
    have hn : (((((s - e) / (-k)).toNat + 1 : Nat)) : Int) = (s - e) / (-k) + 1 := by
      push_cast; rw [Int.toNat_of_nonneg hq]
    constructor
    · intro j hj
      have hjq : (j : Int) ≤ (s - e) / (-k) := by omega
      have h1 := Int.mul_le_mul_of_nonneg_right hjq (show (0 : Int) ≤ -k by omega)
      have h2 : (j : Int) * (-k) = -(j * k) := by ring
      omega
    · rw [hn]
      have h2 : ((s - e) / (-k) + 1) * (-k) = -(((s - e) / (-k) + 1) * k) := by ring
      omega
  · simp only [hse, if_false]
    constructor
    · intro j hj; omega
    · simp; omega

/-- The counter loop with a nonzero step and no overflow of the counter runs the body for
the `step_count` first terms of the progression. -/
theorem for_loop_step (ex : Exec) (iterator : String) (body : Option ASTNode)
    (s limit k : Int) (hk : k ≠ 0) (fuel : Nat) (t : SymbolTable) (w : World)
    (hs : isInt32 s) (hov : isInt32 (s + step_count s limit k * k))
    (hfuel : step_count s limit k < fuel) :
    for_loop ex fuel s k limit iterator body t w
      = run_iterations ex iterator body (step_range s k (step_count s limit k)) t w := by
  rcases lt_or_gt_of_ne hk with hneg | hpos
  · obtain ⟨hall, hlast⟩ := step_count_neg s limit k hneg
    exact for_loop_step_neg ex iterator body limit k hneg _ fuel s t w hfuel hs.2 hov.1 hall
      hlast
  · obtain ⟨hall, hlast⟩ := step_count_pos s limit k hpos
    exact for_loop_step_pos ex iterator body limit k hpos _ fuel s t w hfuel hs.1 hov.2 hall
      hlast

theorem exec_for_range_step (ev : Eval) (ex : Exec) (fuel : Nat) (iterator : String)
    (type : RangeType) (start_node end_node step_node : ASTNode) (body : Option ASTNode)
    (t t1 t2 t3 : SymbolTable) (w w1 w2 w3 : World) (s e k : Int)
    (hs : ev start_node t w = .ok (.int s, t1, w1))
    (he : ev end_node t1 w1 = .ok (.int e, t2, w2))
    (hk : ev step_node t2 w2 = .ok (.int k, t3, w3)) :
    exec_for_range ev ex fuel iterator (.range type start_node end_node (some step_node))
        body t w
      = for_loop ex fuel s k
          (if type = .NODE_RANGE_INCL ∨ type = .NODE_RANGE_STEP then e else wrap32 (e - 1))
          iterator body t3 w3 := by
  simp [exec_for_range, hs, he, hk, range_bound]

/-- C21: let the start, the end and the explicit step of a `NODE_RANGE_STEP` range evaluate
to the Ints `s`, `e` and `k`, with `k` nonzero, in a frame that is not returning, and let
`n` be the number of terms of `s, s + k, s + 2k, ...` before the first one that passes `e`
(`step_count`); assume the counter does not overflow, that is `s + n k` is a 32-bit int.
Then the loop executes its body once for each of `s, s + k, ..., s + (n - 1) k`, in that
order, with the loop variable bound to that Int at the start of the iteration. Every value
visited is at most `e` for a positive step and at least `e` for a negative one, the next
term `s + n k` passes `e`, and `e` itself is visited whenever it is a term of the
progression. `10..1 step -2` visits exactly 10 8 6 4 2. -/
theorem for_range_explicit_step (h : Host) (fuel : Nat) (iterator : String)
    (start_node end_node step_node : ASTNode) (body : Option ASTNode)
    (t t1 t2 t3 : SymbolTable) (w w1 w2 w3 : World) (s e k : Int)
    (hret : t.is_returning = false)
    (hs : eval_expression h fuel start_node t w = .ok (.int s, t1, w1))
    (he : eval_expression h fuel end_node t1 w1 = .ok (.int e, t2, w2))
    (hk : eval_expression h fuel step_node t2 w2 = .ok (.int k, t3, w3))
    (hk0 : k ≠ 0) (hs32 : isInt32 s)
    (hov : isInt32 (s + step_count s e k * k))
    (hfuel : step_count s e k < fuel) :
    execute_statement h (fuel + 1)
        (.for_range iterator (.range .NODE_RANGE_STEP start_node end_node (some step_node))
          body) t w
      = run_iterations (execute_statement h fuel) iterator body
          (step_range s k (step_count s e k)) t3 w3
    ∧ step_range s k (step_count s e k)
        = (List.range (step_count s e k)).map (fun j : Nat => s + j * k)
    ∧ (0 < k → (∀ i ∈ step_range s k (step_count s e k), i ≤ e)
        ∧ e < s + step_count s e k * k)
    ∧ (k < 0 → (∀ i ∈ step_range s k (step_count s e k), e ≤ i)
        ∧ s + step_count s e k * k < e)
    ∧ (∀ j : Nat, s + j * k = e → e ∈ step_range s k (step_count s e k))
    ∧ step_range 10 (-2) (step_count 10 1 (-2)) = [10, 8, 6, 4, 2] := by
  refine ⟨?_, step_range_eq_map k _ s, ?_, ?_, ?_, by decide⟩
  · rw [execute_statement_succ]
    simp only [exec_node, hret, Bool.false_eq_true, if_false]
    rw [exec_for_range_step _ _ fuel iterator _ start_node end_node step_node body
      t t1 t2 t3 w w1 w2 w3 s e k hs he hk]
    simp only [or_true, if_true]
    exact for_loop_step _ iterator body s e k hk0 fuel t3 w3 hs32 hov hfuel
  · intro hpos
    obtain ⟨hall, hlast⟩ := step_count_pos s e k hpos
    refine ⟨?_, hlast⟩
    intro i hi
    obtain ⟨j, hj, rfl⟩ := (mem_step_range s k _ i).mp hi
    exact hall j hj
  · intro hneg
    obtain ⟨hall, hlast⟩ := step_count_neg s e k hneg
    refine ⟨?_, hlast⟩
    intro i hi
    obtain ⟨j, hj, rfl⟩ := (mem_step_range s k _ i).mp hi
    exact hall j hj
  · intro j hj
    rw [mem_step_range]
    refine ⟨j, ?_, hj.symm⟩
    by_contra hge
    have hge1 : step_count s e k ≤ j := by omega
    rcases lt_or_gt_of_ne hk0 with hneg | hpos
    · have hlast := (step_count_neg s e k hneg).2
      have hmul : (j : Int) * k ≤ step_count s e k * k :=
        Int.mul_le_mul_of_nonpos_right (by exact_mod_cast hge1) (le_of_lt hneg)
      omega
    · have hlast := (step_count_pos s e k hpos).2
      have hmul : (step_count s e k : Int) * k ≤ j * k :=
        Int.mul_le_mul_of_nonneg_right (by exact_mod_cast hge1) (le_of_lt hpos)
      omega

/-- Witness of C21: `for i in 10..1 step -2 { print(i) }` prints 10, 8, 6, 4, 2, each on
its line, and leaves `i` bound to 2. -/
theorem for_range_explicit_step_witness :
    execute_statement sample_host 7 for_10_to_1_step_minus_2 empty_table initial_world
      = .ok (.mk [{ name := "i", value := .int 2 }] none create_void_value false,
          { recursion_depth := 0, stdin := [],
            out := [.value (.int 10), .text "\n", .value (.int 8), .text "\n",
              .value (.int 6), .text "\n", .value (.int 4), .text "\n",
              .value (.int 2), .text "\n"] }) :=
  ((for_range_explicit_step sample_host 6 "i" (.int_literal 10) (.int_literal 1)
    (.unary_op .NODE_UNARY_MINUS (.int_literal 2)) (some print_i)
    empty_table empty_table empty_table empty_table
    initial_world initial_world initial_world initial_world 10 1 (-2)
    rfl rfl rfl (by rfl) (by decide) ⟨by decide, by decide⟩ ⟨by decide, by decide⟩
    (by decide)).1).trans (by rfl)

/-- C22: let the start, the end and the explicit step of a `NODE_RANGE_EXCL` range evaluate
to the Ints `s`, `e` and `k`, with `k` nonzero and `e > INT_MIN`, in a frame that is not
returning. The limit of the loop is `e - 1` whatever the sign of the step, so the loop
visits the terms of `s, s + k, ...` that do not pass `e - 1`. With a positive step every
value visited is below `e`. With a negative step the values visited go down to `e - 1`:
the end value `e` is visited whenever it is a term of the progression, and so is `e - 1`.
`5..1 step -1` on an exclusive range visits 5 4 3 2 1 0. -/
theorem exclusive_range_explicit_step (h : Host) (fuel : Nat) (iterator : String)
    (start_node end_node step_node : ASTNode) (body : Option ASTNode)
    (t t1 t2 t3 : SymbolTable) (w w1 w2 w3 : World) (s e k : Int)
    (hret : t.is_returning = false)
    (hs : eval_expression h fuel start_node t w = .ok (.int s, t1, w1))
    (he : eval_expression h fuel end_node t1 w1 = .ok (.int e, t2, w2))
    (hk : eval_expression h fuel step_node t2 w2 = .ok (.int k, t3, w3))
    (hk0 : k ≠ 0) (hs32 : isInt32 s) (he32 : isInt32 e) (hmin : -2147483648 < e)
    (hov : isInt32 (s + step_count s (e - 1) k * k))
    (hfuel : step_count s (e - 1) k < fuel) :
    execute_statement h (fuel + 1)
        (.for_range iterator (.range .NODE_RANGE_EXCL start_node end_node (some step_node))
          body) t w
      = run_iterations (execute_statement h fuel) iterator body
          (step_range s k (step_count s (e - 1) k)) t3 w3
    ∧ (0 < k → ∀ i ∈ step_range s k (step_count s (e - 1) k), i < e)
    ∧ (k < 0 → ∀ j : Nat, s + j * k = e ∨ s + j * k = e - 1 →
        s + j * k ∈ step_range s k (step_count s (e - 1) k))
    ∧ step_range 5 (-1) (step_count 5 (1 - 1) (-1)) = [5, 4, 3, 2, 1, 0] := by
  refine ⟨?_, ?_, ?_, by decide⟩
  · rw [execute_statement_succ]
    simp only [exec_node, hret, Bool.false_eq_true, if_false]
    rw [exec_for_range_step _ _ fuel iterator _ start_node end_node step_node body
      t t1 t2 t3 w w1 w2 w3 s e k hs he hk]
    have hwrap : wrap32 (e - 1) = e - 1 := wrap32_of_isInt32 _ ⟨by omega, by have := he32.2; omega⟩
    simp only [reduceCtorEq, or_self, if_false, hwrap]
    exact for_loop_step _ iterator body s (e - 1) k hk0 fuel t3 w3 hs32 hov hfuel
  · intro hpos i hi
    obtain ⟨j, hj, rfl⟩ := (mem_step_range s k _ i).mp hi
    have := (step_count_pos s (e - 1) k hpos).1 j hj
    omega
  · intro hneg j hj
    rw [mem_step_range]
    refine ⟨j, ?_, rfl⟩
    by_contra hge
    have hge1 : step_count s (e - 1) k ≤ j := by omega
    have hlast := (step_count_neg s (e - 1) k hneg).2
    have hmul : (j : Int) * k ≤ step_count s (e - 1) k * k :=
      Int.mul_le_mul_of_nonpos_right (by exact_mod_cast hge1) (le_of_lt hneg)
    omega

/-- Witness of C22: `for i in 5..1 step -1 { print(i) }` on an exclusive range prints 5, 4,
3, 2, 1 and 0: the loop variable takes the end value 1 and then 0. -/
theorem exclusive_range_explicit_step_witness :
    execute_statement sample_host 8 for_5_to_1_exclusive_step_minus_1 empty_table
        initial_world
      = .ok (.mk [{ name := "i", value := .int 0 }] none create_void_value false,
          { recursion_depth := 0, stdin := [],
            out := [.value (.int 5), .text "\n", .value (.int 4), .text "\n",
              .value (.int 3), .text "\n", .value (.int 2), .text "\n",
              .value (.int 1), .text "\n", .value (.int 0), .text "\n"] }) :=
  ((exclusive_range_explicit_step sample_host 7 "i" (.int_literal 5) (.int_literal 1)
    (.unary_op .NODE_UNARY_MINUS (.int_literal 1)) (some print_i)
    empty_table empty_table empty_table empty_table
    initial_world initial_world initial_world initial_world 5 1 (-1)
    rfl rfl rfl (by rfl) (by decide) ⟨by decide, by decide⟩ ⟨by decide, by decide⟩ (by decide)
    ⟨by decide, by decide⟩ (by decide)).1).trans (by rfl)

/-! ## The return state of a frame -/

theorem same_frame_refl (t : SymbolTable) : same_frame t t := ⟨rfl, rfl, rfl⟩

theorem same_frame_trans {a b c : SymbolTable} (h1 : same_frame a b) (h2 : same_frame b c) :
    same_frame a c :=
  ⟨h2.1.trans h1.1, h2.2.1.trans h1.2.1, h2.2.2.trans h1.2.2⟩

theorem same_frame_set_symbol (t : SymbolTable) (name : String) (v : Value) :
    same_frame t (set_symbol t name v) := set_symbol_parent t name v

theorem frame_step_refl (t : SymbolTable) : frame_step t t :=
  ⟨rfl, fun h => ⟨h, rfl⟩, fun _ => rfl⟩

theorem frame_step_of_same {a b : SymbolTable} (h : same_frame a b) : frame_step a b :=
  ⟨h.1, fun hr => ⟨h.2.2.trans hr, h.2.1⟩, fun _ => h.2.1⟩

theorem frame_step_trans {a b c : SymbolTable} (h1 : frame_step a b) (h2 : frame_step b c) :
    frame_step a c := by
  refine ⟨h2.1.trans h1.1, ?_, ?_⟩
  · intro ha
    obtain ⟨hb, hbv⟩ := h1.2.1 ha
    obtain ⟨hc, hcv⟩ := h2.2.1 hb
    exact ⟨hc, hcv.trans hbv⟩
  · intro hc
    have hcv := h2.2.2 hc
    cases hb : b.is_returning with
    | false => exact hcv.trans (h1.2.2 hb)
    | true =>
      have := (h2.2.1 hb).1
      rw [hc] at this
      cases this

theorem set_root_root : ∀ t : SymbolTable, t.set_root t.root = t
  | .mk head none rv ret => by simp [SymbolTable.set_root, SymbolTable.root]
  | .mk head (some p) rv ret => by
    have ih := set_root_root p
    simp [SymbolTable.set_root, SymbolTable.root, ih]

theorem root_of_parent_none (t : SymbolTable) (hp : t.parent = none) : t.root = t := by
  obtain ⟨head, parent, rv, ret⟩ := t
  simp only [SymbolTable.parent] at hp
  subst hp
  simp [SymbolTable.root]

theorem set_parent_fields (t : SymbolTable) (p : Option SymbolTable) :
    (t.set_parent p).parent = p ∧ (t.set_parent p).head = t.head
    ∧ (t.set_parent p).return_value = t.return_value
    ∧ (t.set_parent p).is_returning = t.is_returning := by
  obtain ⟨head, parent, rv, ret⟩ := t
  exact ⟨rfl, rfl, rfl, rfl⟩

theorem set_return_fields (t : SymbolTable) (v : Value) (b : Bool) :
    (t.set_return v b).parent = t.parent ∧ (t.set_return v b).head = t.head
    ∧ (t.set_return v b).return_value = v ∧ (t.set_return v b).is_returning = b := by
  obtain ⟨head, parent, rv, ret⟩ := t
  exact ⟨rfl, rfl, rfl, rfl⟩

theorem print_items_keeps_frame (ev : Eval) (hev : keeps_frame ev) :
    ∀ (items : List ASTNode) (t : SymbolTable) (w : World) (t1 : SymbolTable) (w1 : World),
      print_items ev items t w = .ok (t1, w1) → same_frame t t1
  | [], t, w, t1, w1, hres => by
    simp only [print_items] at hres
    cases hres; exact same_frame_refl t
  | [item], t, w, t1, w1, hres => by
    simp only [print_items] at hres
    cases hi : ev item t w with
    | error e => rw [hi] at hres; cases hres
    | ok res =>
      obtain ⟨val, t2, w2⟩ := res
      rw [hi] at hres
      cases hres
      exact hev _ _ _ _ _ _ hi
  | item :: next :: rest, t, w, t1, w1, hres => by
    simp only [print_items] at hres
    cases hi : ev item t w with
    | error e => rw [hi] at hres; cases hres
    | ok res =>
      obtain ⟨val, t2, w2⟩ := res
      rw [hi] at hres
      exact same_frame_trans (hev _ _ _ _ _ _ hi)
        (print_items_keeps_frame ev hev (next :: rest) _ _ _ _ hres)

theorem printm_items_keeps_frame (ev : Eval) (hev : keeps_frame ev) :
    ∀ (items : List ASTNode) (t : SymbolTable) (w : World) (t1 : SymbolTable) (w1 : World),
      printm_items ev items t w = .ok (t1, w1) → same_frame t t1
  | [], t, w, t1, w1, hres => by
    simp only [printm_items] at hres
    cases hres; exact same_frame_refl t
  | item :: rest, t, w, t1, w1, hres => by
    simp only [printm_items] at hres
    cases hi : ev item t w with
    | error e => rw [hi] at hres; cases hres
    | ok res =>
      obtain ⟨val, t2, w2⟩ := res
      rw [hi] at hres
      have h1 := hev _ _ _ _ _ _ hi
      cases val <;>
        exact same_frame_trans h1 (printm_items_keeps_frame ev hev rest _ _ _ _ hres)

theorem fill_cells_keeps_frame (ev : Eval) (hev : keeps_frame ev) :
    ∀ (items : List ASTNode) (i j : Nat) (mat : Matrix) (t : SymbolTable) (w : World)
      (mat1 : Matrix) (t1 : SymbolTable) (w1 : World),
      fill_cells ev items i j mat t w = .ok (mat1, t1, w1) → same_frame t t1
  | [], i, j, mat, t, w, mat1, t1, w1, hres => by
    simp only [fill_cells] at hres
    cases hres; exact same_frame_refl t
  | item :: rest, i, j, mat, t, w, mat1, t1, w1, hres => by
    simp only [fill_cells] at hres
    cases hi : ev item t w with
    | error e => rw [hi] at hres; cases hres
    | ok res =>
      obtain ⟨val, t2, w2⟩ := res
      rw [hi] at hres
      exact same_frame_trans (hev _ _ _ _ _ _ hi)
        (fill_cells_keeps_frame ev hev rest _ _ _ _ _ _ _ _ hres)

theorem fill_rows_keeps_frame (ev : Eval) (hev : keeps_frame ev) :
    ∀ (rows : List ASTNode) (i cols : Nat) (mat : Matrix) (t : SymbolTable) (w : World)
      (mat1 : Matrix) (t1 : SymbolTable) (w1 : World),
      fill_rows ev rows i cols mat t w = .ok (mat1, t1, w1) → same_frame t t1
  | [], i, cols, mat, t, w, mat1, t1, w1, hres => by
    simp only [fill_rows] at hres
    cases hres; exact same_frame_refl t
  | row :: rest, i, cols, mat, t, w, mat1, t1, w1, hres => by
    cases hrow : row.isArrayLiteral with
    | false =>
      rw [fill_rows_not_literal ev row rest i cols mat t w hrow] at hres
      cases hres
    | true =>
      obtain ⟨items, rfl⟩ := isArrayLiteral_true row hrow
      rw [fill_rows_literal] at hres
      split at hres
      · cases hres
      · cases hc : fill_cells ev items i 0 mat t w with
        | error e => rw [hc] at hres; cases hres
        | ok res =>
          obtain ⟨mat2, t2, w2⟩ := res
          rw [hc] at hres
          exact same_frame_trans (fill_cells_keeps_frame ev hev items _ _ _ _ _ _ _ _ hc)
            (fill_rows_keeps_frame ev hev rest _ _ _ _ _ _ _ _ hres)

theorem array_literal_keeps_frame (ev : Eval) (hev : keeps_frame ev) (node : ASTNode)
    (t : SymbolTable) (w : World) (v : Value) (t1 : SymbolTable) (w1 : World)
    (hres : array_literal_to_matrix ev node t w = .ok (v, t1, w1)) : same_frame t t1 := by
  cases hnode : node.isArrayLiteral with
  | false => rw [array_literal_not_literal ev node t w hnode] at hres; cases hres
  | true =>
    obtain ⟨items, rfl⟩ := isArrayLiteral_true node hnode
    cases items with
    | nil => cases hres; exact same_frame_refl t
    | cons first rest =>
      cases hfirst : first.isArrayLiteral with
      | false =>
        rw [array_literal_flat_unfold ev first rest t w hfirst] at hres
        cases hc : fill_cells ev (first :: rest) 0 0 (create_matrix 1 (rest.length + 1)) t w with
        | error e => rw [hc] at hres; cases hres
        | ok res =>
          obtain ⟨mat2, t2, w2⟩ := res
          rw [hc] at hres
          cases hres
          exact fill_cells_keeps_frame ev hev _ _ _ _ _ _ _ _ _ hc
      | true =>
        obtain ⟨first_items, rfl⟩ := isArrayLiteral_true first hfirst
        rw [array_literal_nested_unfold] at hres
        cases hc : fill_rows ev (.list .NODE_ARRAY_LITERAL first_items :: rest) 0
            first_items.length (create_matrix (rest.length + 1) first_items.length) t w with
        | error e => rw [hc] at hres; cases hres
        | ok res =>
          obtain ⟨mat2, t2, w2⟩ := res
          rw [hc] at hres
          cases hres
          exact fill_rows_keeps_frame ev hev _ _ _ _ _ _ _ _ _ hc

theorem inc_dec_keeps_frame (name : String) (dec post : Bool) (t : SymbolTable) (w : World)
    (v : Value) (t1 : SymbolTable) (w1 : World)
    (hres : inc_dec name dec post t w = .ok (v, t1, w1)) : same_frame t t1 := by
  unfold inc_dec at hres
  simp only at hres
  repeat' split at hres
  all_goals (cases hres; try exact same_frame_set_symbol _ _ _)

theorem compound_assign_keeps_frame (ev : Eval) (hev : keeps_frame ev)
    (combine : Value → Value → Except Halt Value)
    (name : String) (right : ASTNode) (t : SymbolTable) (w : World)
    (v : Value) (t1 : SymbolTable) (w1 : World)
    (hres : compound_assign ev combine name right t w = .ok (v, t1, w1)) :
    same_frame t t1 := by
  unfold compound_assign at hres
  simp only at hres
  cases hr : ev right t w with
  | error e => rw [hr] at hres; cases hres
  | ok res =>
    obtain ⟨rv, t2, w2⟩ := res
    rw [hr] at hres
    simp only at hres
    have h1 := hev _ _ _ _ _ _ hr
    repeat' split at hres
    all_goals (cases hres; try exact same_frame_trans h1 (same_frame_set_symbol _ _ _))

theorem eval_logical_keeps_frame (ev : Eval) (hev : keeps_frame ev) (is_or : Bool)
    (l r : ASTNode) (t : SymbolTable) (w : World) (v : Value) (t1 : SymbolTable) (w1 : World)
    (hres : eval_logical ev is_or l r t w = .ok (v, t1, w1)) : same_frame t t1 := by
  unfold eval_logical at hres
  cases hl : ev l t w with
  | error e => rw [hl] at hres; cases hres
  | ok res =>
    obtain ⟨lv, t2, w2⟩ := res
    rw [hl] at hres
    simp only at hres
    have h1 := hev _ _ _ _ _ _ hl
    split at hres
    · cases hres
    · split at hres
      · cases hres; exact h1
      · split at hres
        · cases hres; exact h1
        · cases hr : ev r t2 w2 with
          | error e => rw [hr] at hres; cases hres
          | ok res2 =>
            obtain ⟨rv, t3, w3⟩ := res2
            rw [hr] at hres
            simp only at hres
            have h2 := hev _ _ _ _ _ _ hr
            split at hres
            · cases hres
            · cases hres; exact same_frame_trans h1 h2

theorem builtin_print_keeps_frame (ev : Eval) (hev : keeps_frame ev) (args : Option ASTNode)
    (t : SymbolTable) (w : World) (v : Value) (t1 : SymbolTable) (w1 : World)
    (hres : builtin_print ev args t w = .ok (v, t1, w1)) : same_frame t t1 := by
  unfold builtin_print at hres
  split at hres
  · rename_i items
    cases hp : print_items ev items t w with
    | error e => rw [hp] at hres; cases hres
    | ok res =>
      obtain ⟨t2, w2⟩ := res
      rw [hp] at hres
      cases hres
      exact print_items_keeps_frame ev hev _ _ _ _ _ hp
  · cases hres; exact same_frame_refl t

theorem builtin_printm_keeps_frame (ev : Eval) (hev : keeps_frame ev) (args : Option ASTNode)
    (t : SymbolTable) (w : World) (v : Value) (t1 : SymbolTable) (w1 : World)
    (hres : builtin_printm ev args t w = .ok (v, t1, w1)) : same_frame t t1 := by
  unfold builtin_printm at hres
  split at hres
  · rename_i items
    cases hp : printm_items ev items t w with
    | error e => rw [hp] at hres; cases hres
    | ok res =>
      obtain ⟨t2, w2⟩ := res
      rw [hp] at hres
      cases hres
      exact printm_items_keeps_frame ev hev _ _ _ _ _ hp
  · cases hres; exact same_frame_refl t

/-- The binding loop leaves the parent and the return state of the table of the caller
and of the new scope as they were. -/
theorem bind_arguments_keeps_frame (ev : Eval) (hev : keeps_frame ev) :
    ∀ (ps items : List ASTNode) (fs t : SymbolTable) (w : World) (fs1 t1 : SymbolTable)
      (w1 : World),
      bind_arguments ev ps items fs t w = .ok (fs1, t1, w1) →
      same_frame t t1 ∧ same_frame fs fs1
  | [], items, fs, t, w, fs1, t1, w1, hres => by
    simp [bind_arguments] at hres
    obtain ⟨h1, h2, _⟩ := hres
    subst h1; subst h2
    exact ⟨same_frame_refl _, same_frame_refl _⟩
  | p :: ps, [], fs, t, w, fs1, t1, w1, hres => by
    simp [bind_arguments] at hres
    obtain ⟨h1, h2, _⟩ := hres
    subst h1; subst h2
    exact ⟨same_frame_refl _, same_frame_refl _⟩
  | p :: ps, a :: items, fs, t, w, fs1, t1, w1, hres => by
    simp only [bind_arguments] at hres
    cases ha : ev a t w with
    | error e => rw [ha] at hres; cases hres
    | ok res =>
      obtain ⟨arg_val, t2, w2⟩ := res
      rw [ha] at hres
      simp only at hres
      cases p <;> try (cases hres)
      rename_i ty name
      obtain ⟨h1, h2⟩ := bind_arguments_keeps_frame ev hev ps items _ t2 w2 fs1 t1 w1 hres
      exact ⟨same_frame_trans (hev _ _ _ _ _ _ ha) h1,
        same_frame_trans (same_frame_set_symbol fs name arg_val) h2⟩

theorem bind_phase_keeps_frame (ev : Eval) (hev : keeps_frame ev) (params args : Option ASTNode)
    (t : SymbolTable) (w : World) (fs1 t1 : SymbolTable) (w1 : World)
    (hres : bind_phase ev params args t w = .ok (fs1, t1, w1)) :
    same_frame t t1 ∧ same_frame (create_symbol_table (some t.root)) fs1 := by
  unfold bind_phase at hres
  split at hres
  · exact bind_arguments_keeps_frame ev hev _ _ _ _ _ _ _ _ hres
  · cases hres
  · cases hres; exact ⟨same_frame_refl _, same_frame_refl _⟩

/-- A call that passes the lookup and the recursion check: the binding phase, the body in
the new scope, and the copy of the `return_value` of that scope. -/
theorem call_function_entered (ev : Eval) (ex : Exec) (func_name : String)
    (args : Option ASTNode) (t : SymbolTable) (w : World)
    (rt : DataType) (nm : String) (params body : Option ASTNode)
    (hf : get_symbol t func_name = some (.func (.func_decl rt nm params body)))
    (hdepth : w.recursion_depth < MAX_RECURSION_DEPTH) :
    call_function ev ex func_name args t w
      = match bind_phase ev params args t
            { w with recursion_depth := w.recursion_depth + 1 } with
        | .error e => .error e
        | .ok (scope1, t1, w2) =>
          match exec_opt ex body (scope1.set_parent (some t1.root)) w2 with
          | .error e => .error e
          | .ok (scope3, w3) =>
            .ok (copy_value scope3.return_value,
              (match scope3.parent with
                | some g => t1.set_root g
                | none => t1),
              { w3 with recursion_depth := w3.recursion_depth - 1 }) := by
  have hd : ¬ w.recursion_depth ≥ MAX_RECURSION_DEPTH := not_le.mpr hdepth
  unfold call_function
  simp only [hf, hd, if_false]
  rfl

theorem exec_opt_steps_frame (ex : Exec) (hex : steps_frame ex) (body : Option ASTNode)
    (t : SymbolTable) (w : World) (t1 : SymbolTable) (w1 : World)
    (hres : exec_opt ex body t w = .ok (t1, w1)) :
    frame_step t t1 ∧ (t.is_returning = true → t1 = t ∧ w1 = w) := by
  cases body with
  | none =>
    simp only [exec_opt] at hres
    cases hres
    exact ⟨frame_step_refl t, fun _ => ⟨rfl, rfl⟩⟩
  | some b => exact hex b t w t1 w1 hres

/-- A call that returns has passed the lookup and the recursion check, bound its
arguments and executed the body in the new scope; its value is the copy of the
`return_value` of that scope, and the table of the caller is the one the evaluation of the
arguments left. -/
theorem call_function_result (ev : Eval) (ex : Exec) (hex : steps_frame ex)
    (func_name : String) (args : Option ASTNode) (t : SymbolTable) (w : World)
    (v : Value) (t2 : SymbolTable) (w2 : World)
    (hres : call_function ev ex func_name args t w = .ok (v, t2, w2)) :
    ∃ (rt : DataType) (nm : String) (params body : Option ASTNode)
      (scope1 t1 : SymbolTable) (w1 : World) (scope3 : SymbolTable) (w3 : World),
      get_symbol t func_name = some (.func (.func_decl rt nm params body))
      ∧ w.recursion_depth < MAX_RECURSION_DEPTH
      ∧ bind_phase ev params args t { w with recursion_depth := w.recursion_depth + 1 }
          = .ok (scope1, t1, w1)
      ∧ exec_opt ex body (scope1.set_parent (some t1.root)) w1 = .ok (scope3, w3)
      ∧ v = copy_value scope3.return_value
      ∧ t2 = t1
      ∧ w2 = { w3 with recursion_depth := w3.recursion_depth - 1 } := by
  cases hf : get_symbol t func_name with
  | none => simp [call_function, hf] at hres
  | some val =>
    cases val <;> try (simp [call_function, hf] at hres; done)
    rename_i decl
    by_cases hd : w.recursion_depth ≥ MAX_RECURSION_DEPTH
    · simp [call_function, hf, hd] at hres
    · cases decl <;> try (simp [call_function, hf, hd] at hres; done)
      rename_i rt nm params body
      have hlt : w.recursion_depth < MAX_RECURSION_DEPTH := not_le.mp hd
      rw [call_function_entered ev ex func_name args t w rt nm params body hf hlt] at hres
      cases hb : bind_phase ev params args t
          { w with recursion_depth := w.recursion_depth + 1 } with
      | error e => rw [hb] at hres; cases hres
      | ok res =>
        obtain ⟨scope1, t1, w1⟩ := res
        rw [hb] at hres
        simp only at hres
        cases hx : exec_opt ex body (scope1.set_parent (some t1.root)) w1 with
        | error e => rw [hx] at hres; cases hres
        | ok res2 =>
          obtain ⟨scope3, w3⟩ := res2
          rw [hx] at hres
          simp only at hres
          have hstep := (exec_opt_steps_frame ex hex body _ _ _ _ hx).1
          have hp : scope3.parent = some t1.root :=
            hstep.1.trans (set_parent_fields scope1 (some t1.root)).1
          rw [hp] at hres
          simp only [set_root_root, Except.ok.injEq, Prod.mk.injEq] at hres
          obtain ⟨hv, ht, hw⟩ := hres
          exact ⟨rt, nm, params, body, scope1, t1, w1, scope3, w3, rfl, hlt, hb, hx, hv.symm,
            ht.symm, hw.symm⟩

theorem call_function_keeps_frame (ev : Eval) (ex : Exec) (hev : keeps_frame ev)
    (hex : steps_frame ex) (func_name : String) (args : Option ASTNode) (t : SymbolTable)
    (w : World) (v : Value) (t2 : SymbolTable) (w2 : World)
    (hres : call_function ev ex func_name args t w = .ok (v, t2, w2)) : same_frame t t2 := by
  obtain ⟨rt, nm, params, body, scope1, t1, w1, scope3, w3, _, _, hb, _, _, ht, _⟩ :=
    call_function_result ev ex hex func_name args t w v t2 w2 hres
  rw [ht]
  exact (bind_phase_keeps_frame ev hev params args t _ _ _ _ hb).1

/-- The body of `eval_expression` leaves the parent and the return state of its table as
they were when the recursive calls do. -/
theorem eval_node_keeps_frame (h : Host) (ev : Eval) (ex : Exec)
    (hev : keeps_frame ev) (hex : steps_frame ex) : keeps_frame (eval_node h ev ex) := by
  intro node t w v t1 w1 hres
  cases node
  case int_literal => cases hres; exact same_frame_refl t
  case float_literal => cases hres; exact same_frame_refl t
  case string_literal => cases hres; exact same_frame_refl t
  case bool_literal => cases hres; exact same_frame_refl t
  case identifier name =>
    simp only [eval_node] at hres
    split at hres
    · cases hres; exact same_frame_refl t
    · cases hres
  case binary_op op l r =>
    cases op
    case NODE_AND => exact eval_logical_keeps_frame ev hev _ l r t w v t1 w1 hres
    case NODE_OR => exact eval_logical_keeps_frame ev hev _ l r t w v t1 w1 hres
    case NODE_ASSIGN =>
      simp only [eval_node] at hres
      cases hr : ev r t w with
      | error e => rw [hr] at hres; cases hres
      | ok res =>
        obtain ⟨val, t2, w2⟩ := res
        rw [hr] at hres
        simp only at hres
        have hval := hev r t w val t2 w2 hr
        split at hres
        · cases hres; exact same_frame_trans hval (same_frame_set_symbol _ _ _)
        · cases hres; exact hval
    case NODE_PLUS_ASSIGN =>
      simp only [eval_node] at hres
      split at hres
      · exact compound_assign_keeps_frame ev hev _ _ _ _ _ _ _ _ hres
      · cases hres; exact same_frame_refl t
    case NODE_MINUS_ASSIGN =>
      simp only [eval_node] at hres
      split at hres
      · exact compound_assign_keeps_frame ev hev _ _ _ _ _ _ _ _ hres
      · cases hres; exact same_frame_refl t
    case NODE_MUL_ASSIGN =>
      simp only [eval_node] at hres
      split at hres
      · exact compound_assign_keeps_frame ev hev _ _ _ _ _ _ _ _ hres
      · cases hres; exact same_frame_refl t
    case NODE_DIV_ASSIGN =>
      simp only [eval_node] at hres
      split at hres
      · exact compound_assign_keeps_frame ev hev _ _ _ _ _ _ _ _ hres
      · cases hres; exact same_frame_refl t
    all_goals
      simp only [eval_node] at hres
      cases hl : ev l t w with
      | error e => rw [hl] at hres; cases hres
      | ok res =>
        obtain ⟨a, t2, w2⟩ := res
        rw [hl] at hres
        simp only at hres
        cases hr : ev r t2 w2 with
        | error e => rw [hr] at hres; cases hres
        | ok res2 =>
          obtain ⟨b, t3, w3⟩ := res2
          rw [hr] at hres
          simp only at hres
          split at hres
          · cases hres
          · cases hres
            exact same_frame_trans (hev _ _ _ _ _ _ hl) (hev _ _ _ _ _ _ hr)
  case unary_op type operand =>
    cases type
    case NODE_NOT =>
      simp only [eval_node] at hres
      cases ho : ev operand t w with
      | error e => rw [ho] at hres; cases hres
      | ok res =>
        obtain ⟨a, t2, w2⟩ := res
        rw [ho] at hres
        simp only at hres
        split at hres
        · cases hres
        · cases hres; exact hev _ _ _ _ _ _ ho
    case NODE_UNARY_MINUS =>
      simp only [eval_node] at hres
      cases ho : ev operand t w with
      | error e => rw [ho] at hres; cases hres
      | ok res =>
        obtain ⟨a, t2, w2⟩ := res
        rw [ho] at hres
        simp only at hres
        split at hres
        · cases hres; exact hev _ _ _ _ _ _ ho
        · cases hres; exact hev _ _ _ _ _ _ ho
        · cases hres
    all_goals
      simp only [eval_node] at hres
      split at hres
      · exact inc_dec_keeps_frame _ _ _ _ _ _ _ _ hres
      · cases hres
  case func_call func args =>
    simp only [eval_node] at hres
    split at hres
    · split at hres
      · exact builtin_print_keeps_frame ev hev args t w v t1 w1 hres
      · split at hres
        · exact builtin_printm_keeps_frame ev hev args t w v t1 w1 hres
        · split at hres
          · cases hres; exact same_frame_refl t
          · exact call_function_keeps_frame ev ex hev hex _ args t w v t1 w1 hres
    · cases hres; exact same_frame_refl t
  case list type items =>
    cases type
    case NODE_ARRAY_LITERAL =>
      have hres1 : array_literal_to_matrix ev (.list .NODE_ARRAY_LITERAL items) t w
          = .ok (v, t1, w1) := hres
      exact array_literal_keeps_frame ev hev _ t w v t1 w1 hres1
    all_goals (cases hres; exact same_frame_refl t)
  all_goals (cases hres; exact same_frame_refl t)

theorem exec_list_steps_frame (ex : Exec) (hex : steps_frame ex) :
    ∀ (items : List ASTNode) (t : SymbolTable) (w : World) (t1 : SymbolTable) (w1 : World),
      exec_list ex items t w = .ok (t1, w1) →
      frame_step t t1 ∧ (t.is_returning = true → t1 = t ∧ w1 = w)
  | [], t, w, t1, w1, hres => by
    simp only [exec_list] at hres
    cases hres
    exact ⟨frame_step_refl t, fun _ => ⟨rfl, rfl⟩⟩
  | item :: rest, t, w, t1, w1, hres => by
    simp only [exec_list] at hres
    split at hres
    · cases hres
      exact ⟨frame_step_refl t, fun _ => ⟨rfl, rfl⟩⟩
    · rename_i hret
      cases hi : ex item t w with
      | error e => rw [hi] at hres; cases hres
      | ok res =>
        obtain ⟨t2, w2⟩ := res
        rw [hi] at hres
        simp only at hres
        refine ⟨frame_step_trans (hex _ _ _ _ _ hi).1
          (exec_list_steps_frame ex hex rest _ _ _ _ hres).1, ?_⟩
        intro hr
        exact absurd hr hret

/-- The loop of `NODE_WHILE` never clears the flag and never overwrites a stored
`return_value`, also when it goes on after a `return` in its body. -/
theorem while_loop_steps_frame (ev : Eval) (ex : Exec) (hev : keeps_frame ev)
    (hex : steps_frame ex) (condition : ASTNode) (body : Option ASTNode) :
    ∀ (fuel : Nat) (t : SymbolTable) (w : World) (t1 : SymbolTable) (w1 : World),
      while_loop ev ex fuel condition body t w = .ok (t1, w1) → frame_step t t1
  | 0, t, w, t1, w1, hres => by simp [while_loop] at hres
  | fuel + 1, t, w, t1, w1, hres => by
    simp only [while_loop] at hres
    cases hc : ev condition t w with
    | error e => rw [hc] at hres; cases hres
    | ok res =>
      obtain ⟨cond, t2, w2⟩ := res
      rw [hc] at hres
      simp only at hres
      have h1 := frame_step_of_same (hev _ _ _ _ _ _ hc)
      split at hres
      · cases hres
      · split at hres
        · cases hres; exact h1
        · cases hb : exec_opt ex body t2 w2 with
          | error e => rw [hb] at hres; cases hres
          | ok res2 =>
            obtain ⟨t3, w3⟩ := res2
            rw [hb] at hres
            simp only at hres
            exact frame_step_trans h1 (frame_step_trans
              (exec_opt_steps_frame ex hex body _ _ _ _ hb).1
              (while_loop_steps_frame ev ex hev hex condition body fuel _ _ _ _ hres))

/-- The loop of `NODE_FOR_RANGE` never clears the flag and never overwrites a stored
`return_value`, also when it goes on after a `return` in its body. -/
theorem for_loop_steps_frame (ex : Exec) (hex : steps_frame ex) (step limit : Int)
    (iterator : String) (body : Option ASTNode) :
    ∀ (fuel : Nat) (i : Int) (t : SymbolTable) (w : World) (t1 : SymbolTable) (w1 : World),
      for_loop ex fuel i step limit iterator body t w = .ok (t1, w1) → frame_step t t1
  | 0, i, t, w, t1, w1, hres => by simp [for_loop] at hres
  | fuel + 1, i, t, w, t1, w1, hres => by
    simp only [for_loop] at hres
    by_cases hcond : (if step > 0 then i ≤ limit else i ≥ limit)
    · rw [if_pos hcond] at hres
      cases hb : exec_opt ex body (set_symbol t iterator (create_int_value i)) w with
      | error e => rw [hb] at hres; cases hres
      | ok res2 =>
        obtain ⟨t3, w3⟩ := res2
        rw [hb] at hres
        simp only at hres
        exact frame_step_trans (frame_step_of_same (same_frame_set_symbol _ _ _))
          (frame_step_trans (exec_opt_steps_frame ex hex body _ _ _ _ hb).1
            (for_loop_steps_frame ex hex step limit iterator body fuel _ _ _ _ _ hres))
    · rw [if_neg hcond] at hres
      cases hres; exact frame_step_refl t

theorem exec_for_range_steps_frame (ev : Eval) (ex : Exec) (hev : keeps_frame ev)
    (hex : steps_frame ex) (fuel : Nat) (iterator : String) (range : ASTNode)
    (body : Option ASTNode) (t : SymbolTable) (w : World) (t1 : SymbolTable) (w1 : World)
    (hres : exec_for_range ev ex fuel iterator range body t w = .ok (t1, w1)) :
    frame_step t t1 := by
  unfold exec_for_range at hres
  cases range <;> try (cases hres)
  rename_i type start_node end_node step_node
  simp only at hres
  cases hs : ev start_node t w with
  | error e => rw [hs] at hres; cases hres
  | ok res =>
    obtain ⟨sv, t2, w2⟩ := res
    rw [hs] at hres
    simp only at hres
    cases he : ev end_node t2 w2 with
    | error e => rw [he] at hres; cases hres
    | ok res2 =>
      obtain ⟨evl, t3, w3⟩ := res2
      rw [he] at hres
      simp only at hres
      have h1 := same_frame_trans (hev _ _ _ _ _ _ hs) (hev _ _ _ _ _ _ he)
      cases hsb : range_bound sv with
      | none => rw [hsb] at hres; cases hres
      | some start =>
        cases heb : range_bound evl with
        | none => rw [hsb, heb] at hres; cases hres
        | some stop =>
          rw [hsb, heb] at hres
          simp only at hres
          cases step_node with
          | none =>
            simp only at hres
            exact frame_step_trans (frame_step_of_same h1)
              (for_loop_steps_frame ex hex _ _ iterator body fuel _ _ _ _ _ hres)
          | some sn =>
            simp only at hres
            cases hk : ev sn t3 w3 with
            | error e => rw [hk] at hres; cases hres
            | ok res3 =>
              obtain ⟨kv, t4, w4⟩ := res3
              rw [hk] at hres
              simp only at hres
              cases hkb : range_bound kv with
              | none => rw [hkb] at hres; cases hres
              | some step =>
                rw [hkb] at hres
                simp only at hres
                exact frame_step_trans
                  (frame_step_of_same (same_frame_trans h1 (hev _ _ _ _ _ _ hk)))
                  (for_loop_steps_frame ex hex _ _ iterator body fuel _ _ _ _ _ hres)

/-- The body of `execute_statement` is a `frame_step` and returns at once on a frame that
is returning, when the recursive calls do. -/
theorem exec_node_steps_frame (ev : Eval) (ex : Exec) (hev : keeps_frame ev)
    (hex : steps_frame ex) (fuel : Nat) : steps_frame (exec_node ev ex fuel) := by
  intro node t w t1 w1 hres
  unfold exec_node at hres
  cases hret : t.is_returning with
  | true =>
    rw [hret] at hres
    simp only [if_true] at hres
    cases hres
    exact ⟨frame_step_refl t, fun _ => ⟨rfl, rfl⟩⟩
  | false =>
    rw [hret] at hres
    simp only [Bool.false_eq_true, if_false] at hres
    refine ⟨?_, fun hr => by cases hr⟩
    cases node
    case expr_stmt operand =>
      cases operand with
      | none => cases hres; exact frame_step_refl t
      | some e =>
        simp only at hres
        cases he : ev e t w with
        | error err => rw [he] at hres; cases hres
        | ok res =>
          obtain ⟨val, t2, w2⟩ := res
          rw [he] at hres
          cases hres
          exact frame_step_of_same (hev _ _ _ _ _ _ he)
    case var_decl type name initializer =>
      cases initializer with
      | none => cases hres; exact frame_step_of_same (same_frame_set_symbol _ _ _)
      | some ini =>
        simp only at hres
        cases he : ev ini t w with
        | error err => rw [he] at hres; cases hres
        | ok res =>
          obtain ⟨val, t2, w2⟩ := res
          rw [he] at hres
          cases hres
          exact frame_step_of_same
            (same_frame_trans (hev _ _ _ _ _ _ he) (same_frame_set_symbol _ _ _))
    case if_stmt condition then_stmt else_stmt =>
      simp only at hres
      cases hc : ev condition t w with
      | error err => rw [hc] at hres; cases hres
      | ok res =>
        obtain ⟨cond, t2, w2⟩ := res
        rw [hc] at hres
        simp only at hres
        have h1 := frame_step_of_same (hev _ _ _ _ _ _ hc)
        split at hres
        · cases hres
        · split at hres
          · exact frame_step_trans h1 (exec_opt_steps_frame ex hex _ _ _ _ _ hres).1
          · exact frame_step_trans h1 (exec_opt_steps_frame ex hex _ _ _ _ _ hres).1
    case while_stmt condition body =>
      exact while_loop_steps_frame ev ex hev hex condition body fuel _ _ _ _ hres
    case for_range iterator range body =>
      exact exec_for_range_steps_frame ev ex hev hex fuel iterator range body _ _ _ _ hres
    case return_stmt value =>
      cases value with
      | none =>
        cases hres
        obtain ⟨hp, _, hv, hb⟩ := set_return_fields t create_void_value true
        exact ⟨hp, fun hr => absurd (hret.symm.trans hr) (by decide),
          fun hf => absurd (hb.symm.trans hf) (by decide)⟩
      | some vn =>
        simp only at hres
        cases he : ev vn t w with
        | error err => rw [he] at hres; cases hres
        | ok res =>
          obtain ⟨val, t2, w2⟩ := res
          rw [he] at hres
          cases hres
          obtain ⟨hp, _, hv, hb⟩ := set_return_fields t2 val true
          exact ⟨hp.trans (hev _ _ _ _ _ _ he).1,
            fun hr => absurd (hret.symm.trans hr) (by decide),
            fun hf => absurd (hb.symm.trans hf) (by decide)⟩
    case list type items =>
      cases type
      case NODE_STMT_LIST => exact (exec_list_steps_frame ex hex items _ _ _ _ hres).1
      all_goals (cases hres; exact frame_step_refl t)
    all_goals (cases hres; exact frame_step_refl t)

/-- At every fuel, `eval_expression` keeps the parent and the return state of its table,
and `execute_statement` is a `frame_step` that returns at once on a returning frame. -/
theorem interpreter_frames (h : Host) :
    ∀ fuel : Nat,
      keeps_frame (eval_expression h fuel) ∧ steps_frame (execute_statement h fuel)
  | 0 => by
    constructor
    · intro node t w v t1 w1 hres
      simp [eval_expression] at hres
    · intro node t w t1 w1 hres
      simp [execute_statement] at hres
  | fuel + 1 => by
    obtain ⟨hev, hex⟩ := interpreter_frames h fuel
    constructor
    · intro node t w v t1 w1 hres
      rw [eval_expression_succ] at hres
      exact eval_node_keeps_frame h _ _ hev hex node t w v t1 w1 hres
    · intro node t w t1 w1 hres
      rw [execute_statement_succ] at hres
      exact exec_node_steps_frame _ _ hev hex fuel node t w t1 w1 hres

theorem exec_list_returning (ex : Exec) (items : List ASTNode) (t : SymbolTable) (w : World)
    (hret : t.is_returning = true) : exec_list ex items t w = .ok (t, w) := by
  cases items with
  | nil => rfl
  | cons item rest => simp [exec_list, hret]

theorem execute_statement_returning (h : Host) (fuel : Nat) (node : ASTNode) (t : SymbolTable)
    (w : World) (hret : t.is_returning = true) :
    execute_statement h (fuel + 1) node t w = .ok (t, w) := by
  rw [execute_statement_succ]
  simp [exec_node, hret]

/-- C23: once `is_returning` is set in a scope it stays set, with the `return_value` stored
with it. A call of `execute_statement` on a scope whose flag is set returns at once and
leaves the table and the world as they were; no evaluation of an expression changes the
flag or the stored value; a statement never clears the flag, never overwrites the value
stored with a set flag, and writes `return_value` only when it sets the flag, also inside
the loops of `while` and `for`, which go on calling `execute_statement`; `set_symbol`
leaves both alone. In a statement list, when a statement leaves the flag set the list
stops there and the statements after it are not executed. The statement `return e` in a
frame that is not returning stores the value of `e` and sets the flag; a bare `return`
stores Void. -/
theorem is_returning_sticky (h : Host) (fuel : Nat) :
    (∀ (node : ASTNode) (t : SymbolTable) (w : World), t.is_returning = true →
      execute_statement h (fuel + 1) node t w = .ok (t, w))
    ∧ (∀ (node : ASTNode) (t : SymbolTable) (w : World) (v : Value) (t1 : SymbolTable)
        (w1 : World), eval_expression h fuel node t w = .ok (v, t1, w1) →
        t1.is_returning = t.is_returning ∧ t1.return_value = t.return_value)
    ∧ (∀ (node : ASTNode) (t : SymbolTable) (w : World) (t1 : SymbolTable) (w1 : World),
        execute_statement h fuel node t w = .ok (t1, w1) →
        (t.is_returning = true → t1.is_returning = true ∧ t1.return_value = t.return_value)
        ∧ (t1.is_returning = false → t1.return_value = t.return_value))
    ∧ (∀ (n : Nat) (condition : ASTNode) (body : Option ASTNode) (t : SymbolTable) (w : World)
        (t1 : SymbolTable) (w1 : World),
        while_loop (eval_expression h fuel) (execute_statement h fuel) n condition body t w
          = .ok (t1, w1) →
        t.is_returning = true → t1.is_returning = true ∧ t1.return_value = t.return_value)
    ∧ (∀ (n : Nat) (i step limit : Int) (iterator : String) (body : Option ASTNode)
        (t : SymbolTable) (w : World) (t1 : SymbolTable) (w1 : World),
        for_loop (execute_statement h fuel) n i step limit iterator body t w = .ok (t1, w1) →
        t.is_returning = true → t1.is_returning = true ∧ t1.return_value = t.return_value)
    ∧ (∀ (t : SymbolTable) (name : String) (v : Value),
        (set_symbol t name v).is_returning = t.is_returning
        ∧ (set_symbol t name v).return_value = t.return_value)
    ∧ (∀ (item : ASTNode) (rest : List ASTNode) (t : SymbolTable) (w : World)
        (t1 : SymbolTable) (w1 : World), t.is_returning = false →
        execute_statement h fuel item t w = .ok (t1, w1) → t1.is_returning = true →
        execute_statement h (fuel + 1) (.list .NODE_STMT_LIST (item :: rest)) t w
          = .ok (t1, w1))
    ∧ (∀ (value : ASTNode) (t : SymbolTable) (w : World) (v : Value) (t1 : SymbolTable)
        (w1 : World), t.is_returning = false →
        eval_expression h fuel value t w = .ok (v, t1, w1) →
        execute_statement h (fuel + 1) (.return_stmt (some value)) t w
          = .ok (t1.set_return v true, w1)
        ∧ (t1.set_return v true).is_returning = true
        ∧ (t1.set_return v true).return_value = v)
    ∧ (∀ (t : SymbolTable) (w : World), t.is_returning = false →
        execute_statement h (fuel + 1) (.return_stmt none) t w
          = .ok (t.set_return create_void_value true, w)
        ∧ (t.set_return create_void_value true).is_returning = true
        ∧ (t.set_return create_void_value true).return_value = create_void_value) := by
  obtain ⟨hev, hex⟩ := interpreter_frames h fuel
  refine ⟨?_, ?_, ?_, ?_, ?_, ?_, ?_, ?_, ?_⟩
  · intro node t w hret
    exact execute_statement_returning h fuel node t w hret
  · intro node t w v t1 w1 hres
    obtain ⟨_, hv, hb⟩ := hev node t w v t1 w1 hres
    exact ⟨hb, hv⟩
  · intro node t w t1 w1 hres
    exact (hex node t w t1 w1 hres).1.2
  · intro n condition body t w t1 w1 hres hret
    exact (while_loop_steps_frame _ _ hev hex condition body n t w t1 w1 hres).2.1 hret
  · intro n i step limit iterator body t w t1 w1 hres hret
    exact (for_loop_steps_frame _ hex step limit iterator body n i t w t1 w1 hres).2.1 hret
  · intro t name v
    obtain ⟨_, hv, hb⟩ := set_symbol_parent t name v
    exact ⟨hb, hv⟩
  · intro item rest t w t1 w1 hret hitem hret1
    rw [execute_statement_succ]
    simp only [exec_node, hret, Bool.false_eq_true, if_false, exec_list, hitem]
    exact exec_list_returning _ rest t1 w1 hret1
  · intro value t w v t1 w1 hret hval
    refine ⟨?_, (set_return_fields t1 v true).2.2.2, (set_return_fields t1 v true).2.2.1⟩
    rw [execute_statement_succ]
    simp only [exec_node, hret, Bool.false_eq_true, if_false, hval]
  · intro t w hret
    refine ⟨?_, (set_return_fields t _ true).2.2.2, (set_return_fields t _ true).2.2.1⟩
    rw [execute_statement_succ]
    simp only [exec_node, hret, Bool.false_eq_true, if_false]

/-- Witness of C23: the statement list `{ return 7; x = 5; return 9; }` stops after its
first statement: the frame is returning with `return_value` 7 and `x` is not bound. -/
theorem is_returning_sticky_witness :
    execute_statement sample_host 3 return_7_then_more empty_table initial_world
      = .ok (.mk [] none (.int 7) true, initial_world) :=
  (is_returning_sticky sample_host 2).2.2.2.2.2.2.1 (.return_stmt (some (.int_literal 7)))
    [.expr_stmt (some assign_x_5), .return_stmt (some (.int_literal 9))]
    empty_table initial_world (.mk [] none (.int 7) true) initial_world rfl rfl rfl

/-! ## A return inside a while loop -/

/-- On a frame that is returning, the loop `while (true)` with any body uses up any
number of iterations: its condition is evaluated again each time and the call of
`execute_statement` on the body returns at once. -/
theorem while_true_returning (h : Host) (fuel : Nat) (body : Option ASTNode) :
    ∀ (n : Nat) (t : SymbolTable) (w : World), t.is_returning = true →
      while_loop (eval_expression h fuel) (execute_statement h fuel) n (.bool_literal 1) body
        t w = .error .out_of_fuel
  | 0, t, w, _ => rfl
  | n + 1, t, w, hret => by
    cases fuel with
    | zero => simp [while_loop, eval_expression]
    | succ f =>
      have hc : eval_expression h (f + 1) (.bool_literal 1) t w
          = .ok (create_bool_value 1, t, w) := by rw [eval_expression_succ]; rfl
      have hb : exec_opt (execute_statement h (f + 1)) body t w = .ok (t, w) := by
        cases body with
        | none => rfl
        | some b => exact execute_statement_returning h f b t w hret
      simp only [while_loop, hc, hb]
      simp only [Value.bool_val, create_bool_value, one_ne_zero, if_false]
      exact while_true_returning h (f + 1) body n t w hret

/-- The statement `while (true) { return value; }`, executed in a frame that is not
returning, never completes, whatever the fuel. -/
theorem while_true_return_not_ok (h : Host) (value : Option ASTNode) :
    ∀ (fuel : Nat) (t : SymbolTable) (w : World), t.is_returning = false →
      (∀ r, execute_statement h fuel
          (.while_stmt (.bool_literal 1) (some (.return_stmt value))) t w ≠ .ok r)
      ∧ ((value = none ∨ ∃ v, value = some (.int_literal v)) →
          execute_statement h fuel
            (.while_stmt (.bool_literal 1) (some (.return_stmt value))) t w
            = .error .out_of_fuel)
  | 0, t, w, _ => by
    constructor
    · intro r hr; simp [execute_statement] at hr
    · intro _; rfl
  | 1, t, w, hret => by
    constructor
    · intro r hr
      rw [execute_statement_succ] at hr
      simp [exec_node, hret, while_loop] at hr
    · intro _
      rw [execute_statement_succ]
      simp [exec_node, hret, while_loop]
  | f + 2, t, w, hret => by
    have hc : eval_expression h (f + 1) (.bool_literal 1) t w
        = .ok (create_bool_value 1, t, w) := by rw [eval_expression_succ]; rfl
    have hunfold : execute_statement h (f + 2)
          (.while_stmt (.bool_literal 1) (some (.return_stmt value))) t w
        = match execute_statement h (f + 1) (.return_stmt value) t w with
          | .error e => .error e
          | .ok (t2, w2) =>
            while_loop (eval_expression h (f + 1)) (execute_statement h (f + 1)) f
              (.bool_literal 1) (some (.return_stmt value)) t2 w2 := by
      rw [execute_statement_succ]
      simp only [exec_node, hret, Bool.false_eq_true, if_false, while_loop, hc, exec_opt]
      simp only [Value.bool_val, create_bool_value, one_ne_zero, if_false]
    rw [hunfold]
    cases value with
    | none =>
      have hbody : execute_statement h (f + 1) (.return_stmt none) t w
          = .ok (t.set_return create_void_value true, w) := by
        rw [execute_statement_succ]
        simp only [exec_node, hret, Bool.false_eq_true, if_false]
      rw [hbody]
      simp only
      rw [while_true_returning h (f + 1) _ f _ w (set_return_fields t _ true).2.2.2]
      exact ⟨fun r hr => (by cases hr), fun _ => rfl⟩
    | some v =>
      have hbody : execute_statement h (f + 1) (.return_stmt (some v)) t w
          = match eval_expression h f v t w with
            | .error e => .error e
            | .ok (val, t1, w1) => .ok (t1.set_return val true, w1) := by
        rw [execute_statement_succ]
        simp only [exec_node, hret, Bool.false_eq_true, if_false]
      rw [hbody]
      cases hv : eval_expression h f v t w with
      | error e =>
        simp only
        refine ⟨fun r hr => (by cases hr), ?_⟩
        rintro (hn | ⟨i, hi⟩)
        · cases hn
        · cases hi
          cases f with
          | zero => simp [eval_expression] at hv; rw [← hv]
          | succ g => rw [eval_expression_succ] at hv; cases hv
      | ok res =>
        obtain ⟨val, t1, w1⟩ := res
        simp only
        rw [while_true_returning h (f + 1) _ f _ w1 (set_return_fields t1 val true).2.2.2]
        exact ⟨fun r hr => (by cases hr), fun _ => rfl⟩

/-- C24: a `return` executed inside the body of a `while` loop does not stop the loop. On a
frame that is returning, each iteration whose condition evaluates to a nonzero value goes
on to the next one, the call of `execute_statement` on the body having returned at once:
the loop ends only when its condition evaluates to zero. So the statement
`while (true) { return value; }`, executed in a frame that is not returning, completes
for no amount of fuel (with a bare `return` or an Int literal as value it runs out of
every fuel), and a call of a function whose body is that statement never returns. -/
theorem return_inside_while_keeps_looping (h : Host) (fuel : Nat) (value : Option ASTNode)
    (t : SymbolTable) (w : World) (hret : t.is_returning = false) :
    (∀ r, execute_statement h fuel
        (.while_stmt (.bool_literal 1) (some (.return_stmt value))) t w ≠ .ok r)
    ∧ ((value = none ∨ ∃ v, value = some (.int_literal v)) →
        execute_statement h fuel
          (.while_stmt (.bool_literal 1) (some (.return_stmt value))) t w
          = .error .out_of_fuel)
    ∧ (∀ (n : Nat) (condition : ASTNode) (body : Option ASTNode) (tr : SymbolTable)
        (wr : World) (c : Value) (t1 : SymbolTable) (w1 : World) (b : Int),
        tr.is_returning = true →
        eval_expression h fuel condition tr wr = .ok (c, t1, w1) →
        c.bool_val = some b → b ≠ 0 →
        while_loop (eval_expression h fuel) (execute_statement h fuel) (n + 1) condition body
            tr wr
          = while_loop (eval_expression h fuel) (execute_statement h fuel) n condition body
              t1 w1
        ∧ t1.is_returning = true ∧ t1.return_value = tr.return_value)
    ∧ (∀ (fname : String) (args : Option ASTNode) (rt : DataType) (nm : String)
        (params : Option ASTNode) (tc : SymbolTable) (wc : World),
        (fname ≠ "print" ∧ fname ≠ "printm" ∧ fname ≠ "read") →
        get_symbol tc fname = some (.func (.func_decl rt nm params
          (some (.while_stmt (.bool_literal 1) (some (.return_stmt value)))))) →
        ∀ r, eval_expression h fuel (.func_call (.identifier fname) args) tc wc ≠ .ok r) := by
  refine ⟨(while_true_return_not_ok h value fuel t w hret).1,
    (while_true_return_not_ok h value fuel t w hret).2, ?_, ?_⟩
  · intro n condition body tr wr c t1 w1 b hr hc hb hb0
    obtain ⟨f, rfl⟩ : ∃ f, fuel = f + 1 := by
      cases fuel with
      | zero => simp [eval_expression] at hc
      | succ f => exact ⟨f, rfl⟩
    obtain ⟨_, hv1, hr1⟩ := (interpreter_frames h (f + 1)).1 _ _ _ _ _ _ hc
    have hret1 : t1.is_returning = true := hr1.trans hr
    have hbody : exec_opt (execute_statement h (f + 1)) body t1 w1 = .ok (t1, w1) := by
      cases body with
      | none => rfl
      | some bd => exact execute_statement_returning h f bd t1 w1 hret1
    refine ⟨?_, hret1, hv1⟩
    simp only [while_loop, hc, hb, hb0, if_false, hbody]
  · intro fname args rt nm params tc wc hname hf r hr
    obtain ⟨f, rfl⟩ : ∃ f, fuel = f + 1 := by
      cases fuel with
      | zero => simp [eval_expression] at hr
      | succ f => exact ⟨f, rfl⟩
    obtain ⟨v, t2, w2⟩ := r
    rw [eval_call_unfold h f fname args tc wc hname] at hr
    obtain ⟨hev, hex⟩ := interpreter_frames h f
    obtain ⟨rt1, nm1, params1, body1, scope1, t1, w1, scope3, w3, hf1, _, hb, hx, _, _, _⟩ :=
      call_function_result _ _ hex fname args tc wc v t2 w2 hr
    rw [hf] at hf1
    simp only [Option.some.injEq, Value.func.injEq, ASTNode.func_decl.injEq] at hf1
    obtain ⟨_, _, rfl, rfl⟩ := hf1
    have hs1 := (bind_phase_keeps_frame _ hev _ args tc _ _ _ _ hb).2
    have hnot : (scope1.set_parent (some t1.root)).is_returning = false :=
      (set_parent_fields scope1 _).2.2.2.trans hs1.2.2
    exact (while_true_return_not_ok h value f _ w1 hnot).1 _ hx

/-- Witness of C24: `while (true) { return 1; }` runs out of a fuel of 1000. -/
theorem return_inside_while_keeps_looping_witness :
    execute_statement sample_host 1000 while_true_return_1 empty_table initial_world
      = .error .out_of_fuel :=
  (return_inside_while_keeps_looping sample_host 1000 (some (.int_literal 1)) empty_table
    initial_world rfl).2.1 (Or.inr ⟨1, rfl⟩)

/-- The statement `return` in a frame that is not returning. -/
theorem execute_return_unfold (h : Host) (fuel : Nat) :
    (∀ (value : ASTNode) (t : SymbolTable) (w : World) (v : Value) (t1 : SymbolTable)
        (w1 : World), t.is_returning = false →
        eval_expression h fuel value t w = .ok (v, t1, w1) →
        execute_statement h (fuel + 1) (.return_stmt (some value)) t w
          = .ok (t1.set_return v true, w1))
    ∧ (∀ (t : SymbolTable) (w : World), t.is_returning = false →
        execute_statement h (fuel + 1) (.return_stmt none) t w
          = .ok (t.set_return create_void_value true, w)) := by
  constructor
  · intro value t w v t1 w1 hret hval
    rw [execute_statement_succ]
    simp only [exec_node, hret, Bool.false_eq_true, if_false, hval]
  · intro t w hret
    rw [execute_statement_succ]
    simp only [exec_node, hret, Bool.false_eq_true, if_false]

/-! ## The value of a call -/

theorem exec_list_append (ex : Exec) (rest : List ASTNode) :
    ∀ (pre : List ASTNode) (t : SymbolTable) (w : World),
      exec_list ex (pre ++ rest) t w
        = match exec_list ex pre t w with
          | .error e => .error e
          | .ok (t1, w1) => exec_list ex rest t1 w1
  | [], t, w => rfl
  | item :: pre, t, w => by
    cases hret : t.is_returning with
    | true =>
      rw [exec_list_returning ex _ t w hret, exec_list_returning ex _ t w hret]
      exact (exec_list_returning ex rest t w hret).symm
    | false =>
      simp only [List.cons_append, exec_list, hret, Bool.false_eq_true, if_false]
      cases hi : ex item t w with
      | error e => rfl
      | ok res =>
        obtain ⟨t1, w1⟩ := res
        exact exec_list_append ex rest pre t1 w1

/-- C25: let a user function be called below the recursion limit, and let the binding
phase succeed, leaving the new scope and the table `t1` of the caller. The scope the body
starts in is not returning and holds Void as `return_value`. When the body completes, the
value of the call is the copy of the `return_value` of the callee's scope, which is Void
when the body has completed without a `return`, and the table of the caller after the call
is `t1`, the table the evaluation of the arguments left: nothing the callee bound is in
it. When the body is a statement list whose statements before a `return e` complete
without returning, the value of the call is the copy of the value of `e`, whatever
statements follow; for a bare `return` it is Void. -/
theorem call_value_is_first_return (h : Host) (fuel : Nat) (fname : String)
    (args : Option ASTNode) (t : SymbolTable) (w : World)
    (rt : DataType) (nm : String) (params body : Option ASTNode)
    (scope1 t1 : SymbolTable) (w1 : World)
    (hname : fname ≠ "print" ∧ fname ≠ "printm" ∧ fname ≠ "read")
    (hf : get_symbol t fname = some (.func (.func_decl rt nm params body)))
    (hdepth : w.recursion_depth < MAX_RECURSION_DEPTH)
    (hb : bind_phase (eval_expression h (fuel + 2)) params args t
        { w with recursion_depth := w.recursion_depth + 1 } = .ok (scope1, t1, w1)) :
    ((scope1.set_parent (some t1.root)).is_returning = false
      ∧ (scope1.set_parent (some t1.root)).return_value = create_void_value)
    ∧ (∀ (scope3 : SymbolTable) (w3 : World),
        exec_opt (execute_statement h (fuel + 2)) body (scope1.set_parent (some t1.root)) w1
          = .ok (scope3, w3) →
        eval_expression h (fuel + 3) (.func_call (.identifier fname) args) t w
          = .ok (copy_value scope3.return_value, t1,
              { w3 with recursion_depth := w3.recursion_depth - 1 })
        ∧ (scope3.is_returning = false → copy_value scope3.return_value = create_void_value))
    ∧ (∀ (pre post : List ASTNode) (value : ASTNode) (s : SymbolTable) (ws : World)
        (val : Value) (s1 : SymbolTable) (ws1 : World),
        body = some (.list .NODE_STMT_LIST (pre ++ .return_stmt (some value) :: post)) →
        exec_list (execute_statement h (fuel + 1)) pre (scope1.set_parent (some t1.root)) w1
          = .ok (s, ws) →
        s.is_returning = false →
        eval_expression h fuel value s ws = .ok (val, s1, ws1) →
        eval_expression h (fuel + 3) (.func_call (.identifier fname) args) t w
          = .ok (copy_value val, t1, { ws1 with recursion_depth := ws1.recursion_depth - 1 }))
    ∧ (∀ (pre post : List ASTNode) (s : SymbolTable) (ws : World),
        body = some (.list .NODE_STMT_LIST (pre ++ .return_stmt none :: post)) →
        exec_list (execute_statement h (fuel + 1)) pre (scope1.set_parent (some t1.root)) w1
          = .ok (s, ws) →
        s.is_returning = false →
        eval_expression h (fuel + 3) (.func_call (.identifier fname) args) t w
          = .ok (create_void_value, t1,
              { ws with recursion_depth := ws.recursion_depth - 1 })) := by
  obtain ⟨hev, hex⟩ := interpreter_frames h (fuel + 2)
  have hs1 := (bind_phase_keeps_frame _ hev params args t _ _ _ _ hb).2
  have hnot : (scope1.set_parent (some t1.root)).is_returning = false :=
    (set_parent_fields scope1 _).2.2.2.trans hs1.2.2
  have hvoid : (scope1.set_parent (some t1.root)).return_value = create_void_value :=
    (set_parent_fields scope1 _).2.2.1.trans hs1.2.1
  have hcall : ∀ (scope3 : SymbolTable) (w3 : World),
      exec_opt (execute_statement h (fuel + 2)) body (scope1.set_parent (some t1.root)) w1
        = .ok (scope3, w3) →
      eval_expression h (fuel + 3) (.func_call (.identifier fname) args) t w
        = .ok (copy_value scope3.return_value, t1,
            { w3 with recursion_depth := w3.recursion_depth - 1 }) := by
    intro scope3 w3 hx
    rw [eval_call_unfold h (fuel + 2) fname args t w hname,
      call_function_entered _ _ fname args t w rt nm params body hf hdepth, hb]
    simp only [hx]
    have hp : scope3.parent = some t1.root :=
      (exec_opt_steps_frame _ hex body _ _ _ _ hx).1.1.trans (set_parent_fields scope1 _).1
    rw [hp]
    simp only [set_root_root]
  have hlist : ∀ (items : List ASTNode) (s : SymbolTable) (ws : World),
      exec_opt (execute_statement h (fuel + 2)) (some (.list .NODE_STMT_LIST items)) s ws
        = if s.is_returning then .ok (s, ws)
          else exec_list (execute_statement h (fuel + 1)) items s ws := by
    intro items s ws
    simp only [exec_opt]
    rw [execute_statement_succ]
    rfl
  refine ⟨⟨hnot, hvoid⟩, ?_, ?_, ?_⟩
  · intro scope3 w3 hx
    refine ⟨hcall scope3 w3 hx, ?_⟩
    intro hret3
    have hstep := (exec_opt_steps_frame _ hex body _ _ _ _ hx).1
    rw [hstep.2.2 hret3, hvoid]
    rfl
  · intro pre post value s ws val s1 ws1 hbody hpre hs hval
    have hx : exec_opt (execute_statement h (fuel + 2)) body
        (scope1.set_parent (some t1.root)) w1 = .ok (s1.set_return val true, ws1) := by
      rw [hbody, hlist, hnot]
      simp only [Bool.false_eq_true, if_false]
      rw [exec_list_append, hpre]
      simp only [exec_list, hs, Bool.false_eq_true, if_false]
      rw [((execute_return_unfold h fuel).1 value s ws val s1 ws1 hs hval)]
      simp only
      exact exec_list_returning _ post _ ws1 (set_return_fields s1 val true).2.2.2
    have := hcall _ _ hx
    rw [(set_return_fields s1 val true).2.2.1] at this
    exact this
  · intro pre post s ws hbody hpre hs
    have hx : exec_opt (execute_statement h (fuel + 2)) body
        (scope1.set_parent (some t1.root)) w1
        = .ok (s.set_return create_void_value true, ws) := by
      rw [hbody, hlist, hnot]
      simp only [Bool.false_eq_true, if_false]
      rw [exec_list_append, hpre]
      simp only [exec_list, hs, Bool.false_eq_true, if_false]
      rw [((execute_return_unfold h fuel).2 s ws hs)]
      simp only
      exact exec_list_returning _ post _ ws (set_return_fields s _ true).2.2.2
    have := hcall _ _ hx
    rw [(set_return_fields s _ true).2.2.1] at this
    exact this

/-- Witness of C25: with `g(a) { int b = 7; return a; return b; }`, the call `g(5)` in the
global table yields 5, the value of the first `return`, and leaves the table as it was:
neither `a` nor `b` is bound in it. -/
theorem call_value_is_first_return_witness :
    eval_expression sample_host 4 call_g_5 global_with_g initial_world
      = .ok (.int 5, global_with_g, initial_world) :=
  ((call_value_is_first_return sample_host 1 "g"
    (some (.list .NODE_ARG_LIST [.int_literal 5])) global_with_g initial_world
    .TYPE_INT "g" (some (.list .NODE_PARAM_LIST [.param .TYPE_INT "a"]))
    (some (.list .NODE_STMT_LIST
      [.var_decl .TYPE_INT "b" (some (.int_literal 7)),
       .return_stmt (some (.identifier "a")),
       .return_stmt (some (.identifier "b"))]))
    (.mk [{ name := "a", value := .int 5 }] (some global_with_g) create_void_value false)
    global_with_g { recursion_depth := 1, stdin := [], out := [] }
    (by decide) rfl (by decide) (by rfl)).2.2.1
    [.var_decl .TYPE_INT "b" (some (.int_literal 7))]
    [.return_stmt (some (.identifier "b"))] (.identifier "a")
    (.mk [{ name := "b", value := .int 7 }, { name := "a", value := .int 5 }]
      (some global_with_g) create_void_value false)
    { recursion_depth := 1, stdin := [], out := [] } (.int 5)
    (.mk [{ name := "b", value := .int 7 }, { name := "a", value := .int 5 }]
      (some global_with_g) create_void_value false)
    { recursion_depth := 1, stdin := [], out := [] }
    rfl (by rfl) rfl (by rfl)).trans (by rfl)

/-! ## The recursion limit -/

theorem root_root (t : SymbolTable) : t.root.root = t.root :=
  root_of_parent_none t.root (root_parent t)

theorem get_symbol_create (g : SymbolTable) (name : String) :
    get_symbol (create_symbol_table (some g)) name = get_symbol g name := by
  simp [create_symbol_table, get_symbol_mk, find_in_list]

theorem create_symbol_table_root (g : SymbolTable) :
    (create_symbol_table (some g)).root = g.root := by
  simp [create_symbol_table, SymbolTable.root]

theorem bind_arguments_error (ev : Eval) :
    ∀ (ps items : List ASTNode) (fs t : SymbolTable) (w : World) (e : Halt),
      bind_arguments ev ps items fs t w = .error e →
      e = .undefined ∨ ∃ n t1 w1, ev n t1 w1 = .error e
  | [], items, fs, t, w, e, hres => by simp [bind_arguments] at hres
  | p :: ps, [], fs, t, w, e, hres => by simp [bind_arguments] at hres
  | p :: ps, a :: items, fs, t, w, e, hres => by
    simp only [bind_arguments] at hres
    cases ha : ev a t w with
    | error e1 =>
      rw [ha] at hres
      cases hres
      exact Or.inr ⟨a, t, w, ha⟩
    | ok res =>
      obtain ⟨arg_val, t2, w2⟩ := res
      rw [ha] at hres
      simp only at hres
      cases p <;> try (cases hres; exact Or.inl rfl)
      exact bind_arguments_error ev ps items _ t2 w2 e hres

theorem bind_phase_error (ev : Eval) (params args : Option ASTNode) (t : SymbolTable)
    (w : World) (e : Halt) (hres : bind_phase ev params args t w = .error e) :
    e = .undefined ∨ ∃ n t1 w1, ev n t1 w1 = .error e := by
  unfold bind_phase at hres
  split at hres
  · exact bind_arguments_error ev _ _ _ _ _ _ hres
  · cases hres; exact Or.inl rfl
  · cases hres

/-- A call of `r() { r(); }` below the limit makes the nested call of its body in a new
scope, one level deeper, and fails when the nested call fails. -/
theorem call_r_nested (h : Host) (n : Nat) (tr : SymbolTable) (wr : World) (e : Halt)
    (hf : get_symbol tr "r" = some (.func decl_r))
    (hd : wr.recursion_depth < MAX_RECURSION_DEPTH)
    (hnested : eval_expression h n call_r (create_symbol_table (some tr.root))
        { wr with recursion_depth := wr.recursion_depth + 1 } = .error e) :
    eval_expression h (n + 3) call_r tr wr = .error e := by
  have hbody : execute_statement h (n + 2) (.list .NODE_STMT_LIST [.expr_stmt (some call_r)])
      (create_symbol_table (some tr.root))
      { wr with recursion_depth := wr.recursion_depth + 1 } = .error e := by
    rw [execute_statement_succ]
    simp only [exec_node, create_symbol_table, SymbolTable.is_returning, Bool.false_eq_true,
      if_false, exec_list]
    rw [execute_statement_succ]
    simp only [exec_node, SymbolTable.is_returning, Bool.false_eq_true, if_false]
    simp only [create_symbol_table] at hnested
    rw [hnested]
  unfold call_r
  rw [eval_call_unfold h (n + 2) "r" _ tr wr (by decide),
    call_function_entered _ _ "r" _ tr wr .TYPE_VOID "r" (some (.list .NODE_PARAM_LIST []))
      (some (.list .NODE_STMT_LIST [.expr_stmt (some call_r)])) hf hd]
  simp only [bind_phase, bind_arguments, exec_opt]
  have hsp : (create_symbol_table (some tr.root)).set_parent (some tr.root)
      = create_symbol_table (some tr.root) := rfl
  rw [hsp, hbody]

/-- From any depth up to the limit, a call of `r() { r(); }` with enough fuel fails with
the recursion-limit error. -/
theorem self_recursion_hits_limit (h : Host) :
    ∀ (k fuel : Nat) (tr : SymbolTable) (wr : World),
      get_symbol tr "r" = some (.func decl_r) →
      get_symbol tr.root "r" = some (.func decl_r) →
      wr.recursion_depth = MAX_RECURSION_DEPTH - k → 3 * k + 1 ≤ fuel →
      eval_expression h fuel call_r tr wr = .error (.exit .max_recursion_depth)
  | 0, fuel, tr, wr, hf, _, hd, hfuel => by
    obtain ⟨f, rfl⟩ : ∃ f, fuel = f + 1 := ⟨fuel - 1, by omega⟩
    unfold call_r
    rw [eval_call_unfold h f "r" _ tr wr (by decide)]
    have hge : wr.recursion_depth ≥ MAX_RECURSION_DEPTH := by rw [hd]; simp
    simp [call_function, hf, hge]
  | k + 1, fuel, tr, wr, hf, hroot, hd, hfuel => by
    obtain ⟨f, rfl⟩ : ∃ f, fuel = f + 3 := ⟨fuel - 3, by omega⟩
    have hlt : wr.recursion_depth < MAX_RECURSION_DEPTH := by rw [hd]; push_cast; omega
    apply call_r_nested h f tr wr _ hf hlt
    apply self_recursion_hits_limit h k f
    · rw [get_symbol_create]; exact hroot
    · rw [create_symbol_table_root, root_root]; exact hroot
    · simp only [hd]; push_cast; omega
    · omega

set_option maxRecDepth 1000000 in
/-- The call `down(49)` from depth 0 nests 50 calls and returns. -/
theorem down_49_returns :
    eval_expression sample_host 200 (call_down 49) global_with_down initial_world
      = .ok (.int 0, global_with_down, initial_world) := by
  rfl

set_option maxRecDepth 1000000 in
/-- The call `down(50)` from depth 0 fails at its 51st nested call. -/
theorem down_50_fails :
    eval_expression sample_host 200 (call_down 50) global_with_down initial_world
      = .error (.exit .max_recursion_depth) := by
  rfl

/-- C26: let the callee name be bound to a user function. When the depth counter is 50 or
more at the call, the call fails with the recursion-limit error, before anything else is
done. Whenever neither the evaluation of an argument nor the execution of the body fails
with that error, the call fails with it if and only if the counter is at least 50. For
the function `r() { r(); }`, a call made at a depth below 50 runs the body in a new
scope, where the nested call is made one level deeper, and fails when the nested call
fails; a call made at any depth up to 50, with enough fuel, fails with the recursion-limit
error, so from depth 0 the body is entered at the depths 1 to 50 and the next nested call
is the one that fails. With `down(n)` nesting `n + 1` calls, `down(49)` returns and
`down(50)` fails with the recursion-limit error. -/
theorem recursion_limit (h : Host) (fuel : Nat) (fname : String) (args : Option ASTNode)
    (t : SymbolTable) (w : World) (rt : DataType) (nm : String) (params body : Option ASTNode)
    (hname : fname ≠ "print" ∧ fname ≠ "printm" ∧ fname ≠ "read")
    (hf : get_symbol t fname = some (.func (.func_decl rt nm params body))) :
    (MAX_RECURSION_DEPTH ≤ w.recursion_depth →
      eval_expression h (fuel + 1) (.func_call (.identifier fname) args) t w
        = .error (.exit .max_recursion_depth))
    ∧ (∀ (ev : Eval) (ex : Exec),
        (∀ n t1 w1, ev n t1 w1 ≠ .error (.exit .max_recursion_depth)) →
        (∀ n t1 w1, ex n t1 w1 ≠ .error (.exit .max_recursion_depth)) →
        (call_function ev ex fname args t w = .error (.exit .max_recursion_depth)
          ↔ MAX_RECURSION_DEPTH ≤ w.recursion_depth))
    ∧ (∀ (d n : Nat) (tr : SymbolTable) (wr : World), d ≤ 50 →
        get_symbol tr "r" = some (.func decl_r) →
        get_symbol tr.root "r" = some (.func decl_r) →
        wr.recursion_depth = d → 3 * (50 - d) + 1 ≤ n →
        eval_expression h n call_r tr wr = .error (.exit .max_recursion_depth))
    ∧ (∀ (n : Nat) (tr : SymbolTable) (wr : World) (e : Halt),
        get_symbol tr "r" = some (.func decl_r) →
        wr.recursion_depth < MAX_RECURSION_DEPTH →
        eval_expression h n call_r (create_symbol_table (some tr.root))
          { wr with recursion_depth := wr.recursion_depth + 1 } = .error e →
        eval_expression h (n + 3) call_r tr wr = .error e)
    ∧ eval_expression sample_host 200 (call_down 49) global_with_down initial_world
        = .ok (.int 0, global_with_down, initial_world)
    ∧ eval_expression sample_host 200 (call_down 50) global_with_down initial_world
        = .error (.exit .max_recursion_depth) := by
  refine ⟨?_, ?_, ?_, ?_, down_49_returns, down_50_fails⟩
  · intro hge
    rw [eval_call_unfold h fuel fname args t w hname]
    simp [call_function, hf, hge]
  · intro ev ex hev hex
    constructor
    · intro hres
      by_contra hlt
      rw [call_function_entered ev ex fname args t w rt nm params body hf (not_le.mp hlt)]
        at hres
      cases hb : bind_phase ev params args t
          { w with recursion_depth := w.recursion_depth + 1 } with
      | error e =>
        rw [hb] at hres
        cases hres
        rcases bind_phase_error ev params args t _ _ hb with h1 | ⟨n, t1, w1, h1⟩
        · cases h1
        · exact hev n t1 w1 h1
      | ok res =>
        obtain ⟨scope1, t1, w1⟩ := res
        rw [hb] at hres
        simp only at hres
        cases hx : exec_opt ex body (scope1.set_parent (some t1.root)) w1 with
        | error e =>
          rw [hx] at hres
          cases hres
          cases body with
          | none => cases hx
          | some b => exact hex b _ _ hx
        | ok res2 =>
          rw [hx] at hres
          cases hres
    · intro hge
      simp [call_function, hf, hge]
  · intro d n tr wr hd hf1 hroot hdepth hn
    apply self_recursion_hits_limit h (50 - d) n tr wr hf1 hroot _ hn
    rw [hdepth]
    simp only [MAX_RECURSION_DEPTH]
    omega
  · intro n tr wr e hf1 hlt hnested
    exact call_r_nested h n tr wr e hf1 hlt hnested

/-- Witness of C26: from depth 0, the call `r()` of `r() { r(); }` fails with the
recursion-limit error. -/
theorem recursion_limit_witness :
    eval_expression sample_host 151 call_r global_with_r initial_world
      = .error (.exit .max_recursion_depth) :=
  (recursion_limit sample_host 0 "r" none global_with_r initial_world .TYPE_VOID "r"
    (some (.list .NODE_PARAM_LIST []))
    (some (.list .NODE_STMT_LIST [.expr_stmt (some call_r)])) (by decide) rfl).2.2.1
    0 151 global_with_r initial_world (by decide) rfl rfl rfl (by decide)

/-! ## Arguments and parameters -/

theorem list_binds_set_symbol_self (table : SymbolTable) (name : String) (v : Value) :
    list_binds (set_symbol table name v).head name := by
  by_cases hb : list_binds table.head name
  · obtain ⟨s, hs, hn⟩ := hb
    have hmem : name ∈ (set_symbol table name v).head.map Symbol.name := by
      rw [set_symbol_head_bound table name v ⟨s, hs, hn⟩]
      exact List.mem_map.mpr ⟨s, hs, hn⟩
    obtain ⟨s1, hs1, hn1⟩ := List.mem_map.mp hmem
    exact ⟨s1, hs1, hn1⟩
  · rw [set_symbol_head_unbound table name v hb]
    exact ⟨_, List.mem_cons_self _ _, rfl⟩

theorem list_binds_set_symbol_of (table : SymbolTable) (name y : String) (v : Value)
    (hy : list_binds table.head y) : list_binds (set_symbol table name v).head y := by
  by_cases hb : list_binds table.head name
  · obtain ⟨s, hs, hn⟩ := hy
    have hmem : y ∈ (set_symbol table name v).head.map Symbol.name := by
      rw [set_symbol_head_bound table name v hb]
      exact List.mem_map.mpr ⟨s, hs, hn⟩
    obtain ⟨s1, hs1, hn1⟩ := List.mem_map.mp hmem
    exact ⟨s1, hs1, hn1⟩
  · rw [set_symbol_head_unbound table name v hb]
    obtain ⟨s, hs, hn⟩ := hy
    exact ⟨s, List.mem_cons_of_mem _ hs, hn⟩

theorem set_symbol_set_parent (table : SymbolTable) (name : String) (v : Value)
    (p : Option SymbolTable) :
    (set_symbol table name v).set_parent p = set_symbol (table.set_parent p) name v := by
  obtain ⟨head, parent, rv, ret⟩ := table
  simp only [SymbolTable.set_parent, set_symbol_mk]
  cases set_in_list head name v <;> rfl

theorem bind_values_set_parent (p : Option SymbolTable) :
    ∀ (names : List String) (vals : List Value) (fs : SymbolTable),
      (bind_values fs names vals).set_parent p = bind_values (fs.set_parent p) names vals
  | [], vals, fs => by simp [bind_values]
  | name :: names, [], fs => by simp [bind_values]
  | name :: names, v :: vals, fs => by
    simp only [bind_values]
    rw [bind_values_set_parent p names vals, set_symbol_set_parent]

theorem bind_values_same_frame :
    ∀ (names : List String) (vals : List Value) (fs : SymbolTable),
      same_frame fs (bind_values fs names vals)
  | [], vals, fs => by simp only [bind_values]; exact same_frame_refl fs
  | name :: names, [], fs => by simp only [bind_values]; exact same_frame_refl fs
  | name :: names, v :: vals, fs => by
    simp only [bind_values]
    exact same_frame_trans (same_frame_set_symbol fs name v)
      (bind_values_same_frame names vals _)

theorem bind_values_keeps_binds (y : String) :
    ∀ (names : List String) (vals : List Value) (fs : SymbolTable),
      list_binds fs.head y → list_binds (bind_values fs names vals).head y
  | [], vals, fs, hy => by simpa [bind_values] using hy
  | name :: names, [], fs, hy => by simpa [bind_values] using hy
  | name :: names, v :: vals, fs, hy => by
    simp only [bind_values]
    exact bind_values_keeps_binds y names vals _ (list_binds_set_symbol_of fs name y v hy)

theorem bind_values_binds_only (y : String) :
    ∀ (names : List String) (vals : List Value) (fs : SymbolTable),
      list_binds (bind_values fs names vals).head y →
      list_binds fs.head y ∨ y ∈ names.take vals.length
  | [], vals, fs, hy => by left; simpa [bind_values] using hy
  | name :: names, [], fs, hy => by left; simpa [bind_values] using hy
  | name :: names, v :: vals, fs, hy => by
    simp only [bind_values] at hy
    rcases bind_values_binds_only y names vals _ hy with h1 | h1
    · rcases list_binds_set_symbol fs name y v h1 with h2 | h2
      · right; rw [h2]; simp
      · left; exact h2
    · right
      simp only [List.length_cons, List.take_succ_cons, List.mem_cons]
      exact Or.inr h1

theorem get_symbol_bind_values_other (y : String) :
    ∀ (names : List String) (vals : List Value) (fs : SymbolTable),
      y ∉ names.take vals.length →
      get_symbol (bind_values fs names vals) y = get_symbol fs y
  | [], vals, fs, _ => by simp [bind_values]
  | name :: names, [], fs, _ => by simp [bind_values]
  | name :: names, v :: vals, fs, hy => by
    simp only [List.length_cons, List.take_succ_cons, List.mem_cons, not_or] at hy
    simp only [bind_values]
    rw [get_symbol_bind_values_other y names vals _ hy.2,
      get_symbol_set_symbol_other fs name y v hy.1]

theorem get_symbol_bind_values_same :
    ∀ (names : List String) (vals : List Value) (fs : SymbolTable) (i : Nat) (x : String)
      (v : Value), names.Nodup → names[i]? = some x → vals[i]? = some v →
      get_symbol (bind_values fs names vals) x = some v
      ∧ list_binds (bind_values fs names vals).head x
  | [], vals, fs, i, x, v, _, hx, _ => by simp at hx
  | name :: names, [], fs, i, x, v, _, _, hv => by simp at hv
  | name :: names, v0 :: vals, fs, 0, x, v, hnd, hx, hv => by
    simp only [List.getElem?_cons_zero, Option.some.injEq] at hx hv
    subst hx; subst hv
    simp only [bind_values]
    have hnot : name ∉ names.take vals.length :=
      fun hm => (List.nodup_cons.mp hnd).1 (List.mem_of_mem_take hm)
    rw [get_symbol_bind_values_other name names vals _ hnot]
    exact ⟨get_symbol_set_symbol_same fs name v0,
      bind_values_keeps_binds name names vals _ (list_binds_set_symbol_self fs name v0)⟩
  | name :: names, v0 :: vals, fs, i + 1, x, v, hnd, hx, hv => by
    simp only [List.getElem?_cons_succ] at hx hv
    simp only [bind_values]
    exact get_symbol_bind_values_same names vals _ i x v (List.nodup_cons.mp hnd).2 hx hv

/-- The binding loop evaluates the arguments that have a parameter, left to right in the
table of the caller, and stores each value under the name of its parameter. -/
theorem bind_arguments_eq (ev : Eval) :
    ∀ (params : List (DataType × String)) (items : List ASTNode) (fs t : SymbolTable)
      (w : World),
      bind_arguments ev (params.map param_node) items fs t w
        = match eval_items ev (items.take params.length) t w with
          | .error e => .error e
          | .ok (vals, t1, w1) => .ok (bind_values fs (params.map Prod.snd) vals, t1, w1)
  | [], items, fs, t, w => by simp [bind_arguments, eval_items, bind_values]
  | p :: params, [], fs, t, w => by simp [bind_arguments, eval_items, bind_values]
  | p :: params, a :: items, fs, t, w => by
    simp only [List.map_cons, List.length_cons, List.take_succ_cons, bind_arguments,
      eval_items, param_node]
    cases ha : ev a t w with
    | error e => rfl
    | ok res =>
      obtain ⟨v, t1, w1⟩ := res
      simp only
      have ih := bind_arguments_eq ev params items (set_symbol fs p.2 v) t1 w1
      simp only [param_node] at ih
      rw [ih]
      cases eval_items ev (items.take params.length) t1 w1 with
      | error e => rfl
      | ok res2 =>
        obtain ⟨vals, t2, w2⟩ := res2
        simp only [bind_values]

/-- C27 as stated fails when two parameters have the same name: in the call `dup(1, 2)` of
`dup(a, a) { return a; }` the second store overwrites the first, and the body reads 2, the
value of argument 1, under the name of parameter 0. -/
theorem duplicate_parameter_takes_last_argument :
    eval_expression sample_host 4 call_dup_1_2 global_with_dup initial_world
      = .ok (.int 2, global_with_dup, initial_world) := by
  rfl

/-- C27 (amended): let a function whose parameters have pairwise distinct names be called
below the recursion limit, with `m` arguments for `n` parameters, and let the first
`min(m, n)` arguments, evaluated left to right in the table of the caller (each from the
table and world the one before left), have the values `vals`. Then the body is executed in
a scope, parented to the global table, in which for every `i < min(m, n)` the name of
parameter `i` is bound, in that scope itself, to the value of argument `i`; the call
yields the copy of the `return_value` the body leaves. The name of a parameter with index
at least `m` is not bound in that scope, so its lookup is the lookup in the global table
and a reference to it yields the global of that name or fails with the undefined-variable
error. -/
theorem arguments_bound_by_position (h : Host) (fuel : Nat) (fname : String)
    (lt lt2 : ListType) (params : List (DataType × String)) (items : List ASTNode)
    (t : SymbolTable) (w : World) (rt : DataType) (nm : String) (body : Option ASTNode)
    (vals : List Value) (t1 : SymbolTable) (w1 : World)
    (hname : fname ≠ "print" ∧ fname ≠ "printm" ∧ fname ≠ "read")
    (hf : get_symbol t fname
      = some (.func (.func_decl rt nm (some (.list lt (params.map param_node))) body)))
    (hdepth : w.recursion_depth < MAX_RECURSION_DEPTH)
    (hnodup : (params.map Prod.snd).Nodup)
    (hargs : eval_items (eval_expression h fuel) (items.take params.length) t
        { w with recursion_depth := w.recursion_depth + 1 } = .ok (vals, t1, w1)) :
    vals.length = min params.length items.length
    ∧ eval_expression h (fuel + 1) (.func_call (.identifier fname) (some (.list lt2 items))) t w
        = (match exec_opt (execute_statement h fuel) body
            (bind_values (create_symbol_table (some t1.root)) (params.map Prod.snd) vals)
            w1 with
          | .error e => .error e
          | .ok (scope3, w3) =>
            .ok (copy_value scope3.return_value, t1,
              { w3 with recursion_depth := w3.recursion_depth - 1 }))
    ∧ (∀ (i : Nat) (p : DataType × String) (v : Value),
        params[i]? = some p → vals[i]? = some v →
        get_symbol
            (bind_values (create_symbol_table (some t1.root)) (params.map Prod.snd) vals) p.2
          = some v
        ∧ list_binds
            (bind_values (create_symbol_table (some t1.root)) (params.map Prod.snd) vals).head
            p.2)
    ∧ (∀ (i : Nat) (p : DataType × String), params[i]? = some p → items.length ≤ i →
        ¬ list_binds
            (bind_values (create_symbol_table (some t1.root)) (params.map Prod.snd) vals).head
            p.2
        ∧ get_symbol
            (bind_values (create_symbol_table (some t1.root)) (params.map Prod.snd) vals) p.2
          = get_symbol t1.root p.2
        ∧ ∀ (n : Nat) (wb : World),
          eval_expression h (n + 1) (.identifier p.2)
              (bind_values (create_symbol_table (some t1.root)) (params.map Prod.snd) vals) wb
            = match get_symbol t1.root p.2 with
              | some val => .ok (copy_value val,
                  bind_values (create_symbol_table (some t1.root)) (params.map Prod.snd) vals,
                  wb)
              | none => .error (.exit (.undefined_variable p.2))) := by
  have hlen : vals.length = min params.length items.length := by
    rw [eval_items_length _ _ _ _ _ _ _ hargs, List.length_take]
  refine ⟨hlen, ?_, ?_, ?_⟩
  · obtain ⟨hev, hex⟩ := interpreter_frames h fuel
    rw [eval_call_unfold h fuel fname _ t w hname,
      call_function_entered _ _ fname _ t w rt nm _ body hf hdepth]
    simp only [bind_phase]
    rw [bind_arguments_eq, hargs]
    simp only
    rw [bind_values_set_parent]
    have hsp : (create_symbol_table (some t.root)).set_parent (some t1.root)
        = create_symbol_table (some t1.root) := rfl
    rw [hsp]
    cases hx : exec_opt (execute_statement h fuel) body
        (bind_values (create_symbol_table (some t1.root)) (params.map Prod.snd) vals) w1 with
    | error e => rfl
    | ok res =>
      obtain ⟨scope3, w3⟩ := res
      simp only
      have hp : scope3.parent = some t1.root :=
        (exec_opt_steps_frame _ hex body _ _ _ _ hx).1.1.trans
          (bind_values_same_frame _ _ _).1
      rw [hp]
      simp only [set_root_root]
  · intro i p v hp hv
    refine get_symbol_bind_values_same _ _ _ i p.2 v hnodup ?_ hv
    rw [List.getElem?_map, hp]
    rfl
  · intro i p hp hi
    have hnot : p.2 ∉ (params.map Prod.snd).take vals.length := by
      intro hm
      obtain ⟨j, hj, hjp⟩ := List.mem_take_iff_getElem.mp hm
      have hj1 : j < (params.map Prod.snd).length := by omega
      have hjv : j < vals.length := by omega
      have hpi : (params.map Prod.snd)[i]? = some p.2 := by
        rw [List.getElem?_map, hp]; rfl
      have hpj : (params.map Prod.snd)[j]? = some p.2 := by
        rw [List.getElem?_eq_getElem hj1, hjp]
      have hij : j = i := List.getElem?_inj hj1 hnodup (hpj.trans hpi.symm)
      omega
    have hunbound : ¬ list_binds
        (bind_values (create_symbol_table (some t1.root)) (params.map Prod.snd) vals).head
        p.2 := by
      intro hb
      rcases bind_values_binds_only p.2 _ _ _ hb with h1 | h1
      · obtain ⟨s, hs, _⟩ := h1
        simp [create_symbol_table, SymbolTable.head] at hs
      · exact hnot h1
    have hget : get_symbol
        (bind_values (create_symbol_table (some t1.root)) (params.map Prod.snd) vals) p.2
        = get_symbol t1.root p.2 := by
      rw [get_symbol_bind_values_other p.2 _ _ _ hnot, get_symbol_create]
    refine ⟨hunbound, hget, ?_⟩
    intro n wb
    rw [eval_identifier_unfold, hget]

/-- Witness of C27: the call `third(1, 2)` of `third(a, b, c) { return c; }` binds `a` and
`b` and leaves `c` unbound: the reference to `c` in the body fails with the
undefined-variable error, no global being called `c`. -/
theorem arguments_bound_by_position_witness :
    eval_expression sample_host 4 call_third_1_2 global_with_third initial_world
      = .error (.exit (.undefined_variable "c")) :=
  ((arguments_bound_by_position sample_host 3 "third" .NODE_PARAM_LIST .NODE_ARG_LIST
    [(.TYPE_INT, "a"), (.TYPE_INT, "b"), (.TYPE_INT, "c")] [.int_literal 1, .int_literal 2]
    global_with_third initial_world .TYPE_INT "third"
    (some (.list .NODE_STMT_LIST [.return_stmt (some (.identifier "c"))]))
    [.int 1, .int 2] global_with_third { recursion_depth := 1, stdin := [], out := [] }
    (by decide) rfl (by decide) (by decide) (by rfl)).2.1).trans (by rfl)

/-! ## Surplus arguments -/

theorem bind_arguments_surplus (ev : Eval) (extra : List ASTNode) :
    ∀ (ps items : List ASTNode) (fs t : SymbolTable) (w : World),
      ps.length ≤ items.length →
      bind_arguments ev ps (items ++ extra) fs t w = bind_arguments ev ps items fs t w
  | [], items, fs, t, w, _ => by simp [bind_arguments]
  | p :: ps, [], fs, t, w, hlen => by simp at hlen
  | p :: ps, a :: items, fs, t, w, hlen => by
    simp only [List.cons_append, bind_arguments]
    cases ha : ev a t w with
    | error e => rfl
    | ok res =>
      obtain ⟨v, t1, w1⟩ := res
      simp only
      cases p <;> try rfl
      exact bind_arguments_surplus ev extra ps items _ t1 w1
        (by simpa using hlen)

/-- C28 as stated fails: in the call `nop(x = 5)` of `nop() { }` the argument has no
parameter and is not evaluated; after the call `x` is still unbound in the table of the
caller. -/
theorem surplus_argument_has_no_effect :
    eval_expression sample_host 4 call_nop_assign global_with_nop initial_world
      = .ok (.void, global_with_nop, initial_world) := by
  rfl

/-- C28 (amended): when a call supplies more arguments than the function has parameters,
the surplus argument expressions are not evaluated: the call with the arguments
`items ++ extra`, where `items` has at least as many arguments as there are parameters,
is the call with the arguments `items`, whatever the expressions `extra` are; and for a
function declared with no parameter list no argument is evaluated at all. (The callee is
a user function: the built-ins evaluate every argument.) -/
theorem surplus_arguments_not_evaluated (h : Host) (fuel : Nat) (fname : String)
    (lt : ListType) (items extra : List ASTNode) (t : SymbolTable) (w : World)
    (rt : DataType) (nm : String) (params body : Option ASTNode)
    (hname : fname ≠ "print" ∧ fname ≠ "printm" ∧ fname ≠ "read")
    (hf : get_symbol t fname = some (.func (.func_decl rt nm params body)))
    (hlen : ∀ (lp : ListType) (ps : List ASTNode), params = some (.list lp ps) →
      ps.length ≤ items.length) :
    eval_expression h (fuel + 1)
        (.func_call (.identifier fname) (some (.list lt (items ++ extra)))) t w
      = eval_expression h (fuel + 1)
          (.func_call (.identifier fname) (some (.list lt items))) t w
    ∧ (params = none →
        bind_phase (eval_expression h fuel) params (some (.list lt (items ++ extra))) t w
          = .ok (create_symbol_table (some t.root), t, w)) := by
  constructor
  · rw [eval_call_unfold h fuel fname _ t w hname, eval_call_unfold h fuel fname _ t w hname]
    by_cases hd : w.recursion_depth < MAX_RECURSION_DEPTH
    · rw [call_function_entered _ _ fname _ t w rt nm params body hf hd,
        call_function_entered _ _ fname _ t w rt nm params body hf hd]
      have hb : bind_phase (eval_expression h fuel) params
            (some (.list lt (items ++ extra))) t
            { w with recursion_depth := w.recursion_depth + 1 }
          = bind_phase (eval_expression h fuel) params (some (.list lt items)) t
            { w with recursion_depth := w.recursion_depth + 1 } := by
        cases params with
        | none => rfl
        | some pn =>
          cases pn <;> try rfl
          rename_i lp ps
          simp only [bind_phase]
          exact bind_arguments_surplus _ extra ps items _ t _ (hlen lp ps rfl)
      rw [hb]
    · have hge : w.recursion_depth ≥ MAX_RECURSION_DEPTH := not_lt.mp hd
      simp [call_function, hf, hge]
  · intro hp
    subst hp
    rfl

/-- Witness of C28: the call `nop(print(1))` of `nop() { }` is the call `nop()`: it
returns Void and nothing is printed. -/
theorem surplus_arguments_not_evaluated_witness :
    eval_expression sample_host 4 call_nop_print global_with_nop initial_world
      = .ok (.void, global_with_nop, initial_world) :=
  ((surplus_arguments_not_evaluated sample_host 3 "nop" .NODE_ARG_LIST []
    [.func_call (.identifier "print") (some (.list .NODE_ARG_LIST [.int_literal 1]))]
    global_with_nop initial_world .TYPE_VOID "nop" (some (.list .NODE_PARAM_LIST []))
    (some (.list .NODE_STMT_LIST [])) (by decide) rfl
    (fun lp ps hp => by cases hp; exact Nat.le_refl 0)).1).trans (by rfl)

/-! ## The dispatch of a call -/

/-- C29: a call whose callee is the identifier `print`, `printm` or `read` is the built-in
of that name in every table, whatever the table binds under that name. A call of any other
name that has no binding in the scope chain, or is bound to a value that is not a
function, fails with the undefined-function error, whatever its arguments are: none of
them is evaluated. -/
theorem call_dispatch (h : Host) (fuel : Nat) (args : Option ASTNode) (t : SymbolTable)
    (w : World) :
    eval_expression h (fuel + 1) (.func_call (.identifier "print") args) t w
      = builtin_print (eval_expression h fuel) args t w
    ∧ eval_expression h (fuel + 1) (.func_call (.identifier "printm") args) t w
      = builtin_printm (eval_expression h fuel) args t w
    ∧ eval_expression h (fuel + 1) (.func_call (.identifier "read") args) t w
      = .ok ((builtin_read h w).1, t, (builtin_read h w).2)
    ∧ (∀ fname : String, fname ≠ "print" ∧ fname ≠ "printm" ∧ fname ≠ "read" →
        (get_symbol t fname = none
          ∨ ∃ v, get_symbol t fname = some v ∧ ∀ decl, v ≠ .func decl) →
        eval_expression h (fuel + 1) (.func_call (.identifier fname) args) t w
          = .error (.exit (.undefined_function fname))) := by
  refine ⟨?_, ?_, ?_, ?_⟩
  · rw [eval_expression_succ]; rfl
  · rw [eval_expression_succ]; rfl
  · rw [eval_expression_succ]; rfl
  · intro fname hname hunbound
    rw [eval_call_unfold h fuel fname args t w hname]
    rcases hunbound with hnone | ⟨v, hv, hnf⟩
    · simp [call_function, hnone]
    · cases v <;> first | exact absurd rfl (hnf _) | simp [call_function, hv]

/-- Witness of C29: with `print` bound to a user function in the global table, the call
`print(x)` still prints the value of `x` and a newline. -/
theorem call_dispatch_witness :
    eval_expression sample_host 2 call_print_x global_shadowing_print initial_world
      = .ok (.void, global_shadowing_print,
          { recursion_depth := 0, stdin := [], out := [.value (.int 1), .text "\n"] }) :=
  ((call_dispatch sample_host 1 (some (.list .NODE_ARG_LIST [.identifier "x"]))
    global_shadowing_print initial_world).1).trans (by rfl)

/-! ## The program and `main` -/

theorem run_declarations_append (ex : Exec) (rest : List ASTNode) :
    ∀ (pre : List ASTNode) (g : SymbolTable) (w : World),
      run_declarations ex (pre ++ rest) g w
        = match run_declarations ex pre g w with
          | .error e => .error e
          | .ok (g1, w1) => run_declarations ex rest g1 w1
  | [], g, w => rfl
  | decl :: pre, g, w => by
    cases hd : decl.declaresOther with
    | true =>
      cases decl <;> simp [ASTNode.declaresOther] at hd
      simp only [List.cons_append, run_declarations]
      exact run_declarations_append ex rest pre _ w
    | false =>
      cases decl
      case func_decl rt name ps body =>
        simp only [List.cons_append, run_declarations]
        exact run_declarations_append ex rest pre _ w
      all_goals
        simp only [List.cons_append, run_declarations]
        cases ex _ g w with
        | error e => rfl
        | ok res =>
          obtain ⟨g1, w1⟩ := res
          exact run_declarations_append ex rest pre g1 w1

/-- The loop over the top-level items never clears the flag of the global table. -/
theorem run_declarations_steps_frame (ex : Exec) (hex : steps_frame ex) :
    ∀ (items : List ASTNode) (g : SymbolTable) (w : World) (g1 : SymbolTable) (w1 : World),
      run_declarations ex items g w = .ok (g1, w1) → frame_step g g1
  | [], g, w, g1, w1, hres => by
    simp only [run_declarations] at hres
    cases hres; exact frame_step_refl g
  | decl :: rest, g, w, g1, w1, hres => by
    cases decl
    case func_decl rt name ps body =>
      simp only [run_declarations] at hres
      exact frame_step_trans (frame_step_of_same (same_frame_set_symbol _ _ _))
        (run_declarations_steps_frame ex hex rest _ w g1 w1 hres)
    all_goals
      simp only [run_declarations] at hres
      cases hd : ex _ g w with
      | error e => rw [hd] at hres; cases hres
      | ok res =>
        obtain ⟨g2, w2⟩ := res
        rw [hd] at hres
        exact frame_step_trans (hex _ _ _ _ _ hd).1
          (run_declarations_steps_frame ex hex rest g2 w2 g1 w1 hres)

/-- Declarations of functions not called `main` leave the binding of `main` as it was. -/
theorem run_declarations_others (ex : Exec) :
    ∀ (post : List ASTNode) (g : SymbolTable) (w : World),
      (∀ d ∈ post, d.declaresOther = true) →
      ∃ g1, run_declarations ex post g w = .ok (g1, w)
        ∧ get_symbol g1 "main" = get_symbol g "main"
  | [], g, w, _ => ⟨g, rfl, rfl⟩
  | decl :: post, g, w, hall => by
    have hd := hall decl (List.mem_cons_self _ _)
    cases decl <;> simp [ASTNode.declaresOther] at hd
    rename_i rt name ps body
    obtain ⟨g1, hrun, hget⟩ := run_declarations_others ex post
      (set_symbol g name (.func (.func_decl rt name ps body))) w
      (fun d hm => hall d (List.mem_cons_of_mem _ hm))
    refine ⟨g1, ?_, ?_⟩
    · simp only [run_declarations]; exact hrun
    · rw [hget, get_symbol_set_symbol_other g name "main" _ (fun hn => hd hn.symm)]

/-- C30 as stated fails for a program with a `return` among its top-level statements: in
`int x = 1;  return;  main() { print(x); }` the `return` sets the flag of the global
table, `main` is still bound, and the call of `execute_statement` on its body returns at
once: nothing is printed. -/
theorem top_level_return_skips_main :
    execute_program sample_host 5 program_return_then_main initial_world
      = .ok (.mk [{ name := "main", value := .func decl_main_print_x },
                  { name := "x", value := .int 1 }] none create_void_value true,
          initial_world) := by
  rfl

/-- C30 (amended): let the loop over the top-level items of the program complete, leaving
the global table `g1`. When `main` is bound in `g1` to a function, `execute_program`
executes the body of that function once, on `g1`, after the whole loop; when a top-level
statement has executed a `return`, so that `g1` is returning, that execution returns at
once and the program ends with `g1` as the loop left it. When `main` is not bound to a
function, the program ends after the loop. A declaration of `main` that is followed by
declarations of other functions only is the function `main` is bound to; and once a
top-level `return` has set the flag it is set in `g1`, whatever items follow. -/
theorem main_runs_after_top_level (h : Host) (fuel : Nat) (items : List ASTNode) (w : World)
    (g1 : SymbolTable) (w1 : World)
    (hrun : run_declarations (execute_statement h fuel) items (create_symbol_table none) w
      = .ok (g1, w1)) :
    (∀ (rt : DataType) (nm : String) (ps body : Option ASTNode),
        get_symbol g1 "main" = some (.func (.func_decl rt nm ps body)) →
        execute_program h fuel (.list .NODE_DECL_LIST items) w
          = exec_opt (execute_statement h fuel) body g1 w1
        ∧ (g1.is_returning = true → 0 < fuel →
            execute_program h fuel (.list .NODE_DECL_LIST items) w = .ok (g1, w1)))
    ∧ ((get_symbol g1 "main" = none
          ∨ ∃ v, get_symbol g1 "main" = some v ∧ ∀ decl, v ≠ .func decl) →
        execute_program h fuel (.list .NODE_DECL_LIST items) w = .ok (g1, w1))
    ∧ (∀ (pre post : List ASTNode) (rt : DataType) (ps body : Option ASTNode),
        items = pre ++ .func_decl rt "main" ps body :: post →
        (∀ d ∈ post, d.declaresOther = true) →
        get_symbol g1 "main" = some (.func (.func_decl rt "main" ps body)))
    ∧ (∀ (pre post : List ASTNode) (g : SymbolTable) (wg : World),
        items = pre ++ post →
        run_declarations (execute_statement h fuel) pre (create_symbol_table none) w
          = .ok (g, wg) →
        g.is_returning = true → g1.is_returning = true) := by
  refine ⟨?_, ?_, ?_, ?_⟩
  · intro rt nm ps body hmain
    have hprog : execute_program h fuel (.list .NODE_DECL_LIST items) w
        = exec_opt (execute_statement h fuel) body g1 w1 := by
      simp only [execute_program, hrun, hmain]
    refine ⟨hprog, ?_⟩
    intro hret hfuel
    rw [hprog]
    cases body with
    | none => rfl
    | some b =>
      obtain ⟨f, rfl⟩ : ∃ f, fuel = f + 1 := ⟨fuel - 1, by omega⟩
      exact execute_statement_returning h f b g1 w1 hret
  · rintro (hnone | ⟨v, hv, hnf⟩)
    · simp only [execute_program, hrun, hnone]
    · cases v <;> first | exact absurd rfl (hnf _) | simp only [execute_program, hrun, hv]
  · intro pre post rt ps body hitems hpost
    rw [hitems, run_declarations_append] at hrun
    cases hpre : run_declarations (execute_statement h fuel) pre (create_symbol_table none) w with
    | error e => rw [hpre] at hrun; cases hrun
    | ok res =>
      obtain ⟨g, wg⟩ := res
      rw [hpre] at hrun
      simp only [run_declarations] at hrun
      obtain ⟨g2, hrun2, hget⟩ := run_declarations_others (execute_statement h fuel) post
        (set_symbol g "main" (.func (.func_decl rt "main" ps body))) wg hpost
      rw [hrun2] at hrun
      simp only [Except.ok.injEq, Prod.mk.injEq] at hrun
      rw [← hrun.1, hget, get_symbol_set_symbol_same]
  · intro pre post g wg hitems hpre hret
    rw [hitems, run_declarations_append, hpre] at hrun
    exact ((run_declarations_steps_frame _ (interpreter_frames h fuel).2 post g wg g1 w1
      hrun).2.1 hret).1

/-- Witness of C30: the program `int x = 1;  main() { print(x); }` binds `x`, then `main`,
and then executes the body of `main` once: it prints 1. -/
theorem main_runs_after_top_level_witness :
    execute_program sample_host 5 program_x_then_main initial_world
      = .ok (.mk [{ name := "main", value := .func decl_main_print_x },
                  { name := "x", value := .int 1 }] none create_void_value false,
          { recursion_depth := 0, stdin := [], out := [.value (.int 1), .text "\n"] }) :=
  (((main_runs_after_top_level sample_host 5
    [.var_decl .TYPE_INT "x" (some (.int_literal 1)), decl_main_print_x] initial_world
    (.mk [{ name := "main", value := .func decl_main_print_x },
          { name := "x", value := .int 1 }] none create_void_value false)
    initial_world (by rfl)).1 .TYPE_VOID "main" (some (.list .NODE_PARAM_LIST []))
    (some (.list .NODE_STMT_LIST [.expr_stmt (some call_print_x)])) (by rfl)).1).trans (by rfl)

/-! ## The depth counter and the diagnostics of a run that returns -/

theorem world_step_refl (w : World) : world_step w w :=
  ⟨rfl, [], by simp, by simp⟩

theorem world_step_trans {a b c : World} (h1 : world_step a b) (h2 : world_step b c) :
    world_step a c := by
  obtain ⟨hd1, add1, ho1, hn1⟩ := h1
  obtain ⟨hd2, add2, ho2, hn2⟩ := h2
  refine ⟨hd2.trans hd1, add1 ++ add2, by rw [ho2, ho1, List.append_assoc], ?_⟩
  intro e he
  rcases List.mem_append.mp he with h | h
  · exact hn1 e h
  · exact hn2 e h

theorem world_step_emit_value (w : World) (v : Value) : world_step w (w.emit (.value v)) :=
  ⟨rfl, [.value v], rfl, by simp⟩

theorem world_step_emit_text (w : World) (s : String) : world_step w (w.emit (.text s)) :=
  ⟨rfl, [.text s], rfl, by simp⟩

theorem world_step_emit_error (w : World) (e : RuntimeError) (he : e.nonfatal) :
    world_step w (w.emit (.error e)) := by
  refine ⟨rfl, [.error e], rfl, ?_⟩
  intro e1 h1
  simp only [List.mem_singleton, Output.error.injEq] at h1
  rw [h1]; exact he

/-- A step made one level deeper, seen from the level of the caller after the decrement. -/
theorem world_step_call (w w3 : World)
    (hs : world_step { w with recursion_depth := w.recursion_depth + 1 } w3) :
    world_step w { w3 with recursion_depth := w3.recursion_depth - 1 } := by
  obtain ⟨hd, added, ho, hn⟩ := hs
  refine ⟨?_, added, ho, hn⟩
  simp only at hd ⊢
  omega

theorem builtin_read_world (h : Host) (w : World) : world_step w (builtin_read h w).2 := by
  unfold builtin_read
  repeat' split
  all_goals exact ⟨rfl, [], by simp, by simp⟩

theorem eval_pattern_match_world (h : Host) (l r : Value) (w : World) :
    world_step w (eval_pattern_match h l r w).2 := by
  unfold eval_pattern_match
  split
  · split
    · exact world_step_refl w
    · exact world_step_emit_error w (.invalid_regex _) trivial
  · exact world_step_refl w

theorem binary_result_world (h : Host) (op : BinaryOp) (l r : Value) (w : World)
    (v : Value) (w1 : World) (hres : binary_result h op l r w = .ok (v, w1)) :
    world_step w w1 := by
  cases op <;> simp only [binary_result] at hres
  case NODE_EQ => cases hres; exact world_step_refl w
  case NODE_NE => cases hres; exact world_step_refl w
  case NODE_PATTERN_MATCH =>
    simp only [Except.ok.injEq] at hres
    have := eval_pattern_match_world h l r w
    rw [hres] at this
    exact this
  all_goals first
    | cases hres
    | (obtain ⟨a, _, hfa⟩ := except_map_ok _ _ _ hres
       cases hfa; exact world_step_refl w)

theorem print_items_world (ev : Eval) (hev : keeps_world ev) :
    ∀ (items : List ASTNode) (t : SymbolTable) (w : World) (t1 : SymbolTable) (w1 : World),
      print_items ev items t w = .ok (t1, w1) → world_step w w1
  | [], t, w, t1, w1, hres => by
    simp only [print_items] at hres
    cases hres; exact world_step_refl w
  | [item], t, w, t1, w1, hres => by
    simp only [print_items] at hres
    cases hi : ev item t w with
    | error e => rw [hi] at hres; cases hres
    | ok res =>
      obtain ⟨val, t2, w2⟩ := res
      rw [hi] at hres
      cases hres
      exact world_step_trans (hev _ _ _ _ _ _ hi) (world_step_emit_value _ _)
  | item :: next :: rest, t, w, t1, w1, hres => by
    simp only [print_items] at hres
    cases hi : ev item t w with
    | error e => rw [hi] at hres; cases hres
    | ok res =>
      obtain ⟨val, t2, w2⟩ := res
      rw [hi] at hres
      exact world_step_trans (hev _ _ _ _ _ _ hi)
        (world_step_trans (world_step_emit_value _ _)
          (world_step_trans (world_step_emit_text _ _)
            (print_items_world ev hev (next :: rest) _ _ _ _ hres)))

theorem printm_items_world (ev : Eval) (hev : keeps_world ev) :
    ∀ (items : List ASTNode) (t : SymbolTable) (w : World) (t1 : SymbolTable) (w1 : World),
      printm_items ev items t w = .ok (t1, w1) → world_step w w1
  | [], t, w, t1, w1, hres => by
    simp only [printm_items] at hres
    cases hres; exact world_step_refl w
  | item :: rest, t, w, t1, w1, hres => by
    simp only [printm_items] at hres
    cases hi : ev item t w with
    | error e => rw [hi] at hres; cases hres
    | ok res =>
      obtain ⟨val, t2, w2⟩ := res
      rw [hi] at hres
      have h1 := hev _ _ _ _ _ _ hi
      cases val
      case matrix m =>
        exact world_step_trans h1 (world_step_trans (world_step_emit_value _ _)
          (printm_items_world ev hev rest _ _ _ _ hres))
      all_goals
        exact world_step_trans h1 (world_step_trans
          (world_step_emit_error _ .printm_expects_matrix trivial)
          (printm_items_world ev hev rest _ _ _ _ hres))

theorem fill_cells_world (ev : Eval) (hev : keeps_world ev) :
    ∀ (items : List ASTNode) (i j : Nat) (mat : Matrix) (t : SymbolTable) (w : World)
      (mat1 : Matrix) (t1 : SymbolTable) (w1 : World),
      fill_cells ev items i j mat t w = .ok (mat1, t1, w1) → world_step w w1
  | [], i, j, mat, t, w, mat1, t1, w1, hres => by
    simp only [fill_cells] at hres
    cases hres; exact world_step_refl w
  | item :: rest, i, j, mat, t, w, mat1, t1, w1, hres => by
    simp only [fill_cells] at hres
    cases hi : ev item t w with
    | error e => rw [hi] at hres; cases hres
    | ok res =>
      obtain ⟨val, t2, w2⟩ := res
      rw [hi] at hres
      exact world_step_trans (hev _ _ _ _ _ _ hi)
        (fill_cells_world ev hev rest _ _ _ _ _ _ _ _ hres)

theorem fill_rows_world (ev : Eval) (hev : keeps_world ev) :
    ∀ (rows : List ASTNode) (i cols : Nat) (mat : Matrix) (t : SymbolTable) (w : World)
      (mat1 : Matrix) (t1 : SymbolTable) (w1 : World),
      fill_rows ev rows i cols mat t w = .ok (mat1, t1, w1) → world_step w w1
  | [], i, cols, mat, t, w, mat1, t1, w1, hres => by
    simp only [fill_rows] at hres
    cases hres; exact world_step_refl w
  | row :: rest, i, cols, mat, t, w, mat1, t1, w1, hres => by
    cases hrow : row.isArrayLiteral with
    | false =>
      rw [fill_rows_not_literal ev row rest i cols mat t w hrow] at hres
      cases hres
    | true =>
      obtain ⟨items, rfl⟩ := isArrayLiteral_true row hrow
      rw [fill_rows_literal] at hres
      split at hres
      · cases hres
      · cases hc : fill_cells ev items i 0 mat t w with
        | error e => rw [hc] at hres; cases hres
        | ok res =>
          obtain ⟨mat2, t2, w2⟩ := res
          rw [hc] at hres
          exact world_step_trans (fill_cells_world ev hev items _ _ _ _ _ _ _ _ hc)
            (fill_rows_world ev hev rest _ _ _ _ _ _ _ _ hres)

theorem array_literal_world (ev : Eval) (hev : keeps_world ev) (node : ASTNode)
    (t : SymbolTable) (w : World) (v : Value) (t1 : SymbolTable) (w1 : World)
    (hres : array_literal_to_matrix ev node t w = .ok (v, t1, w1)) : world_step w w1 := by
  cases hnode : node.isArrayLiteral with
  | false => rw [array_literal_not_literal ev node t w hnode] at hres; cases hres
  | true =>
    obtain ⟨items, rfl⟩ := isArrayLiteral_true node hnode
    cases items with
    | nil => cases hres; exact world_step_refl w
    | cons first rest =>
      cases hfirst : first.isArrayLiteral with
      | false =>
        rw [array_literal_flat_unfold ev first rest t w hfirst] at hres
        cases hc : fill_cells ev (first :: rest) 0 0 (create_matrix 1 (rest.length + 1)) t w with
        | error e => rw [hc] at hres; cases hres
        | ok res =>
          obtain ⟨mat2, t2, w2⟩ := res
          rw [hc] at hres
          cases hres
          exact fill_cells_world ev hev _ _ _ _ _ _ _ _ _ hc
      | true =>
        obtain ⟨first_items, rfl⟩ := isArrayLiteral_true first hfirst
        rw [array_literal_nested_unfold] at hres
        cases hc : fill_rows ev (.list .NODE_ARRAY_LITERAL first_items :: rest) 0
            first_items.length (create_matrix (rest.length + 1) first_items.length) t w with
        | error e => rw [hc] at hres; cases hres
        | ok res =>
          obtain ⟨mat2, t2, w2⟩ := res
          rw [hc] at hres
          cases hres
          exact fill_rows_world ev hev _ _ _ _ _ _ _ _ _ hc

theorem inc_dec_world (name : String) (dec post : Bool) (t : SymbolTable) (w : World)
    (v : Value) (t1 : SymbolTable) (w1 : World)
    (hres : inc_dec name dec post t w = .ok (v, t1, w1)) : world_step w w1 := by
  unfold inc_dec at hres
  simp only at hres
  repeat' split at hres
  all_goals (cases hres; try exact world_step_refl _)

theorem compound_assign_world (ev : Eval) (hev : keeps_world ev)
    (combine : Value → Value → Except Halt Value)
    (name : String) (right : ASTNode) (t : SymbolTable) (w : World)
    (v : Value) (t1 : SymbolTable) (w1 : World)
    (hres : compound_assign ev combine name right t w = .ok (v, t1, w1)) :
    world_step w w1 := by
  unfold compound_assign at hres
  simp only at hres
  cases hr : ev right t w with
  | error e => rw [hr] at hres; cases hres
  | ok res =>
    obtain ⟨rv, t2, w2⟩ := res
    rw [hr] at hres
    simp only at hres
    have h1 := hev _ _ _ _ _ _ hr
    repeat' split at hres
    all_goals (cases hres; try exact h1)

theorem eval_logical_world (ev : Eval) (hev : keeps_world ev) (is_or : Bool)
    (l r : ASTNode) (t : SymbolTable) (w : World) (v : Value) (t1 : SymbolTable) (w1 : World)
    (hres : eval_logical ev is_or l r t w = .ok (v, t1, w1)) : world_step w w1 := by
  unfold eval_logical at hres
  cases hl : ev l t w with
  | error e => rw [hl] at hres; cases hres
  | ok res =>
    obtain ⟨lv, t2, w2⟩ := res
    rw [hl] at hres
    simp only at hres
    have h1 := hev _ _ _ _ _ _ hl
    split at hres
    · cases hres
    · split at hres
      · cases hres; exact h1
      · split at hres
        · cases hres; exact h1
        · cases hr : ev r t2 w2 with
          | error e => rw [hr] at hres; cases hres
          | ok res2 =>
            obtain ⟨rv, t3, w3⟩ := res2
            rw [hr] at hres
            simp only at hres
            have h2 := hev _ _ _ _ _ _ hr
            split at hres
            · cases hres
            · cases hres; exact world_step_trans h1 h2

theorem builtin_print_world (ev : Eval) (hev : keeps_world ev) (args : Option ASTNode)
    (t : SymbolTable) (w : World) (v : Value) (t1 : SymbolTable) (w1 : World)
    (hres : builtin_print ev args t w = .ok (v, t1, w1)) : world_step w w1 := by
  unfold builtin_print at hres
  split at hres
  · rename_i items
    cases hp : print_items ev items t w with
    | error e => rw [hp] at hres; cases hres
    | ok res =>
      obtain ⟨t2, w2⟩ := res
      rw [hp] at hres
      cases hres
      exact world_step_trans (print_items_world ev hev _ _ _ _ _ hp)
        (world_step_emit_text _ _)
  · cases hres; exact world_step_emit_text _ _

theorem builtin_printm_world (ev : Eval) (hev : keeps_world ev) (args : Option ASTNode)
    (t : SymbolTable) (w : World) (v : Value) (t1 : SymbolTable) (w1 : World)
    (hres : builtin_printm ev args t w = .ok (v, t1, w1)) : world_step w w1 := by
  unfold builtin_printm at hres
  split at hres
  · rename_i items
    cases hp : printm_items ev items t w with
    | error e => rw [hp] at hres; cases hres
    | ok res =>
      obtain ⟨t2, w2⟩ := res
      rw [hp] at hres
      cases hres
      exact printm_items_world ev hev _ _ _ _ _ hp
  · cases hres; exact world_step_refl w

theorem bind_arguments_world (ev : Eval) (hev : keeps_world ev) :
    ∀ (ps items : List ASTNode) (fs t : SymbolTable) (w : World) (fs1 t1 : SymbolTable)
      (w1 : World),
      bind_arguments ev ps items fs t w = .ok (fs1, t1, w1) → world_step w w1
  | [], items, fs, t, w, fs1, t1, w1, hres => by
    simp [bind_arguments] at hres
    obtain ⟨_, _, h3⟩ := hres
    subst h3
    exact world_step_refl _
  | p :: ps, [], fs, t, w, fs1, t1, w1, hres => by
    simp [bind_arguments] at hres
    obtain ⟨_, _, h3⟩ := hres
    subst h3
    exact world_step_refl _
  | p :: ps, a :: items, fs, t, w, fs1, t1, w1, hres => by
    simp only [bind_arguments] at hres
    cases ha : ev a t w with
    | error e => rw [ha] at hres; cases hres
    | ok res =>
      obtain ⟨arg_val, t2, w2⟩ := res
      rw [ha] at hres
      simp only at hres
      cases p <;> try (cases hres)
      exact world_step_trans (hev _ _ _ _ _ _ ha)
        (bind_arguments_world ev hev ps items _ t2 w2 fs1 t1 w1 hres)

theorem bind_phase_world (ev : Eval) (hev : keeps_world ev) (params args : Option ASTNode)
    (t : SymbolTable) (w : World) (fs1 t1 : SymbolTable) (w1 : World)
    (hres : bind_phase ev params args t w = .ok (fs1, t1, w1)) : world_step w w1 := by
  unfold bind_phase at hres
  split at hres
  · exact bind_arguments_world ev hev _ _ _ _ _ _ _ _ hres
  · cases hres
  · cases hres; exact world_step_refl _

theorem exec_opt_world (ex : Exec) (hex : steps_world ex) (body : Option ASTNode)
    (t : SymbolTable) (w : World) (t1 : SymbolTable) (w1 : World)
    (hres : exec_opt ex body t w = .ok (t1, w1)) : world_step w w1 := by
  cases body with
  | none =>
    simp only [exec_opt] at hres
    cases hres
    exact world_step_refl w
  | some b => exact hex b t w t1 w1 hres

/-- A call that returns leaves the depth counter as it found it: the binding phase and the
body run one level deeper, and the counter is decremented on the way out. -/
theorem call_function_world (ev : Eval) (ex : Exec) (hev : keeps_world ev)
    (hex : steps_world ex) (hexf : steps_frame ex)
    (func_name : String) (args : Option ASTNode) (t : SymbolTable) (w : World)
    (v : Value) (t2 : SymbolTable) (w2 : World)
    (hres : call_function ev ex func_name args t w = .ok (v, t2, w2)) : world_step w w2 := by
  obtain ⟨rt, nm, params, body, scope1, t1, w1, scope3, w3, _, _, hb, hx, _, _, hw⟩ :=
    call_function_result ev ex hexf func_name args t w v t2 w2 hres
  rw [hw]
  exact world_step_call w w3
    (world_step_trans (bind_phase_world ev hev params args t _ _ _ _ hb)
      (exec_opt_world ex hex body _ _ _ _ hx))

theorem unhandled_world (t : SymbolTable) (w : World) (v : Value) (t1 : SymbolTable)
    (w1 : World) (hres : unhandled t w = .ok (v, t1, w1)) : world_step w w1 := by
  cases hres
  exact world_step_emit_error w .unhandled_expression trivial

/-- The body of `eval_expression` is a `world_step` when the recursive calls are. -/
theorem eval_node_keeps_world (h : Host) (ev : Eval) (ex : Exec)
    (hev : keeps_world ev) (hex : steps_world ex) (hexf : steps_frame ex) :
    keeps_world (eval_node h ev ex) := by
  intro node t w v t1 w1 hres
  cases node
  case int_literal => cases hres; exact world_step_refl w
  case float_literal => cases hres; exact world_step_refl w
  case string_literal => cases hres; exact world_step_refl w
  case bool_literal => cases hres; exact world_step_refl w
  case identifier name =>
    simp only [eval_node] at hres
    split at hres
    · cases hres; exact world_step_refl w
    · cases hres
  case binary_op op l r =>
    cases op
    case NODE_AND => exact eval_logical_world ev hev _ l r t w v t1 w1 hres
    case NODE_OR => exact eval_logical_world ev hev _ l r t w v t1 w1 hres
    case NODE_ASSIGN =>
      simp only [eval_node] at hres
      cases hr : ev r t w with
      | error e => rw [hr] at hres; cases hres
      | ok res =>
        obtain ⟨val, t2, w2⟩ := res
        rw [hr] at hres
        simp only at hres
        have hval := hev r t w val t2 w2 hr
        split at hres
        · cases hres; exact hval
        · cases hres; exact hval
    case NODE_PLUS_ASSIGN =>
      simp only [eval_node] at hres
      split at hres
      · exact compound_assign_world ev hev _ _ _ _ _ _ _ _ hres
      · cases hres; exact world_step_refl w
    case NODE_MINUS_ASSIGN =>
      simp only [eval_node] at hres
      split at hres
      · exact compound_assign_world ev hev _ _ _ _ _ _ _ _ hres
      · cases hres; exact world_step_refl w
    case NODE_MUL_ASSIGN =>
      simp only [eval_node] at hres
      split at hres
      · exact compound_assign_world ev hev _ _ _ _ _ _ _ _ hres
      · cases hres; exact world_step_refl w
    case NODE_DIV_ASSIGN =>
      simp only [eval_node] at hres
      split at hres
      · exact compound_assign_world ev hev _ _ _ _ _ _ _ _ hres
      · cases hres; exact world_step_refl w
    all_goals
      simp only [eval_node] at hres
      cases hl : ev l t w with
      | error e => rw [hl] at hres; cases hres
      | ok res =>
        obtain ⟨a, t2, w2⟩ := res
        rw [hl] at hres
        simp only at hres
        cases hr : ev r t2 w2 with
        | error e => rw [hr] at hres; cases hres
        | ok res2 =>
          obtain ⟨b, t3, w3⟩ := res2
          rw [hr] at hres
          simp only at hres
          split at hres
          · cases hres
          · rename_i hb
            cases hres
            exact world_step_trans (hev _ _ _ _ _ _ hl)
              (world_step_trans (hev _ _ _ _ _ _ hr) (binary_result_world h _ a b w3 _ _ hb))
  case unary_op type operand =>
    cases type
    case NODE_NOT =>
      simp only [eval_node] at hres
      cases ho : ev operand t w with
      | error e => rw [ho] at hres; cases hres
      | ok res =>
        obtain ⟨a, t2, w2⟩ := res
        rw [ho] at hres
        simp only at hres
        split at hres
        · cases hres
        · cases hres; exact hev _ _ _ _ _ _ ho
    case NODE_UNARY_MINUS =>
      simp only [eval_node] at hres
      cases ho : ev operand t w with
      | error e => rw [ho] at hres; cases hres
      | ok res =>
        obtain ⟨a, t2, w2⟩ := res
        rw [ho] at hres
        simp only at hres
        split at hres
        · cases hres; exact hev _ _ _ _ _ _ ho
        · cases hres; exact hev _ _ _ _ _ _ ho
        · cases hres
    all_goals
      simp only [eval_node] at hres
      split at hres
      · exact inc_dec_world _ _ _ _ _ _ _ _ hres
      · cases hres
  case func_call func args =>
    simp only [eval_node] at hres
    split at hres
    · split at hres
      · exact builtin_print_world ev hev args t w v t1 w1 hres
      · split at hres
        · exact builtin_printm_world ev hev args t w v t1 w1 hres
        · split at hres
          · cases hres; exact builtin_read_world h w
          · exact call_function_world ev ex hev hex hexf _ args t w v t1 w1 hres
    · exact unhandled_world t w v t1 w1 hres
  case list type items =>
    cases type
    case NODE_ARRAY_LITERAL =>
      have hres1 : array_literal_to_matrix ev (.list .NODE_ARRAY_LITERAL items) t w
          = .ok (v, t1, w1) := hres
      exact array_literal_world ev hev _ t w v t1 w1 hres1
    all_goals exact unhandled_world t w v t1 w1 hres
  all_goals exact unhandled_world t w v t1 w1 hres

theorem exec_list_world (ex : Exec) (hex : steps_world ex) :
    ∀ (items : List ASTNode) (t : SymbolTable) (w : World) (t1 : SymbolTable) (w1 : World),
      exec_list ex items t w = .ok (t1, w1) → world_step w w1
  | [], t, w, t1, w1, hres => by
    simp only [exec_list] at hres
    cases hres
    exact world_step_refl w
  | item :: rest, t, w, t1, w1, hres => by
    simp only [exec_list] at hres
    split at hres
    · cases hres
      exact world_step_refl w
    · cases hi : ex item t w with
      | error e => rw [hi] at hres; cases hres
      | ok res =>
        obtain ⟨t2, w2⟩ := res
        rw [hi] at hres
        simp only at hres
        exact world_step_trans (hex _ _ _ _ _ hi) (exec_list_world ex hex rest _ _ _ _ hres)

theorem while_loop_world (ev : Eval) (ex : Exec) (hev : keeps_world ev)
    (hex : steps_world ex) (condition : ASTNode) (body : Option ASTNode) :
    ∀ (fuel : Nat) (t : SymbolTable) (w : World) (t1 : SymbolTable) (w1 : World),
      while_loop ev ex fuel condition body t w = .ok (t1, w1) → world_step w w1
  | 0, t, w, t1, w1, hres => by simp [while_loop] at hres
  | fuel + 1, t, w, t1, w1, hres => by
    simp only [while_loop] at hres
    cases hc : ev condition t w with
    | error e => rw [hc] at hres; cases hres
    | ok res =>
      obtain ⟨cond, t2, w2⟩ := res
      rw [hc] at hres
      simp only at hres
      have h1 := hev _ _ _ _ _ _ hc
      split at hres
      · cases hres
      · split at hres
        · cases hres; exact h1
        · cases hb : exec_opt ex body t2 w2 with
          | error e => rw [hb] at hres; cases hres
          | ok res2 =>
            obtain ⟨t3, w3⟩ := res2
            rw [hb] at hres
            simp only at hres
            exact world_step_trans h1 (world_step_trans
              (exec_opt_world ex hex body _ _ _ _ hb)
              (while_loop_world ev ex hev hex condition body fuel _ _ _ _ hres))

theorem for_loop_world (ex : Exec) (hex : steps_world ex) (step limit : Int)
    (iterator : String) (body : Option ASTNode) :
    ∀ (fuel : Nat) (i : Int) (t : SymbolTable) (w : World) (t1 : SymbolTable) (w1 : World),
      for_loop ex fuel i step limit iterator body t w = .ok (t1, w1) → world_step w w1
  | 0, i, t, w, t1, w1, hres => by simp [for_loop] at hres
  | fuel + 1, i, t, w, t1, w1, hres => by
    simp only [for_loop] at hres
    by_cases hcond : (if step > 0 then i ≤ limit else i ≥ limit)
    · rw [if_pos hcond] at hres
      cases hb : exec_opt ex body (set_symbol t iterator (create_int_value i)) w with
      | error e => rw [hb] at hres; cases hres
      | ok res2 =>
        obtain ⟨t3, w3⟩ := res2
        rw [hb] at hres
        simp only at hres
        exact world_step_trans (exec_opt_world ex hex body _ _ _ _ hb)
          (for_loop_world ex hex step limit iterator body fuel _ _ _ _ _ hres)
    · rw [if_neg hcond] at hres
      cases hres; exact world_step_refl w

theorem exec_for_range_world (ev : Eval) (ex : Exec) (hev : keeps_world ev)
    (hex : steps_world ex) (fuel : Nat) (iterator : String) (range : ASTNode)
    (body : Option ASTNode) (t : SymbolTable) (w : World) (t1 : SymbolTable) (w1 : World)
    (hres : exec_for_range ev ex fuel iterator range body t w = .ok (t1, w1)) :
    world_step w w1 := by
  unfold exec_for_range at hres
  cases range <;> try (cases hres)
  rename_i type start_node end_node step_node
  simp only at hres
  cases hs : ev start_node t w with
  | error e => rw [hs] at hres; cases hres
  | ok res =>
    obtain ⟨sv, t2, w2⟩ := res
    rw [hs] at hres
    simp only at hres
    cases he : ev end_node t2 w2 with
    | error e => rw [he] at hres; cases hres
    | ok res2 =>
      obtain ⟨evl, t3, w3⟩ := res2
      rw [he] at hres
      simp only at hres
      have h1 := world_step_trans (hev _ _ _ _ _ _ hs) (hev _ _ _ _ _ _ he)
      cases hsb : range_bound sv with
      | none => rw [hsb] at hres; cases hres
      | some start =>
        cases heb : range_bound evl with
        | none => rw [hsb, heb] at hres; cases hres
        | some stop =>
          rw [hsb, heb] at hres
          simp only at hres
          cases step_node with
          | none =>
            simp only at hres
            exact world_step_trans h1
              (for_loop_world ex hex _ _ iterator body fuel _ _ _ _ _ hres)
          | some sn =>
            simp only at hres
            cases hk : ev sn t3 w3 with
            | error e => rw [hk] at hres; cases hres
            | ok res3 =>
              obtain ⟨kv, t4, w4⟩ := res3
              rw [hk] at hres
              simp only at hres
              cases hkb : range_bound kv with
              | none => rw [hkb] at hres; cases hres
              | some step =>
                rw [hkb] at hres
                simp only at hres
                exact world_step_trans (world_step_trans h1 (hev _ _ _ _ _ _ hk))
                  (for_loop_world ex hex _ _ iterator body fuel _ _ _ _ _ hres)

/-- The body of `execute_statement` is a `world_step` when the recursive calls are. -/
theorem exec_node_steps_world (ev : Eval) (ex : Exec) (hev : keeps_world ev)
    (hex : steps_world ex) (fuel : Nat) : steps_world (exec_node ev ex fuel) := by
  intro node t w t1 w1 hres
  unfold exec_node at hres
  cases hret : t.is_returning with
  | true =>
    rw [hret] at hres
    simp only [if_true] at hres
    cases hres
    exact world_step_refl w
  | false =>
    rw [hret] at hres
    simp only [Bool.false_eq_true, if_false] at hres
    cases node
    case expr_stmt operand =>
      cases operand with
      | none => cases hres; exact world_step_refl w
      | some e =>
        simp only at hres
        cases he : ev e t w with
        | error err => rw [he] at hres; cases hres
        | ok res =>
          obtain ⟨val, t2, w2⟩ := res
          rw [he] at hres
          cases hres
          exact hev _ _ _ _ _ _ he
    case var_decl type name initializer =>
      cases initializer with
      | none => cases hres; exact world_step_refl w
      | some ini =>
        simp only at hres
        cases he : ev ini t w with
        | error err => rw [he] at hres; cases hres
        | ok res =>
          obtain ⟨val, t2, w2⟩ := res
          rw [he] at hres
          cases hres
          exact hev _ _ _ _ _ _ he
    case if_stmt condition then_stmt else_stmt =>
      simp only at hres
      cases hc : ev condition t w with
      | error err => rw [hc] at hres; cases hres
      | ok res =>
        obtain ⟨cond, t2, w2⟩ := res
        rw [hc] at hres
        simp only at hres
        have h1 := hev _ _ _ _ _ _ hc
        split at hres
        · cases hres
        · split at hres
          · exact world_step_trans h1 (exec_opt_world ex hex _ _ _ _ _ hres)
          · exact world_step_trans h1 (exec_opt_world ex hex _ _ _ _ _ hres)
    case while_stmt condition body =>
      exact while_loop_world ev ex hev hex condition body fuel _ _ _ _ hres
    case for_range iterator range body =>
      exact exec_for_range_world ev ex hev hex fuel iterator range body _ _ _ _ hres
    case return_stmt value =>
      cases value with
      | none => cases hres; exact world_step_refl w
      | some vn =>
        simp only at hres
        cases he : ev vn t w with
        | error err => rw [he] at hres; cases hres
        | ok res =>
          obtain ⟨val, t2, w2⟩ := res
          rw [he] at hres
          cases hres
          exact hev _ _ _ _ _ _ he
    case list type items =>
      cases type
      case NODE_STMT_LIST => exact exec_list_world ex hex items _ _ _ _ hres
      all_goals (cases hres; exact world_step_refl w)
    all_goals (cases hres; exact world_step_refl w)

/-- At every fuel, an evaluation or an execution that returns has left the depth counter
as it found it and has written no fatal diagnostic. -/
theorem interpreter_worlds (h : Host) :
    ∀ fuel : Nat,
      keeps_world (eval_expression h fuel) ∧ steps_world (execute_statement h fuel)
  | 0 => by
    constructor
    · intro node t w v t1 w1 hres
      simp [eval_expression] at hres
    · intro node t w t1 w1 hres
      simp [execute_statement] at hres
  | fuel + 1 => by
    obtain ⟨hev, hex⟩ := interpreter_worlds h fuel
    constructor
    · intro node t w v t1 w1 hres
      rw [eval_expression_succ] at hres
      exact eval_node_keeps_world h _ _ hev hex (interpreter_frames h fuel).2 node t w v t1 w1
        hres
    · intro node t w t1 w1 hres
      rw [execute_statement_succ] at hres
      exact exec_node_steps_world _ _ hev hex fuel node t w t1 w1 hres

theorem run_declarations_world (ex : Exec) (hex : steps_world ex) :
    ∀ (items : List ASTNode) (g : SymbolTable) (w : World) (g1 : SymbolTable) (w1 : World),
      run_declarations ex items g w = .ok (g1, w1) → world_step w w1
  | [], g, w, g1, w1, hres => by
    simp only [run_declarations] at hres
    cases hres; exact world_step_refl w
  | decl :: rest, g, w, g1, w1, hres => by
    cases decl
    case func_decl rt name ps body =>
      simp only [run_declarations] at hres
      exact run_declarations_world ex hex rest _ w g1 w1 hres
    all_goals
      simp only [run_declarations] at hres
      cases hd : ex _ g w with
      | error e => rw [hd] at hres; cases hres
      | ok res =>
        obtain ⟨g2, w2⟩ := res
        rw [hd] at hres
        exact world_step_trans (hex _ _ _ _ _ hd)
          (run_declarations_world ex hex rest g2 w2 g1 w1 hres)

/-- A program that finishes has left the depth counter as it found it and has written no
fatal diagnostic. -/
theorem execute_program_world (h : Host) (fuel : Nat) (root : ASTNode) (w : World)
    (g1 : SymbolTable) (w1 : World)
    (hres : execute_program h fuel root w = .ok (g1, w1)) : world_step w w1 := by
  have hex := (interpreter_worlds h fuel).2
  unfold execute_program at hres
  simp only at hres
  split at hres
  · rename_i items
    cases hr : run_declarations (execute_statement h fuel) items (create_symbol_table none) w with
    | error e => rw [hr] at hres; cases hres
    | ok res =>
      obtain ⟨g2, w2⟩ := res
      rw [hr] at hres
      simp only at hres
      have h1 := run_declarations_world _ hex items _ _ _ _ hr
      split at hres
      · split at hres
        · exact world_step_trans h1 (exec_opt_world _ hex _ _ _ _ _ hres)
        · cases hres
      · cases hres; exact h1
  · cases hres; exact world_step_refl w

theorem nonfatal_iff (e : RuntimeError) :
    e.nonfatal ↔ e = .printm_expects_matrix ∨ (∃ p, e = .invalid_regex p)
      ∨ e = .unhandled_expression := by
  cases e <;> simp [RuntimeError.nonfatal]

/-- C31 as stated fails for the diagnostic of a pattern that does not compile (and for the
one of the default branch of `eval_expression`): in `print("a" ~ "(");` the diagnostic is
reported, the pattern match returns Bool false to `print`, which prints it, and the
statement completes. -/
theorem invalid_pattern_is_not_fatal :
    execute_statement sample_host 4 print_bad_pattern empty_table initial_world
      = .ok (empty_table,
          { recursion_depth := 0, stdin := [],
            out := [.error (.invalid_regex "("), .value (.bool 0), .text "\n"] }) := by
  rfl

/-- C31 (amended): the diagnostics that are not fatal are three: the warning of `printm`
for an argument that is not a matrix, the report of a pattern that does not compile, and
the report of an expression kind the evaluator does not handle. An evaluation, a statement
or a program that returns to its caller has written, after what was written before, no
diagnostic other than those three: every other diagnostic is the outcome `exit` and no
value is returned. That outcome is the outcome of whatever contains the failing
evaluation: of a binary operation whose left operand fails (the right operand is not
evaluated), of a statement list whose statement fails (the statements after it are not
executed), and of the program whose top-level loop fails (`main` is not executed). -/
theorem only_three_diagnostics_are_not_fatal (h : Host) (fuel : Nat) :
    (∀ (node : ASTNode) (t : SymbolTable) (w : World) (v : Value) (t1 : SymbolTable)
        (w1 : World), eval_expression h fuel node t w = .ok (v, t1, w1) →
        ∃ added : List Output, w1.out = w.out ++ added
          ∧ ∀ e : RuntimeError, Output.error e ∈ added →
            e = .printm_expects_matrix ∨ (∃ p, e = .invalid_regex p)
              ∨ e = .unhandled_expression)
    ∧ (∀ (node : ASTNode) (t : SymbolTable) (w : World) (t1 : SymbolTable) (w1 : World),
        execute_statement h fuel node t w = .ok (t1, w1) →
        ∃ added : List Output, w1.out = w.out ++ added
          ∧ ∀ e : RuntimeError, Output.error e ∈ added →
            e = .printm_expects_matrix ∨ (∃ p, e = .invalid_regex p)
              ∨ e = .unhandled_expression)
    ∧ (∀ (root : ASTNode) (w : World) (g1 : SymbolTable) (w1 : World),
        execute_program h fuel root w = .ok (g1, w1) →
        ∃ added : List Output, w1.out = w.out ++ added
          ∧ ∀ e : RuntimeError, Output.error e ∈ added →
            e = .printm_expects_matrix ∨ (∃ p, e = .invalid_regex p)
              ∨ e = .unhandled_expression)
    ∧ (∀ (op : BinaryOp) (l r : ASTNode) (t : SymbolTable) (w : World) (e : Halt),
        op.strict = true → eval_expression h fuel l t w = .error e →
        eval_expression h (fuel + 1) (.binary_op op l r) t w = .error e)
    ∧ (∀ (item : ASTNode) (rest : List ASTNode) (t : SymbolTable) (w : World) (e : Halt),
        t.is_returning = false → execute_statement h fuel item t w = .error e →
        execute_statement h (fuel + 1) (.list .NODE_STMT_LIST (item :: rest)) t w = .error e)
    ∧ (∀ (items : List ASTNode) (w : World) (e : Halt),
        run_declarations (execute_statement h fuel) items (create_symbol_table none) w
          = .error e →
        execute_program h fuel (.list .NODE_DECL_LIST items) w = .error e) := by
  have hstep : ∀ w w1 : World, world_step w w1 →
      ∃ added : List Output, w1.out = w.out ++ added
        ∧ ∀ e : RuntimeError, Output.error e ∈ added →
          e = .printm_expects_matrix ∨ (∃ p, e = .invalid_regex p)
            ∨ e = .unhandled_expression := by
    rintro w w1 ⟨_, added, ho, hn⟩
    exact ⟨added, ho, fun e he => (nonfatal_iff e).mp (hn e he)⟩
  obtain ⟨hev, hex⟩ := interpreter_worlds h fuel
  refine ⟨?_, ?_, ?_, ?_, ?_, ?_⟩
  · intro node t w v t1 w1 hres
    exact hstep w w1 (hev node t w v t1 w1 hres)
  · intro node t w t1 w1 hres
    exact hstep w w1 (hex node t w t1 w1 hres)
  · intro root w g1 w1 hres
    exact hstep w w1 (execute_program_world h fuel root w g1 w1 hres)
  · intro op l r t w e hop hl
    rw [eval_expression_succ]
    cases op <;> simp [BinaryOp.strict] at hop <;> simp [eval_node, hl]
  · intro item rest t w e hret hitem
    rw [execute_statement_succ]
    simp only [exec_node, hret, Bool.false_eq_true, if_false, exec_list, hitem]
  · intro items w e hrun
    simp only [execute_program, hrun]

/-- Witness of C31: in `{ 1 / 0; print(i); }` the division fails with the division-by-zero
error and that is the outcome of the list: `print(i)` is not executed. -/
theorem only_three_diagnostics_are_not_fatal_witness :
    execute_statement sample_host 4 divide_by_zero_then_print empty_table initial_world
      = .error (.exit .division_by_zero) :=
  (only_three_diagnostics_are_not_fatal sample_host 3).2.2.2.2.1
    (.expr_stmt (some (.binary_op .NODE_DIV (.int_literal 1) (.int_literal 0)))) [print_i]
    empty_table initial_world (.exit .division_by_zero) rfl (by rfl)

/-! ## Declarations -/

/-- C32: in a frame that is not returning, a declaration without initializer binds the
name in the current scope, by `set_symbol`, to the default of its type: Int 0 for int,
Float +0.0 for float, Bool false for bool, the empty string for string and the matrix
with no rows and no columns for matrix; a declaration with an initializer binds the name
to the value of the initializer, in the table the evaluation left. The store creates or
overwrites the entry of the current scope: afterwards the name is bound in that scope
itself to the value stored, every other name looks up as before, and the parent chain is
the one from before. -/
theorem declaration_binds_in_current_scope (h : Host) (fuel : Nat) (type : DataType)
    (name : String) (t : SymbolTable) (w : World) (hret : t.is_returning = false) :
    execute_statement h (fuel + 1) (.var_decl type name none) t w
      = .ok (set_symbol t name (default_value type), w)
    ∧ default_value .TYPE_INT = .int 0
    ∧ default_value .TYPE_FLOAT = .float (Double.zero false)
    ∧ default_value .TYPE_BOOL = .bool 0
    ∧ default_value .TYPE_STRING = .string ""
    ∧ default_value .TYPE_MATRIX = .matrix { rows := 0, cols := 0, data := [] }
    ∧ (∀ (ini : ASTNode) (v : Value) (t1 : SymbolTable) (w1 : World),
        eval_expression h fuel ini t w = .ok (v, t1, w1) →
        execute_statement h (fuel + 1) (.var_decl type name (some ini)) t w
          = .ok (set_symbol t1 name v, w1))
    ∧ (∀ (tb : SymbolTable) (v : Value),
        get_symbol (set_symbol tb name v) name = some v
        ∧ list_binds (set_symbol tb name v).head name
        ∧ (set_symbol tb name v).parent = tb.parent
        ∧ ∀ other : String, other ≠ name →
            get_symbol (set_symbol tb name v) other = get_symbol tb other) := by
  refine ⟨?_, rfl, rfl, rfl, rfl, rfl, ?_, ?_⟩
  · rw [execute_statement_succ]
    simp only [exec_node, hret, Bool.false_eq_true, if_false]
  · intro ini v t1 w1 hini
    rw [execute_statement_succ]
    simp only [exec_node, hret, Bool.false_eq_true, if_false, hini]
  · intro tb v
    exact ⟨get_symbol_set_symbol_same tb name v, list_binds_set_symbol_self tb name v,
      (set_symbol_parent tb name v).1,
      fun other hne => get_symbol_set_symbol_other tb name other v hne⟩

/-- Witness of C32: `int x;` in a function scope whose global table binds `x` to 1 binds
`x` to 0 in the function scope and leaves the global table as it was. -/
theorem declaration_binds_in_current_scope_witness :
    execute_statement sample_host 1 (.var_decl .TYPE_INT "x" none) sample_scope initial_world
      = .ok (.mk [{ name := "x", value := .int 0 }, { name := "y", value := .int 2 }]
          (some sample_global) create_void_value false, initial_world) :=
  ((declaration_binds_in_current_scope sample_host 0 .TYPE_INT "x" sample_scope initial_world
    rfl).1).trans (by rfl)

/-! ## Blocks have no scope of their own -/

/-- C33: the bodies of `if`, `while` and for-range statements are executed on the table
of the statement itself. In a frame that is not returning, an `if` whose condition
evaluates to a nonzero value is the execution of its first branch on the table the
condition left, and of its second branch otherwise; an iteration of a `while` loop
executes the body on the table the condition left and goes on from the table the body
left; an iteration of a for-range loop executes the body on the table in which the loop
variable has just been bound and goes on from the table the body left. So
`if (true) { int y = v; }` ends with `y` bound to `v` in the table it ran on, whether or
not `y` was bound there before. -/
theorem bodies_run_in_the_enclosing_scope (h : Host) (fuel : Nat) (t : SymbolTable)
    (w : World) (hret : t.is_returning = false) :
    (∀ (condition : ASTNode) (then_stmt else_stmt : Option ASTNode) (c : Value)
        (t1 : SymbolTable) (w1 : World) (b : Int),
        eval_expression h fuel condition t w = .ok (c, t1, w1) → c.bool_val = some b →
        execute_statement h (fuel + 1) (.if_stmt condition then_stmt else_stmt) t w
          = if b ≠ 0 then exec_opt (execute_statement h fuel) then_stmt t1 w1
            else exec_opt (execute_statement h fuel) else_stmt t1 w1)
    ∧ (∀ (condition : ASTNode) (body : Option ASTNode),
        execute_statement h (fuel + 1) (.while_stmt condition body) t w
          = while_loop (eval_expression h fuel) (execute_statement h fuel) fuel condition body
              t w)
    ∧ (∀ (n : Nat) (condition : ASTNode) (body : Option ASTNode) (tb : SymbolTable)
        (wb : World) (c : Value) (t1 : SymbolTable) (w1 : World) (b : Int),
        eval_expression h fuel condition tb wb = .ok (c, t1, w1) → c.bool_val = some b →
        b ≠ 0 →
        while_loop (eval_expression h fuel) (execute_statement h fuel) (n + 1) condition body
            tb wb
          = match exec_opt (execute_statement h fuel) body t1 w1 with
            | .error e => .error e
            | .ok (t2, w2) =>
              while_loop (eval_expression h fuel) (execute_statement h fuel) n condition body
                t2 w2)
    ∧ (∀ (n : Nat) (i step limit : Int) (iterator : String) (body : Option ASTNode)
        (tb : SymbolTable) (wb : World),
        (if step > 0 then i ≤ limit else i ≥ limit) →
        for_loop (execute_statement h fuel) (n + 1) i step limit iterator body tb wb
          = match exec_opt (execute_statement h fuel) body
              (set_symbol tb iterator (create_int_value i)) wb with
            | .error e => .error e
            | .ok (t2, w2) =>
              for_loop (execute_statement h fuel) n (wrap32 (i + step)) step limit iterator
                body t2 w2)
    ∧ (∀ (y : String) (v : Int),
        execute_statement h (fuel + 4)
            (.if_stmt (.bool_literal 1)
              (some (.list .NODE_STMT_LIST [.var_decl .TYPE_INT y (some (.int_literal v))]))
              none) t w
          = .ok (set_symbol t y (.int v), w)
        ∧ get_symbol (set_symbol t y (.int v)) y = some (.int v)
        ∧ list_binds (set_symbol t y (.int v)).head y) := by
  refine ⟨?_, ?_, ?_, ?_, ?_⟩
  · intro condition then_stmt else_stmt c t1 w1 b hc hb
    rw [execute_statement_succ]
    simp only [exec_node, hret, Bool.false_eq_true, if_false, hc, hb]
  · intro condition body
    rw [execute_statement_succ]
    simp only [exec_node, hret, Bool.false_eq_true, if_false]
  · intro n condition body tb wb c t1 w1 b hc hb hb0
    simp only [while_loop, hc, hb, hb0, if_false]
  · intro n i step limit iterator body tb wb hcond
    simp only [for_loop, hcond, if_true]
  · intro y v
    refine ⟨?_, get_symbol_set_symbol_same t y _, list_binds_set_symbol_self t y _⟩
    rw [execute_statement_succ]
    simp only [exec_node, hret, Bool.false_eq_true, if_false]
    rw [eval_expression_succ]
    simp only [eval_node, Value.bool_val, create_bool_value, ne_eq, one_ne_zero,
      not_false_eq_true, if_true, exec_opt]
    rw [execute_statement_succ]
    simp only [exec_node, hret, Bool.false_eq_true, if_false, exec_list]
    rw [execute_statement_succ]
    simp only [exec_node, hret, Bool.false_eq_true, if_false]
    rw [eval_expression_succ]
    simp only [eval_node, create_int_value]

/-- Witness of C33: `if (true) { int y = 5; }` in a scope that binds `y` to 2 leaves `y`
bound to 5 in that scope. -/
theorem bodies_run_in_the_enclosing_scope_witness :
    execute_statement sample_host 4 if_true_declare_y sample_scope initial_world
      = .ok (.mk [{ name := "y", value := .int 5 }] (some sample_global) create_void_value
          false, initial_world) :=
  (((bodies_run_in_the_enclosing_scope sample_host 0 sample_scope initial_world rfl).2.2.2.2
    "y" 5).1).trans (by rfl)

/-! ## Break, continue and the C-style for -/

theorem execute_loop_control (h : Host) (fuel : Nat) (node : ASTNode) (t : SymbolTable)
    (w : World) (hnode : node.isLoopControl = true) :
    execute_statement h (fuel + 1) node t w = .ok (t, w) := by
  rw [execute_statement_succ]
  unfold exec_node
  cases hret : t.is_returning with
  | true => rfl
  | false =>
    simp only [Bool.false_eq_true, if_false]
    cases node <;> simp [ASTNode.isLoopControl] at hnode <;> try rfl

theorem exec_list_loop_control (h : Host) (fuel : Nat) (node : ASTNode)
    (pre post : List ASTNode) (t : SymbolTable) (w : World)
    (hnode : node.isLoopControl = true) :
    exec_list (execute_statement h (fuel + 1)) (pre ++ node :: post) t w
      = exec_list (execute_statement h (fuel + 1)) (pre ++ post) t w := by
  rw [exec_list_append, exec_list_append]
  cases hpre : exec_list (execute_statement h (fuel + 1)) pre t w with
  | error e => rfl
  | ok res =>
    obtain ⟨t1, w1⟩ := res
    simp only
    cases hret : t1.is_returning with
    | true =>
      rw [exec_list_returning _ _ t1 w1 hret, exec_list_returning _ _ t1 w1 hret]
    | false =>
      simp only [exec_list, hret, Bool.false_eq_true, if_false,
        execute_loop_control h fuel node t1 w1 hnode]

theorem exec_opt_loop_control (h : Host) (fuel : Nat) (node : ASTNode)
    (pre post : List ASTNode) (t : SymbolTable) (w : World)
    (hnode : node.isLoopControl = true) :
    exec_opt (execute_statement h (fuel + 2))
        (some (.list .NODE_STMT_LIST (pre ++ node :: post))) t w
      = exec_opt (execute_statement h (fuel + 2))
          (some (.list .NODE_STMT_LIST (pre ++ post))) t w := by
  simp only [exec_opt]
  rw [execute_statement_succ, execute_statement_succ]
  simp only [exec_node]
  rw [exec_list_loop_control h fuel node pre post t w hnode]

theorem while_loop_body_congr (ev : Eval) (ex : Exec) (condition : ASTNode)
    (b1 b2 : Option ASTNode)
    (hb : ∀ (t : SymbolTable) (w : World), exec_opt ex b1 t w = exec_opt ex b2 t w) :
    ∀ (n : Nat) (t : SymbolTable) (w : World),
      while_loop ev ex n condition b1 t w = while_loop ev ex n condition b2 t w
  | 0, t, w => rfl
  | n + 1, t, w => by
    simp only [while_loop]
    cases ev condition t w with
    | error e => rfl
    | ok res =>
      obtain ⟨c, t1, w1⟩ := res
      simp only
      cases c.bool_val with
      | none => rfl
      | some b =>
        simp only
        split
        · rfl
        · rw [hb t1 w1]
          cases exec_opt ex b2 t1 w1 with
          | error e => rfl
          | ok res2 =>
            obtain ⟨t2, w2⟩ := res2
            exact while_loop_body_congr ev ex condition b1 b2 hb n t2 w2

theorem for_loop_body_congr (ex : Exec) (step limit : Int) (iterator : String)
    (b1 b2 : Option ASTNode)
    (hb : ∀ (t : SymbolTable) (w : World), exec_opt ex b1 t w = exec_opt ex b2 t w) :
    ∀ (n : Nat) (i : Int) (t : SymbolTable) (w : World),
      for_loop ex n i step limit iterator b1 t w = for_loop ex n i step limit iterator b2 t w
  | 0, i, t, w => rfl
  | n + 1, i, t, w => by
    simp only [for_loop]
    by_cases hcond : (if step > 0 then i ≤ limit else i ≥ limit)
    · rw [if_pos hcond, if_pos hcond, hb]
      cases exec_opt ex b2 (set_symbol t iterator (create_int_value i)) w with
      | error e => rfl
      | ok res2 =>
        obtain ⟨t2, w2⟩ := res2
        exact for_loop_body_congr ex step limit iterator b1 b2 hb n _ t2 w2
    · rw [if_neg hcond, if_neg hcond]

theorem exec_for_range_body_congr (ev : Eval) (ex : Exec) (fuel : Nat) (iterator : String)
    (range : ASTNode) (b1 b2 : Option ASTNode)
    (hb : ∀ (t : SymbolTable) (w : World), exec_opt ex b1 t w = exec_opt ex b2 t w)
    (t : SymbolTable) (w : World) :
    exec_for_range ev ex fuel iterator range b1 t w
      = exec_for_range ev ex fuel iterator range b2 t w := by
  unfold exec_for_range
  cases range <;> try rfl
  rename_i type start_node end_node step_node
  simp only
  cases ev start_node t w with
  | error e => rfl
  | ok res =>
    obtain ⟨sv, t2, w2⟩ := res
    simp only
    cases ev end_node t2 w2 with
    | error e => rfl
    | ok res2 =>
      obtain ⟨evl, t3, w3⟩ := res2
      simp only
      cases range_bound sv with
      | none => rfl
      | some start =>
        cases range_bound evl with
        | none => rfl
        | some stop =>
          simp only
          cases step_node with
          | none =>
            simp only
            exact for_loop_body_congr ex _ _ iterator b1 b2 hb fuel _ _ _
          | some sn =>
            simp only
            cases ev sn t3 w3 with
            | error e => rfl
            | ok res3 =>
              obtain ⟨kv, t4, w4⟩ := res3
              simp only
              cases range_bound kv with
              | none => rfl
              | some step =>
                simp only
                exact for_loop_body_congr ex _ _ iterator b1 b2 hb fuel _ _ _

/-- C34: executing a `break`, a `continue` or a C-style `for` statement returns the table
and the world as they were. In a statement list such a statement can be left out: the
statements before and after it are executed as without it, so a `break` or `continue`
skips nothing; and a `while` or for-range loop whose body is a statement list with such a
statement in it is the loop whose body is the list without it: the loop neither exits
nor skips the rest of the iteration. -/
theorem loop_control_is_a_no_op (h : Host) (fuel : Nat) (t : SymbolTable) (w : World) :
    execute_statement h (fuel + 1) (.leaf .NODE_BREAK) t w = .ok (t, w)
    ∧ execute_statement h (fuel + 1) (.leaf .NODE_CONTINUE) t w = .ok (t, w)
    ∧ (∀ init condition increment body : Option ASTNode,
        execute_statement h (fuel + 1) (.for_stmt init condition increment body) t w
          = .ok (t, w))
    ∧ (∀ (node : ASTNode) (pre post : List ASTNode), node.isLoopControl = true →
        execute_statement h (fuel + 2) (.list .NODE_STMT_LIST (pre ++ node :: post)) t w
          = execute_statement h (fuel + 2) (.list .NODE_STMT_LIST (pre ++ post)) t w)
    ∧ (∀ (node : ASTNode) (pre post : List ASTNode) (condition : ASTNode),
        node.isLoopControl = true →
        execute_statement h (fuel + 3)
            (.while_stmt condition (some (.list .NODE_STMT_LIST (pre ++ node :: post)))) t w
          = execute_statement h (fuel + 3)
              (.while_stmt condition (some (.list .NODE_STMT_LIST (pre ++ post)))) t w)
    ∧ (∀ (node : ASTNode) (pre post : List ASTNode) (iterator : String) (range : ASTNode),
        node.isLoopControl = true →
        execute_statement h (fuel + 3)
            (.for_range iterator range (some (.list .NODE_STMT_LIST (pre ++ node :: post))))
            t w
          = execute_statement h (fuel + 3)
              (.for_range iterator range (some (.list .NODE_STMT_LIST (pre ++ post)))) t w) := by
  refine ⟨execute_loop_control h fuel _ t w rfl, execute_loop_control h fuel _ t w rfl,
    fun _ _ _ _ => execute_loop_control h fuel _ t w rfl, ?_, ?_, ?_⟩
  · intro node pre post hnode
    exact exec_opt_loop_control h fuel node pre post t w hnode
  · intro node pre post condition hnode
    rw [execute_statement_succ, execute_statement_succ]
    simp only [exec_node]
    rw [while_loop_body_congr _ _ condition _ _
      (fun tb wb => exec_opt_loop_control h fuel node pre post tb wb hnode)]
  · intro node pre post iterator range hnode
    rw [execute_statement_succ, execute_statement_succ]
    simp only [exec_node]
    rw [exec_for_range_body_congr _ _ _ iterator range _ _
      (fun tb wb => exec_opt_loop_control h fuel node pre post tb wb hnode)]

/-- Witness of C34: `for i in 1..=2 { break; print(i); continue; }` prints 1 and 2. -/
theorem loop_control_is_a_no_op_witness :
    execute_statement sample_host 5 for_with_break empty_table initial_world
      = .ok (.mk [{ name := "i", value := .int 2 }] none create_void_value false,
          { recursion_depth := 0, stdin := [],
            out := [.value (.int 1), .text "\n", .value (.int 2), .text "\n"] }) :=
  ((loop_control_is_a_no_op sample_host 2 empty_table initial_world).2.2.2.2.2
    (.leaf .NODE_BREAK) [] [print_i, .leaf .NODE_CONTINUE] "i"
    (.range .NODE_RANGE_INCL (.int_literal 1) (.int_literal 2) none) rfl).trans (by rfl)

/-! ## Reads are copies -/

/-- Two well-formed matrices of the same dimensions with the same cells are equal. -/
theorem Matrix.ext_get (a b : Matrix) (ha : a.WellFormed) (hb : b.WellFormed)
    (hr : a.rows = b.rows) (hc : a.cols = b.cols)
    (hget : ∀ i j, i < a.rows → j < a.cols → a.get i j = b.get i j) : a = b := by
  obtain ⟨ar, ac, ad⟩ := a
  obtain ⟨br, bc, bd⟩ := b
  simp only at hr hc
  subst hr; subst hc
  obtain ⟨hal, harow⟩ := ha
  obtain ⟨hbl, hbrow⟩ := hb
  simp only at hal harow hbl hbrow hget
  have hd : ad = bd := by
    apply List.ext_getElem (hal.trans hbl.symm)
    intro i hi1 hi2
    have hra : ad[i].length = ac := harow _ (List.getElem_mem hi1)
    have hrb : bd[i].length = ac := hbrow _ (List.getElem_mem hi2)
    apply List.ext_getElem (hra.trans hrb.symm)
    intro j hj1 hj2
    have := hget i j (hal ▸ hi1) (hra ▸ hj1)
    simp only [Matrix.get, List.getD_eq_getElem?_getD, List.getElem?_eq_getElem hi1,
      List.getElem?_eq_getElem hi2, Option.getD_some, List.getElem?_eq_getElem hj1,
      List.getElem?_eq_getElem hj2] at this
    exact this
  rw [hd]

/-- The copy of a well-formed matrix is the matrix. -/
theorem copy_matrix_eq_self (m : Matrix) (hm : m.WellFormed) : copy_matrix m = m := by
  obtain ⟨hwf, hr, hc⟩ := copy_matrix_wellFormed m
  apply Matrix.ext_get _ _ hwf hm hr hc
  intro i j hi hj
  rw [hr] at hi
  rw [hc] at hj
  rw [copy_matrix_eq_fill]
  exact (fill_matrix_spec (fun i j => m.get i j) (create_matrix m.rows m.cols) m.rows
    (create_matrix_wellFormed _ _) (Nat.le_refl _)).2.2.2.1 i j hi hj

theorem copy_value_eq_self (v : Value) (hv : v.WellFormed) : copy_value v = v := by
  cases v <;> try rfl
  rename_i m
  simp only [copy_value]
  rw [copy_matrix_eq_self m hv]

/-- C35: let `a` be bound in the scope chain to a well-formed value `v`, a String or a
Matrix in particular. Evaluating the identifier `a` yields `v` and returns the table as it
was; evaluating `b = a` yields `v` and binds `b` to `v` in the current scope. The two
bindings are then independent: whatever is stored afterwards under `a` leaves the value of
`b`, and whatever is stored under `b` leaves the value of `a`. (Every value the evaluator
returns is well formed, and so is every value an assignment stores.) -/
theorem identifier_read_is_a_copy (h : Host) (fuel : Nat) (a b : String) (t : SymbolTable)
    (w : World) (v : Value)
    (ha : get_symbol t a = some v) (hv : v.WellFormed) :
    eval_expression h (fuel + 1) (.identifier a) t w = .ok (v, t, w)
    ∧ eval_expression h (fuel + 2) (.binary_op .NODE_ASSIGN (.identifier b) (.identifier a)) t w
        = .ok (v, set_symbol t b v, w)
    ∧ get_symbol (set_symbol t b v) b = some v
    ∧ (a ≠ b →
        get_symbol (set_symbol t b v) a = some v
        ∧ (∀ u : Value, get_symbol (set_symbol (set_symbol t b v) a u) b = some v)
        ∧ (∀ u : Value, get_symbol (set_symbol (set_symbol t b v) b u) a = some v))
    ∧ (∀ (right : ASTNode) (val : Value) (t1 : SymbolTable) (w1 : World),
        eval_expression h fuel right t w = .ok (val, t1, w1) →
        val.WellFormed
        ∧ eval_expression h (fuel + 1) (.binary_op .NODE_ASSIGN (.identifier b) right) t w
            = .ok (val, set_symbol t1 b val, w1)) := by
  have hread : ∀ n : Nat, eval_expression h (n + 1) (.identifier a) t w = .ok (v, t, w) := by
    intro n
    rw [eval_identifier_unfold, ha]
    simp only [copy_value_eq_self v hv]
  refine ⟨hread fuel, ?_, get_symbol_set_symbol_same t b v, ?_, ?_⟩
  · rw [eval_expression_succ]
    simp only [eval_node, hread fuel, copy_value_eq_self v hv]
  rotate_left
  · intro right val t1 w1 hright
    have hwf := eval_expression_wellFormed h fuel right t w val t1 w1 hright
    refine ⟨hwf, ?_⟩
    rw [eval_assign_unfold, hright]
    simp only [copy_value_eq_self val hwf]
  · intro hab
    have h1 : get_symbol (set_symbol t b v) a = some v := by
      rw [get_symbol_set_symbol_other t b a v hab, ha]
    refine ⟨h1, ?_, ?_⟩
    · intro u
      rw [get_symbol_set_symbol_other _ a b u (fun hba => hab hba.symm),
        get_symbol_set_symbol_same]
    · intro u
      rw [get_symbol_set_symbol_other _ b a u hab, h1]

/-- Witness of C35: reading `m`, bound to the matrix `[[1, 2, 3], [4, 5, 6]]`, yields that
matrix and leaves the table as it was. -/
theorem identifier_read_is_a_copy_witness :
    eval_expression sample_host 1 (.identifier "m") text_and_matrix_table initial_world
      = .ok (.matrix matrix_2x3, text_and_matrix_table, initial_world) :=
  (identifier_read_is_a_copy sample_host 0 "m" "b" text_and_matrix_table initial_world
    (.matrix matrix_2x3) rfl ⟨rfl, by decide⟩).1

/-! ## The pattern-match operator -/

/-- C36: let the operands of the pattern-match operator evaluate to `a` and `b`. When one
of the two is not a String the expression yields Bool false and writes nothing. When both
are Strings and the right one does not compile as a regular expression, the diagnostic of
the invalid pattern is written and the expression yields Bool false to its caller: the
outcome is a value, not an exit. (When the pattern compiles, the result is the result of
the match.) -/
theorem pattern_match_failures (h : Host) (fuel : Nat) (l r : ASTNode)
    (t t1 t2 : SymbolTable) (w w1 w2 : World) (a b : Value)
    (hl : eval_expression h fuel l t w = .ok (a, t1, w1))
    (hr : eval_expression h fuel r t1 w1 = .ok (b, t2, w2)) :
    (((∀ s : String, a ≠ .string s) ∨ (∀ s : String, b ≠ .string s)) →
      eval_expression h (fuel + 1) (.binary_op .NODE_PATTERN_MATCH l r) t w
        = .ok (.bool 0, t2, w2))
    ∧ (∀ text pattern : String, a = .string text → b = .string pattern →
        h.regcomp pattern = none →
        eval_expression h (fuel + 1) (.binary_op .NODE_PATTERN_MATCH l r) t w
          = .ok (.bool 0, t2, w2.emit (.error (.invalid_regex pattern))))
    ∧ (∀ (text pattern : String) (regexec : String → Bool), a = .string text →
        b = .string pattern → h.regcomp pattern = some regexec →
        eval_expression h (fuel + 1) (.binary_op .NODE_PATTERN_MATCH l r) t w
          = .ok (.bool (if regexec text then 1 else 0), t2, w2)) := by
  have hunfold := eval_strict h fuel .NODE_PATTERN_MATCH l r t t1 t2 w w1 w2 a b rfl hl hr
  simp only [binary_result] at hunfold
  refine ⟨?_, ?_, ?_⟩
  · intro hnot
    rw [hunfold]
    rcases hnot with hna | hnb
    · cases a <;> first | exact absurd rfl (hna _) | rfl
    · cases b <;> first | exact absurd rfl (hnb _) | (cases a <;> rfl)
  · intro text pattern hta htb hcomp
    rw [hunfold, hta, htb]
    simp only [eval_pattern_match, hcomp]
    rfl
  · intro text pattern regexec hta htb hcomp
    rw [hunfold, hta, htb]
    simp only [eval_pattern_match, hcomp]
    rfl

/-- Witness of C36: with a host that compiles no pattern, `"a" ~ "("` writes the
diagnostic of the invalid pattern and yields Bool false. -/
theorem pattern_match_failures_witness :
    eval_expression sample_host 2
        (.binary_op .NODE_PATTERN_MATCH (.string_literal "a") (.string_literal "("))
        empty_table initial_world
      = .ok (.bool 0, empty_table,
          { recursion_depth := 0, stdin := [], out := [.error (.invalid_regex "(")] }) :=
  ((pattern_match_failures sample_host 1 (.string_literal "a") (.string_literal "(")
    empty_table empty_table empty_table initial_world initial_world initial_world
    (.string "a") (.string "(") rfl rfl).2.1 "a" "(" rfl rfl rfl).trans (by rfl)

/-! ## The loop variable -/

theorem find_in_list_set_symbol_same (table : SymbolTable) (name : String) (v : Value) :
    find_in_list (set_symbol table name v).head name = some v := by
  have hget := get_symbol_set_symbol_same table name v
  have hb := list_binds_set_symbol_self table name v
  generalize set_symbol table name v = t1 at hget hb
  obtain ⟨head, parent, rv, ret⟩ := t1
  simp only [SymbolTable.head] at hb ⊢
  rw [get_symbol_mk] at hget
  cases hf : find_in_list head name with
  | none => exact absurd hb ((find_in_list_eq_none_iff head name).mp hf)
  | some u => rw [hf] at hget; exact hget

/-- After the iterations over a list that is not empty, a body that leaves the local
binding of the loop variable alone leaves it bound to the last integer of the list. -/
theorem run_iterations_last (ex : Exec) (iterator : String) (body : Option ASTNode)
    (hbody : ∀ (t : SymbolTable) (w : World) (t1 : SymbolTable) (w1 : World),
      exec_opt ex body t w = .ok (t1, w1) →
      find_in_list t1.head iterator = find_in_list t.head iterator) :
    ∀ (l : List Int) (hne : l ≠ []) (t : SymbolTable) (w : World) (t1 : SymbolTable)
      (w1 : World),
      run_iterations ex iterator body l t w = .ok (t1, w1) →
      find_in_list t1.head iterator = some (.int (l.getLast hne))
  | [], hne, _, _, _, _, _ => absurd rfl hne
  | [i], _, t, w, t1, w1, hres => by
    simp only [run_iterations] at hres
    cases hb : exec_opt ex body (set_symbol t iterator (create_int_value i)) w with
    | error e => rw [hb] at hres; cases hres
    | ok res =>
      obtain ⟨t2, w2⟩ := res
      rw [hb] at hres
      cases hres
      rw [hbody _ _ _ _ hb]
      exact find_in_list_set_symbol_same t iterator _
  | i :: j :: rest, _, t, w, t1, w1, hres => by
    simp only [run_iterations] at hres
    cases hb : exec_opt ex body (set_symbol t iterator (create_int_value i)) w with
    | error e => rw [hb] at hres; cases hres
    | ok res =>
      obtain ⟨t2, w2⟩ := res
      rw [hb] at hres
      simp only at hres
      have ih := run_iterations_last ex iterator body hbody (j :: rest) (by simp) t2 w2 t1 w1
        (by simp only [run_iterations]; exact hres)
      simpa using ih

/-- The body of `NODE_FOR_RANGE` once the bounds and the step are known: the counter loop
from the start, on the table the evaluation of the bounds and of the step left. -/
theorem exec_for_range_unfold (ev : Eval) (ex : Exec) (fuel : Nat) (iterator : String)
    (type : RangeType) (start_node end_node : ASTNode) (step_node : Option ASTNode)
    (body : Option ASTNode) (t t1 t2 t3 : SymbolTable) (w w1 w2 w3 : World)
    (start_val end_val : Value) (s e k : Int)
    (hs : ev start_node t w = .ok (start_val, t1, w1))
    (he : ev end_node t1 w1 = .ok (end_val, t2, w2))
    (hsb : range_bound start_val = some s) (heb : range_bound end_val = some e)
    (hk : match step_node with
      | none => k = 1 ∧ t3 = t2 ∧ w3 = w2
      | some sn => ∃ step_val : Value,
          ev sn t2 w2 = .ok (step_val, t3, w3) ∧ range_bound step_val = some k) :
    exec_for_range ev ex fuel iterator (.range type start_node end_node step_node) body t w
      = for_loop ex fuel s k
          (if type = .NODE_RANGE_INCL ∨ type = .NODE_RANGE_STEP then e else wrap32 (e - 1))
          iterator body t3 w3 := by
  cases step_node with
  | none =>
    obtain ⟨rfl, rfl, rfl⟩ := hk
    simp [exec_for_range, hs, he, hsb, heb]
  | some sn =>
    obtain ⟨step_val, hsn, hkb⟩ := hk
    simp [exec_for_range, hs, he, hsb, heb, hsn, hkb]

/-- The counter loop runs the body once for each value of the counter, in their order,
whatever the body and the table are. -/
theorem for_loop_counters (ex : Exec) (step limit : Int) (iterator : String)
    (body : Option ASTNode) :
    ∀ (fuel : Nat) (i : Int) (l : List Int) (t : SymbolTable) (w : World),
      loop_counters step limit fuel i = some l →
      for_loop ex fuel i step limit iterator body t w
        = run_iterations ex iterator body l t w
  | 0, i, l, t, w, hl => by simp [loop_counters] at hl
  | fuel + 1, i, l, t, w, hl => by
    by_cases hcond : (if step > 0 then i ≤ limit else i ≥ limit)
    · simp only [loop_counters, if_pos hcond, Option.map_eq_some'] at hl
      obtain ⟨rest, hrest, rfl⟩ := hl
      simp only [for_loop, if_pos hcond, run_iterations]
      cases hb : exec_opt ex body (set_symbol t iterator (create_int_value i)) w with
      | error err => rfl
      | ok res =>
        obtain ⟨t1, w1⟩ := res
        exact for_loop_counters ex step limit iterator body fuel _ rest t1 w1 hrest
    · simp only [loop_counters, if_neg hcond, Option.some.injEq] at hl
      subst hl
      simp only [for_loop, if_neg hcond, run_iterations]

/-- A counter loop that returns has taken finitely many values of the counter within its
fuel. -/
theorem for_loop_ok_counters (ex : Exec) (step limit : Int) (iterator : String)
    (body : Option ASTNode) :
    ∀ (fuel : Nat) (i : Int) (t : SymbolTable) (w : World) (r : SymbolTable × World),
      for_loop ex fuel i step limit iterator body t w = .ok r →
      ∃ l : List Int, loop_counters step limit fuel i = some l
  | 0, i, t, w, r, hres => by simp [for_loop] at hres
  | fuel + 1, i, t, w, r, hres => by
    by_cases hcond : (if step > 0 then i ≤ limit else i ≥ limit)
    · simp only [for_loop, if_pos hcond] at hres
      cases hb : exec_opt ex body (set_symbol t iterator (create_int_value i)) w with
      | error err => rw [hb] at hres; cases hres
      | ok res =>
        obtain ⟨t1, w1⟩ := res
        rw [hb] at hres
        obtain ⟨rest, hrest⟩ :=
          for_loop_ok_counters ex step limit iterator body fuel _ t1 w1 r hres
        exact ⟨i :: rest, by simp [loop_counters, if_pos hcond, hrest]⟩
    · exact ⟨[], by simp [loop_counters, if_neg hcond]⟩

/-- With a positive step the counter takes the values of the progression up to the last
one that does not exceed the limit. -/
theorem loop_counters_step_pos (limit k : Int) (hk : 0 < k) (n : Nat) :
    ∀ (fuel : Nat) (i : Int),
      n < fuel → -2147483648 ≤ i → i + n * k ≤ 2147483647 →
      (∀ j : Nat, j < n → i + j * k ≤ limit) → limit < i + n * k →
      loop_counters k limit fuel i = some (step_range i k n) := by
  induction n with
  | zero =>
    intro fuel i hfuel _ _ _ hlast
    obtain ⟨f, rfl⟩ : ∃ f, fuel = f + 1 := ⟨fuel - 1, by omega⟩
    have hgt : ¬ i ≤ limit := by simp at hlast; omega
    simp [loop_counters, step_range, hgt, hk]
  | succ n ih =>
    intro fuel i hfuel hi hmax hall hlast
    obtain ⟨f, rfl⟩ : ∃ f, fuel = f + 1 := ⟨fuel - 1, by omega⟩
    have hle : i ≤ limit := by simpa using hall 0 (Nat.succ_pos n)
    have hcast : ((n + 1 : Nat) : Int) * k = n * k + k := by push_cast; ring
    have hnk : 0 ≤ (n : Int) * k := Int.mul_nonneg (Int.ofNat_nonneg n) (le_of_lt hk)
    have hwrap : wrap32 (i + k) = i + k := wrap32_of_isInt32 _ ⟨by omega, by omega⟩
    have hrest : loop_counters k limit f (i + k) = some (step_range (i + k) k n) := by
      refine ih f (i + k) (by omega) (by omega) (by omega) ?_ (by omega)
      intro j hj
      have h1 := hall (j + 1) (by omega)
      have hc : ((j + 1 : Nat) : Int) * k = j * k + k := by push_cast; ring
      omega
    simp [loop_counters, step_range, hle, hwrap, hk, hrest]

/-- With a negative step the counter takes the values of the progression down to the last
one that is not below the limit. -/
theorem loop_counters_step_neg (limit k : Int) (hk : k < 0) (n : Nat) :
    ∀ (fuel : Nat) (i : Int),
      n < fuel → i ≤ 2147483647 → -2147483648 ≤ i + n * k →
      (∀ j : Nat, j < n → limit ≤ i + j * k) → i + n * k < limit →
      loop_counters k limit fuel i = some (step_range i k n) := by
  have hk0 : ¬ 0 < k := by omega
  induction n with
  | zero =>
    intro fuel i hfuel _ _ _ hlast
    obtain ⟨f, rfl⟩ : ∃ f, fuel = f + 1 := ⟨fuel - 1, by omega⟩
    have hgt : ¬ limit ≤ i := by simp at hlast; omega
    simp [loop_counters, step_range, hgt, hk0]
  | succ n ih =>
    intro fuel i hfuel hi hmin hall hlast
    obtain ⟨f, rfl⟩ : ∃ f, fuel = f + 1 := ⟨fuel - 1, by omega⟩
    have hle : limit ≤ i := by simpa using hall 0 (Nat.succ_pos n)
    have hcast : ((n + 1 : Nat) : Int) * k = n * k + k := by push_cast; ring
    have hnk : (n : Int) * k ≤ 0 :=
      Int.mul_nonpos_of_nonneg_of_nonpos (Int.ofNat_nonneg n) (le_of_lt hk)
    have hwrap : wrap32 (i + k) = i + k := wrap32_of_isInt32 _ ⟨by omega, by omega⟩
    have hrest : loop_counters k limit f (i + k) = some (step_range (i + k) k n) := by
      refine ih f (i + k) (by omega) (by omega) (by omega) ?_ (by omega)
      intro j hj
      have h1 := hall (j + 1) (by omega)
      have hc : ((j + 1 : Nat) : Int) * k = j * k + k := by push_cast; ring
      omega
    simp [loop_counters, step_range, hle, hwrap, hk0, hrest]

/-- With a nonzero step and no overflow of the counter, the counter takes the `step_count`
first terms of the progression. -/
theorem loop_counters_step (s limit k : Int) (hk : k ≠ 0) (fuel : Nat)
    (hs : isInt32 s) (hov : isInt32 (s + step_count s limit k * k))
    (hfuel : step_count s limit k < fuel) :
    loop_counters k limit fuel s = some (step_range s k (step_count s limit k)) := by
  rcases lt_or_gt_of_ne hk with hneg | hpos
  · obtain ⟨hall, hlast⟩ := step_count_neg s limit k hneg
    exact loop_counters_step_neg limit k hneg _ fuel s hfuel hs.2 hov.1 hall hlast
  · obtain ⟨hall, hlast⟩ := step_count_pos s limit k hpos
    exact loop_counters_step_pos limit k hpos _ fuel s hfuel hs.1 hov.2 hall hlast

/-- The last of the `n` first terms of the progression is `s + (n - 1) k`. -/
theorem step_range_getLast (k : Int) :
    ∀ (n : Nat) (s : Int) (hne : step_range s k n ≠ []),
      (step_range s k n).getLast hne = s + ((n : Int) - 1) * k
  | 0, _, hne => absurd rfl hne
  | 1, s, _ => by simp [step_range]
  | n + 2, s, hne => by
    have hne1 : step_range (s + k) k (n + 1) ≠ [] := by simp [step_range]
    have ih := step_range_getLast k (n + 1) (s + k) hne1
    have hcons : step_range s k (n + 2) = s :: step_range (s + k) k (n + 1) := rfl
    simp only [hcons, List.getLast_cons hne1, ih]
    push_cast
    ring

/-- The list of the values of the counter is empty exactly when the test fails at the
start. -/
theorem loop_counters_nil (step limit : Int) (fuel : Nat) (i : Int) (l : List Int)
    (hl : loop_counters step limit fuel i = some l) :
    l = [] ↔ ¬ (if step > 0 then i ≤ limit else i ≥ limit) := by
  cases fuel with
  | zero => simp [loop_counters] at hl
  | succ f =>
    by_cases hcond : (if step > 0 then i ≤ limit else i ≥ limit)
    · simp only [loop_counters, if_pos hcond, Option.map_eq_some'] at hl
      obtain ⟨rest, _, rfl⟩ := hl
      simp [hcond]
    · simp only [loop_counters, if_neg hcond, Option.some.injEq] at hl
      subst hl
      simp [hcond]

/-- C38: take any for-range loop, over an exclusive, an inclusive or a step range, with or
without an explicit step, whose start, end and step evaluate to values that convert to the
ints `s`, `e` and `k` (`k` is 1 without a step), in a frame that is not returning; `limit`
is `e` for an inclusive or a step range and `e - 1` for an exclusive one. The statement is
the counter loop of the code from `s`. Each iteration of that loop binds the loop variable
in the table of the statement itself to the Int counter, whatever the previous iteration
left under that name, runs the body on that table, and goes on from the table the body left
with the counter plus the step: the counter is not read back from the table. So the values
visited are `loop_counters k limit fuel s`, a list that depends on the start, the step and
the limit only, whatever the body stores under the loop variable. A loop that returns has
visited such a list; when the list is empty (the test fails at `s`) the loop returns the
table and the world the evaluation of the bounds left, and when it is not and the body
leaves the local binding of the loop variable alone, the variable is bound in the table of
the statement to the last value of the list. With a nonzero step and a counter that does
not overflow the list is `s, s + k, ..., s + (n - 1) k` for `n = step_count s limit k`,
and the last value visited is `s + (n - 1) k`. -/
theorem loop_variable_is_rebound (h : Host) (fuel : Nat) (iterator : String)
    (type : RangeType) (start_node end_node : ASTNode) (step_node : Option ASTNode)
    (body : Option ASTNode) (t t1 t2 t3 : SymbolTable) (w w1 w2 w3 : World)
    (start_val end_val : Value) (s e k limit : Int)
    (hret : t.is_returning = false)
    (hs : eval_expression h fuel start_node t w = .ok (start_val, t1, w1))
    (he : eval_expression h fuel end_node t1 w1 = .ok (end_val, t2, w2))
    (hsb : range_bound start_val = some s) (heb : range_bound end_val = some e)
    (hk : match step_node with
      | none => k = 1 ∧ t3 = t2 ∧ w3 = w2
      | some sn => ∃ step_val : Value,
          eval_expression h fuel sn t2 w2 = .ok (step_val, t3, w3)
          ∧ range_bound step_val = some k)
    (hlimit : limit
      = if type = .NODE_RANGE_INCL ∨ type = .NODE_RANGE_STEP then e else wrap32 (e - 1)) :
    execute_statement h (fuel + 1)
        (.for_range iterator (.range type start_node end_node step_node) body) t w
      = for_loop (execute_statement h fuel) fuel s k limit iterator body t3 w3
    ∧ (∀ (n : Nat) (i : Int) (tb : SymbolTable) (wb : World),
        ((if k > 0 then i ≤ limit else i ≥ limit) →
          for_loop (execute_statement h fuel) (n + 1) i k limit iterator body tb wb
            = match exec_opt (execute_statement h fuel) body
                (set_symbol tb iterator (.int i)) wb with
              | .error err => .error err
              | .ok (tc, wc) =>
                for_loop (execute_statement h fuel) n (wrap32 (i + k)) k limit iterator body
                  tc wc)
        ∧ (¬ (if k > 0 then i ≤ limit else i ≥ limit) →
          for_loop (execute_statement h fuel) (n + 1) i k limit iterator body tb wb
            = .ok (tb, wb))
        ∧ find_in_list (set_symbol tb iterator (.int i)).head iterator = some (.int i)
        ∧ get_symbol (set_symbol tb iterator (.int i)) iterator = some (.int i)
        ∧ (set_symbol tb iterator (.int i)).parent = tb.parent)
    ∧ (∀ l : List Int, loop_counters k limit fuel s = some l →
        execute_statement h (fuel + 1)
            (.for_range iterator (.range type start_node end_node step_node) body) t w
          = run_iterations (execute_statement h fuel) iterator body l t3 w3)
    ∧ (∀ (t4 : SymbolTable) (w4 : World),
        execute_statement h (fuel + 1)
            (.for_range iterator (.range type start_node end_node step_node) body) t w
          = .ok (t4, w4) →
        ∃ l : List Int, loop_counters k limit fuel s = some l
          ∧ (l = [] ↔ ¬ (if k > 0 then s ≤ limit else s ≥ limit))
          ∧ (l = [] → t4 = t3 ∧ w4 = w3)
          ∧ ((∀ (tb : SymbolTable) (wb : World) (tc : SymbolTable) (wc : World),
                exec_opt (execute_statement h fuel) body tb wb = .ok (tc, wc) →
                find_in_list tc.head iterator = find_in_list tb.head iterator) →
              ∀ hne : l ≠ [],
                find_in_list t4.head iterator = some (.int (l.getLast hne))
                ∧ get_symbol t4 iterator = some (.int (l.getLast hne))))
    ∧ (¬ (if k > 0 then s ≤ limit else s ≥ limit) → 0 < fuel →
        execute_statement h (fuel + 1)
            (.for_range iterator (.range type start_node end_node step_node) body) t w
          = .ok (t3, w3))
    ∧ (k ≠ 0 → isInt32 s → isInt32 (s + step_count s limit k * k) →
        step_count s limit k < fuel →
        loop_counters k limit fuel s = some (step_range s k (step_count s limit k))
        ∧ (∀ hne : step_range s k (step_count s limit k) ≠ [],
            (step_range s k (step_count s limit k)).getLast hne
              = s + ((step_count s limit k : Int) - 1) * k)) := by
  have hunfold : execute_statement h (fuel + 1)
        (.for_range iterator (.range type start_node end_node step_node) body) t w
      = for_loop (execute_statement h fuel) fuel s k limit iterator body t3 w3 := by
    rw [execute_statement_succ]
    simp only [exec_node, hret, Bool.false_eq_true, if_false]
    rw [exec_for_range_unfold _ _ fuel iterator type start_node end_node step_node body
      t t1 t2 t3 w w1 w2 w3 start_val end_val s e k hs he hsb heb hk, hlimit]
  have hrun : ∀ l : List Int, loop_counters k limit fuel s = some l →
      execute_statement h (fuel + 1)
          (.for_range iterator (.range type start_node end_node step_node) body) t w
        = run_iterations (execute_statement h fuel) iterator body l t3 w3 := by
    intro l hl
    rw [hunfold]
    exact for_loop_counters _ k limit iterator body fuel s l t3 w3 hl
  refine ⟨hunfold, ?_, hrun, ?_, ?_, ?_⟩
  · intro n i tb wb
    refine ⟨?_, ?_, find_in_list_set_symbol_same tb iterator _,
      get_symbol_set_symbol_same tb iterator _, (set_symbol_parent tb iterator _).1⟩
    · intro hcond
      simp only [for_loop, if_pos hcond]
      rfl
    · intro hcond
      simp only [for_loop, if_neg hcond]
  · intro t4 w4 hres
    obtain ⟨l, hl⟩ := for_loop_ok_counters _ k limit iterator body fuel s t3 w3 (t4, w4)
      (hunfold ▸ hres)
    refine ⟨l, hl, loop_counters_nil k limit fuel s l hl, ?_, ?_⟩
    · intro hnil
      subst hnil
      rw [hrun [] hl] at hres
      simp only [run_iterations, Except.ok.injEq, Prod.mk.injEq] at hres
      exact ⟨hres.1.symm, hres.2.symm⟩
    · intro hbody hne
      rw [hrun l hl] at hres
      have hlast := run_iterations_last _ iterator body hbody l hne t3 w3 t4 w4 hres
      refine ⟨hlast, ?_⟩
      obtain ⟨head, parent, rv, ret⟩ := t4
      simp only [SymbolTable.head] at hlast
      rw [get_symbol_mk, hlast]
  · intro hcond hfuel
    rw [hunfold]
    obtain ⟨f, rfl⟩ : ∃ f, fuel = f + 1 := ⟨fuel - 1, by omega⟩
    simp only [for_loop, if_neg hcond]
  · intro hk0 hs32 hov hfuel
    refine ⟨loop_counters_step s limit k hk0 fuel hs32 hov hfuel, ?_⟩
    intro hne
    exact step_range_getLast k _ s hne

/-- Witness of C38: `for i in 1..=3 { print(i); i = 100; }` prints 1, 2 and 3, and
`for i in 1..6 step 2 { print(i); i = 100; }`, over an exclusive range, prints 1, 3 and 5:
the assignment to `i` changes neither the number of iterations nor the value the next
iteration sees. -/
theorem loop_variable_is_rebound_witness :
    execute_statement sample_host 6 for_assigning_iterator empty_table initial_world
      = .ok (.mk [{ name := "i", value := .int 100 }] none create_void_value false,
          { recursion_depth := 0, stdin := [],
            out := [.value (.int 1), .text "\n", .value (.int 2), .text "\n",
              .value (.int 3), .text "\n"] })
    ∧ execute_statement sample_host 6 for_stepped_assigning_iterator empty_table
        initial_world
      = .ok (.mk [{ name := "i", value := .int 100 }] none create_void_value false,
          { recursion_depth := 0, stdin := [],
            out := [.value (.int 1), .text "\n", .value (.int 3), .text "\n",
              .value (.int 5), .text "\n"] }) :=
  ⟨((loop_variable_is_rebound sample_host 5 "i" .NODE_RANGE_INCL (.int_literal 1)
      (.int_literal 3) none
      (some (.list .NODE_STMT_LIST
        [print_i, .expr_stmt (some (.binary_op .NODE_ASSIGN (.identifier "i")
          (.int_literal 100)))]))
      empty_table empty_table empty_table empty_table
      initial_world initial_world initial_world initial_world (.int 1) (.int 3) 1 3 1 3
      rfl rfl rfl rfl rfl ⟨rfl, rfl, rfl⟩ (by decide)).2.2.1 [1, 2, 3] (by decide)).trans
      (by rfl),
    ((loop_variable_is_rebound sample_host 5 "i" .NODE_RANGE_EXCL (.int_literal 1)
      (.int_literal 6) (some (.int_literal 2))
      (some (.list .NODE_STMT_LIST
        [print_i, .expr_stmt (some (.binary_op .NODE_ASSIGN (.identifier "i")
          (.int_literal 100)))]))
      empty_table empty_table empty_table empty_table
      initial_world initial_world initial_world initial_world (.int 1) (.int 6) 1 6 2 5
      rfl rfl rfl rfl rfl ⟨.int 2, rfl, rfl⟩ (by decide)).2.2.1 [1, 3, 5] (by decide)).trans
      (by rfl)⟩

/-! ## Ancestors are never written -/

theorem ancestor_of_parent (t t1 : SymbolTable) (hp : t1.parent = t.parent) (depth : Nat) :
    t1.ancestor (depth + 1) = t.ancestor (depth + 1) := by
  obtain ⟨head, parent, rv, ret⟩ := t
  obtain ⟨head1, parent1, rv1, ret1⟩ := t1
  simp only [SymbolTable.parent] at hp
  subst hp
  rw [ancestor_succ, ancestor_succ]

theorem root_of_parent (t t1 : SymbolTable) (p : SymbolTable) (hp : t1.parent = t.parent)
    (hsome : t.parent = some p) : t1.root = t.root := by
  obtain ⟨head, parent, rv, ret⟩ := t
  obtain ⟨head1, parent1, rv1, ret1⟩ := t1
  simp only [SymbolTable.parent] at hp hsome
  subst hp
  subst hsome
  simp [SymbolTable.root]

/-- C39: an evaluation or an execution on a table returns a table with the same parent:
every table above it on the chain, the global table when the table has a parent, is the
one from before, with every entry it had and no other; each store is a `set_symbol` on the
table itself, which keeps the parent. A call of a user function that returns has run the
body of the callee on a scope whose parent, the global table, is the same when the body
ends, and returns to the caller the table the evaluation of the arguments left. -/
theorem ancestors_are_never_written (h : Host) (fuel : Nat) :
    (∀ (node : ASTNode) (t : SymbolTable) (w : World) (v : Value) (t1 : SymbolTable)
        (w1 : World), eval_expression h fuel node t w = .ok (v, t1, w1) →
        t1.parent = t.parent
        ∧ (∀ depth : Nat, t1.ancestor (depth + 1) = t.ancestor (depth + 1))
        ∧ (∀ p : SymbolTable, t.parent = some p → t1.root = t.root))
    ∧ (∀ (node : ASTNode) (t : SymbolTable) (w : World) (t1 : SymbolTable) (w1 : World),
        execute_statement h fuel node t w = .ok (t1, w1) →
        t1.parent = t.parent
        ∧ (∀ depth : Nat, t1.ancestor (depth + 1) = t.ancestor (depth + 1))
        ∧ (∀ p : SymbolTable, t.parent = some p → t1.root = t.root))
    ∧ (∀ (t : SymbolTable) (name : String) (v : Value),
        (set_symbol t name v).parent = t.parent)
    ∧ (∀ (fname : String) (args : Option ASTNode) (t : SymbolTable) (w : World) (v : Value)
        (t2 : SymbolTable) (w2 : World),
        (fname ≠ "print" ∧ fname ≠ "printm" ∧ fname ≠ "read") →
        eval_expression h (fuel + 1) (.func_call (.identifier fname) args) t w
          = .ok (v, t2, w2) →
        ∃ (rt : DataType) (nm : String) (params body : Option ASTNode)
          (scope1 t1 : SymbolTable) (w1 : World) (scope3 : SymbolTable) (w3 : World),
          get_symbol t fname = some (.func (.func_decl rt nm params body))
          ∧ bind_phase (eval_expression h fuel) params args t
              { w with recursion_depth := w.recursion_depth + 1 } = .ok (scope1, t1, w1)
          ∧ exec_opt (execute_statement h fuel) body (scope1.set_parent (some t1.root)) w1
              = .ok (scope3, w3)
          ∧ scope3.parent = some t1.root
          ∧ t2 = t1
          ∧ t1.parent = t.parent) := by
  obtain ⟨hev, hex⟩ := interpreter_frames h fuel
  refine ⟨?_, ?_, fun t name v => (set_symbol_parent t name v).1, ?_⟩
  · intro node t w v t1 w1 hres
    have hp := (hev node t w v t1 w1 hres).1
    exact ⟨hp, ancestor_of_parent t t1 hp, fun p hs => root_of_parent t t1 p hp hs⟩
  · intro node t w t1 w1 hres
    have hp := (hex node t w t1 w1 hres).1.1
    exact ⟨hp, ancestor_of_parent t t1 hp, fun p hs => root_of_parent t t1 p hp hs⟩
  · intro fname args t w v t2 w2 hname hres
    rw [eval_call_unfold h fuel fname args t w hname] at hres
    obtain ⟨rt, nm, params, body, scope1, t1, w1, scope3, w3, hf, _, hb, hx, _, ht, _⟩ :=
      call_function_result _ _ hex fname args t w v t2 w2 hres
    refine ⟨rt, nm, params, body, scope1, t1, w1, scope3, w3, hf, hb, hx, ?_, ht, ?_⟩
    · exact (exec_opt_steps_frame _ hex body _ _ _ _ hx).1.1.trans
        (set_parent_fields scope1 _).1
    · exact (bind_phase_keeps_frame _ hev params args t _ _ _ _ hb).1.1

/-- Witness of C39: the assignment `x = 5` in a function scope whose global table binds
`x` to 1 binds `x` in the function scope and leaves the global table as it was. -/
theorem ancestors_are_never_written_witness :
    (set_symbol sample_scope "x" (.int 5)).parent = some sample_global :=
  ((ancestors_are_never_written sample_host 2).1 assign_x_5 sample_scope initial_world
    (.int 5) (set_symbol sample_scope "x" (.int 5)) initial_world (by rfl)).1

/-! ## A step of zero -/

theorem for_loop_zero_step_unfold (ex : Exec) (s limit : Int) (iterator : String)
    (body : Option ASTNode) (hs : isInt32 s) (hge : limit ≤ s) (m : Nat) :
    ∀ (n : Nat) (t : SymbolTable) (w : World),
      for_loop ex (n + m) s 0 limit iterator body t w
        = match run_iterations ex iterator body (List.replicate n s) t w with
          | .error e => .error e
          | .ok (t1, w1) => for_loop ex m s 0 limit iterator body t1 w1
  | 0, t, w => by simp [run_iterations]
  | n + 1, t, w => by
    have hadd : n + 1 + m = (n + m) + 1 := by omega
    have hwrap : wrap32 (s + 0) = s := by rw [add_zero]; exact wrap32_of_isInt32 s hs
    rw [hadd]
    simp only [for_loop, gt_iff_lt, lt_self_iff_false, if_false, ge_iff_le, hge, if_true,
      hwrap, List.replicate_succ, run_iterations]
    cases exec_opt ex body (set_symbol t iterator (create_int_value s)) w with
    | error e => rfl
    | ok res =>
      obtain ⟨t1, w1⟩ := res
      exact for_loop_zero_step_unfold ex s limit iterator body hs hge m n t1 w1

theorem for_loop_zero_step_not_ok (ex : Exec) (s limit : Int) (iterator : String)
    (body : Option ASTNode) (hs : isInt32 s) (hge : limit ≤ s) :
    ∀ (n : Nat) (t : SymbolTable) (w : World) (r : SymbolTable × World),
      for_loop ex n s 0 limit iterator body t w ≠ .ok r
  | 0, t, w, r => by simp [for_loop]
  | n + 1, t, w, r => by
    have hwrap : wrap32 (s + 0) = s := by rw [add_zero]; exact wrap32_of_isInt32 s hs
    simp only [for_loop, gt_iff_lt, lt_self_iff_false, if_false, ge_iff_le, hge, if_true,
      hwrap]
    cases exec_opt ex body (set_symbol t iterator (create_int_value s)) w with
    | error e => simp
    | ok res =>
      obtain ⟨t1, w1⟩ := res
      exact for_loop_zero_step_not_ok ex s limit iterator body hs hge n t1 w1 r

/-- C40: let the start, the end and the step of a range evaluate to the Ints `s`, `e` and
0 in a frame that is not returning, and let `limit` be `e` for an inclusive or a step
range and `e - 1` for an exclusive one (`e > INT_MIN`). The statement is the counter loop
from `s` with step 0. When `s < limit` the loop executes its body zero times and returns.
When `s >= limit`, for every `n` the loop with `n + m` iterations of fuel first executes
the body `n` times, each time with the loop variable bound to `s`, and is then in the
state it started in, with `m` iterations of fuel left: it completes for no fuel, and
neither does the statement. -/
theorem zero_step_never_terminates (h : Host) (fuel : Nat) (iterator : String)
    (type : RangeType) (start_node end_node step_node : ASTNode) (body : Option ASTNode)
    (t t1 t2 t3 : SymbolTable) (w w1 w2 w3 : World) (s e limit : Int)
    (hret : t.is_returning = false)
    (hs : eval_expression h fuel start_node t w = .ok (.int s, t1, w1))
    (he : eval_expression h fuel end_node t1 w1 = .ok (.int e, t2, w2))
    (hk : eval_expression h fuel step_node t2 w2 = .ok (.int 0, t3, w3))
    (hs32 : isInt32 s) (he32 : isInt32 e) (hmin : -2147483648 < e)
    (hlimit : limit = if type = .NODE_RANGE_INCL ∨ type = .NODE_RANGE_STEP then e else e - 1) :
    execute_statement h (fuel + 1)
        (.for_range iterator (.range type start_node end_node (some step_node)) body) t w
      = for_loop (execute_statement h fuel) fuel s 0 limit iterator body t3 w3
    ∧ (s < limit → 0 < fuel →
        execute_statement h (fuel + 1)
            (.for_range iterator (.range type start_node end_node (some step_node)) body) t w
          = .ok (t3, w3))
    ∧ (limit ≤ s → ∀ (n m : Nat) (tb : SymbolTable) (wb : World),
        for_loop (execute_statement h fuel) (n + m) s 0 limit iterator body tb wb
          = match run_iterations (execute_statement h fuel) iterator body
              (List.replicate n s) tb wb with
            | .error err => .error err
            | .ok (tc, wc) => for_loop (execute_statement h fuel) m s 0 limit iterator body tc wc)
    ∧ (limit ≤ s → ∀ r : SymbolTable × World,
        execute_statement h (fuel + 1)
            (.for_range iterator (.range type start_node end_node (some step_node)) body) t w
          ≠ .ok r) := by
  have hunfold : execute_statement h (fuel + 1)
        (.for_range iterator (.range type start_node end_node (some step_node)) body) t w
      = for_loop (execute_statement h fuel) fuel s 0 limit iterator body t3 w3 := by
    rw [execute_statement_succ]
    simp only [exec_node, hret, Bool.false_eq_true, if_false]
    rw [exec_for_range_step _ _ fuel iterator _ start_node end_node step_node body
      t t1 t2 t3 w w1 w2 w3 s e 0 hs he hk]
    have hwrap : wrap32 (e - 1) = e - 1 :=
      wrap32_of_isInt32 _ ⟨by omega, by have := he32.2; omega⟩
    rw [hlimit, hwrap]
  refine ⟨hunfold, ?_, ?_, ?_⟩
  · intro hlt hfuel
    rw [hunfold]
    obtain ⟨f, rfl⟩ : ∃ f, fuel = f + 1 := ⟨fuel - 1, by omega⟩
    have hnot : ¬ limit ≤ s := by omega
    simp only [for_loop, gt_iff_lt, lt_self_iff_false, if_false, ge_iff_le, hnot]
  · intro hge n m tb wb
    exact for_loop_zero_step_unfold _ s limit iterator body hs32 hge m n tb wb
  · intro hge r
    rw [hunfold]
    exact for_loop_zero_step_not_ok _ s limit iterator body hs32 hge fuel t3 w3 r

/-- Witness of C40: `for i in 1..=1 step 0 { }` uses up a fuel of 40. -/
theorem zero_step_never_terminates_witness :
    execute_statement sample_host 40 for_step_zero empty_table initial_world
      = .error .out_of_fuel :=
  ((zero_step_never_terminates sample_host 39 "i" .NODE_RANGE_STEP (.int_literal 1)
    (.int_literal 1) (.int_literal 0) (some (.list .NODE_STMT_LIST []))
    empty_table empty_table empty_table empty_table
    initial_world initial_world initial_world initial_world 1 1 1
    rfl rfl rfl rfl ⟨by decide, by decide⟩ ⟨by decide, by decide⟩ (by decide) rfl).1).trans
    (by rfl)

/-! ## The range of the depth counter -/

theorem depth_in_range_step (w w1 : World) (hs : world_step w w1) :
    depth_in_range w1 = depth_in_range w := by
  unfold depth_in_range
  rw [hs.1]

theorem depth_in_range_iff (w : World) :
    depth_in_range w = true ↔ 0 ≤ w.recursion_depth ∧ w.recursion_depth ≤ MAX_RECURSION_DEPTH := by
  simp [depth_in_range]

theorem print_items_congr (ev ev1 : Eval) (ha : agrees_in_range ev ev1) (hev : keeps_world ev) :
    ∀ (items : List ASTNode) (t : SymbolTable) (w : World), depth_in_range w = true →
      print_items ev1 items t w = print_items ev items t w
  | [], t, w, _ => rfl
  | [item], t, w, hw => by simp only [print_items, ha item t w hw]
  | item :: next :: rest, t, w, hw => by
    simp only [print_items, ha item t w hw]
    cases hi : ev item t w with
    | error e => rfl
    | ok res =>
      obtain ⟨val, t1, w1⟩ := res
      have hw1 : depth_in_range w1 = true :=
        (depth_in_range_step w w1 (hev _ _ _ _ _ _ hi)).trans hw
      exact print_items_congr ev ev1 ha hev (next :: rest) t1 _ hw1

theorem printm_items_congr (ev ev1 : Eval) (ha : agrees_in_range ev ev1)
    (hev : keeps_world ev) :
    ∀ (items : List ASTNode) (t : SymbolTable) (w : World), depth_in_range w = true →
      printm_items ev1 items t w = printm_items ev items t w
  | [], t, w, _ => rfl
  | item :: rest, t, w, hw => by
    simp only [printm_items, ha item t w hw]
    cases hi : ev item t w with
    | error e => rfl
    | ok res =>
      obtain ⟨val, t1, w1⟩ := res
      have hw1 : depth_in_range w1 = true :=
        (depth_in_range_step w w1 (hev _ _ _ _ _ _ hi)).trans hw
      cases val <;> exact printm_items_congr ev ev1 ha hev rest t1 _ hw1

theorem fill_cells_congr (ev ev1 : Eval) (ha : agrees_in_range ev ev1) (hev : keeps_world ev) :
    ∀ (items : List ASTNode) (i j : Nat) (mat : Matrix) (t : SymbolTable) (w : World),
      depth_in_range w = true →
      fill_cells ev1 items i j mat t w = fill_cells ev items i j mat t w
  | [], i, j, mat, t, w, _ => rfl
  | item :: rest, i, j, mat, t, w, hw => by
    simp only [fill_cells, ha item t w hw]
    cases hi : ev item t w with
    | error e => rfl
    | ok res =>
      obtain ⟨val, t1, w1⟩ := res
      have hw1 : depth_in_range w1 = true :=
        (depth_in_range_step w w1 (hev _ _ _ _ _ _ hi)).trans hw
      exact fill_cells_congr ev ev1 ha hev rest _ _ _ t1 w1 hw1

theorem fill_rows_congr (ev ev1 : Eval) (ha : agrees_in_range ev ev1) (hev : keeps_world ev) :
    ∀ (rows : List ASTNode) (i cols : Nat) (mat : Matrix) (t : SymbolTable) (w : World),
      depth_in_range w = true →
      fill_rows ev1 rows i cols mat t w = fill_rows ev rows i cols mat t w
  | [], i, cols, mat, t, w, _ => rfl
  | row :: rest, i, cols, mat, t, w, hw => by
    cases hrow : row.isArrayLiteral with
    | false =>
      rw [fill_rows_not_literal ev1 row rest i cols mat t w hrow,
        fill_rows_not_literal ev row rest i cols mat t w hrow]
    | true =>
      obtain ⟨items, rfl⟩ := isArrayLiteral_true row hrow
      rw [fill_rows_literal, fill_rows_literal, fill_cells_congr ev ev1 ha hev items _ _ _ t w hw]
      split
      · rfl
      · cases hc : fill_cells ev items i 0 mat t w with
        | error e => rfl
        | ok res =>
          obtain ⟨mat2, t2, w2⟩ := res
          have hw1 : depth_in_range w2 = true :=
            (depth_in_range_step w w2 (fill_cells_world ev hev _ _ _ _ _ _ _ _ _ hc)).trans hw
          exact fill_rows_congr ev ev1 ha hev rest _ _ _ t2 w2 hw1

theorem array_literal_congr (ev ev1 : Eval) (ha : agrees_in_range ev ev1)
    (hev : keeps_world ev) (node : ASTNode) (t : SymbolTable) (w : World)
    (hw : depth_in_range w = true) :
    array_literal_to_matrix ev1 node t w = array_literal_to_matrix ev node t w := by
  cases hnode : node.isArrayLiteral with
  | false =>
    rw [array_literal_not_literal ev1 node t w hnode, array_literal_not_literal ev node t w hnode]
  | true =>
    obtain ⟨items, rfl⟩ := isArrayLiteral_true node hnode
    cases items with
    | nil => rfl
    | cons first rest =>
      cases hfirst : first.isArrayLiteral with
      | false =>
        rw [array_literal_flat_unfold ev1 first rest t w hfirst,
          array_literal_flat_unfold ev first rest t w hfirst,
          fill_cells_congr ev ev1 ha hev _ _ _ _ t w hw]
      | true =>
        obtain ⟨first_items, rfl⟩ := isArrayLiteral_true first hfirst
        rw [array_literal_nested_unfold, array_literal_nested_unfold,
          fill_rows_congr ev ev1 ha hev _ _ _ _ t w hw]

theorem compound_assign_congr (ev ev1 : Eval) (ha : agrees_in_range ev ev1)
    (combine : Value → Value → Except Halt Value) (name : String) (right : ASTNode)
    (t : SymbolTable) (w : World) (hw : depth_in_range w = true) :
    compound_assign ev1 combine name right t w = compound_assign ev combine name right t w := by
  unfold compound_assign
  simp only [ha right t w hw]

theorem eval_logical_congr (ev ev1 : Eval) (ha : agrees_in_range ev ev1) (hev : keeps_world ev)
    (is_or : Bool) (l r : ASTNode) (t : SymbolTable) (w : World)
    (hw : depth_in_range w = true) :
    eval_logical ev1 is_or l r t w = eval_logical ev is_or l r t w := by
  unfold eval_logical
  rw [ha l t w hw]
  cases hl : ev l t w with
  | error e => rfl
  | ok res =>
    obtain ⟨lv, t1, w1⟩ := res
    have hw1 : depth_in_range w1 = true :=
      (depth_in_range_step w w1 (hev _ _ _ _ _ _ hl)).trans hw
    simp only [ha r t1 w1 hw1]

theorem builtin_print_congr (ev ev1 : Eval) (ha : agrees_in_range ev ev1)
    (hev : keeps_world ev) (args : Option ASTNode) (t : SymbolTable) (w : World)
    (hw : depth_in_range w = true) :
    builtin_print ev1 args t w = builtin_print ev args t w := by
  unfold builtin_print
  split
  · rw [print_items_congr ev ev1 ha hev _ t w hw]
  · rfl

theorem builtin_printm_congr (ev ev1 : Eval) (ha : agrees_in_range ev ev1)
    (hev : keeps_world ev) (args : Option ASTNode) (t : SymbolTable) (w : World)
    (hw : depth_in_range w = true) :
    builtin_printm ev1 args t w = builtin_printm ev args t w := by
  unfold builtin_printm
  split
  · rw [printm_items_congr ev ev1 ha hev _ t w hw]
  · rfl

theorem bind_arguments_congr (ev ev1 : Eval) (ha : agrees_in_range ev ev1)
    (hev : keeps_world ev) :
    ∀ (ps items : List ASTNode) (fs t : SymbolTable) (w : World), depth_in_range w = true →
      bind_arguments ev1 ps items fs t w = bind_arguments ev ps items fs t w
  | [], items, fs, t, w, _ => by simp [bind_arguments]
  | p :: ps, [], fs, t, w, _ => by simp [bind_arguments]
  | p :: ps, a :: items, fs, t, w, hw => by
    simp only [bind_arguments, ha a t w hw]
    cases hi : ev a t w with
    | error e => rfl
    | ok res =>
      obtain ⟨val, t1, w1⟩ := res
      have hw1 : depth_in_range w1 = true :=
        (depth_in_range_step w w1 (hev _ _ _ _ _ _ hi)).trans hw
      simp only
      cases p <;> try rfl
      exact bind_arguments_congr ev ev1 ha hev ps items _ t1 w1 hw1

theorem bind_phase_congr (ev ev1 : Eval) (ha : agrees_in_range ev ev1) (hev : keeps_world ev)
    (params args : Option ASTNode) (t : SymbolTable) (w : World)
    (hw : depth_in_range w = true) :
    bind_phase ev1 params args t w = bind_phase ev params args t w := by
  unfold bind_phase
  split
  · exact bind_arguments_congr ev ev1 ha hev _ _ _ t w hw
  · rfl
  · rfl

theorem exec_opt_congr (ex ex1 : Exec) (hx : exec_agrees_in_range ex ex1)
    (body : Option ASTNode) (t : SymbolTable) (w : World) (hw : depth_in_range w = true) :
    exec_opt ex1 body t w = exec_opt ex body t w := by
  cases body with
  | none => rfl
  | some b => exact hx b t w hw

/-- A call made with the counter in range makes its recursive calls with the counter in
range: the binding phase and the body run one level deeper, below or at the limit. -/
theorem call_function_congr (ev ev1 : Eval) (ex ex1 : Exec) (ha : agrees_in_range ev ev1)
    (hx : exec_agrees_in_range ex ex1) (hev : keeps_world ev)
    (func_name : String) (args : Option ASTNode) (t : SymbolTable) (w : World)
    (hw : depth_in_range w = true) :
    call_function ev1 ex1 func_name args t w = call_function ev ex func_name args t w := by
  cases hf : get_symbol t func_name with
  | none => simp [call_function, hf]
  | some val =>
    cases val <;> try (simp [call_function, hf]; done)
    rename_i decl
    by_cases hd : w.recursion_depth ≥ MAX_RECURSION_DEPTH
    · simp [call_function, hf, hd]
    · cases decl <;> try (simp [call_function, hf, hd]; done)
      rename_i rt nm params body
      have hlt : w.recursion_depth < MAX_RECURSION_DEPTH := not_le.mp hd
      have hw0 := (depth_in_range_iff w).mp hw
      have hwin : depth_in_range { w with recursion_depth := w.recursion_depth + 1 } = true := by
        rw [depth_in_range_iff]
        simp only
        constructor <;> omega
      rw [call_function_entered ev1 ex1 func_name args t w rt nm params body hf hlt,
        call_function_entered ev ex func_name args t w rt nm params body hf hlt,
        bind_phase_congr ev ev1 ha hev params args t _ hwin]
      cases hb : bind_phase ev params args t
          { w with recursion_depth := w.recursion_depth + 1 } with
      | error e => rfl
      | ok res =>
        obtain ⟨scope1, t1, w1⟩ := res
        have hw1 : depth_in_range w1 = true :=
          (depth_in_range_step _ w1 (bind_phase_world ev hev params args t _ _ _ _ hb)).trans
            hwin
        simp only
        rw [exec_opt_congr ex ex1 hx body _ w1 hw1]

theorem eval_node_congr (h : Host) (ev ev1 : Eval) (ex ex1 : Exec)
    (ha : agrees_in_range ev ev1) (hx : exec_agrees_in_range ex ex1) (hev : keeps_world ev)
    (node : ASTNode) (t : SymbolTable) (w : World) (hw : depth_in_range w = true) :
    eval_node h ev1 ex1 node t w = eval_node h ev ex node t w := by
  cases node
  case int_literal => rfl
  case float_literal => rfl
  case string_literal => rfl
  case bool_literal => rfl
  case identifier name => rfl
  case binary_op op l r =>
    cases op
    case NODE_AND => exact eval_logical_congr ev ev1 ha hev _ l r t w hw
    case NODE_OR => exact eval_logical_congr ev ev1 ha hev _ l r t w hw
    case NODE_ASSIGN => simp only [eval_node, ha r t w hw]
    case NODE_PLUS_ASSIGN =>
      simp only [eval_node]
      split
      · exact compound_assign_congr ev ev1 ha _ _ _ t w hw
      · rfl
    case NODE_MINUS_ASSIGN =>
      simp only [eval_node]
      split
      · exact compound_assign_congr ev ev1 ha _ _ _ t w hw
      · rfl
    case NODE_MUL_ASSIGN =>
      simp only [eval_node]
      split
      · exact compound_assign_congr ev ev1 ha _ _ _ t w hw
      · rfl
    case NODE_DIV_ASSIGN =>
      simp only [eval_node]
      split
      · exact compound_assign_congr ev ev1 ha _ _ _ t w hw
      · rfl
    all_goals
      simp only [eval_node, ha l t w hw]
      cases hl : ev l t w with
      | error e => rfl
      | ok res =>
        obtain ⟨a, t1, w1⟩ := res
        have hw1 : depth_in_range w1 = true :=
          (depth_in_range_step w w1 (hev _ _ _ _ _ _ hl)).trans hw
        simp only [ha r t1 w1 hw1]
  case unary_op type operand =>
    cases type
    case NODE_NOT => simp only [eval_node, ha operand t w hw]
    case NODE_UNARY_MINUS => simp only [eval_node, ha operand t w hw]
    all_goals rfl
  case func_call func args =>
    simp only [eval_node]
    split
    · split
      · exact builtin_print_congr ev ev1 ha hev args t w hw
      · split
        · exact builtin_printm_congr ev ev1 ha hev args t w hw
        · split
          · rfl
          · exact call_function_congr ev ev1 ex ex1 ha hx hev _ args t w hw
    · rfl
  case list type items =>
    cases type
    case NODE_ARRAY_LITERAL =>
      exact array_literal_congr ev ev1 ha hev (.list .NODE_ARRAY_LITERAL items) t w hw
    all_goals rfl
  all_goals rfl

theorem exec_list_congr (ex ex1 : Exec) (hx : exec_agrees_in_range ex ex1)
    (hex : steps_world ex) :
    ∀ (items : List ASTNode) (t : SymbolTable) (w : World), depth_in_range w = true →
      exec_list ex1 items t w = exec_list ex items t w
  | [], t, w, _ => rfl
  | item :: rest, t, w, hw => by
    simp only [exec_list, hx item t w hw]
    split
    · rfl
    · cases hi : ex item t w with
      | error e => rfl
      | ok res =>
        obtain ⟨t1, w1⟩ := res
        have hw1 : depth_in_range w1 = true :=
          (depth_in_range_step w w1 (hex _ _ _ _ _ hi)).trans hw
        exact exec_list_congr ex ex1 hx hex rest t1 w1 hw1

theorem while_loop_congr (ev ev1 : Eval) (ex ex1 : Exec) (ha : agrees_in_range ev ev1)
    (hx : exec_agrees_in_range ex ex1) (hev : keeps_world ev) (hex : steps_world ex)
    (condition : ASTNode) (body : Option ASTNode) :
    ∀ (n : Nat) (t : SymbolTable) (w : World), depth_in_range w = true →
      while_loop ev1 ex1 n condition body t w = while_loop ev ex n condition body t w
  | 0, t, w, _ => rfl
  | n + 1, t, w, hw => by
    simp only [while_loop, ha condition t w hw]
    cases hc : ev condition t w with
    | error e => rfl
    | ok res =>
      obtain ⟨c, t1, w1⟩ := res
      have hw1 : depth_in_range w1 = true :=
        (depth_in_range_step w w1 (hev _ _ _ _ _ _ hc)).trans hw
      simp only
      cases c.bool_val with
      | none => rfl
      | some b =>
        simp only
        split
        · rfl
        · rw [exec_opt_congr ex ex1 hx body t1 w1 hw1]
          cases hb : exec_opt ex body t1 w1 with
          | error e => rfl
          | ok res2 =>
            obtain ⟨t2, w2⟩ := res2
            have hw2 : depth_in_range w2 = true :=
              (depth_in_range_step w1 w2 (exec_opt_world ex hex body _ _ _ _ hb)).trans hw1
            exact while_loop_congr ev ev1 ex ex1 ha hx hev hex condition body n t2 w2 hw2

theorem for_loop_congr (ex ex1 : Exec) (hx : exec_agrees_in_range ex ex1)
    (hex : steps_world ex) (step limit : Int) (iterator : String) (body : Option ASTNode) :
    ∀ (n : Nat) (i : Int) (t : SymbolTable) (w : World), depth_in_range w = true →
      for_loop ex1 n i step limit iterator body t w
        = for_loop ex n i step limit iterator body t w
  | 0, i, t, w, _ => rfl
  | n + 1, i, t, w, hw => by
    simp only [for_loop]
    by_cases hcond : (if step > 0 then i ≤ limit else i ≥ limit)
    · rw [if_pos hcond, if_pos hcond, exec_opt_congr ex ex1 hx body _ w hw]
      cases hb : exec_opt ex body (set_symbol t iterator (create_int_value i)) w with
      | error e => rfl
      | ok res2 =>
        obtain ⟨t2, w2⟩ := res2
        have hw2 : depth_in_range w2 = true :=
          (depth_in_range_step w w2 (exec_opt_world ex hex body _ _ _ _ hb)).trans hw
        exact for_loop_congr ex ex1 hx hex step limit iterator body n _ t2 w2 hw2
    · rw [if_neg hcond, if_neg hcond]

theorem exec_for_range_congr (ev ev1 : Eval) (ex ex1 : Exec) (ha : agrees_in_range ev ev1)
    (hx : exec_agrees_in_range ex ex1) (hev : keeps_world ev) (hex : steps_world ex)
    (fuel : Nat) (iterator : String) (range : ASTNode) (body : Option ASTNode)
    (t : SymbolTable) (w : World) (hw : depth_in_range w = true) :
    exec_for_range ev1 ex1 fuel iterator range body t w
      = exec_for_range ev ex fuel iterator range body t w := by
  unfold exec_for_range
  cases range <;> try rfl
  rename_i type start_node end_node step_node
  simp only [ha start_node t w hw]
  cases hs : ev start_node t w with
  | error e => rfl
  | ok res =>
    obtain ⟨sv, t2, w2⟩ := res
    have hw2 : depth_in_range w2 = true :=
      (depth_in_range_step w w2 (hev _ _ _ _ _ _ hs)).trans hw
    simp only [ha end_node t2 w2 hw2]
    cases he : ev end_node t2 w2 with
    | error e => rfl
    | ok res2 =>
      obtain ⟨evl, t3, w3⟩ := res2
      have hw3 : depth_in_range w3 = true :=
        (depth_in_range_step w2 w3 (hev _ _ _ _ _ _ he)).trans hw2
      simp only
      cases range_bound sv with
      | none => rfl
      | some start =>
        cases range_bound evl with
        | none => rfl
        | some stop =>
          simp only
          cases step_node with
          | none =>
            simp only
            exact for_loop_congr ex ex1 hx hex _ _ iterator body fuel _ t3 w3 hw3
          | some sn =>
            simp only [ha sn t3 w3 hw3]
            cases hk : ev sn t3 w3 with
            | error e => rfl
            | ok res3 =>
              obtain ⟨kv, t4, w4⟩ := res3
              have hw4 : depth_in_range w4 = true :=
                (depth_in_range_step w3 w4 (hev _ _ _ _ _ _ hk)).trans hw3
              simp only
              cases range_bound kv with
              | none => rfl
              | some step =>
                simp only
                exact for_loop_congr ex ex1 hx hex _ _ iterator body fuel _ t4 w4 hw4

theorem exec_node_congr (ev ev1 : Eval) (ex ex1 : Exec) (ha : agrees_in_range ev ev1)
    (hx : exec_agrees_in_range ex ex1) (hev : keeps_world ev) (hex : steps_world ex)
    (fuel : Nat) (node : ASTNode) (t : SymbolTable) (w : World)
    (hw : depth_in_range w = true) :
    exec_node ev1 ex1 fuel node t w = exec_node ev ex fuel node t w := by
  unfold exec_node
  split
  · rfl
  · cases node
    case expr_stmt operand =>
      cases operand with
      | none => rfl
      | some e => simp only [ha e t w hw]
    case var_decl type name initializer =>
      cases initializer with
      | none => rfl
      | some ini => simp only [ha ini t w hw]
    case if_stmt condition then_stmt else_stmt =>
      simp only [ha condition t w hw]
      cases hc : ev condition t w with
      | error e => rfl
      | ok res =>
        obtain ⟨c, t1, w1⟩ := res
        have hw1 : depth_in_range w1 = true :=
          (depth_in_range_step w w1 (hev _ _ _ _ _ _ hc)).trans hw
        simp only [exec_opt_congr ex ex1 hx _ t1 w1 hw1]
    case while_stmt condition body =>
      exact while_loop_congr ev ev1 ex ex1 ha hx hev hex condition body fuel t w hw
    case for_range iterator range body =>
      exact exec_for_range_congr ev ev1 ex ex1 ha hx hev hex fuel iterator range body t w hw
    case return_stmt value =>
      cases value with
      | none => rfl
      | some vn => simp only [ha vn t w hw]
    case list type items =>
      cases type
      case NODE_STMT_LIST => exact exec_list_congr ex ex1 hx hex items t w hw
      all_goals rfl
    all_goals rfl

/-- Entered with the depth counter in range, the watched evaluator and executor answer as
`eval_expression` and `execute_statement` do, whatever stands for the answers out of
range: no recursive call is made with the counter out of range. -/
theorem watched_agrees (h : Host) (bad_ev : Eval) (bad_ex : Exec) :
    ∀ fuel : Nat,
      agrees_in_range (eval_expression h fuel) (eval_expression_watched h bad_ev bad_ex fuel)
      ∧ exec_agrees_in_range (execute_statement h fuel)
          (execute_statement_watched h bad_ev bad_ex fuel)
  | 0 => by
    constructor
    · intro node t w _
      simp [eval_expression, eval_expression_watched]
    · intro node t w _
      simp [execute_statement, execute_statement_watched]
  | fuel + 1 => by
    obtain ⟨ha, hx⟩ := watched_agrees h bad_ev bad_ex fuel
    obtain ⟨hev, hex⟩ := interpreter_worlds h fuel
    constructor
    · intro node t w hw
      rw [eval_expression_watched, eval_expression_succ]
      simp only [hw, if_true]
      exact eval_node_congr h _ _ _ _ ha hx hev node t w hw
    · intro node t w hw
      rw [execute_statement_watched, execute_statement_succ]
      simp only [hw, if_true]
      exact exec_node_congr _ _ _ _ ha hx hev hex fuel node t w hw

theorem run_declarations_congr (ex ex1 : Exec) (hx : exec_agrees_in_range ex ex1)
    (hex : steps_world ex) :
    ∀ (items : List ASTNode) (g : SymbolTable) (w : World), depth_in_range w = true →
      run_declarations ex1 items g w = run_declarations ex items g w
  | [], g, w, _ => rfl
  | decl :: rest, g, w, hw => by
    cases decl
    case func_decl rt name ps body =>
      simp only [run_declarations]
      exact run_declarations_congr ex ex1 hx hex rest _ w hw
    all_goals
      simp only [run_declarations, hx _ g w hw]
      cases hd : ex _ g w with
      | error e => rfl
      | ok res =>
        obtain ⟨g2, w2⟩ := res
        have hw2 : depth_in_range w2 = true :=
          (depth_in_range_step w w2 (hex _ _ _ _ _ hd)).trans hw
        exact run_declarations_congr ex ex1 hx hex rest g2 w2 hw2

/-- C37: an evaluation, a statement or a program that returns leaves the depth counter as
it found it, so a program started with the counter at 0 finishes with the counter at 0. A
call of a user function that returns was made with the counter below 50, ran its binding
phase and its body with the counter one higher, the body ending with the counter still
one higher whether or not it returned early, and decrements it once on the way out. And
the counter is in the range 0 to 50 at every entry of `eval_expression` and
`execute_statement`: started with the counter in that range, the evaluator, the executor
and the loop over the top-level items give the same result when every entry with the
counter out of range is replaced by anything else. -/
theorem depth_counter_invariant (h : Host) (fuel : Nat) :
    (∀ (node : ASTNode) (t : SymbolTable) (w : World) (v : Value) (t1 : SymbolTable)
        (w1 : World), eval_expression h fuel node t w = .ok (v, t1, w1) →
        w1.recursion_depth = w.recursion_depth)
    ∧ (∀ (node : ASTNode) (t : SymbolTable) (w : World) (t1 : SymbolTable) (w1 : World),
        execute_statement h fuel node t w = .ok (t1, w1) →
        w1.recursion_depth = w.recursion_depth)
    ∧ (∀ (root : ASTNode) (w : World) (g1 : SymbolTable) (w1 : World),
        execute_program h fuel root w = .ok (g1, w1) →
        w1.recursion_depth = w.recursion_depth)
    ∧ (∀ (bad_ev : Eval) (bad_ex : Exec) (node : ASTNode) (t : SymbolTable) (w : World),
        0 ≤ w.recursion_depth → w.recursion_depth ≤ 50 →
        eval_expression_watched h bad_ev bad_ex fuel node t w
          = eval_expression h fuel node t w)
    ∧ (∀ (bad_ev : Eval) (bad_ex : Exec) (node : ASTNode) (t : SymbolTable) (w : World),
        0 ≤ w.recursion_depth → w.recursion_depth ≤ 50 →
        execute_statement_watched h bad_ev bad_ex fuel node t w
          = execute_statement h fuel node t w)
    ∧ (∀ (bad_ev : Eval) (bad_ex : Exec) (items : List ASTNode) (g : SymbolTable) (w : World),
        0 ≤ w.recursion_depth → w.recursion_depth ≤ 50 →
        run_declarations (execute_statement_watched h bad_ev bad_ex fuel) items g w
          = run_declarations (execute_statement h fuel) items g w)
    ∧ (∀ (fname : String) (args : Option ASTNode) (t : SymbolTable) (w : World) (v : Value)
        (t2 : SymbolTable) (w2 : World),
        (fname ≠ "print" ∧ fname ≠ "printm" ∧ fname ≠ "read") →
        eval_expression h (fuel + 1) (.func_call (.identifier fname) args) t w
          = .ok (v, t2, w2) →
        ∃ (params body : Option ASTNode) (scope1 t1 : SymbolTable) (w1 : World)
          (scope3 : SymbolTable) (w3 : World),
          w.recursion_depth < MAX_RECURSION_DEPTH
          ∧ bind_phase (eval_expression h fuel) params args t
              { w with recursion_depth := w.recursion_depth + 1 } = .ok (scope1, t1, w1)
          ∧ w1.recursion_depth = w.recursion_depth + 1
          ∧ exec_opt (execute_statement h fuel) body (scope1.set_parent (some t1.root)) w1
              = .ok (scope3, w3)
          ∧ w3.recursion_depth = w.recursion_depth + 1
          ∧ w2 = { w3 with recursion_depth := w3.recursion_depth - 1 }
          ∧ w2.recursion_depth = w.recursion_depth) := by
  obtain ⟨hev, hex⟩ := interpreter_worlds h fuel
  have hrange : ∀ w : World, 0 ≤ w.recursion_depth → w.recursion_depth ≤ 50 →
      depth_in_range w = true := by
    intro w h0 h50
    rw [depth_in_range_iff]
    exact ⟨h0, h50⟩
  refine ⟨?_, ?_, ?_, ?_, ?_, ?_, ?_⟩
  · intro node t w v t1 w1 hres
    exact (hev node t w v t1 w1 hres).1
  · intro node t w t1 w1 hres
    exact (hex node t w t1 w1 hres).1
  · intro root w g1 w1 hres
    exact (execute_program_world h fuel root w g1 w1 hres).1
  · intro bad_ev bad_ex node t w h0 h50
    exact (watched_agrees h bad_ev bad_ex fuel).1 node t w (hrange w h0 h50)
  · intro bad_ev bad_ex node t w h0 h50
    exact (watched_agrees h bad_ev bad_ex fuel).2 node t w (hrange w h0 h50)
  · intro bad_ev bad_ex items g w h0 h50
    exact run_declarations_congr _ _ (watched_agrees h bad_ev bad_ex fuel).2 hex items g w
      (hrange w h0 h50)
  · intro fname args t w v t2 w2 hname hres
    rw [eval_call_unfold h fuel fname args t w hname] at hres
    obtain ⟨rt, nm, params, body, scope1, t1, w1, scope3, w3, _, hlt, hb, hx, _, _, hw⟩ :=
      call_function_result _ _ (interpreter_frames h fuel).2 fname args t w v t2 w2 hres
    have h1 := (bind_phase_world _ hev params args t _ _ _ _ hb).1
    have h3 := (exec_opt_world _ hex body _ _ _ _ hx).1
    simp only at h1
    refine ⟨params, body, scope1, t1, w1, scope3, w3, hlt, hb, h1, hx, h3.trans h1, hw, ?_⟩
    rw [hw]
    simp only
    omega

/-- Witness of C37: the call `g(5)` from depth 0, evaluated by the watched evaluator with
an evaluator that answers Void out of range, yields 5 and leaves the counter at 0: no entry
was made out of range. -/
theorem depth_counter_invariant_witness :
    eval_expression_watched sample_host answer_void do_nothing 4 call_g_5 global_with_g
        initial_world
      = .ok (.int 5, global_with_g, initial_world) :=
  ((depth_counter_invariant sample_host 4).2.2.2.1 answer_void do_nothing call_g_5
    global_with_g initial_world (by decide) (by decide)).trans (by rfl)

end Yapl
